import Mathlib

/-!
# vgm2s98: a shallow embedding of the VGM reader, the S98 writer and the converter

The development follows the three translation units of the repository:

* `s98_writer.cpp` : `S98Writer` (device table, event encoder, header finalisation),
* `vgm_reader.cpp` : `VGMReader` (header parser, command decoder),
* `vgm2s98.cpp`    : device mapping and the conversion loop of `main`.

Machine integers are natural numbers; every place where the C++ code stores into a
`uint8_t` or `uint32_t` that may overflow carries an explicit `%`.  A stdio stream is a
byte list together with a cursor.  Multi-byte `fwrite(&value, 1, n, file)` calls are
little-endian, as on the hosts the program is built for.
-/

namespace Vgm2S98

/-! ## stdio streams -/

/-- A stdio stream: the bytes of the file and the position of the cursor. -/
structure File where
  bytes : List Nat
  pos : Nat
deriving DecidableEq, Repr

/-- The bytes in front of the cursor; a cursor beyond the end of the file leaves a gap
that reads as zero bytes once something is written behind it. -/
def File.before (f : File) : List Nat :=
  f.bytes.take f.pos ++ List.replicate (f.pos - f.bytes.length) 0

/-- The call `fwrite(data, 1, data.length, file)`: overwrite at the cursor, growing the file when
the write runs past its end.  Writing nothing changes nothing. -/
def File.fwrite (f : File) (data : List Nat) : File :=
  if data = [] then f
  else
    { bytes := f.before ++ data ++ f.bytes.drop (f.pos + data.length)
      pos := f.pos + data.length }

/-- The call `fseek(file, offset, SEEK_SET)`. -/
def File.fseek (f : File) (offset : Nat) : File :=
  { f with pos := offset }

/-- The call `ftell(file)`. -/
def File.ftell (f : File) : Nat :=
  f.pos

/-- The call `fread(buf, 1, n, file)`: the bytes obtained (fewer than `n` at the end of the
file) and the stream with the cursor moved behind them. -/
def File.fread (f : File) (n : Nat) : List Nat × File :=
  let got := (f.bytes.drop f.pos).take n
  (got, { f with pos := f.pos + got.length })

/-- A stream whose cursor stands at the end of the file. -/
def File.AtEnd (f : File) : Prop :=
  f.pos = f.bytes.length

/-- The four bytes `fwrite(&value, 1, 4, file)` stores for a `uint32_t`. -/
def le32 (v : Nat) : List Nat :=
  [v % 256, v / 256 % 256, v / 65536 % 256, v / 16777216 % 256]

/-- The value of a little-endian integer object whose leading bytes are `bs` and whose
remaining bytes are zero (a short `fread` into a zero-initialised variable). -/
def leValue : List Nat → Nat
  | [] => 0
  | b :: bs => b % 256 + 256 * leValue bs

/-! ## `s98_writer.h` / `s98_writer.cpp` -/

def S98_DEV_NONE : Nat := 0
def S98_DEV_PSG : Nat := 1
def S98_DEV_OPN : Nat := 2
def S98_DEV_OPN2 : Nat := 3
def S98_DEV_OPNA : Nat := 4
def S98_DEV_OPM : Nat := 5
def S98_DEV_OPLL : Nat := 6
def S98_DEV_OPL : Nat := 7
def S98_DEV_OPL2 : Nat := 8
def S98_DEV_OPL3 : Nat := 9
def S98_DEV_MSXA : Nat := 0x0A
def S98_DEV_SNG : Nat := 0x10
def S98_DEV_AY8910 : Nat := 15
def S98_DEV_SN76489 : Nat := 16

/-- The record `struct S98Device`; `type` is the numeric value of the `S98DeviceType`. -/
structure S98Device where
  type : Nat
  clock : Nat
  pan : Nat
  deviceId : Nat
deriving DecidableEq, Repr

/-- Assignment `m[k] = v` on a `std::map` with numeric keys, kept in key order. -/
def mapAssign : List (Nat × Nat) → Nat → Nat → List (Nat × Nat)
  | [], k, v => [(k, v)]
  | (k', v') :: rest, k, v =>
    if k < k' then (k, v) :: (k', v') :: rest
    else if k = k' then (k, v) :: rest
    else (k', v') :: mapAssign rest k v

/-- Lookup `m.find(k)` on a `std::map` with numeric keys. -/
def mapFind : List (Nat × Nat) → Nat → Option Nat
  | [], _ => none
  | (k', v') :: rest, k => if k = k' then some v' else mapFind rest k

/-- The data members of `class S98Writer`. -/
structure S98Writer where
  file : Option File
  devices : List S98Device
  dataStartOffset : Nat
  loopOffset : Nat
  tagOffset : Nat
  currentDataPos : Nat
  loopSet : Bool
  deviceIdMap : List (Nat × Nat)
  nextDeviceId : Nat
deriving DecidableEq, Repr

/-- The constructor `S98Writer::S98Writer()`. -/
def S98Writer.init : S98Writer :=
  { file := none, devices := [], dataStartOffset := 0, loopOffset := 0, tagOffset := 0,
    currentDataPos := 0, loopSet := false, deviceIdMap := [], nextDeviceId := 0 }

/-- The pattern `if (file) fwrite(data, 1, n, file)` shared by all writes. -/
def S98Writer.emit (w : S98Writer) (data : List Nat) : S98Writer :=
  match w.file with
  | some f => { w with file := some (f.fwrite data) }
  | none => w

/-- The pattern `fseek(file, offset, SEEK_SET)` on the writer's stream. -/
def S98Writer.seek (w : S98Writer) (offset : Nat) : S98Writer :=
  match w.file with
  | some f => { w with file := some (f.fseek offset) }
  | none => w

def WriteUint8 (w : S98Writer) (value : Nat) : S98Writer :=
  w.emit [value % 256]

def WriteUint32 (w : S98Writer) (value : Nat) : S98Writer :=
  w.emit (le32 value)

/-- The `while (v >= 0x80)` loop of `WriteVarInt`, returning the writer, `v` and `bytesWritten`
at loop exit. -/
def WriteVarIntLoop (w : S98Writer) (v bytesWritten : Nat) : S98Writer × Nat × Nat :=
  if h : v ≥ 0x80 then
    WriteVarIntLoop (WriteUint8 w (0x80 ||| (v &&& 0x7F))) (v >>> 7) (bytesWritten + 1)
  else (w, v, bytesWritten)
termination_by v
decreasing_by
  simp only [Nat.shiftRight_eq_div_pow]
  omega

/-- The method `S98Writer::WriteVarInt`: the number of bytes written and the writer afterwards. -/
def WriteVarInt (w : S98Writer) (value : Nat) : Nat × S98Writer :=
  let r := WriteVarIntLoop w value 0
  (r.2.2 + 1, WriteUint8 r.1 (r.2.1 &&& 0x7F))

/-- One 16-byte device descriptor of the header, as the body of the loop in `WriteHeader`. -/
def writeDeviceInfo (w : S98Writer) (dev : S98Device) : S98Writer :=
  WriteUint32 (WriteUint32 (WriteUint32 (WriteUint32 w dev.type) dev.clock) dev.pan) 0

/-- The method `S98Writer::WriteHeader`. -/
def WriteHeader (w : S98Writer) : S98Writer :=
  match w.file with
  | none => w
  | some _ =>
    let w1 := w.emit [0x53, 0x39, 0x38, 0x33]
    let w2 := WriteUint32 w1 1
    let w3 := WriteUint32 w2 44100
    let w4 := WriteUint32 w3 0
    let w5 := WriteUint32 w4 0
    let w6 := WriteUint32 w5 0
    let w7 := WriteUint32 w6 0
    let w8 := WriteUint32 w7 (w.devices.length % 2 ^ 32)
    let w9 := w.devices.foldl writeDeviceInfo w8
    if w.devices.isEmpty then
      WriteUint32 (WriteUint32 (WriteUint32 (WriteUint32 w9 S98_DEV_OPNA) 7987200) 0) 0
    else w9

/-- The method `S98Writer::Finalize`. -/
def Finalize (w : S98Writer) : S98Writer :=
  match w.file with
  | none => w
  | some f =>
    let currentFilePos := f.ftell % 2 ^ 32
    let w1 := WriteHeader (w.seek 0)
    let w2 := WriteUint32 (w1.seek 0x14) w.dataStartOffset
    let w3 :=
      if w.loopSet && decide (w.loopOffset > 0) then
        WriteUint32 (w2.seek 0x18) ((w.dataStartOffset + w.loopOffset) % 2 ^ 32)
      else WriteUint32 (w2.seek 0x18) 0
    let w4 :=
      if w.tagOffset > 0 then WriteUint32 (w3.seek 0x10) w.tagOffset
      else WriteUint32 (w3.seek 0x10) 0
    w4.seek currentFilePos

/-- The method `S98Writer::Close`: the writer afterwards and, when a stream was open, the bytes
of the file that `fclose` leaves behind. -/
def Close (w : S98Writer) : S98Writer × Option (List Nat) :=
  let disk := (Finalize w).file.map File.bytes
  ({ file := none, devices := [], dataStartOffset := 0, loopOffset := 0, tagOffset := 0,
     currentDataPos := 0, loopSet := false, deviceIdMap := [], nextDeviceId := 0 }, disk)

/-- The method `S98Writer::Open`; `fopenOk` tells whether `fopen(filename, "wb")` succeeds, in
which case the stream starts out empty. -/
def Open (w : S98Writer) (fopenOk : Bool) : Bool × S98Writer :=
  let w0 := (Close w).1
  if fopenOk then
    let w1 := WriteHeader { w0 with file := some { bytes := [], pos := 0 } }
    let ofs := (w1.file.map File.ftell).getD 0 % 2 ^ 32
    (true, { w1 with dataStartOffset := ofs, currentDataPos := 0 })
  else (false, w0)

/-- The method `S98Writer::AddDevice`. -/
def AddDevice (w : S98Writer) (type clock pan : Nat) : S98Writer :=
  if w.devices.any (fun d => d.type == type) then w
  else
    { w with
      devices := w.devices ++ [{ type := type, clock := clock, pan := pan,
                                 deviceId := w.nextDeviceId }]
      deviceIdMap := mapAssign w.deviceIdMap type w.nextDeviceId
      nextDeviceId := (w.nextDeviceId + 2) % 256 }

/-- The method `S98Writer::WriteWait`. -/
def WriteWait (w : S98Writer) (ticks : Nat) : S98Writer :=
  match w.file with
  | none => w
  | some _ =>
    if ticks = 0 then w
    else if ticks = 1 then
      let w1 := WriteUint8 w 0xFF
      { w1 with currentDataPos := (w1.currentDataPos + 1) % 2 ^ 32 }
    else
      let w1 := WriteUint8 w 0xFE
      let w2 := { w1 with currentDataPos := (w1.currentDataPos + 1) % 2 ^ 32 }
      let count := ticks - 2
      let r := WriteVarInt w2 count
      { r.2 with currentDataPos := (r.2.currentDataPos + r.1) % 2 ^ 32 }

/-- The method `S98Writer::WriteRegister`. -/
def WriteRegister (w : S98Writer) (deviceId reg data : Nat) : S98Writer :=
  match w.file with
  | none => w
  | some _ =>
    let w3 := WriteUint8 (WriteUint8 (WriteUint8 w deviceId) reg) data
    { w3 with currentDataPos := (w3.currentDataPos + 3) % 2 ^ 32 }

/-- The method `S98Writer::WriteEnd`. -/
def WriteEnd (w : S98Writer) : S98Writer :=
  match w.file with
  | none => w
  | some _ =>
    let w1 := WriteUint8 w 0xFD
    { w1 with currentDataPos := (w1.currentDataPos + 1) % 2 ^ 32 }

/-- The method `S98Writer::SetLoopPoint`. -/
def SetLoopPoint (w : S98Writer) : S98Writer :=
  if w.file.isNone || w.loopSet then w
  else { w with loopOffset := w.currentDataPos, loopSet := true }

/-- One `key=value\n` line of the tag block. -/
def tagLine (pair : List Nat × List Nat) : List Nat :=
  pair.1 ++ [0x3D] ++ pair.2 ++ [0x0A]

/-- The method `S98Writer::WriteTag`; `tags` lists the pairs of the map in the order in which
the range-`for` visits them. -/
def WriteTag (w : S98Writer) (tags : List (List Nat × List Nat)) : S98Writer :=
  match w.file with
  | none => w
  | some f =>
    let w0 := { w with tagOffset := f.ftell % 2 ^ 32 }
    let w1 := w0.emit [0x5B, 0x53, 0x39, 0x38, 0x5D]
    let w2 := WriteUint8 (WriteUint8 (WriteUint8 w1 0xEF) 0xBB) 0xBF
    let w3 := tags.foldl (fun acc pair => acc.emit (tagLine pair)) w2
    WriteUint8 w3 0

/-- The method `S98Writer::GetDeviceId`. -/
def GetDeviceId (w : S98Writer) (type : Nat) : Nat :=
  match mapFind w.deviceIdMap type with
  | some id => id
  | none => 0xFF

/-! ## `vgm_reader.h` / `vgm_reader.cpp` -/

def VGM_CMD_WAIT : Nat := 0x61
def VGM_CMD_WAIT_735 : Nat := 0x62
def VGM_CMD_WAIT_882 : Nat := 0x63
def VGM_CMD_WAIT_SHORT : Nat := 0x70
def VGM_CMD_END : Nat := 0x66
def VGM_CMD_SN76489 : Nat := 0x50
def VGM_CMD_YM2413 : Nat := 0x51
def VGM_CMD_YM2612_PORT0 : Nat := 0x52
def VGM_CMD_YM2612_PORT1 : Nat := 0x53
def VGM_CMD_YM2151 : Nat := 0x54
def VGM_CMD_YM2203 : Nat := 0x55
def VGM_CMD_YM2608_PORT0 : Nat := 0x56
def VGM_CMD_YM2608_PORT1 : Nat := 0x57
def VGM_CMD_YM2610_PORT0 : Nat := 0x58
def VGM_CMD_YM2610_PORT1 : Nat := 0x59
def VGM_CMD_YM3812 : Nat := 0x5A
def VGM_CMD_YM3526 : Nat := 0x5B
def VGM_CMD_AY8910 : Nat := 0xA0
def VGM_CMD_DATA_BLOCK : Nat := 0x67
def VGM_CMD_PCM_SEEK : Nat := 0xE0

/-- The record `struct VGMCommand`. -/
structure VGMCommand where
  cmd : Nat
  waitSamples : Nat
  reg : Nat
  data : Nat
  port : Nat
  blockType : Nat
  blockSize : Nat
  blockData : List Nat
  pcmOffset : Nat
deriving DecidableEq, Repr

/-- The constructor `VGMCommand::VGMCommand()`. -/
def VGMCommand.init : VGMCommand :=
  { cmd := 0, waitSamples := 0, reg := 0, data := 0, port := 0, blockType := 0, blockSize := 0,
    blockData := [], pcmOffset := 0 }

/-- The record `struct VGMHeader`. -/
structure VGMHeader where
  version : Nat
  eofOffset : Nat
  totalSamples : Nat
  loopOffset : Nat
  loopSamples : Nat
  dataOffset : Nat
  gd3Offset : Nat
  sn76489Clock : Nat
  ym2413Clock : Nat
  ym2612Clock : Nat
  ym2151Clock : Nat
  ym2203Clock : Nat
  ym2608Clock : Nat
  ym2610Clock : Nat
  ym3812Clock : Nat
  ym3526Clock : Nat
  ay8910Clock : Nat
  volumeModifier : Int
deriving DecidableEq, Repr

/-- The constructor `VGMHeader::VGMHeader()`. -/
def VGMHeader.init : VGMHeader :=
  { version := 0, eofOffset := 0, totalSamples := 0, loopOffset := 0, loopSamples := 0,
    dataOffset := 0, gd3Offset := 0, sn76489Clock := 0, ym2413Clock := 0, ym2612Clock := 0,
    ym2151Clock := 0, ym2203Clock := 0, ym2608Clock := 0, ym2610Clock := 0, ym3812Clock := 0,
    ym3526Clock := 0, ay8910Clock := 0, volumeModifier := 0 }

/-- The data members of `class VGMReader`. -/
structure VGMReader where
  file : Option File
  header : VGMHeader
  dataStartOffset : Nat
  loopOffset : Nat
  currentPos : Nat
  fileSize : Nat
deriving DecidableEq, Repr

/-- The pattern `value = 0; if (file) fread(&value, 1, n, file); return value;` shared by
`ReadUint8`, `ReadUint16` and `ReadUint32`. -/
def VGMReader.readLE (r : VGMReader) (n : Nat) : Nat × VGMReader :=
  match r.file with
  | some f => (leValue (f.fread n).1, { r with file := some (f.fread n).2 })
  | none => (0, r)

def ReadUint8 (r : VGMReader) : Nat × VGMReader := r.readLE 1

def ReadUint16 (r : VGMReader) : Nat × VGMReader := r.readLE 2

def ReadUint32 (r : VGMReader) : Nat × VGMReader := r.readLE 4

/-- The method `VGMReader::Seek`. -/
def VGMReader.Seek (r : VGMReader) (offset : Nat) : VGMReader :=
  match r.file with
  | some f => { r with file := some (f.fseek offset) }
  | none => r

/-- The opcodes of the register-write branch of `ReadNextCommand` (and of the conversion loop,
which lists the same thirteen values as literals). -/
def isRegisterWrite (byte : Nat) : Bool :=
  byte == VGM_CMD_SN76489 || byte == VGM_CMD_YM2413 ||
  byte == VGM_CMD_YM2612_PORT0 || byte == VGM_CMD_YM2612_PORT1 ||
  byte == VGM_CMD_YM2151 || byte == VGM_CMD_YM2203 ||
  byte == VGM_CMD_YM2608_PORT0 || byte == VGM_CMD_YM2608_PORT1 ||
  byte == VGM_CMD_YM2610_PORT0 || byte == VGM_CMD_YM2610_PORT1 ||
  byte == VGM_CMD_YM3812 || byte == VGM_CMD_YM3526 ||
  byte == VGM_CMD_AY8910

/-- The data-block branch of `ReadNextCommand`, entered after the opcode byte has been read and
counted. -/
def readDataBlock (r : VGMReader) (cmd : VGMCommand) : VGMCommand × VGMReader :=
  let m := ReadUint8 r
  let r1 := { m.2 with currentPos := (m.2.currentPos + 1) % 2 ^ 32 }
  if m.1 = 0x66 then
    let t := ReadUint8 r1
    let r2 := { t.2 with currentPos := (t.2.currentPos + 1) % 2 ^ 32 }
    let s := ReadUint32 r2
    let r3 := { s.2 with currentPos := (s.2.currentPos + 4) % 2 ^ 32 }
    let cmd1 := { cmd with blockType := t.1, blockSize := s.1 }
    match r3.file with
    | some f =>
      let got := (f.fread s.1).1
      let cmd2 := { cmd1 with blockData := got ++ List.replicate (s.1 - got.length) 0 }
      let r4 := { r3 with file := some (f.fread s.1).2 }
      if got.length = s.1 then
        (cmd2, { r4 with currentPos := (r4.currentPos + s.1) % 2 ^ 32 })
      else (cmd2, r4)
    | none => (cmd1, r3)
  else (cmd, r1)

/-- The method `VGMReader::ReadNextCommand`: `none` stands for the return value `false` (the
caller's command is then left untouched), `some cmd` for `true` with the command stored. -/
def ReadNextCommand (r : VGMReader) : Option VGMCommand × VGMReader :=
  if r.file.isNone || decide (r.currentPos ≥ r.fileSize) then (none, r)
  else
    let b := ReadUint8 (r.Seek r.currentPos)
    let byte := b.1
    let r1 := { b.2 with currentPos := (b.2.currentPos + 1) % 2 ^ 32 }
    let cmd := { VGMCommand.init with cmd := byte }
    if byte = VGM_CMD_END then (some cmd, r1)
    else if byte = VGM_CMD_WAIT then
      let s := ReadUint16 r1
      (some { cmd with waitSamples := s.1 },
        { s.2 with currentPos := (s.2.currentPos + 2) % 2 ^ 32 })
    else if byte = VGM_CMD_WAIT_735 then (some { cmd with waitSamples := 735 }, r1)
    else if byte = VGM_CMD_WAIT_882 then (some { cmd with waitSamples := 882 }, r1)
    else if byte ≥ VGM_CMD_WAIT_SHORT ∧ byte ≤ 0x7F then
      (some { cmd with waitSamples := (byte - VGM_CMD_WAIT_SHORT) + 1 }, r1)
    else if byte = VGM_CMD_DATA_BLOCK then
      let d := readDataBlock r1 cmd
      (some d.1, d.2)
    else if byte = VGM_CMD_PCM_SEEK then
      let o := ReadUint32 r1
      (some { cmd with pcmOffset := o.1 },
        { o.2 with currentPos := (o.2.currentPos + 4) % 2 ^ 32 })
    else if isRegisterWrite byte then
      let g := ReadUint8 r1
      let d := ReadUint8 g.2
      let r2 := { d.2 with currentPos := (d.2.currentPos + 2) % 2 ^ 32 }
      let port :=
        if byte = VGM_CMD_YM2612_PORT1 ∨ byte = VGM_CMD_YM2608_PORT1 ∨
            byte = VGM_CMD_YM2610_PORT1 then 1 else 0
      (some { cmd with reg := g.1, data := d.1, port := port }, r2)
    else (some cmd, r1)

/-! ## `vgm2s98.cpp` -/

/-- The function `GetS98DeviceType`. -/
def GetS98DeviceType (vgmCmd : Nat) : Nat :=
  if vgmCmd = VGM_CMD_SN76489 then S98_DEV_SN76489
  else if vgmCmd = VGM_CMD_YM2203 then S98_DEV_OPN
  else if vgmCmd = VGM_CMD_YM2612_PORT0 ∨ vgmCmd = VGM_CMD_YM2612_PORT1 then S98_DEV_OPN2
  else if vgmCmd = VGM_CMD_YM2608_PORT0 ∨ vgmCmd = VGM_CMD_YM2608_PORT1 then S98_DEV_OPNA
  else if vgmCmd = VGM_CMD_YM2151 then S98_DEV_OPM
  else if vgmCmd = VGM_CMD_YM2413 then S98_DEV_OPLL
  else if vgmCmd = VGM_CMD_YM3812 then S98_DEV_OPL
  else if vgmCmd = VGM_CMD_YM3526 then S98_DEV_OPL2
  else if vgmCmd = VGM_CMD_AY8910 then S98_DEV_AY8910
  else S98_DEV_NONE

/-- The function `GetVGMClock`. -/
def GetVGMClock (vgmCmd : Nat) (header : VGMHeader) : Nat :=
  if vgmCmd = 0x50 then header.sn76489Clock
  else if vgmCmd = 0x55 then header.ym2203Clock
  else if vgmCmd = 0x52 ∨ vgmCmd = 0x53 then header.ym2612Clock
  else if vgmCmd = 0x56 ∨ vgmCmd = 0x57 then header.ym2608Clock
  else if vgmCmd = 0x54 then header.ym2151Clock
  else if vgmCmd = 0x51 then header.ym2413Clock
  else if vgmCmd = 0x5A then header.ym3812Clock
  else if vgmCmd = 0x5B then header.ym3526Clock
  else if vgmCmd = 0xA0 then header.ay8910Clock
  else 0

/-- One `if (clock > 0) writer.AddDevice(kind, clock);` statement of `main`. -/
def addIfClock (w : S98Writer) (kind clock : Nat) : S98Writer :=
  if clock > 0 then AddDevice w kind clock 0 else w

/-- The nine pre-registration statements of `main`, in source order. -/
def preRegister (w : S98Writer) (h : VGMHeader) : S98Writer :=
  let w1 := addIfClock w S98_DEV_OPNA h.ym2608Clock
  let w2 := addIfClock w1 S98_DEV_OPN2 h.ym2612Clock
  let w3 := addIfClock w2 S98_DEV_OPN h.ym2203Clock
  let w4 := addIfClock w3 S98_DEV_OPM h.ym2151Clock
  let w5 := addIfClock w4 S98_DEV_OPLL h.ym2413Clock
  let w6 := addIfClock w5 S98_DEV_OPL h.ym3812Clock
  let w7 := addIfClock w6 S98_DEV_OPL2 h.ym3526Clock
  let w8 := addIfClock w7 S98_DEV_AY8910 h.ay8910Clock
  addIfClock w8 S98_DEV_SN76489 h.sn76489Clock

/-- The local variables of `main` that the conversion loop updates. -/
structure ConvState where
  writer : S98Writer
  totalSamples : Nat
  atLoopPoint : Bool
  regWriteCount : Nat
  waitCount : Nat
  unknownCount : Nat
deriving DecidableEq, Repr

/-- The value of `loopStartSamples` that `main` computes before the loop. -/
def loopStart (h : VGMHeader) : Nat :=
  if h.loopSamples > 0 then
    if h.loopSamples = h.totalSamples then 0
    else (h.totalSamples + 2 ^ 32 - h.loopSamples) % 2 ^ 32
  else 0

/-- The statement `if (cmd.waitSamples > 0) { ... }` of the loop body. -/
def handleWait (h : VGMHeader) (loopStartSamples : Nat) (st : ConvState) (cmd : VGMCommand) :
    ConvState :=
  if cmd.waitSamples > 0 then
    let st1 := { st with
      waitCount := (st.waitCount + 1) % 2 ^ 32
      writer := WriteWait st.writer cmd.waitSamples
      totalSamples := (st.totalSamples + cmd.waitSamples) % 2 ^ 32 }
    if !st1.atLoopPoint && decide (loopStartSamples > 0) &&
        decide (st1.totalSamples ≥ loopStartSamples) then
      { st1 with writer := SetLoopPoint st1.writer, atLoopPoint := true }
    else if !st1.atLoopPoint && decide (loopStartSamples = 0) &&
        decide (h.loopSamples > 0) then
      { st1 with writer := SetLoopPoint st1.writer, atLoopPoint := true }
    else st1
  else st

/-- The tail of the register branch: `s98DeviceId = deviceId + cmd.port`, `WriteRegister`,
`regWriteCount++`. -/
def emitRegister (st : ConvState) (deviceId : Nat) (cmd : VGMCommand) : ConvState :=
  { st with
    writer := WriteRegister st.writer ((deviceId + cmd.port) % 256) cmd.reg cmd.data
    regWriteCount := (st.regWriteCount + 1) % 2 ^ 32 }

/-- The register-write branch of the loop body. -/
def handleRegister (h : VGMHeader) (st : ConvState) (cmd : VGMCommand) : ConvState :=
  let devType := GetS98DeviceType cmd.cmd
  if devType ≠ S98_DEV_NONE then
    let deviceId := GetDeviceId st.writer devType
    if deviceId = 0xFF then
      let clock := GetVGMClock cmd.cmd h
      if clock = 0 then
        if devType = S98_DEV_OPNA then
          let w1 := AddDevice st.writer devType 8000000 0
          emitRegister { st with writer := w1 } (GetDeviceId w1 devType) cmd
        else st
      else
        let w1 := AddDevice st.writer devType clock 0
        emitRegister { st with writer := w1 } (GetDeviceId w1 devType) cmd
    else emitRegister st deviceId cmd
  else st

/-- The body of the conversion loop for a command other than the end marker. -/
def convertBody (h : VGMHeader) (loopStartSamples : Nat) (st : ConvState) (cmd : VGMCommand) :
    ConvState :=
  let st1 := handleWait h loopStartSamples st cmd
  if isRegisterWrite cmd.cmd then handleRegister h st1 cmd
  else if cmd.cmd = VGM_CMD_DATA_BLOCK then st1
  else if cmd.cmd = VGM_CMD_PCM_SEEK then st1
  else if cmd.cmd ≠ VGM_CMD_END ∧ cmd.waitSamples = 0 ∧
      cmd.cmd ≠ VGM_CMD_DATA_BLOCK ∧ cmd.cmd ≠ VGM_CMD_PCM_SEEK then
    { st1 with unknownCount := (st1.unknownCount + 1) % 2 ^ 32 }
  else st1

/-- The conversion loop of `main`, run over the commands that successive `ReadNextCommand`
calls deliver: an end marker is answered by `WriteEnd` and `break`, every other command by the
loop body, and the loop ends when the commands run out. -/
def convertEvents (h : VGMHeader) (loopStartSamples : Nat) :
    ConvState → List VGMCommand → ConvState
  | st, [] => st
  | st, cmd :: rest =>
    if cmd.cmd = VGM_CMD_END then { st with writer := WriteEnd st.writer }
    else convertEvents h loopStartSamples (convertBody h loopStartSamples st cmd) rest

/-- The state in which `main` enters the conversion loop. -/
def ConvState.start (w : S98Writer) : ConvState :=
  { writer := w, totalSamples := 0, atLoopPoint := false, regWriteCount := 0, waitCount := 0,
    unknownCount := 0 }

/-! ## Byte-level descriptions used in the statements -/

/-- The bytes that `WriteVarInt` hands to `WriteUint8`, in order: one per round of the loop and
the final one (`WriteVarInt_eq` proves that these are the bytes written). -/
def varIntBytes (v : Nat) : List Nat :=
  if h : v ≥ 0x80 then (0x80 ||| (v &&& 0x7F)) % 256 :: varIntBytes (v >>> 7)
  else [(v &&& 0x7F) % 256]
termination_by v
decreasing_by
  simp only [Nat.shiftRight_eq_div_pow]
  omega

/-- The bytes that `WriteWait` writes on an open writer (`WriteWait_eq`). -/
def waitBytes (ticks : Nat) : List Nat :=
  if ticks = 0 then []
  else if ticks = 1 then [0xFF]
  else 0xFE :: varIntBytes (ticks - 2)

/-- Decoder of the variable-length integer of the target format, worded as in the property:
the sum of `(byte AND 0x7F)` shifted left by 7 times the byte index, stopping at the first byte
with bit 7 clear.  `i` is the index of the next byte and `acc` the sum so far; the result is the
value and the number of bytes consumed, or `none` when the bytes end before a last byte. -/
def specDecodeVarIntFrom (i acc : Nat) : List Nat → Option (Nat × Nat)
  | [] => none
  | b :: bs =>
    if b &&& 0x80 = 0 then some (acc + ((b &&& 0x7F) <<< (7 * i)), i + 1)
    else specDecodeVarIntFrom (i + 1) (acc + ((b &&& 0x7F) <<< (7 * i))) bs

/-- The variable-length integer decoder started at byte index 0. -/
def specDecodeVarInt (bs : List Nat) : Option (Nat × Nat) :=
  specDecodeVarIntFrom 0 0 bs

/-- Decoder of one wait of the target format, worded as in the property: `0xFF` is 1 sample,
`0xFE` followed by a variable-length integer `n` is `n + 2` samples, no bytes are 0 samples.
The result is the number of samples and the number of bytes consumed. -/
def specDecodeWait : List Nat → Option (Nat × Nat)
  | [] => some (0, 0)
  | b :: bs =>
    if b = 0xFF then some (1, 1)
    else if b = 0xFE then
      match specDecodeVarInt bs with
      | some (n, k) => some (n + 2, k + 1)
      | none => none
    else none

/-- One 16-byte device descriptor: kind, clock, pan, reserved. -/
def deviceInfoBytes (d : S98Device) : List Nat :=
  le32 d.type ++ le32 d.clock ++ le32 d.pan ++ le32 0

/-- The descriptor that `WriteHeader` writes when the device table is empty. -/
def defaultDeviceBytes : List Nat :=
  le32 S98_DEV_OPNA ++ le32 7987200 ++ le32 0 ++ le32 0

/-- The seven 32-bit fields and the device table that follow the magic in a header with the
given tag, data and loop offsets. -/
def headerWith (tagOfs dataOfs loopOfs : Nat) (devices : List S98Device) : List Nat :=
  [0x53, 0x39, 0x38, 0x33] ++ le32 1 ++ le32 44100 ++ le32 0 ++ le32 tagOfs ++ le32 dataOfs ++
    le32 loopOfs ++ le32 devices.length ++
    (devices.flatMap deviceInfoBytes ++ if devices.isEmpty then defaultDeviceBytes else [])

/-- The bytes of the tag block that `WriteTag` writes (`WriteTag_eq`). -/
def tagBlock (tags : List (List Nat × List Nat)) : List Nat :=
  [0x5B, 0x53, 0x39, 0x38, 0x5D] ++ [0xEF, 0xBB, 0xBF] ++ tags.flatMap tagLine ++ [0]

/-- A call of one of the public methods of an open writer. -/
inductive WriterOp where
  | addDevice (type clock pan : Nat)
  | writeWait (ticks : Nat)
  | writeRegister (deviceId reg data : Nat)
  | writeEnd
  | setLoopPoint
  | writeTags (tags : List (List Nat × List Nat))
deriving DecidableEq, Repr

/-- The effect of one call. -/
def WriterOp.run (w : S98Writer) : WriterOp → S98Writer
  | .addDevice type clock pan => AddDevice w type clock pan
  | .writeWait ticks => WriteWait w ticks
  | .writeRegister deviceId reg data => WriteRegister w deviceId reg data
  | .writeEnd => WriteEnd w
  | .setLoopPoint => SetLoopPoint w
  | .writeTags tags => WriteTag w tags

/-- The effect of a sequence of calls, first call first. -/
def runOps (w : S98Writer) (ops : List WriterOp) : S98Writer :=
  ops.foldl WriterOp.run w

/-- The event bytes a call contributes to the data section: the encoding of a wait, the three
bytes of a register record, the end marker; nothing for the other calls. -/
def WriterOp.eventBytes : WriterOp → List Nat
  | .writeWait ticks => waitBytes ticks
  | .writeRegister deviceId reg data => [deviceId % 256, reg % 256, data % 256]
  | .writeEnd => [0xFD]
  | _ => []

/-- The bytes a call appends to the stream: its event bytes, or the tag block. -/
def WriterOp.output : WriterOp → List Nat
  | .writeTags tags => tagBlock tags
  | op => op.eventBytes

def WriterOp.isAddDevice : WriterOp → Bool
  | .addDevice _ _ _ => true
  | _ => false

def WriterOp.isSetLoopPoint : WriterOp → Bool
  | .setLoopPoint => true
  | _ => false

def WriterOp.isWriteTags : WriterOp → Bool
  | .writeTags _ => true
  | _ => false

/-- The `AddDevice` calls among a sequence of calls, as (kind, clock, pan). -/
def addCalls : List WriterOp → List (Nat × Nat × Nat)
  | [] => []
  | .addDevice type clock pan :: ops => (type, clock, pan) :: addCalls ops
  | _ :: ops => addCalls ops

/-- The first call for every kind, in call order: every later call naming the kind of an
earlier one is dropped. -/
def firstByKind : List (Nat × Nat × Nat) → List (Nat × Nat × Nat)
  | [] => []
  | c :: cs => c :: (firstByKind cs).filter (fun c' => c'.1 ≠ c.1)

/-- A sequence of `AddDevice` calls, applied in order. -/
def addAll (w : S98Writer) (calls : List (Nat × Nat × Nat)) : S98Writer :=
  calls.foldl (fun acc c => AddDevice acc c.1 c.2.1 c.2.2) w

/-- The writer that a successful `Open` leaves behind. -/
def opened (w : S98Writer) : S98Writer :=
  (Open w true).2

/-- The kinds of the device table, in table order. -/
def kindsOf (w : S98Writer) : List Nat :=
  w.devices.map S98Device.type

/-- The invariant of the device table: kinds are pairwise different, the device at index `i`
has ID `2 * i` (as a `uint8_t`), the next ID is twice the table length, and the ID map sends
each kind of the table to the ID of its device and knows no other kind. -/
structure DevInv (w : S98Writer) : Prop where
  nodup : (kindsOf w).Nodup
  ids : w.devices.map S98Device.deviceId = (List.range w.devices.length).map (fun i => 2 * i % 256)
  next : w.nextDeviceId = 2 * w.devices.length % 256
  find : ∀ k, mapFind w.deviceIdMap k
    = if k ∈ kindsOf w then some (2 * (kindsOf w).indexOf k % 256) else none

/-- The value that `Finalize` stores into the loop-offset field of the header. -/
def loopField (w : S98Writer) : Nat :=
  if w.loopSet && decide (w.loopOffset > 0) then (w.dataStartOffset + w.loopOffset) % 2 ^ 32
  else 0

/-! ## The translation that the conversion loop is compared with -/

/-- The opcodes that `ReadNextCommand` decodes as waits. -/
def isWaitOpcode (c : Nat) : Bool :=
  c == VGM_CMD_WAIT || c == VGM_CMD_WAIT_735 || c == VGM_CMD_WAIT_882 ||
    (decide (VGM_CMD_WAIT_SHORT ≤ c) && decide (c ≤ 0x7F))

/-- A command that some call of `ReadNextCommand` delivers. -/
def ReaderProduced (c : VGMCommand) : Prop :=
  ∃ r r', ReadNextCommand r = (some c, r')

/-- Base ID of a registered kind, worded as in the data model: IDs are allocated in steps of
two, starting at zero, in the order in which the kinds were registered. -/
def specBaseId (kinds : List Nat) (kind : Nat) : Nat :=
  2 * kinds.indexOf kind

/-- The translation of the source events, worded as in the property.  `kinds` lists the
registered device kinds in registration order.  A wait becomes its `WriteWait` encoding; a
register write becomes the record `[baseId + port, register, value]` when its opcode maps to a
kind that is registered or becomes registered by the fallback rule (the PC-98 FM chip, kind
`S98_DEV_OPNA`, is registered at its first reference) and nothing otherwise; data blocks, PCM
seeks and unknown opcodes become nothing; the end marker becomes `FD` and ends the
translation. -/
def specTranslate : List Nat → List VGMCommand → List Nat
  | _, [] => []
  | kinds, e :: es =>
    if e.cmd = VGM_CMD_END then [0xFD]
    else if isWaitOpcode e.cmd then waitBytes e.waitSamples ++ specTranslate kinds es
    else if isRegisterWrite e.cmd then
      if GetS98DeviceType e.cmd = S98_DEV_NONE then specTranslate kinds es
      else if GetS98DeviceType e.cmd ∈ kinds then
        [specBaseId kinds (GetS98DeviceType e.cmd) + e.port, e.reg, e.data]
          ++ specTranslate kinds es
      else if GetS98DeviceType e.cmd = S98_DEV_OPNA then
        [specBaseId (kinds ++ [S98_DEV_OPNA]) S98_DEV_OPNA + e.port, e.reg, e.data]
          ++ specTranslate (kinds ++ [S98_DEV_OPNA]) es
      else specTranslate kinds es
    else specTranslate kinds es

/-- The kinds and header clocks of the pre-registration statements of `main`, in source
order. -/
def clockTable (h : VGMHeader) : List (Nat × Nat) :=
  [(S98_DEV_OPNA, h.ym2608Clock), (S98_DEV_OPN2, h.ym2612Clock), (S98_DEV_OPN, h.ym2203Clock),
   (S98_DEV_OPM, h.ym2151Clock), (S98_DEV_OPLL, h.ym2413Clock), (S98_DEV_OPL, h.ym3812Clock),
   (S98_DEV_OPL2, h.ym3526Clock), (S98_DEV_AY8910, h.ay8910Clock),
   (S98_DEV_SN76489, h.sn76489Clock)]

/-- The kinds registered ahead of the events: those whose header clock is non-zero. -/
def specInitialKinds (h : VGMHeader) : List Nat :=
  ((clockTable h).filter (fun p => decide (p.2 > 0))).map Prod.fst

/-- What the conversion loop relies on in the writer: the device-table invariant, only kinds of
the clock table registered, and every kind with a non-zero header clock registered. -/
structure OrchInv (h : VGMHeader) (w : S98Writer) : Prop where
  inv : DevInv w
  sub : ∀ k ∈ kindsOf w, k ∈ (clockTable h).map Prod.fst
  pre : ∀ p ∈ clockTable h, p.2 > 0 → p.1 ∈ kindsOf w

/-- Two writers with the same device table, ID map and next ID. -/
def SameDevices (w w' : S98Writer) : Prop :=
  w.devices = w'.devices ∧ w.deviceIdMap = w'.deviceIdMap ∧ w.nextDeviceId = w'.nextDeviceId

/-- The shape of a command delivered by the reader, as far as the conversion loop depends on
it (`ReaderProduced_shape`). -/
def CommandShape (c : VGMCommand) : Prop :=
  c.reg < 256 ∧ c.data < 256 ∧ c.port ≤ 1 ∧ (isWaitOpcode c.cmd = false → c.waitSamples = 0)

/-- The port of the command that `ReadNextCommand` delivers for the three-byte stream
`b 00 00`. -/
def portOfOpcode (b : Nat) : Option Nat :=
  (ReadNextCommand { file := some { bytes := [b, 0, 0], pos := 0 }, header := VGMHeader.init,
                     dataStartOffset := 0, loopOffset := 0, currentPos := 0,
                     fileSize := 3 }).1.map VGMCommand.port

/-! ## `vgm_reader.cpp`: the header -/

/-- The conversion `(int8_t)` of a byte. -/
def toInt8 (b : Nat) : Int :=
  if b % 256 < 128 then (b % 256 : Nat) else ((b % 256 : Nat) : Int) - 256

/-- The part of `ReadHeader` behind the magic check, which assigns every field of the header
and always returns `true`. -/
def readHeaderFields (r0 : VGMReader) : VGMHeader × VGMReader :=
  let eofOffset := ReadUint32 r0
  let version := ReadUint32 eofOffset.2
  let sn76489Clock := ReadUint32 version.2
  let ym2413Clock := ReadUint32 sn76489Clock.2
  let gd3Offset := ReadUint32 ym2413Clock.2
  let totalSamples := ReadUint32 gd3Offset.2
  let loopOffset := ReadUint32 totalSamples.2
  let loopSamples := ReadUint32 loopOffset.2
  let rate := ReadUint32 (loopSamples.2.Seek 0x24)
  let ym2612Clock := ReadUint32 (rate.2.Seek 0x2C)
  let ym2151Clock := ReadUint32 ym2612Clock.2
  let rawData := ReadUint32 (ym2151Clock.2.Seek 0x34)
  let dataOffset := if rawData.1 = 0 then 0x40 else (rawData.1 + 0x34) % 2 ^ 32
  let ym2203Clock := ReadUint32 (rawData.2.Seek 0x40)
  let ym2608Clock := ReadUint32 ym2203Clock.2
  let ym2610Clock := ReadUint32 ym2608Clock.2
  let ym3812Clock := ReadUint32 ym2610Clock.2
  let ym3526Clock := ReadUint32 ym3812Clock.2
  let ay8910Clock := ReadUint32 (ym3526Clock.2.Seek 0x74)
  let vol :=
    if version.1 ≥ 0x150 ∧ ay8910Clock.2.fileSize > 0x7C then
      let v := ReadUint8 (ay8910Clock.2.Seek 0x7C)
      (toInt8 v.1, v.2)
    else ((0 : Int), ay8910Clock.2)
  let hdr : VGMHeader :=
    { version := version.1, eofOffset := eofOffset.1, totalSamples := totalSamples.1,
      loopOffset := loopOffset.1, loopSamples := loopSamples.1, dataOffset := dataOffset,
      gd3Offset := gd3Offset.1, sn76489Clock := sn76489Clock.1, ym2413Clock := ym2413Clock.1,
      ym2612Clock := ym2612Clock.1, ym2151Clock := ym2151Clock.1, ym2203Clock := ym2203Clock.1,
      ym2608Clock := ym2608Clock.1, ym2610Clock := ym2610Clock.1, ym3812Clock := ym3812Clock.1,
      ym3526Clock := ym3526Clock.1, ay8910Clock := ay8910Clock.1, volumeModifier := vol.1 }
  let r1 := { vol.2 with
    dataStartOffset := dataOffset
    loopOffset := if loopOffset.1 > 0 then (loopOffset.1 + 0x1C) % 2 ^ 32 else 0 }
  (hdr, { r1.Seek dataOffset with currentPos := dataOffset, header := hdr })

/-- The method `VGMReader::ReadHeader`: the return value, the header left in the caller's
variable, and the reader afterwards. -/
def ReadHeader (r : VGMReader) (hdr : VGMHeader) : Bool × VGMHeader × VGMReader :=
  match r.file with
  | none => (false, hdr, r)
  | some f =>
    let m := (f.fseek 0).fread 4
    let r0 := { r with file := some m.2 }
    if m.1.length ≠ 4 ∨ m.1 ≠ [0x56, 0x67, 0x6D, 0x20] then (false, hdr, r0)
    else
      let res := readHeaderFields r0
      (true, res.1, res.2)

/-- The method `VGMReader::Open`; `fopenResult` is the content of the file when
`fopen(filename, "rb")` succeeds. -/
def VGMReader.Open (fopenResult : Option (List Nat)) : Bool × VGMReader :=
  match fopenResult with
  | none =>
    (false, { file := none, header := VGMHeader.init, dataStartOffset := 0, loopOffset := 0,
              currentPos := 0, fileSize := 0 })
  | some bytes =>
    (true, { file := some { bytes := bytes, pos := 0 }, header := VGMHeader.init,
             dataStartOffset := 0, loopOffset := 0, currentPos := 0,
             fileSize := bytes.length % 2 ^ 32 })

/-! ## The writer calls of the conversion loop -/

/-- The calls on the writer that the statement `if (cmd.waitSamples > 0) { ... }` makes, in
order. -/
def waitCalls (h : VGMHeader) (loopStartSamples : Nat) (st : ConvState) (cmd : VGMCommand) :
    List WriterOp :=
  if cmd.waitSamples > 0 then
    if !st.atLoopPoint && decide (loopStartSamples > 0) &&
        decide ((st.totalSamples + cmd.waitSamples) % 2 ^ 32 ≥ loopStartSamples) then
      [WriterOp.writeWait cmd.waitSamples, WriterOp.setLoopPoint]
    else if !st.atLoopPoint && decide (loopStartSamples = 0) && decide (h.loopSamples > 0) then
      [WriterOp.writeWait cmd.waitSamples, WriterOp.setLoopPoint]
    else [WriterOp.writeWait cmd.waitSamples]
  else []

/-- The calls that change the writer in the register-write branch of the loop body, in
order. -/
def registerCalls (h : VGMHeader) (st : ConvState) (cmd : VGMCommand) : List WriterOp :=
  let devType := GetS98DeviceType cmd.cmd
  if devType ≠ S98_DEV_NONE then
    let deviceId := GetDeviceId st.writer devType
    if deviceId = 0xFF then
      let clock := GetVGMClock cmd.cmd h
      if clock = 0 then
        if devType = S98_DEV_OPNA then
          [WriterOp.addDevice devType 8000000 0,
           WriterOp.writeRegister
             ((GetDeviceId (AddDevice st.writer devType 8000000 0) devType + cmd.port) % 256)
             cmd.reg cmd.data]
        else []
      else
        [WriterOp.addDevice devType clock 0,
         WriterOp.writeRegister
           ((GetDeviceId (AddDevice st.writer devType clock 0) devType + cmd.port) % 256)
           cmd.reg cmd.data]
    else [WriterOp.writeRegister ((deviceId + cmd.port) % 256) cmd.reg cmd.data]
  else []

/-- The calls on the writer that one round of the loop body makes. -/
def bodyCalls (h : VGMHeader) (loopStartSamples : Nat) (st : ConvState) (cmd : VGMCommand) :
    List WriterOp :=
  waitCalls h loopStartSamples st cmd ++
    if isRegisterWrite cmd.cmd then
      registerCalls h (handleWait h loopStartSamples st cmd) cmd
    else []

/-- The calls on the writer that the conversion loop makes, in order. -/
def loopCalls (h : VGMHeader) (loopStartSamples : Nat) :
    ConvState → List VGMCommand → List WriterOp
  | _, [] => []
  | st, cmd :: rest =>
    if cmd.cmd = VGM_CMD_END then [WriterOp.writeEnd]
    else bodyCalls h loopStartSamples st cmd ++
      loopCalls h loopStartSamples (convertBody h loopStartSamples st cmd) rest

/-- The 32-bit running sample total of the loop after the given commands, started at `t`. -/
def runningTotal (t : Nat) : List VGMCommand → Nat
  | [] => t
  | c :: cs => runningTotal ((t + c.waitSamples) % 2 ^ 32) cs

/-- The tail of `main`: `WriteTag` when the tag map is not empty, then `Finalize` and `Close`;
the result is the content of the output file. -/
def finishOutput (w : S98Writer) (tags : List (List Nat × List Nat)) : Option (List Nat) :=
  let w1 := if tags.isEmpty then w else WriteTag w tags
  (Close (Finalize w1)).2

/-- The chip that a chip-command opcode addresses: the two port opcodes of a dual-port chip
address the same chip, named here by its port-0 opcode. -/
def chipOf (c : Nat) : Nat :=
  if c = VGM_CMD_YM2612_PORT1 then VGM_CMD_YM2612_PORT0
  else if c = VGM_CMD_YM2608_PORT1 then VGM_CMD_YM2608_PORT0
  else if c = VGM_CMD_YM2610_PORT1 then VGM_CMD_YM2610_PORT0
  else c

/-! ## `vgm2s98.cpp`: the metadata tags -/

/-- The order of a `std::map<std::string, std::string>`: `std::less<std::string>` compares the
bytes of the two strings lexicographically, a proper prefix being the smaller one. -/
def strLess : List Nat → List Nat → Bool
  | [], [] => false
  | [], _ :: _ => true
  | _ :: _, [] => false
  | a :: as, b :: bs => if a < b then true else if b < a then false else strLess as bs

/-- Assignment `tags[k] = v` on a `std::map<std::string, std::string>`, kept in key order. -/
def tagAssign :
    List (List Nat × List Nat) → List Nat → List Nat → List (List Nat × List Nat)
  | [], k, v => [(k, v)]
  | (k', v') :: rest, k, v =>
    if strLess k k' then (k, v) :: (k', v') :: rest
    else if k = k' then (k, v) :: rest
    else (k', v') :: tagAssign rest k v

/-- The string literal "title". -/
def keyTitle : List Nat := [0x74, 0x69, 0x74, 0x6C, 0x65]

/-- The string literal "game". -/
def keyGame : List Nat := [0x67, 0x61, 0x6D, 0x65]

/-- The string literal "system". -/
def keySystem : List Nat := [0x73, 0x79, 0x73, 0x74, 0x65, 0x6D]

/-- The string literal "artist". -/
def keyArtist : List Nat := [0x61, 0x72, 0x74, 0x69, 0x73, 0x74]

/-- The string literal "year". -/
def keyYear : List Nat := [0x79, 0x65, 0x61, 0x72]

/-- The string literal "s98by". -/
def keyS98by : List Nat := [0x73, 0x39, 0x38, 0x62, 0x79]

/-- The string literal "comment". -/
def keyComment : List Nat := [0x63, 0x6F, 0x6D, 0x6D, 0x65, 0x6E, 0x74]

/-- The string literal "vgm_volume_modifier". -/
def keyVolumeModifier : List Nat :=
  [0x76, 0x67, 0x6D, 0x5F, 0x76, 0x6F, 0x6C, 0x75, 0x6D, 0x65, 0x5F,
   0x6D, 0x6F, 0x64, 0x69, 0x66, 0x69, 0x65, 0x72]

/-- The reading loop of `ReadUTF16String` over the bytes behind the cursor: the code units
pushed onto `utf16` and the number of bytes the `fread` calls consumed.  An `fread` that obtains
fewer than two bytes ends the loop. -/
def readUnits : Bool → List Nat → List Nat × Nat
  | firstChar, b0 :: b1 :: rest =>
    let ch := (b0 % 256 ||| ((b1 % 256) <<< 8)) % 65536
    if firstChar = true ∧ (ch = 0xFFFE ∨ ch = 0xFEFF) then
      ((readUnits false rest).1, (readUnits false rest).2 + 2)
    else if ch = 0 then ([], 2)
    else (ch :: (readUnits false rest).1, (readUnits false rest).2 + 2)
  | _, [_] => ([], 1)
  | _, [] => ([], 0)

/-- The block "Convert fullwidth characters to ASCII equivalents" of `ReadUTF16String`. -/
def normalizeFullwidth (codePoint : Nat) : Nat :=
  if codePoint < 0x10000 then
    if codePoint ≥ 0xFF01 ∧ codePoint ≤ 0xFF5E then codePoint - 0xFF00
    else if codePoint ≥ 0xFFE0 ∧ codePoint ≤ 0xFFE6 then
      if codePoint = 0xFFE5 then 0x00A5
      else if codePoint = 0xFFE0 then 0x00A2
      else if codePoint = 0xFFE1 then 0x00A3
      else if codePoint = 0xFFE6 then 0x20A9
      else codePoint
    else codePoint
  else codePoint

/-- The block "Convert code point to UTF-8" of `ReadUTF16String`: the `char`s appended to
`result`, as byte values. -/
def encodeUtf8 (codePoint : Nat) : List Nat :=
  if codePoint < 0x80 then [codePoint % 256]
  else if codePoint < 0x800 then
    [(0xC0 ||| (codePoint >>> 6)) % 256, (0x80 ||| (codePoint &&& 0x3F)) % 256]
  else if codePoint < 0x10000 then
    [(0xE0 ||| (codePoint >>> 12)) % 256, (0x80 ||| ((codePoint >>> 6) &&& 0x3F)) % 256,
     (0x80 ||| (codePoint &&& 0x3F)) % 256]
  else
    [(0xF0 ||| (codePoint >>> 18)) % 256, (0x80 ||| ((codePoint >>> 12) &&& 0x3F)) % 256,
     (0x80 ||| ((codePoint >>> 6) &&& 0x3F)) % 256, (0x80 ||| (codePoint &&& 0x3F)) % 256]

/-- The conversion loop of `ReadUTF16String` over the code units from index `i` on: a high
surrogate that has a low surrogate behind it is combined with it and the index skips the low
surrogate; the subtractions stand behind range checks and the sum stays below `2 ^ 32`. -/
def convertUnits : List Nat → List Nat
  | [] => []
  | [c] => encodeUtf8 (normalizeFullwidth c)
  | c :: low :: rest =>
    if c ≥ 0xD800 ∧ c ≤ 0xDBFF ∧ low ≥ 0xDC00 ∧ low ≤ 0xDFFF then
      encodeUtf8 (normalizeFullwidth (0x10000 + ((c - 0xD800) <<< 10) + (low - 0xDC00)))
        ++ convertUnits rest
    else encodeUtf8 (normalizeFullwidth c) ++ convertUnits (low :: rest)

/-- The lambda `ReadUTF16String` of `ExtractGD3Tags`: the string returned and the stream
afterwards. -/
def ReadUTF16String (f : File) : List Nat × File :=
  let r := readUnits true (f.bytes.drop f.pos)
  (convertUnits r.1, { f with pos := f.pos + r.2 })

/-- The statement `if (!value.empty()) tags[key] = value;`. -/
def assignIfNonEmpty (tags : List (List Nat × List Nat)) (key value : List Nat) :
    List (List Nat × List Nat) :=
  if value ≠ [] then tagAssign tags key value else tags

/-- The seven conditional assignments that end `ExtractGD3Tags`. -/
def assignGD3 (tags : List (List Nat × List Nat))
    (title game system composer releaseDate vgmCreator notes : List Nat) :
    List (List Nat × List Nat) :=
  let t1 := assignIfNonEmpty tags keyTitle title
  let t2 := assignIfNonEmpty t1 keyGame game
  let t3 := assignIfNonEmpty t2 keySystem system
  let t4 := assignIfNonEmpty t3 keyArtist composer
  let t5 := assignIfNonEmpty t4 keyYear releaseDate
  let t6 := assignIfNonEmpty t5 keyS98by vgmCreator
  assignIfNonEmpty t6 keyComment notes

/-- The function `ExtractGD3Tags`; `fopenResult` is the content of the file when
`fopen(filename, "rb")` succeeds, `tags` the map passed by reference. -/
def ExtractGD3Tags (fopenResult : Option (List Nat)) (tags : List (List Nat × List Nat)) :
    Bool × List (List Nat × List Nat) :=
  match fopenResult with
  | none => (false, tags)
  | some bytes =>
    let f : File := { bytes := bytes, pos := 0 }
    let magic := (f.fseek 0).fread 4
    if magic.1.length ≠ 4 ∨ magic.1 ≠ [0x56, 0x67, 0x6D, 0x20] then (false, tags)
    else
      let gd3Offset := (magic.2.fseek 0x14).fread 4
      if leValue gd3Offset.1 = 0 then (false, tags)
      else
        let gd3Pos := (leValue gd3Offset.1 + 0x14) % 2 ^ 32
        let gd3Magic := (gd3Offset.2.fseek gd3Pos).fread 4
        if gd3Magic.1.length ≠ 4 ∨ gd3Magic.1 ≠ [0x47, 0x64, 0x33, 0x20] then (false, tags)
        else
          let version := gd3Magic.2.fread 4
          let length := version.2.fread 4
          let titleEN := ReadUTF16String length.2
          let titleJP := ReadUTF16String titleEN.2
          let gameEN := ReadUTF16String titleJP.2
          let gameJP := ReadUTF16String gameEN.2
          let systemEN := ReadUTF16String gameJP.2
          let systemJP := ReadUTF16String systemEN.2
          let artistEN := ReadUTF16String systemJP.2
          let artistJP := ReadUTF16String artistEN.2
          let releaseDate := ReadUTF16String artistJP.2
          let vgmCreator := ReadUTF16String releaseDate.2
          let notes := ReadUTF16String vgmCreator.2
          let title := if titleEN.1 ≠ [] then titleEN.1 else titleJP.1
          let game := if gameEN.1 ≠ [] then gameEN.1 else gameJP.1
          let system := if systemEN.1 ≠ [] then systemEN.1 else systemJP.1
          let composer := if artistEN.1 ≠ [] then artistEN.1 else artistJP.1
          (true, assignGD3 tags title game system composer releaseDate.1 vgmCreator.1 notes.1)

/-- The text `snprintf(buf, sizeof(buf), "%d", value)` stores for an `int`. -/
def formatDecimal (value : Int) : List Nat :=
  if value < 0 then 0x2D :: (Nat.toDigits 10 value.natAbs).map Char.toNat
  else (Nat.toDigits 10 value.natAbs).map Char.toNat

/-- The tag map `main` builds behind the conversion loop: the tags of the input file and the
volume modifier of its header. -/
def assembleTags (inputFile : Option (List Nat)) (vgmHeader : VGMHeader) :
    List (List Nat × List Nat) :=
  let tags := (ExtractGD3Tags inputFile []).2
  if vgmHeader.volumeModifier ≠ 0 then
    tagAssign tags keyVolumeModifier (formatDecimal vgmHeader.volumeModifier)
  else tags

/-- The tag map obtained from an empty map by the assignments `tags[k] = v` for the pairs of
`inserts`, in that order. -/
def buildTags (inserts : List (List Nat × List Nat)) : List (List Nat × List Nat) :=
  inserts.foldl (fun m kv => tagAssign m kv.1 kv.2) []

/-- The standard UTF-8 encoding of a code point: one byte below `0x80`, two below `0x800`,
three below `0x10000`, four otherwise. -/
def specUtf8 (cp : Nat) : List Nat :=
  if cp < 0x80 then [cp]
  else if cp < 0x800 then [0xC0 + cp / 64, 0x80 + cp % 64]
  else if cp < 0x10000 then [0xE0 + cp / 4096, 0x80 + cp / 64 % 64, 0x80 + cp % 64]
  else [0xF0 + cp / 262144, 0x80 + cp / 4096 % 64, 0x80 + cp / 64 % 64, 0x80 + cp % 64]

/-- The stream behind the first `n` strings that `ReadUTF16String` reads from `f` on. -/
def skipStrings : Nat → File → File
  | 0, f => f
  | n + 1, f => skipStrings n (ReadUTF16String f).2

/-- The string of index `i`, counted from 0, of a metadata block whose strings start at the
cursor of `f`: what the call of `ReadUTF16String` behind `i` earlier calls returns. -/
def nthString (i : Nat) (f : File) : List Nat :=
  (ReadUTF16String (skipStrings i f)).1

/-- The code unit that the two bytes `b0 b1` make up, low byte first. -/
def unitOf (b0 b1 : Nat) : Nat :=
  (b0 % 256 ||| ((b1 % 256) <<< 8)) % 65536

/-- A file with a metadata block at `0x18` whose second string, the JP title, is the code unit
`0xFEFF` followed by "A"; the other ten strings are empty. -/
def gd3BomFile : List Nat :=
  [0x56, 0x67, 0x6D, 0x20, 0x00, 0x00, 0x00, 0x00, 0x00, 0x00, 0x00, 0x00, 0x00, 0x00, 0x00,
   0x00, 0x00, 0x00, 0x00, 0x00, 0x04, 0x00, 0x00, 0x00, 0x47, 0x64, 0x33, 0x20, 0x00, 0x01,
   0x00, 0x00, 0x1A, 0x00, 0x00, 0x00, 0x00, 0x00, 0xFF, 0xFE, 0x41, 0x00, 0x00, 0x00, 0x00,
   0x00, 0x00, 0x00, 0x00, 0x00, 0x00, 0x00, 0x00, 0x00, 0x00, 0x00, 0x00, 0x00, 0x00, 0x00,
   0x00, 0x00]

/-- The code points that the conversion loop of `ReadUTF16String` hands to the UTF-8 encoder,
in order: a high surrogate with a low surrogate behind it gives one code point, every other
unit its own value, each passed through the normalisation. -/
def codePoints : List Nat → List Nat
  | [] => []
  | [c] => [normalizeFullwidth c]
  | c :: low :: rest =>
    if c ≥ 0xD800 ∧ c ≤ 0xDBFF ∧ low ≥ 0xDC00 ∧ low ≤ 0xDFFF then
      normalizeFullwidth (0x10000 + ((c - 0xD800) <<< 10) + (low - 0xDC00)) :: codePoints rest
    else normalizeFullwidth c :: codePoints (low :: rest)

/-- A strict UTF-8 decoder, byte by byte: `need` continuation bytes are still expected for the
code point whose leading bits are `acc` and whose encoding length is allowed from `least` on.
A lead byte announces one, two or three continuation bytes `80..BF`; a completed code point is
accepted when it is not an overlong form, not a surrogate and not above `0x10FFFF`.  Anything
else, and an input that ends inside a sequence, is rejected. -/
def specDecodeUtf8From : Nat → Nat → Nat → List Nat → Option (List Nat)
  | 0, _, _, [] => some []
  | _ + 1, _, _, [] => none
  | 0, _, _, b :: rest =>
    if b < 0x80 then (specDecodeUtf8From 0 0 0 rest).map (fun cps => b :: cps)
    else if 0xC0 ≤ b ∧ b < 0xE0 then specDecodeUtf8From 1 (b - 0xC0) 0x80 rest
    else if 0xE0 ≤ b ∧ b < 0xF0 then specDecodeUtf8From 2 (b - 0xE0) 0x800 rest
    else if 0xF0 ≤ b ∧ b < 0xF8 then specDecodeUtf8From 3 (b - 0xF0) 0x10000 rest
    else none
  | n + 1, acc, least, b :: rest =>
    if 0x80 ≤ b ∧ b < 0xC0 then
      if n = 0 then
        if least ≤ acc * 64 + (b - 0x80) ∧ acc * 64 + (b - 0x80) ≤ 0x10FFFF ∧
            ¬ (0xD800 ≤ acc * 64 + (b - 0x80) ∧ acc * 64 + (b - 0x80) ≤ 0xDFFF) then
          (specDecodeUtf8From 0 0 0 rest).map (fun cps => (acc * 64 + (b - 0x80)) :: cps)
        else none
      else specDecodeUtf8From n (acc * 64 + (b - 0x80)) least rest
    else none

/-- A strict UTF-8 decoder: the code points of a well-formed byte sequence, `none` for a
sequence that is not well-formed. -/
def specDecodeUtf8 (bytes : List Nat) : Option (List Nat) :=
  specDecodeUtf8From 0 0 0 bytes

/-! ## `vgm2s98.cpp`: `main` -/

/-- The conversion loop `while (reader.ReadNextCommand(cmd)) { ... }` of `main`.  `fuel` bounds
the number of `ReadNextCommand` calls; the result is `none` when that bound is reached before
the loop has ended, and otherwise the reader and the local variables behind the loop. -/
def convertLoop (h : VGMHeader) (loopStartSamples : Nat) :
    Nat → VGMReader → ConvState → Option (VGMReader × ConvState)
  | 0, _, _ => none
  | fuel + 1, reader, st =>
    match ReadNextCommand reader with
    | (none, reader') => some (reader', st)
    | (some cmd, reader') =>
      if cmd.cmd = VGM_CMD_END then some (reader', { st with writer := WriteEnd st.writer })
      else convertLoop h loopStartSamples fuel reader' (convertBody h loopStartSamples st cmd)

/-- The function `main` behind the argument check; `inputFile` is the content of the input
file when it can be opened, `outputOk` tells whether the output file can be created, `fuel`
bounds the number of `ReadNextCommand` calls of the conversion loop.  The result is the exit
status and the content of the output file when one has been written; `none` when the bound on
the loop is reached. -/
def convert (fuel : Nat) (inputFile : Option (List Nat)) (outputOk : Bool) :
    Option (Nat × Option (List Nat)) :=
  let rd := VGMReader.Open inputFile
  if rd.1 = false then some (1, none)
  else
    let hr := ReadHeader rd.2 VGMHeader.init
    if hr.1 = false then some (1, none)
    else
      let vgmHeader := hr.2.1
      let wr := Open S98Writer.init outputOk
      if wr.1 = false then some (1, none)
      else
        let writer := preRegister wr.2 vgmHeader
        match convertLoop vgmHeader (loopStart vgmHeader) fuel hr.2.2
            (ConvState.start writer) with
        | none => none
        | some res =>
          some (0, finishOutput res.2.writer (assembleTags inputFile vgmHeader))

/-- The commands that successive `ReadNextCommand` calls deliver to the conversion loop, up to
and including the first end marker, and the reader behind them; `none` when `fuel` calls do not
reach the end of the loop. -/
def readCommands : Nat → VGMReader → Option (List VGMCommand × VGMReader)
  | 0, _ => none
  | fuel + 1, reader =>
    match ReadNextCommand reader with
    | (none, reader') => some ([], reader')
    | (some cmd, reader') =>
      if cmd.cmd = VGM_CMD_END then some ([cmd], reader')
      else (readCommands fuel reader').map (fun p => (cmd :: p.1, p.2))

/-- The bytes `bs` with the four bytes at offset `off` replaced by the little-endian form of
`v`. -/
def putLE32 (bs : List Nat) (off v : Nat) : List Nat :=
  bs.take off ++ le32 v ++ bs.drop (off + 4)

/-- A minimal input file with a header of 128 bytes: the magic, the data offset field at `0x34`
pointing behind the header, the clock `clock` in the header field at offset `off`, zero in every
other field, and behind the header the events wait 3 samples (`72`), register write
`op reg val`, wait 16 samples (`7F`), end (`66`). -/
def minimalInput (off clock op reg val : Nat) : List Nat :=
  putLE32 (putLE32 ([0x56, 0x67, 0x6D, 0x20] ++ List.replicate 124 0) 0x34 0x4C) off clock
    ++ [0x72, op, reg, val, 0x7F, 0x66]

/-- The reader has the file `bytes` open and has recorded its size. -/
def VGMReader.Reads (r : VGMReader) (bytes : List Nat) : Prop :=
  (∃ q, r.file = some { bytes := bytes, pos := q }) ∧ r.fileSize = bytes.length

/-- An opcode that `ReadNextCommand` does not know: none of the end marker, the waits, the data
block, the PCM seek and the register writes. -/
def isUnknownOpcode (b : Nat) : Bool :=
  !(b == VGM_CMD_END) && !isWaitOpcode b && !(b == VGM_CMD_DATA_BLOCK) &&
    !(b == VGM_CMD_PCM_SEEK) && !isRegisterWrite b

/-- The 32-bit little-endian value that stands at offset `k` of a file. -/
def fieldAt (bytes : List Nat) (k : Nat) : Nat :=
  leValue ((bytes.drop k).take 4)

/-- The number of bytes that a call emits into the data section, worded as in the property: 0
for a wait of 0, 1 for a wait of 1, 1 plus the byte count of the variable-length integer for a
longer wait, 3 for a register record, 1 for the end marker, none for `SetLoopPoint` and
`AddDevice`. -/
def specEventLength : WriterOp → Nat
  | .writeWait ticks =>
    if ticks = 0 then 0
    else if ticks = 1 then 1
    else 1 + (varIntBytes (ticks - 2)).length
  | .writeRegister _ _ _ => 3
  | .writeEnd => 1
  | _ => 0

/-- The total number of bytes that a sequence of calls emits into the data section, counted as
in the property. -/
def specDataLength (ops : List WriterOp) : Nat :=
  (ops.map specEventLength).sum

/-- The events in front of the first end marker. -/
def beforeEnd : List VGMCommand → List VGMCommand
  | [] => []
  | c :: cs => if c.cmd = VGM_CMD_END then [] else c :: beforeEnd cs

/-- The sum of the sample counts of the wait events in front of the first end marker. -/
def sourceWaitSum (cmds : List VGMCommand) : Nat :=
  (((beforeEnd cmds).filter (fun c => isWaitOpcode c.cmd)).map VGMCommand.waitSamples).sum

/-- The sum of the durations of the waits of a data section, worded after the target format:
`FD` ends the data, `FF` and `FE` start a wait that `specDecodeWait` decodes, every other byte
starts a register record of three bytes.  `fuel` bounds the number of events; the result is
`none` when it is used up or when an event is cut short. -/
def specWaitSumFrom : Nat → List Nat → Option Nat
  | 0, _ => none
  | _ + 1, [] => some 0
  | fuel + 1, b :: bs =>
    if b = 0xFD then some 0
    else if b = 0xFF ∨ b = 0xFE then
      match specDecodeWait (b :: bs) with
      | some (n, k) => (specWaitSumFrom fuel ((b :: bs).drop k)).map (fun s => n + s)
      | none => none
    else if bs.length < 2 then none
    else specWaitSumFrom fuel (bs.drop 2)

/-- The sum of the durations of the waits of a data section; every event has at least one byte,
so the length of the data bounds the number of events. -/
def specWaitSum (data : List Nat) : Option Nat :=
  specWaitSumFrom (data.length + 1) data

/-- The event `61 lo hi` as `ReadNextCommand` delivers it: a wait of `n` samples. -/
def waitEvent (n : Nat) : VGMCommand :=
  { VGMCommand.init with cmd := VGM_CMD_WAIT, waitSamples := n }

/-- A header that names 4294967295 samples in total, the last one of them looped. -/
def wrapHeader : VGMHeader :=
  { VGMHeader.init with totalSamples := 4294967295, loopSamples := 1 }

/-- An event stream of 65536 waits of 65535 samples, a wait of 65533 samples, a wait of 65535
samples and the end marker: 196615 bytes of event data whose waits sum to 4295032828. -/
def wrapStream : List VGMCommand :=
  List.replicate 65536 (waitEvent 65535)
    ++ [waitEvent 65533, waitEvent 65535, { VGMCommand.init with cmd := VGM_CMD_END }]

/-- The header that `main` reads from the input file `bytes`. -/
def parsedHeader (bytes : List Nat) : VGMHeader :=
  (ReadHeader (VGMReader.Open (some bytes)).2 VGMHeader.init).2.1

/-- The reader of the input file `bytes` as `ReadHeader` leaves it. -/
def dataReader (bytes : List Nat) : VGMReader :=
  (ReadHeader (VGMReader.Open (some bytes)).2 VGMHeader.init).2.2

/-- The local variables of `main` behind the conversion loop, when the loop has read the events
`cmds` from the input file `bytes`. -/
def loopResult (bytes : List Nat) (cmds : List VGMCommand) : ConvState :=
  convertEvents (parsedHeader bytes) (loopStart (parsedHeader bytes))
    (ConvState.start (preRegister (opened S98Writer.init) (parsedHeader bytes))) cmds

/-- The bytes that the tail of `main` writes behind the events: the tag block, or nothing when
the tag map is empty. -/
def tagPart (tags : List (List Nat × List Nat)) : List Nat :=
  if tags.isEmpty then [] else tagBlock tags

/-- The minimal input file of the SN76489 with the clock of a second chip, the YM2612, set as
well: header fields `0x0C` and `0x2C`, events wait 3 samples, register write `50 12 34`, wait
16 samples, end. -/
def twoChipInput : List Nat :=
  putLE32 (minimalInput 0x0C 3579545 0x50 0x12 0x34) 0x2C 7670453

/-- The four events of `twoChipInput`, as `ReadNextCommand` delivers them. -/
def twoChipEvents : List VGMCommand :=
  [{ VGMCommand.init with cmd := 0x72, waitSamples := 3 },
   { VGMCommand.init with cmd := 0x50, reg := 0x12, data := 0x34, port := 0 },
   { VGMCommand.init with cmd := 0x7F, waitSamples := 16 },
   { VGMCommand.init with cmd := 0x66 }]

/-! # Theorems -/

/-! ## Streams: basic facts -/

theorem File.before_length (f : File) : f.before.length = f.pos := by
  simp only [File.before, List.length_append, List.length_take, List.length_replicate]
  omega

theorem File.fwrite_nil (f : File) : f.fwrite [] = f := by
  simp [File.fwrite]

theorem File.fwrite_of_ne (f : File) (data : List Nat) (h : data ≠ []) :
    f.fwrite data =
      { bytes := f.before ++ data ++ f.bytes.drop (f.pos + data.length)
        pos := f.pos + data.length } := by
  simp [File.fwrite, h]

theorem File.fwrite_pos (f : File) (data : List Nat) :
    (f.fwrite data).pos = f.pos + data.length := by
  by_cases h : data = []
  · simp [h, File.fwrite_nil]
  · rw [File.fwrite_of_ne f data h]

theorem take_prefix_length (P rest : List Nat) (n : Nat) (h : P.length = n) :
    (P ++ rest).take n = P := by
  subst h
  simp

theorem drop_prefix_length (P rest : List Nat) (n k : Nat) (h : P.length = n) :
    (P ++ rest).drop (n + k) = rest.drop k := by
  subst h
  rw [List.drop_append]

theorem File.before_mk (P rest : List Nat) (n : Nat) (h : P.length = n) :
    File.before { bytes := P ++ rest, pos := n } = P := by
  simp only [File.before, take_prefix_length P rest n h]
  have : n - (P ++ rest).length = 0 := by
    simp only [List.length_append]; omega
  rw [this]
  simp

theorem File.fwrite_append (f : File) (a b : List Nat) :
    (f.fwrite a).fwrite b = f.fwrite (a ++ b) := by
  by_cases ha : a = []
  · simp [ha, File.fwrite_nil]
  by_cases hb : b = []
  · simp [hb, File.fwrite_nil]
  have hab : a ++ b ≠ [] := by simp [ha]
  have hl := f.before_length
  have hP : (f.before ++ a).length = f.pos + a.length := by
    simp [hl]
  rw [File.fwrite_of_ne f (a ++ b) hab, File.fwrite_of_ne f a ha, File.fwrite_of_ne _ b hb]
  simp only [File.before_mk (f.before ++ a) _ _ hP]
  rw [drop_prefix_length (f.before ++ a) _ _ _ hP, List.drop_drop]
  simp only [List.length_append, List.append_assoc, Nat.add_assoc]

theorem File.fwrite_atEnd (f : File) (data : List Nat) (h : f.AtEnd) :
    f.fwrite data = { bytes := f.bytes ++ data, pos := f.pos + data.length } := by
  unfold File.AtEnd at h
  by_cases hd : data = []
  · subst hd; simp [File.fwrite]
  · simp [File.fwrite, hd, File.before, h]

theorem File.fwrite_atEnd_atEnd (f : File) (data : List Nat) (h : f.AtEnd) :
    (f.fwrite data).AtEnd := by
  rw [File.fwrite_atEnd f data h]
  unfold File.AtEnd at *
  simp [h]

/-! ## The writer's stream -/

@[simp] theorem emit_devices (w : S98Writer) (d : List Nat) : (w.emit d).devices = w.devices := by
  unfold S98Writer.emit; split <;> rfl

@[simp] theorem emit_dataStartOffset (w : S98Writer) (d : List Nat) :
    (w.emit d).dataStartOffset = w.dataStartOffset := by
  unfold S98Writer.emit; split <;> rfl

@[simp] theorem emit_loopOffset (w : S98Writer) (d : List Nat) :
    (w.emit d).loopOffset = w.loopOffset := by
  unfold S98Writer.emit; split <;> rfl

@[simp] theorem emit_tagOffset (w : S98Writer) (d : List Nat) :
    (w.emit d).tagOffset = w.tagOffset := by
  unfold S98Writer.emit; split <;> rfl

@[simp] theorem emit_currentDataPos (w : S98Writer) (d : List Nat) :
    (w.emit d).currentDataPos = w.currentDataPos := by
  unfold S98Writer.emit; split <;> rfl

@[simp] theorem emit_loopSet (w : S98Writer) (d : List Nat) : (w.emit d).loopSet = w.loopSet := by
  unfold S98Writer.emit; split <;> rfl

@[simp] theorem emit_deviceIdMap (w : S98Writer) (d : List Nat) :
    (w.emit d).deviceIdMap = w.deviceIdMap := by
  unfold S98Writer.emit; split <;> rfl

@[simp] theorem emit_nextDeviceId (w : S98Writer) (d : List Nat) :
    (w.emit d).nextDeviceId = w.nextDeviceId := by
  unfold S98Writer.emit; split <;> rfl

theorem emit_file (w : S98Writer) (f : File) (d : List Nat) (h : w.file = some f) :
    (w.emit d).file = some (f.fwrite d) := by
  unfold S98Writer.emit; rw [h]

theorem emit_some (w : S98Writer) (f : File) (d : List Nat) (h : w.file = some f) :
    w.emit d = { w with file := some (f.fwrite d) } := by
  unfold S98Writer.emit; rw [h]

theorem emit_none (w : S98Writer) (d : List Nat) (h : w.file = none) : w.emit d = w := by
  unfold S98Writer.emit; rw [h]

theorem emit_nil (w : S98Writer) : w.emit [] = w := by
  unfold S98Writer.emit
  split
  · next f h => simp [File.fwrite_nil, ← h]
  · rfl

theorem emit_emit (w : S98Writer) (a b : List Nat) : (w.emit a).emit b = w.emit (a ++ b) := by
  cases h : w.file with
  | none => simp [emit_none, h]
  | some f =>
    rw [emit_some w f a h, emit_some w f (a ++ b) h]
    unfold S98Writer.emit
    simp [File.fwrite_append]

/-! ## The variable-length integer -/

theorem or_low (x : Nat) (h : x < 128) : 128 ||| x = 128 + x := by
  interval_cases x <;> rfl

theorem and_7F (v : Nat) : v &&& 0x7F = v % 128 :=
  Nat.and_pow_two_sub_one_eq_mod v 7

theorem varIntBytes_ge (v : Nat) (h : v ≥ 128) :
    varIntBytes v = (128 + v % 128) :: varIntBytes (v / 128) := by
  rw [varIntBytes]
  have h1 : v % 128 < 128 := Nat.mod_lt _ (by decide)
  simp only [ge_iff_le, h, ↓reduceDIte, and_7F, or_low _ h1, Nat.shiftRight_eq_div_pow]
  congr 1
  omega

theorem varIntBytes_lt (v : Nat) (h : v < 128) : varIntBytes v = [v] := by
  rw [varIntBytes]
  have : ¬ v ≥ 0x80 := by omega
  simp only [this, ↓reduceDIte, and_7F]
  congr 1
  omega

theorem WriteVarIntLoop_eq (v : Nat) : ∀ (w : S98Writer) (n : Nat),
    (WriteVarIntLoop w v n).2.2 + 1 = n + (varIntBytes v).length ∧
    WriteUint8 (WriteVarIntLoop w v n).1 ((WriteVarIntLoop w v n).2.1 &&& 0x7F)
      = w.emit (varIntBytes v) := by
  induction v using Nat.strong_induction_on with
  | _ v ih =>
    intro w n
    by_cases h : v ≥ 128
    · rw [WriteVarIntLoop]
      have h1 : v % 128 < 128 := Nat.mod_lt _ (by decide)
      simp only [ge_iff_le, h, ↓reduceDIte, Nat.shiftRight_eq_div_pow]
      have hlt : v / 2 ^ 7 < v := by omega
      obtain ⟨e1, e2⟩ := ih (v / 2 ^ 7) hlt (WriteUint8 w (128 ||| v &&& 127)) (n + 1)
      rw [e1, e2, varIntBytes_ge v h]
      constructor
      · simp only [List.length_cons]
        have : v / 2 ^ 7 = v / 128 := by norm_num
        rw [this]; omega
      · simp only [WriteUint8, emit_emit, and_7F, or_low _ h1]
        have : v / 2 ^ 7 = v / 128 := by norm_num
        rw [this]
        congr 2
        simp only [List.singleton_append, List.cons.injEq, and_true]
        omega
    · rw [WriteVarIntLoop]
      have h' : ¬ v ≥ 0x80 := h
      simp only [h', ↓reduceDIte]
      have hv : v < 128 := by omega
      rw [varIntBytes_lt v hv]
      constructor
      · simp
      · simp only [WriteUint8, and_7F]
        congr 2
        omega

theorem WriteVarInt_eq (w : S98Writer) (v : Nat) :
    WriteVarInt w v = ((varIntBytes v).length, w.emit (varIntBytes v)) := by
  obtain ⟨e1, e2⟩ := WriteVarIntLoop_eq v w 0
  unfold WriteVarInt
  simp only [e1, e2, Nat.zero_add]

theorem and_80_low (b : Nat) (h : b < 128) : b &&& 0x80 = 0 := by
  interval_cases b <;> rfl

theorem and_80_high (x : Nat) (h : x < 128) : (128 + x) &&& 0x80 = 0x80 := by
  interval_cases x <;> rfl

theorem and_7F_high (x : Nat) (h : x < 128) : (128 + x) &&& 0x7F = x := by
  rw [and_7F]; omega

theorem varIntBytes_ne_nil (v : Nat) : varIntBytes v ≠ [] := by
  by_cases h : v ≥ 128
  · rw [varIntBytes_ge v h]; simp
  · rw [varIntBytes_lt v (by omega)]; simp

theorem specDecodeVarIntFrom_varIntBytes (v : Nat) : ∀ (i acc : Nat) (rest : List Nat),
    specDecodeVarIntFrom i acc (varIntBytes v ++ rest)
      = some (acc + v * 2 ^ (7 * i), i + (varIntBytes v).length) := by
  induction v using Nat.strong_induction_on with
  | _ v ih =>
    intro i acc rest
    by_cases h : v ≥ 128
    · have h1 : v % 128 < 128 := Nat.mod_lt _ (by decide)
      rw [varIntBytes_ge v h]
      rw [List.cons_append, specDecodeVarIntFrom]
      simp only [and_80_high _ h1, and_7F_high _ h1, Nat.shiftLeft_eq, List.length_cons]
      rw [if_neg (by decide), ih (v / 128) (by omega)]
      congr 2
      · have e : 2 ^ (7 * (i + 1)) = 128 * 2 ^ (7 * i) := by
          rw [Nat.mul_add, Nat.pow_add]; norm_num; ring
        rw [e]
        have hv : v = v % 128 + 128 * (v / 128) := (Nat.mod_add_div v 128).symm
        conv_rhs => rw [hv]
        ring
      · omega
    · have hv : v < 128 := by omega
      rw [varIntBytes_lt v hv]
      simp only [List.singleton_append, specDecodeVarIntFrom, and_80_low _ hv, ↓reduceIte,
        Nat.shiftLeft_eq, and_7F, List.length_singleton, Nat.mod_eq_of_lt hv]

theorem specDecodeVarInt_varIntBytes (v : Nat) :
    specDecodeVarInt (varIntBytes v) = some (v, (varIntBytes v).length) := by
  have h := specDecodeVarIntFrom_varIntBytes v 0 0 []
  simp only [List.append_nil, Nat.mul_zero, Nat.pow_zero, Nat.mul_one, Nat.zero_add] at h
  exact h

theorem varIntBytes_dropLast (v : Nat) : ∀ b ∈ (varIntBytes v).dropLast, b &&& 0x80 = 0x80 := by
  induction v using Nat.strong_induction_on with
  | _ v ih =>
    by_cases h : v ≥ 128
    · have h1 : v % 128 < 128 := Nat.mod_lt _ (by decide)
      rw [varIntBytes_ge v h]
      obtain ⟨x, l, hl⟩ := List.exists_cons_of_ne_nil (varIntBytes_ne_nil (v / 128))
      intro b hb
      rw [hl, List.dropLast_cons₂] at hb
      rcases List.mem_cons.mp hb with hb | hb
      · rw [hb]; exact and_80_high _ h1
      · exact ih (v / 128) (by omega) b (by rw [hl]; exact hb)
    · rw [varIntBytes_lt v (by omega)]
      intro b hb
      simp at hb

theorem varIntBytes_getLast (v : Nat) :
    ∀ b, (varIntBytes v).getLast? = some b → b &&& 0x80 = 0 := by
  induction v using Nat.strong_induction_on with
  | _ v ih =>
    by_cases h : v ≥ 128
    · rw [varIntBytes_ge v h]
      obtain ⟨x, l, hl⟩ := List.exists_cons_of_ne_nil (varIntBytes_ne_nil (v / 128))
      intro b hb
      rw [hl, List.getLast?_cons_cons] at hb
      exact ih (v / 128) (by omega) b (by rw [hl]; exact hb)
    · have hv : v < 128 := by omega
      rw [varIntBytes_lt v hv]
      intro b hb
      simp only [List.getLast?_singleton, Option.some.injEq] at hb
      rw [← hb]; exact and_80_low v hv

theorem varIntBytes_lt_256 (v : Nat) : ∀ b ∈ varIntBytes v, b < 256 := by
  induction v using Nat.strong_induction_on with
  | _ v ih =>
    by_cases h : v ≥ 128
    · rw [varIntBytes_ge v h]
      intro b hb
      rcases List.mem_cons.mp hb with hb | hb
      · omega
      · exact ih (v / 128) (by omega) b hb
    · rw [varIntBytes_lt v (by omega)]
      intro b hb
      simp only [List.mem_singleton] at hb
      omega

/-! ## Event encoders -/

theorem WriteWait_eq (w : S98Writer) (f : File) (ticks : Nat) (hw : w.file = some f)
    (hc : w.currentDataPos < 2 ^ 32) :
    WriteWait w ticks =
      { w with
        file := some (f.fwrite (waitBytes ticks))
        currentDataPos := (w.currentDataPos + (waitBytes ticks).length) % 2 ^ 32 } := by
  unfold WriteWait waitBytes
  rw [hw]
  by_cases h0 : ticks = 0
  · have hc' : w.currentDataPos % 4294967296 = w.currentDataPos := Nat.mod_eq_of_lt hc
    simp [h0, File.fwrite_nil, ← hw, hc']
  by_cases h1 : ticks = 1
  · simp [h1, WriteUint8, emit_some w f _ hw]
  simp only [h0, h1, ↓reduceIte, WriteVarInt_eq, WriteUint8, emit_some w f _ hw]
  simp only [S98Writer.emit, File.fwrite_append, List.singleton_append, List.length_cons,
    Nat.reduceMod, Nat.mod_add_mod]
  congr 2
  omega

theorem WriteWait_zero (w : S98Writer) : WriteWait w 0 = w := by
  unfold WriteWait
  split <;> simp

theorem WriteWait_file (w : S98Writer) (f : File) (ticks : Nat) (hw : w.file = some f) :
    (WriteWait w ticks).file = some (f.fwrite (waitBytes ticks)) := by
  unfold WriteWait waitBytes
  rw [hw]
  by_cases h0 : ticks = 0
  · simp [h0, File.fwrite_nil, hw]
  by_cases h1 : ticks = 1
  · simp [h1, WriteUint8, emit_some w f _ hw]
  simp only [h0, h1, ↓reduceIte, WriteVarInt_eq, WriteUint8, emit_some w f _ hw]
  simp only [S98Writer.emit, File.fwrite_append, List.singleton_append]

theorem specDecodeWait_waitBytes (ticks : Nat) :
    specDecodeWait (waitBytes ticks) = some (ticks, (waitBytes ticks).length) := by
  unfold waitBytes
  by_cases h0 : ticks = 0
  · simp [h0, specDecodeWait]
  by_cases h1 : ticks = 1
  · simp [h1, specDecodeWait]
  simp only [h0, h1, ↓reduceIte, specDecodeWait, specDecodeVarInt_varIntBytes, List.length_cons]
  have : ticks - 2 + 2 = ticks := by omega
  rw [this, if_neg (by decide)]

theorem varIntBytes_length_le (k : Nat) : ∀ v, v < 128 ^ (k + 1) → (varIntBytes v).length ≤ k + 1 := by
  induction k with
  | zero =>
    intro v hv
    rw [varIntBytes_lt v (by simpa using hv)]
    simp
  | succ k ih =>
    intro v hv
    by_cases h : v ≥ 128
    · rw [varIntBytes_ge v h, List.length_cons]
      have : v / 128 < 128 ^ (k + 1) := by
        rw [Nat.div_lt_iff_lt_mul (by decide)]
        rw [Nat.pow_succ] at hv
        exact hv
      have := ih (v / 128) this
      omega
    · rw [varIntBytes_lt v (by omega)]
      simp

theorem WriteHeader_eq (w : S98Writer) :
    WriteHeader w = w.emit (headerWith 0 0 0 w.devices) := by
  unfold WriteHeader
  cases h : w.file with
  | none => simp [emit_none, h]
  | some f =>
    have hfold : ∀ (ds : List S98Device) (w' : S98Writer),
        ds.foldl writeDeviceInfo w' = w'.emit (ds.flatMap deviceInfoBytes) := by
      intro ds
      induction ds with
      | nil => intro w'; simp [emit_nil]
      | cons d ds ih =>
        intro w'
        rw [List.foldl_cons, ih]
        simp only [writeDeviceInfo, WriteUint32, emit_emit, List.flatMap_cons, deviceInfoBytes,
          List.append_assoc]
    have hle : le32 (w.devices.length % 2 ^ 32) = le32 w.devices.length := by
      unfold le32
      simp only [List.cons.injEq, and_true]
      refine ⟨?_, ?_, ?_, ?_⟩ <;> omega
    simp only [WriteUint32, emit_emit, hfold, hle]
    by_cases he : w.devices.isEmpty
    · simp only [he, ↓reduceIte, emit_emit, headerWith, defaultDeviceBytes, List.append_assoc]
    · simp only [he, Bool.false_eq_true, ↓reduceIte, headerWith, List.append_assoc,
        List.append_nil]

theorem opened_eq (w : S98Writer) :
    opened w =
      { file := some { bytes := headerWith 0 0 0 [], pos := 48 }, devices := [],
        dataStartOffset := 48, loopOffset := 0, tagOffset := 0, currentDataPos := 0,
        loopSet := false, deviceIdMap := [], nextDeviceId := 0 } := by
  unfold opened Open
  simp only [↓reduceIte, Close, WriteHeader_eq]
  simp only [S98Writer.emit, File.fwrite, File.before]
  simp [headerWith, defaultDeviceBytes, le32, File.ftell, S98_DEV_OPNA]

/-- The stream of a freshly opened writer: the 48 bytes of the placeholder header, with the
cursor behind them. -/
theorem opened_file (w : S98Writer) :
    (opened w).file = some { bytes := headerWith 0 0 0 [], pos := 48 } := by
  rw [opened_eq]

/-- Claim C3: for every 32-bit wait value, the bytes `WriteWait` writes on an open writer decode,
under the wait rules of the target format, to exactly that value, and the decoder consumes
exactly the bytes written. -/
theorem WriteWait_roundtrip (w : S98Writer) (f : File) (ticks : Nat) (hw : w.file = some f)
    (ht : ticks < 2 ^ 32) :
    (WriteWait w ticks).file = some (f.fwrite (waitBytes ticks)) ∧
    specDecodeWait (waitBytes ticks) = some (ticks, (waitBytes ticks).length) ∧
    (waitBytes ticks).length ≤ 6 := by
  refine ⟨WriteWait_file w f ticks hw, specDecodeWait_waitBytes ticks, ?_⟩
  unfold waitBytes
  by_cases h0 : ticks = 0
  · simp [h0]
  by_cases h1 : ticks = 1
  · simp [h1]
  simp only [h0, h1, ↓reduceIte, List.length_cons]
  have := varIntBytes_length_le 4 (ticks - 2) (by norm_num; omega)
  omega

theorem WriteWait_roundtrip_witness :
    (opened S98Writer.init).file = some { bytes := headerWith 0 0 0 [], pos := 48 } ∧
    (2000000 < 2 ^ 32) ∧
    (WriteWait (opened S98Writer.init) 2000000).file
      = some (File.fwrite { bytes := headerWith 0 0 0 [], pos := 48 } (waitBytes 2000000)) ∧
    specDecodeWait (waitBytes 2000000) = some (2000000, (waitBytes 2000000).length) ∧
    (waitBytes 2000000).length ≤ 6 :=
  ⟨opened_file _, by decide,
    WriteWait_roundtrip (opened S98Writer.init) _ 2000000 (opened_file _) (by decide)⟩

/-- Claim C4: for every value below 2^28 the bytes `WriteVarInt` writes decode to the value; all
but the last have bit 7 set and the last has it clear; the return value is the number of bytes
written (at most four); 0 is written as `00`, 127 as `7F` and 128 as `80 01`. -/
theorem WriteVarInt_roundtrip (w : S98Writer) (f : File) (v : Nat) (hw : w.file = some f)
    (hv : v < 2 ^ 28) :
    WriteVarInt w v
      = ((varIntBytes v).length, { w with file := some (f.fwrite (varIntBytes v)) }) ∧
    specDecodeVarInt (varIntBytes v) = some (v, (varIntBytes v).length) ∧
    (∀ b ∈ (varIntBytes v).dropLast, b &&& 0x80 = 0x80) ∧
    (∃ b, (varIntBytes v).getLast? = some b ∧ b &&& 0x80 = 0) ∧
    (1 ≤ (varIntBytes v).length ∧ (varIntBytes v).length ≤ 4) ∧
    (WriteVarInt w 0).2.file = some (f.fwrite [0x00]) ∧
    (WriteVarInt w 127).2.file = some (f.fwrite [0x7F]) ∧
    (WriteVarInt w 128).2.file = some (f.fwrite [0x80, 0x01]) := by
  have e0 : varIntBytes 0 = [0] := varIntBytes_lt 0 (by decide)
  have e127 : varIntBytes 127 = [127] := varIntBytes_lt 127 (by decide)
  have e128 : varIntBytes 128 = [128, 1] := by
    rw [varIntBytes_ge 128 (by decide)]
    rw [varIntBytes_lt (128 / 128) (by decide)]
  refine ⟨?_, specDecodeVarInt_varIntBytes v, varIntBytes_dropLast v, ?_, ⟨?_, ?_⟩, ?_, ?_, ?_⟩
  · rw [WriteVarInt_eq, emit_some w f _ hw]
  · obtain ⟨x, l, hl⟩ := List.exists_cons_of_ne_nil (varIntBytes_ne_nil v)
    cases hg : (varIntBytes v).getLast? with
    | none => rw [hl] at hg; simp at hg
    | some b => exact ⟨b, rfl, varIntBytes_getLast v b hg⟩
  · have := varIntBytes_ne_nil v
    exact List.length_pos.mpr this
  · exact varIntBytes_length_le 3 v (by norm_num; omega)
  · rw [WriteVarInt_eq, emit_file w f _ hw, e0]
  · rw [WriteVarInt_eq, emit_file w f _ hw, e127]
  · rw [WriteVarInt_eq, emit_file w f _ hw, e128]

theorem WriteVarInt_roundtrip_witness :
    (opened S98Writer.init).file = some { bytes := headerWith 0 0 0 [], pos := 48 } ∧
    (300 < 2 ^ 28) ∧
    specDecodeVarInt (varIntBytes 300) = some (300, (varIntBytes 300).length) :=
  ⟨opened_file _, by decide,
    (WriteVarInt_roundtrip (opened S98Writer.init) _ 300 (opened_file _) (by decide)).2.1⟩

/-- Claim C5: on an open writer `WriteWait(0)` writes nothing, `WriteWait(1)` writes the single
byte `FF`, and for every `samples ≥ 2` it writes `FE` followed by the bytes that `WriteVarInt`
writes for `samples - 2`; so `WriteWait(2)` writes `FE 00`. -/
theorem WriteWait_encoding (w : S98Writer) (f : File) (hw : w.file = some f) :
    WriteWait w 0 = w ∧
    (WriteWait w 1).file = some (f.fwrite [0xFF]) ∧
    (∀ samples, 2 ≤ samples →
      (WriteWait w samples).file = some (f.fwrite (0xFE :: varIntBytes (samples - 2))) ∧
      (WriteVarInt w (samples - 2)).2.file = some (f.fwrite (varIntBytes (samples - 2)))) ∧
    (WriteWait w 2).file = some (f.fwrite [0xFE, 0x00]) := by
  refine ⟨WriteWait_zero w, ?_, ?_, ?_⟩
  · rw [WriteWait_file w f 1 hw]; rfl
  · intro s hs
    constructor
    · rw [WriteWait_file w f s hw]
      unfold waitBytes
      rw [if_neg (by omega), if_neg (by omega)]
    · rw [WriteVarInt_eq, emit_file w f _ hw]
  · rw [WriteWait_file w f 2 hw]
    unfold waitBytes
    rw [if_neg (by decide), if_neg (by decide), varIntBytes_lt (2 - 2) (by decide)]

theorem WriteWait_encoding_witness :
    (opened S98Writer.init).file = some { bytes := headerWith 0 0 0 [], pos := 48 } ∧
    (WriteWait (opened S98Writer.init) 2).file
      = some (File.fwrite { bytes := headerWith 0 0 0 [], pos := 48 } [0xFE, 0x00]) :=
  ⟨opened_file _, (WriteWait_encoding (opened S98Writer.init) _ (opened_file _)).2.2.2⟩

/-! ## The device table -/

theorem mapFind_mapAssign (m : List (Nat × Nat)) (k v k' : Nat) :
    mapFind (mapAssign m k v) k' = if k' = k then some v else mapFind m k' := by
  induction m with
  | nil =>
    simp only [mapAssign, mapFind]
  | cons e m ih =>
    obtain ⟨a, b⟩ := e
    simp only [mapAssign]
    by_cases h1 : k < a
    · simp only [h1, ↓reduceIte, mapFind]
    · by_cases h2 : k = a
      · subst h2
        simp only [lt_self_iff_false, ↓reduceIte, mapFind]
        by_cases h3 : k' = k <;> simp [h3]
      · simp only [h1, h2, ↓reduceIte, mapFind, ih]
        by_cases h3 : k' = a
        · have : ¬ k' = k := by omega
          simp [h3, this, h2, Ne.symm h2]
        · simp [h3]

theorem any_type_iff (w : S98Writer) (k : Nat) :
    w.devices.any (fun d => d.type == k) = true ↔ k ∈ kindsOf w := by
  simp only [List.any_eq_true, beq_iff_eq, kindsOf, List.mem_map]

theorem AddDevice_of_mem (w : S98Writer) (k c p : Nat) (h : k ∈ kindsOf w) :
    AddDevice w k c p = w := by
  unfold AddDevice
  rw [if_pos ((any_type_iff w k).mpr h)]

theorem AddDevice_of_not_mem (w : S98Writer) (k c p : Nat) (h : k ∉ kindsOf w) :
    AddDevice w k c p =
      { w with
        devices := w.devices ++ [{ type := k, clock := c, pan := p, deviceId := w.nextDeviceId }]
        deviceIdMap := mapAssign w.deviceIdMap k w.nextDeviceId
        nextDeviceId := (w.nextDeviceId + 2) % 256 } := by
  unfold AddDevice
  rw [if_neg (fun h' => h ((any_type_iff w k).mp h'))]

theorem DevInv_of_fresh (w : S98Writer) (h : w.devices = [] ∧ w.deviceIdMap = [] ∧ w.nextDeviceId = 0) :
    DevInv w := by
  obtain ⟨h1, h2, h3⟩ := h
  refine ⟨?_, ?_, ?_, ?_⟩
  · simp [kindsOf, h1]
  · simp [h1]
  · simp [h1, h3]
  · intro k; simp [kindsOf, h1, h2, mapFind]

theorem DevInv_AddDevice (w : S98Writer) (k c p : Nat) (h : DevInv w) :
    DevInv (AddDevice w k c p) := by
  by_cases hk : k ∈ kindsOf w
  · rw [AddDevice_of_mem w k c p hk]; exact h
  · rw [AddDevice_of_not_mem w k c p hk]
    refine ⟨?_, ?_, ?_, ?_⟩
    · simp only [kindsOf, List.map_append, List.map_cons, List.map_nil]
      have := h.nodup
      rw [List.nodup_append]
      refine ⟨this, by simp, ?_⟩
      intro a ha hb
      simp only [List.mem_singleton] at hb
      subst hb
      exact hk ha
    · simp only [List.map_append, List.map_cons, List.map_nil, List.length_append,
        List.length_singleton, List.range_succ, h.ids, h.next]
    · simp only [List.length_append, List.length_singleton, h.next]
      omega
    · intro k'
      simp only [mapFind_mapAssign, h.find, kindsOf, List.map_append, List.map_cons,
        List.map_nil, List.mem_append, List.mem_singleton]
      by_cases e : k' = k
      · subst e
        have hk' : k' ∉ List.map S98Device.type w.devices := hk
        simp only [↓reduceIte, or_true, h.next]
        rw [List.indexOf_append_of_not_mem hk']
        simp
      · have e' : ¬ k = k' := fun x => e x.symm
        simp only [e, ↓reduceIte, or_false]
        by_cases hm : k' ∈ List.map S98Device.type w.devices
        · simp only [hm, ↓reduceIte]
          rw [List.indexOf_append_of_mem hm]
        · simp only [hm, ↓reduceIte]

theorem addAll_nil (w : S98Writer) : addAll w [] = w := rfl

theorem addAll_cons (w : S98Writer) (c : Nat × Nat × Nat) (cs : List (Nat × Nat × Nat)) :
    addAll w (c :: cs) = addAll (AddDevice w c.1 c.2.1 c.2.2) cs := rfl

theorem addAll_append (w : S98Writer) (a b : List (Nat × Nat × Nat)) :
    addAll w (a ++ b) = addAll (addAll w a) b := by
  simp [addAll, List.foldl_append]

theorem DevInv_addAll (calls : List (Nat × Nat × Nat)) : ∀ (w : S98Writer), DevInv w →
    DevInv (addAll w calls) := by
  induction calls with
  | nil => intro w h; exact h
  | cons c cs ih => intro w h; exact ih _ (DevInv_AddDevice w _ _ _ h)

theorem kindsOf_AddDevice (w : S98Writer) (k c p : Nat) :
    kindsOf (AddDevice w k c p) = if k ∈ kindsOf w then kindsOf w else kindsOf w ++ [k] := by
  by_cases hk : k ∈ kindsOf w
  · rw [AddDevice_of_mem w k c p hk, if_pos hk]
  · rw [AddDevice_of_not_mem w k c p hk, if_neg hk]
    simp [kindsOf]

/-- The device table only grows at its end. -/
theorem kindsOf_addAll_extends (calls : List (Nat × Nat × Nat)) : ∀ (w : S98Writer),
    ∃ extra, kindsOf (addAll w calls) = kindsOf w ++ extra := by
  induction calls with
  | nil => intro w; exact ⟨[], by simp [addAll_nil]⟩
  | cons c cs ih =>
    intro w
    obtain ⟨e, he⟩ := ih (AddDevice w c.1 c.2.1 c.2.2)
    rw [addAll_cons, he, kindsOf_AddDevice]
    by_cases hk : c.1 ∈ kindsOf w
    · exact ⟨e, by rw [if_pos hk]⟩
    · exact ⟨[c.1] ++ e, by rw [if_neg hk]; simp⟩

theorem mem_kindsOf_addAll (calls : List (Nat × Nat × Nat)) : ∀ (w : S98Writer) (k : Nat),
    k ∈ kindsOf (addAll w calls) ↔ k ∈ kindsOf w ∨ k ∈ calls.map Prod.fst := by
  induction calls with
  | nil => intro w k; simp [addAll_nil]
  | cons c cs ih =>
    intro w k
    rw [addAll_cons, ih, kindsOf_AddDevice]
    by_cases hk : c.1 ∈ kindsOf w
    · rw [if_pos hk]
      simp only [List.map_cons, List.mem_cons]
      constructor
      · rintro (h | h)
        · exact Or.inl h
        · exact Or.inr (Or.inr h)
      · rintro (h | h | h)
        · exact Or.inl h
        · exact Or.inl (h ▸ hk)
        · exact Or.inr h
    · rw [if_neg hk]
      simp only [List.mem_append, List.mem_singleton, List.map_cons, List.mem_cons]
      tauto

theorem length_devices_addAll (w : S98Writer) (calls : List (Nat × Nat × Nat))
    (h : w.devices = [] ∧ w.deviceIdMap = [] ∧ w.nextDeviceId = 0) :
    (addAll w calls).devices.length = (calls.map Prod.fst).dedup.length := by
  have hinv := DevInv_addAll calls w (DevInv_of_fresh w h)
  have hperm : (kindsOf (addAll w calls)).Perm (calls.map Prod.fst).dedup := by
    rw [List.perm_ext_iff_of_nodup hinv.nodup (List.nodup_dedup _)]
    intro a
    rw [mem_kindsOf_addAll, List.mem_dedup]
    simp [kindsOf, h.1]
  have := hperm.length_eq
  simpa [kindsOf] using this

theorem GetDeviceId_of_inv (w : S98Writer) (k : Nat) (h : DevInv w) :
    GetDeviceId w k = if k ∈ kindsOf w then 2 * (kindsOf w).indexOf k % 256 else 0xFF := by
  unfold GetDeviceId
  rw [h.find]
  by_cases hk : k ∈ kindsOf w <;> simp [hk]

theorem kindsOf_fresh_addAll_mem (w0 : S98Writer)
    (hfresh : w0.devices = [] ∧ w0.deviceIdMap = [] ∧ w0.nextDeviceId = 0)
    (calls : List (Nat × Nat × Nat)) (k : Nat) :
    k ∈ kindsOf (addAll w0 calls) ↔ k ∈ calls.map Prod.fst := by
  rw [mem_kindsOf_addAll]
  simp [kindsOf, hfresh.1]

theorem length_kindsOf (w : S98Writer) : (kindsOf w).length = w.devices.length := by
  simp [kindsOf]

/-- Claim C6: in a sequence of `AddDevice` calls on a fresh writer that names fewer than 128
kinds, a call naming a kind seen before leaves the whole writer unchanged, and a call naming a
new kind appends it with ID twice the number of kinds added before it, which is what
`GetDeviceId` returns for it from then on; IDs are even and differ between kinds; after
A, B, A, C the IDs are 0, 2, 4. -/
theorem AddDevice_sequence (w0 : S98Writer)
    (hfresh : w0.devices = [] ∧ w0.deviceIdMap = [] ∧ w0.nextDeviceId = 0)
    (calls : List (Nat × Nat × Nat))
    (h128 : (calls.map Prod.fst).dedup.length < 128) :
    (∀ pre k c p post, calls = pre ++ (k, c, p) :: post →
      (k ∈ pre.map Prod.fst → AddDevice (addAll w0 pre) k c p = addAll w0 pre) ∧
      (k ∉ pre.map Prod.fst →
        AddDevice (addAll w0 pre) k c p =
          { addAll w0 pre with
            devices := (addAll w0 pre).devices ++
              [{ type := k, clock := c, pan := p,
                 deviceId := 2 * (pre.map Prod.fst).dedup.length }]
            deviceIdMap := mapAssign (addAll w0 pre).deviceIdMap k
              (2 * (pre.map Prod.fst).dedup.length)
            nextDeviceId := (2 * (pre.map Prod.fst).dedup.length + 2) % 256 } ∧
        GetDeviceId (addAll w0 calls) k = 2 * (pre.map Prod.fst).dedup.length)) ∧
    (∀ k ∈ calls.map Prod.fst, GetDeviceId (addAll w0 calls) k % 2 = 0) ∧
    (∀ k1 ∈ calls.map Prod.fst, ∀ k2 ∈ calls.map Prod.fst, k1 ≠ k2 →
      GetDeviceId (addAll w0 calls) k1 ≠ GetDeviceId (addAll w0 calls) k2) ∧
    (∀ a b c ca pa cb pb ca' pa' cc pc, a ≠ b → a ≠ c → b ≠ c →
      GetDeviceId (addAll w0 [(a, ca, pa), (b, cb, pb), (a, ca', pa'), (c, cc, pc)]) a = 0 ∧
      GetDeviceId (addAll w0 [(a, ca, pa), (b, cb, pb), (a, ca', pa'), (c, cc, pc)]) b = 2 ∧
      GetDeviceId (addAll w0 [(a, ca, pa), (b, cb, pb), (a, ca', pa'), (c, cc, pc)]) c = 4) := by
  have hinv0 := DevInv_of_fresh w0 hfresh
  have hinv := DevInv_addAll calls w0 hinv0
  have hlen := length_devices_addAll w0 calls hfresh
  refine ⟨?_, ?_, ?_, ?_⟩
  · intro pre k c p post hcalls
    have hpinv := DevInv_addAll pre w0 hinv0
    have hplen := length_devices_addAll w0 pre hfresh
    constructor
    · intro hk
      exact AddDevice_of_mem _ k c p ((kindsOf_fresh_addAll_mem w0 hfresh pre k).mpr hk)
    · intro hk
      have hk' : k ∉ kindsOf (addAll w0 pre) :=
        fun h => hk ((kindsOf_fresh_addAll_mem w0 hfresh pre k).mp h)
      have hsplit : addAll w0 calls = addAll (AddDevice (addAll w0 pre) k c p) post := by
        rw [hcalls, addAll_append, addAll_cons]
      obtain ⟨extra, hext⟩ := kindsOf_addAll_extends post (AddDevice (addAll w0 pre) k c p)
      rw [← hsplit, kindsOf_AddDevice, if_neg hk'] at hext
      have hle : (pre.map Prod.fst).dedup.length < 128 := by
        have h1 : (kindsOf (addAll w0 calls)).length
            = (kindsOf (addAll w0 pre)).length + 1 + extra.length := by
          rw [hext]; simp only [List.length_append, List.length_singleton]
        rw [length_kindsOf, length_kindsOf, hlen, hplen] at h1
        omega
      constructor
      · rw [AddDevice_of_not_mem _ k c p hk', hpinv.next, hplen]
        have e : 2 * (pre.map Prod.fst).dedup.length % 256 = 2 * (pre.map Prod.fst).dedup.length := by
          omega
        rw [e]
      · rw [GetDeviceId_of_inv _ k hinv, hext]
        have hmem : k ∈ kindsOf (addAll w0 pre) ++ [k] ++ extra := by simp
        rw [if_pos hmem, List.append_assoc, List.indexOf_append_of_not_mem hk']
        simp only [List.singleton_append, List.indexOf_cons_self, Nat.add_zero, length_kindsOf,
          hplen]
        omega
  · intro k hk
    have hk' := (kindsOf_fresh_addAll_mem w0 hfresh calls k).mpr hk
    rw [GetDeviceId_of_inv _ k hinv, if_pos hk']
    omega
  · intro k1 hk1 k2 hk2 hne
    have hk1' := (kindsOf_fresh_addAll_mem w0 hfresh calls k1).mpr hk1
    have hk2' := (kindsOf_fresh_addAll_mem w0 hfresh calls k2).mpr hk2
    rw [GetDeviceId_of_inv _ k1 hinv, GetDeviceId_of_inv _ k2 hinv, if_pos hk1', if_pos hk2']
    have h1 := List.indexOf_lt_length.mpr hk1'
    have h2 := List.indexOf_lt_length.mpr hk2'
    have h3 : List.indexOf k1 (kindsOf (addAll w0 calls))
        ≠ List.indexOf k2 (kindsOf (addAll w0 calls)) := by
      intro h
      exact hne ((List.indexOf_inj hk1' hk2').mp h)
    rw [length_kindsOf, hlen] at h1 h2
    omega
  · intro a b c ca pa cb pb ca' pa' cc pc hab hac hbc
    have hinv4 := DevInv_addAll [(a, ca, pa), (b, cb, pb), (a, ca', pa'), (c, cc, pc)] w0 hinv0
    have hk : kindsOf (addAll w0 [(a, ca, pa), (b, cb, pb), (a, ca', pa'), (c, cc, pc)])
        = [a, b, c] := by
      have h0 : kindsOf w0 = [] := by simp [kindsOf, hfresh.1]
      simp only [addAll_cons, addAll_nil, kindsOf_AddDevice, h0, List.not_mem_nil, ↓reduceIte,
        List.nil_append, List.mem_singleton, Ne.symm hab, List.singleton_append, List.mem_cons,
        true_or, Ne.symm hac, Ne.symm hbc, or_self, List.cons_append]
    simp only [GetDeviceId_of_inv _ _ hinv4, hk, List.mem_cons, true_or, or_true, ↓reduceIte,
      List.indexOf_cons_self, List.mem_singleton]
    refine ⟨by simp, ?_, ?_⟩
    · rw [List.indexOf_cons_ne _ hab, List.indexOf_cons_self]
    · rw [List.indexOf_cons_ne _ hac, List.indexOf_cons_ne _ hbc, List.indexOf_cons_self]

theorem AddDevice_sequence_witness :
    (S98Writer.init.devices = [] ∧ S98Writer.init.deviceIdMap = [] ∧
      S98Writer.init.nextDeviceId = 0) ∧
    ((([(4, 7987200, 0), (3, 7670453, 0), (4, 8000000, 1), (16, 3579545, 0)] :
      List (Nat × Nat × Nat)).map Prod.fst).dedup.length < 128) ∧
    GetDeviceId (addAll S98Writer.init
      [(4, 7987200, 0), (3, 7670453, 0), (4, 8000000, 1), (16, 3579545, 0)]) 16 = 4 :=
  ⟨⟨rfl, rfl, rfl⟩, by decide,
    ((AddDevice_sequence S98Writer.init ⟨rfl, rfl, rfl⟩
      [(4, 7987200, 0), (3, 7670453, 0), (4, 8000000, 1), (16, 3579545, 0)] (by decide)).2.2.2
        4 3 16 7987200 0 7670453 0 8000000 1 3579545 0 (by decide) (by decide) (by decide)).2.2⟩

/-! ## Single calls on an open writer -/

theorem WriteRegister_eq (w : S98Writer) (f : File) (deviceId reg data : Nat)
    (hw : w.file = some f) :
    WriteRegister w deviceId reg data =
      { w with
        file := some (f.fwrite [deviceId % 256, reg % 256, data % 256])
        currentDataPos := (w.currentDataPos + 3) % 2 ^ 32 } := by
  unfold WriteRegister
  rw [hw]
  simp only [WriteUint8, emit_emit]
  rw [emit_some w f _ hw]
  simp

theorem WriteEnd_eq (w : S98Writer) (f : File) (hw : w.file = some f) :
    WriteEnd w =
      { w with
        file := some (f.fwrite [0xFD])
        currentDataPos := (w.currentDataPos + 1) % 2 ^ 32 } := by
  unfold WriteEnd
  rw [hw]
  simp only [WriteUint8, emit_some w f _ hw]

theorem SetLoopPoint_eq (w : S98Writer) (f : File) (hw : w.file = some f) :
    SetLoopPoint w =
      if w.loopSet then w else { w with loopOffset := w.currentDataPos, loopSet := true } := by
  unfold SetLoopPoint
  rw [hw]
  simp

theorem WriteTag_eq (w : S98Writer) (f : File) (tags : List (List Nat × List Nat))
    (hw : w.file = some f) :
    WriteTag w tags =
      { w with file := some (f.fwrite (tagBlock tags)), tagOffset := f.pos % 2 ^ 32 } := by
  unfold WriteTag
  rw [hw]
  have hfold : ∀ (ts : List (List Nat × List Nat)) (w' : S98Writer),
      ts.foldl (fun acc pair => acc.emit (tagLine pair)) w' = w'.emit (ts.flatMap tagLine) := by
    intro ts
    induction ts with
    | nil => intro w'; simp [emit_nil]
    | cons t ts ih =>
      intro w'
      rw [List.foldl_cons, ih, emit_emit, List.flatMap_cons]
  simp only [WriteUint8, hfold, emit_emit, File.ftell]
  rw [emit_some _ f _ (by simp [hw])]
  simp [tagBlock]

@[simp] theorem AddDevice_file (w : S98Writer) (k c p : Nat) :
    (AddDevice w k c p).file = w.file := by
  unfold AddDevice; split <;> rfl

@[simp] theorem AddDevice_dataStartOffset (w : S98Writer) (k c p : Nat) :
    (AddDevice w k c p).dataStartOffset = w.dataStartOffset := by
  unfold AddDevice; split <;> rfl

@[simp] theorem AddDevice_currentDataPos (w : S98Writer) (k c p : Nat) :
    (AddDevice w k c p).currentDataPos = w.currentDataPos := by
  unfold AddDevice; split <;> rfl

@[simp] theorem AddDevice_loopOffset (w : S98Writer) (k c p : Nat) :
    (AddDevice w k c p).loopOffset = w.loopOffset := by
  unfold AddDevice; split <;> rfl

@[simp] theorem AddDevice_loopSet (w : S98Writer) (k c p : Nat) :
    (AddDevice w k c p).loopSet = w.loopSet := by
  unfold AddDevice; split <;> rfl

@[simp] theorem AddDevice_tagOffset (w : S98Writer) (k c p : Nat) :
    (AddDevice w k c p).tagOffset = w.tagOffset := by
  unfold AddDevice; split <;> rfl

/-- The stream after one call: the call's output written at the cursor. -/
theorem run_file (w : S98Writer) (f : File) (op : WriterOp) (hw : w.file = some f) :
    (op.run w).file = some (f.fwrite op.output) := by
  cases op with
  | addDevice k c p => simp [WriterOp.run, WriterOp.output, WriterOp.eventBytes, hw, File.fwrite_nil]
  | writeWait t => simp [WriterOp.run, WriterOp.output, WriterOp.eventBytes, WriteWait_file w f t hw]
  | writeRegister d r v =>
    simp [WriterOp.run, WriterOp.output, WriterOp.eventBytes, WriteRegister_eq w f d r v hw]
  | writeEnd => simp [WriterOp.run, WriterOp.output, WriterOp.eventBytes, WriteEnd_eq w f hw]
  | setLoopPoint =>
    simp only [WriterOp.run, WriterOp.output, WriterOp.eventBytes, SetLoopPoint_eq w f hw,
      File.fwrite_nil]
    split <;> simp [hw]
  | writeTags t => simp [WriterOp.run, WriterOp.output, WriteTag_eq w f t hw]

theorem run_dataStartOffset (w : S98Writer) (f : File) (op : WriterOp) (hw : w.file = some f) :
    (op.run w).dataStartOffset = w.dataStartOffset := by
  cases op with
  | addDevice k c p => simp [WriterOp.run]
  | writeWait t =>
    simp only [WriterOp.run]
    unfold WriteWait
    rw [hw]
    simp only [WriteVarInt_eq, WriteUint8]
    split
    · rfl
    · split <;> simp
  | writeRegister d r v => simp [WriterOp.run, WriteRegister_eq w f d r v hw]
  | writeEnd => simp [WriterOp.run, WriteEnd_eq w f hw]
  | setLoopPoint =>
    simp only [WriterOp.run, SetLoopPoint_eq w f hw]
    split <;> rfl
  | writeTags t => simp [WriterOp.run, WriteTag_eq w f t hw]

theorem run_currentDataPos (w : S98Writer) (f : File) (op : WriterOp) (hw : w.file = some f)
    (hc : w.currentDataPos < 2 ^ 32) :
    (op.run w).currentDataPos = (w.currentDataPos + op.eventBytes.length) % 2 ^ 32 := by
  have hc' : w.currentDataPos % 4294967296 = w.currentDataPos := Nat.mod_eq_of_lt hc
  cases op with
  | addDevice k c p => simp [WriterOp.run, WriterOp.eventBytes, hc']
  | writeWait t => simp [WriterOp.run, WriterOp.eventBytes, WriteWait_eq w f t hw hc]
  | writeRegister d r v => simp [WriterOp.run, WriterOp.eventBytes, WriteRegister_eq w f d r v hw]
  | writeEnd => simp [WriterOp.run, WriterOp.eventBytes, WriteEnd_eq w f hw]
  | setLoopPoint =>
    simp only [WriterOp.run, WriterOp.eventBytes, SetLoopPoint_eq w f hw, List.length_nil,
      Nat.add_zero]
    split <;> simp [hc']
  | writeTags t => simp [WriterOp.run, WriterOp.eventBytes, WriteTag_eq w f t hw, hc']

theorem run_devices (w : S98Writer) (f : File) (op : WriterOp) (hw : w.file = some f)
    (hop : op.isAddDevice = false) :
    (op.run w).devices = w.devices ∧ (op.run w).deviceIdMap = w.deviceIdMap ∧
    (op.run w).nextDeviceId = w.nextDeviceId := by
  cases op with
  | addDevice k c p => simp [WriterOp.isAddDevice] at hop
  | writeWait t =>
    simp only [WriterOp.run]
    unfold WriteWait
    rw [hw]
    simp only [WriteVarInt_eq, WriteUint8]
    split
    · exact ⟨rfl, rfl, rfl⟩
    · split <;> simp
  | writeRegister d r v => simp [WriterOp.run, WriteRegister_eq w f d r v hw]
  | writeEnd => simp [WriterOp.run, WriteEnd_eq w f hw]
  | setLoopPoint =>
    simp only [WriterOp.run, SetLoopPoint_eq w f hw]
    split <;> exact ⟨rfl, rfl, rfl⟩
  | writeTags t => simp [WriterOp.run, WriteTag_eq w f t hw]

theorem run_tagOffset (w : S98Writer) (f : File) (op : WriterOp) (hw : w.file = some f)
    (hop : op.isWriteTags = false) :
    (op.run w).tagOffset = w.tagOffset := by
  cases op with
  | addDevice k c p => simp [WriterOp.run]
  | writeWait t =>
    simp only [WriterOp.run]
    unfold WriteWait
    rw [hw]
    simp only [WriteVarInt_eq, WriteUint8]
    split
    · rfl
    · split <;> simp
  | writeRegister d r v => simp [WriterOp.run, WriteRegister_eq w f d r v hw]
  | writeEnd => simp [WriterOp.run, WriteEnd_eq w f hw]
  | setLoopPoint =>
    simp only [WriterOp.run, SetLoopPoint_eq w f hw]
    split <;> rfl
  | writeTags t => simp [WriterOp.isWriteTags] at hop

theorem run_loop (w : S98Writer) (f : File) (op : WriterOp) (hw : w.file = some f)
    (hop : op.isSetLoopPoint = false ∨ w.loopSet = true) :
    (op.run w).loopSet = w.loopSet ∧ (op.run w).loopOffset = w.loopOffset := by
  cases op with
  | addDevice k c p => simp [WriterOp.run]
  | writeWait t =>
    simp only [WriterOp.run]
    unfold WriteWait
    rw [hw]
    simp only [WriteVarInt_eq, WriteUint8]
    split
    · exact ⟨rfl, rfl⟩
    · split <;> simp
  | writeRegister d r v => simp [WriterOp.run, WriteRegister_eq w f d r v hw]
  | writeEnd => simp [WriterOp.run, WriteEnd_eq w f hw]
  | setLoopPoint =>
    simp only [WriterOp.isSetLoopPoint, Bool.true_eq_false, false_or] at hop
    simp only [WriterOp.run, SetLoopPoint_eq w f hw, hop, ↓reduceIte, and_self]
  | writeTags t => simp [WriterOp.run, WriteTag_eq w f t hw]

/-! ## Sequences of calls -/

theorem runOps_nil (w : S98Writer) : runOps w [] = w := rfl

theorem runOps_cons (w : S98Writer) (op : WriterOp) (ops : List WriterOp) :
    runOps w (op :: ops) = runOps (op.run w) ops := rfl

theorem runOps_append (w : S98Writer) (a b : List WriterOp) :
    runOps w (a ++ b) = runOps (runOps w a) b := by
  simp [runOps, List.foldl_append]

theorem runOps_file (ops : List WriterOp) : ∀ (w : S98Writer) (f : File), w.file = some f →
    (runOps w ops).file = some (f.fwrite (ops.flatMap WriterOp.output)) := by
  induction ops with
  | nil => intro w f hw; simp [runOps_nil, hw, File.fwrite_nil]
  | cons op ops ih =>
    intro w f hw
    rw [runOps_cons, ih _ _ (run_file w f op hw), File.fwrite_append, List.flatMap_cons]

theorem runOps_dataStartOffset (ops : List WriterOp) : ∀ (w : S98Writer) (f : File),
    w.file = some f → (runOps w ops).dataStartOffset = w.dataStartOffset := by
  induction ops with
  | nil => intro w f _; rfl
  | cons op ops ih =>
    intro w f hw
    rw [runOps_cons, ih _ _ (run_file w f op hw), run_dataStartOffset w f op hw]

theorem runOps_currentDataPos (ops : List WriterOp) : ∀ (w : S98Writer) (f : File),
    w.file = some f → w.currentDataPos < 2 ^ 32 →
    (runOps w ops).currentDataPos
      = (w.currentDataPos + (ops.flatMap WriterOp.eventBytes).length) % 2 ^ 32 := by
  induction ops with
  | nil =>
    intro w f _ hc
    have hc' : w.currentDataPos % 4294967296 = w.currentDataPos := Nat.mod_eq_of_lt hc
    simp [runOps_nil, hc']
  | cons op ops ih =>
    intro w f hw hc
    have h1 := run_currentDataPos w f op hw hc
    have h2 : (op.run w).currentDataPos < 2 ^ 32 := by
      rw [h1]; exact Nat.mod_lt _ (by decide)
    rw [runOps_cons, ih _ _ (run_file w f op hw) h2, h1, List.flatMap_cons, List.length_append,
      Nat.mod_add_mod, Nat.add_assoc]

theorem runOps_tagOffset (ops : List WriterOp) : ∀ (w : S98Writer) (f : File),
    w.file = some f → (∀ op ∈ ops, op.isWriteTags = false) →
    (runOps w ops).tagOffset = w.tagOffset := by
  induction ops with
  | nil => intro w f _ _; rfl
  | cons op ops ih =>
    intro w f hw h
    rw [runOps_cons, ih _ _ (run_file w f op hw) (fun o ho => h o (List.mem_cons_of_mem _ ho)),
      run_tagOffset w f op hw (h op (List.mem_cons_self _ _))]

theorem runOps_loop (ops : List WriterOp) : ∀ (w : S98Writer) (f : File),
    w.file = some f → ((∀ op ∈ ops, op.isSetLoopPoint = false) ∨ w.loopSet = true) →
    (runOps w ops).loopSet = w.loopSet ∧ (runOps w ops).loopOffset = w.loopOffset := by
  induction ops with
  | nil => intro w f _ _; exact ⟨rfl, rfl⟩
  | cons op ops ih =>
    intro w f hw h
    have h1 : op.isSetLoopPoint = false ∨ w.loopSet = true := by
      rcases h with h | h
      · exact Or.inl (h op (List.mem_cons_self _ _))
      · exact Or.inr h
    obtain ⟨e1, e2⟩ := run_loop w f op hw h1
    have h2 : (∀ o ∈ ops, o.isSetLoopPoint = false) ∨ (op.run w).loopSet = true := by
      rcases h with h | h
      · exact Or.inl (fun o ho => h o (List.mem_cons_of_mem _ ho))
      · exact Or.inr (by rw [e1]; exact h)
    obtain ⟨e3, e4⟩ := ih _ _ (run_file w f op hw) h2
    rw [runOps_cons, e3, e4, e1, e2]
    exact ⟨rfl, rfl⟩

theorem AddDevice_congr (w w' : S98Writer) (k c p : Nat)
    (h : w.devices = w'.devices ∧ w.deviceIdMap = w'.deviceIdMap ∧
      w.nextDeviceId = w'.nextDeviceId) :
    (AddDevice w k c p).devices = (AddDevice w' k c p).devices ∧
    (AddDevice w k c p).deviceIdMap = (AddDevice w' k c p).deviceIdMap ∧
    (AddDevice w k c p).nextDeviceId = (AddDevice w' k c p).nextDeviceId := by
  obtain ⟨h1, h2, h3⟩ := h
  unfold AddDevice
  rw [h1]
  split
  · exact ⟨h1, h2, h3⟩
  · simp [h1, h2, h3]

theorem addAll_congr (calls : List (Nat × Nat × Nat)) : ∀ (w w' : S98Writer),
    (w.devices = w'.devices ∧ w.deviceIdMap = w'.deviceIdMap ∧
      w.nextDeviceId = w'.nextDeviceId) →
    (addAll w calls).devices = (addAll w' calls).devices ∧
    (addAll w calls).deviceIdMap = (addAll w' calls).deviceIdMap ∧
    (addAll w calls).nextDeviceId = (addAll w' calls).nextDeviceId := by
  induction calls with
  | nil => intro w w' h; exact h
  | cons c cs ih =>
    intro w w' h
    rw [addAll_cons, addAll_cons]
    exact ih _ _ (AddDevice_congr w w' _ _ _ h)

/-- The device table after a sequence of calls is the one its `AddDevice` calls build. -/
theorem runOps_devices (ops : List WriterOp) : ∀ (w : S98Writer) (f : File), w.file = some f →
    (runOps w ops).devices = (addAll w (addCalls ops)).devices ∧
    (runOps w ops).deviceIdMap = (addAll w (addCalls ops)).deviceIdMap ∧
    (runOps w ops).nextDeviceId = (addAll w (addCalls ops)).nextDeviceId := by
  induction ops with
  | nil => intro w f _; exact ⟨rfl, rfl, rfl⟩
  | cons op ops ih =>
    intro w f hw
    rw [runOps_cons]
    have hih := ih _ _ (run_file w f op hw)
    cases hop : op.isAddDevice with
    | true =>
      cases op with
      | addDevice k c p => exact hih
      | _ => simp [WriterOp.isAddDevice] at hop
    | false =>
      have hfr := run_devices w f op hw hop
      have hc := addAll_congr (addCalls ops) _ _ hfr
      have hadd : addCalls (op :: ops) = addCalls ops := by
        cases op with
        | addDevice k c p => simp [WriterOp.isAddDevice] at hop
        | _ => rfl
      rw [hadd]
      exact ⟨hih.1.trans hc.1, hih.2.1.trans hc.2.1, hih.2.2.trans hc.2.2⟩

theorem firstByKind_addAll (calls : List (Nat × Nat × Nat)) : ∀ (w : S98Writer),
    (addAll w calls).devices.map (fun d => (d.type, d.clock, d.pan))
      = w.devices.map (fun d => (d.type, d.clock, d.pan))
        ++ (firstByKind calls).filter (fun c => decide (c.1 ∉ kindsOf w)) := by
  induction calls with
  | nil => intro w; simp [addAll_nil, firstByKind]
  | cons c cs ih =>
    intro w
    rw [addAll_cons, ih]
    by_cases hk : c.1 ∈ kindsOf w
    · rw [AddDevice_of_mem w _ _ _ hk]
      congr 1
      simp only [firstByKind, List.filter_cons, hk, not_true_eq_false, decide_False,
        Bool.false_eq_true, ↓reduceIte, List.filter_filter]
      apply List.filter_congr
      intro x _
      by_cases hx : x.1 ∈ kindsOf w
      · simp [hx]
      · have : x.1 ≠ c.1 := fun e => hx (e ▸ hk)
        simp [hx, this]
    · rw [AddDevice_of_not_mem w _ _ _ hk]
      have hk' : decide (c.1 ∉ kindsOf w) = true := by simp [hk]
      simp only [List.map_append, List.map_cons, List.map_nil, List.append_assoc,
        List.singleton_append, firstByKind, List.filter_cons, hk', ↓reduceIte,
        List.filter_filter]
      congr 2
      apply List.filter_congr
      intro x _
      by_cases hx : x.1 = c.1
      · simp [hx, kindsOf]
      · simp [hx, kindsOf]

/-! ## Finalisation -/

theorem File.fwrite_at (pre old post data : List Nat) (p : Nat) (hp : pre.length = p)
    (ho : old.length = data.length) (hne : data ≠ []) :
    File.fwrite { bytes := pre ++ old ++ post, pos := p } data
      = { bytes := pre ++ data ++ post, pos := p + data.length } := by
  rw [File.fwrite_of_ne _ data hne]
  have e : pre ++ old ++ post = pre ++ (old ++ post) := List.append_assoc _ _ _
  simp only [e, File.before_mk pre (old ++ post) p hp]
  rw [drop_prefix_length pre (old ++ post) p data.length hp, ← ho, List.drop_left]

theorem le32_length (v : Nat) : (le32 v).length = 4 := rfl

theorem le32_ne_nil (v : Nat) : le32 v ≠ [] := by simp [le32]

theorem seek_some (w : S98Writer) (f : File) (p : Nat) (hw : w.file = some f) :
    w.seek p = { w with file := some { bytes := f.bytes, pos := p } } := by
  unfold S98Writer.seek
  rw [hw]
  rfl

@[simp] theorem seek_devices (w : S98Writer) (p : Nat) : (w.seek p).devices = w.devices := by
  unfold S98Writer.seek; split <;> rfl

@[simp] theorem seek_dataStartOffset (w : S98Writer) (p : Nat) :
    (w.seek p).dataStartOffset = w.dataStartOffset := by
  unfold S98Writer.seek; split <;> rfl

@[simp] theorem seek_loopOffset (w : S98Writer) (p : Nat) :
    (w.seek p).loopOffset = w.loopOffset := by
  unfold S98Writer.seek; split <;> rfl

@[simp] theorem seek_tagOffset (w : S98Writer) (p : Nat) :
    (w.seek p).tagOffset = w.tagOffset := by
  unfold S98Writer.seek; split <;> rfl

@[simp] theorem seek_currentDataPos (w : S98Writer) (p : Nat) :
    (w.seek p).currentDataPos = w.currentDataPos := by
  unfold S98Writer.seek; split <;> rfl

@[simp] theorem seek_loopSet (w : S98Writer) (p : Nat) : (w.seek p).loopSet = w.loopSet := by
  unfold S98Writer.seek; split <;> rfl

@[simp] theorem seek_deviceIdMap (w : S98Writer) (p : Nat) :
    (w.seek p).deviceIdMap = w.deviceIdMap := by
  unfold S98Writer.seek; split <;> rfl

@[simp] theorem seek_nextDeviceId (w : S98Writer) (p : Nat) :
    (w.seek p).nextDeviceId = w.nextDeviceId := by
  unfold S98Writer.seek; split <;> rfl

/-- A 32-bit field of the header overwritten in place. -/
theorem patch32 (w : S98Writer) (pre old post : List Nat) (p q v : Nat)
    (hf : w.file = some { bytes := pre ++ old ++ post, pos := q }) (hp : pre.length = p)
    (ho : old.length = 4) :
    WriteUint32 (w.seek p) v
      = { w with file := some { bytes := pre ++ le32 v ++ post, pos := p + 4 } } := by
  rw [seek_some w _ p hf]
  unfold WriteUint32
  rw [emit_some _ { bytes := pre ++ old ++ post, pos := p } _ rfl,
    File.fwrite_at pre old post (le32 v) p hp (by rw [ho, le32_length]) (le32_ne_nil v)]
  rfl

theorem headerWith_length (t d l : Nat) (devs : List S98Device) :
    (headerWith t d l devs).length
      = 32 + 16 * (if devs = [] then 1 else devs.length) := by
  have hfl : ∀ ds : List S98Device, (ds.flatMap deviceInfoBytes).length = 16 * ds.length := by
    intro ds
    induction ds with
    | nil => rfl
    | cons x xs ih =>
      simp only [List.flatMap_cons, List.length_append, ih, List.length_cons, deviceInfoBytes,
        le32_length]
      omega
  cases devs with
  | nil => rfl
  | cons x xs =>
    simp only [headerWith, List.length_append, le32_length, hfl, List.isEmpty_cons,
      Bool.false_eq_true, ↓reduceIte, List.length_nil, List.length_cons, reduceCtorEq]
    omega

theorem Finalize_eq (w : S98Writer) (f : File) (hw : w.file = some f) :
    Finalize w =
      { w with
        file := some
          { bytes := headerWith w.tagOffset w.dataStartOffset (loopField w) w.devices
              ++ f.bytes.drop (headerWith 0 0 0 w.devices).length
            pos := f.pos % 2 ^ 32 } } := by
  let A : List Nat := [0x53, 0x39, 0x38, 0x33] ++ le32 1 ++ le32 44100 ++ le32 0
  let R : List Nat := le32 w.devices.length ++
    (w.devices.flatMap deviceInfoBytes ++ if w.devices.isEmpty then defaultDeviceBytes else [])
  let T : List Nat := f.bytes.drop (headerWith 0 0 0 w.devices).length
  have hA : A.length = 16 := rfl
  have hH : ∀ t d l, headerWith t d l w.devices = A ++ le32 t ++ le32 d ++ le32 l ++ R := by
    intro t d l
    simp only [headerWith, A, R, List.append_assoc]
  have hne : headerWith 0 0 0 w.devices ≠ [] := by simp [headerWith]
  -- the header written at offset 0
  have s1 : WriteHeader (w.seek 0)
      = { w with file := some { bytes := headerWith 0 0 0 w.devices ++ T,
                                pos := (headerWith 0 0 0 w.devices).length } } := by
    rw [WriteHeader_eq, seek_some w f 0 hw, emit_some _ { bytes := f.bytes, pos := 0 } _ rfl,
      File.fwrite_of_ne _ _ hne]
    simp [File.before, T]
  -- the three offsets patched in
  have s2 := patch32 (WriteHeader (w.seek 0)) (A ++ le32 0) (le32 0) (le32 0 ++ R ++ T) 0x14
    (headerWith 0 0 0 w.devices).length w.dataStartOffset
    (by rw [s1, hH]; simp only [List.append_assoc]) (by simp [hA, le32_length]) rfl
  have s3 := patch32 (WriteUint32 ((WriteHeader (w.seek 0)).seek 0x14) w.dataStartOffset)
    (A ++ le32 0 ++ le32 w.dataStartOffset) (le32 0) (R ++ T) 0x18 (0x14 + 4) (loopField w)
    (by rw [s2]; simp only [List.append_assoc]) (by simp [hA, le32_length]) rfl
  have s4 := patch32
    (WriteUint32 ((WriteUint32 ((WriteHeader (w.seek 0)).seek 0x14) w.dataStartOffset).seek 0x18)
      (loopField w))
    A (le32 0) (le32 w.dataStartOffset ++ le32 (loopField w) ++ R ++ T) 0x10 (0x18 + 4)
    w.tagOffset
    (by rw [s3]; simp only [List.append_assoc]) hA rfl
  have hloop : ∀ x : S98Writer, (if (w.loopSet && decide (w.loopOffset > 0)) = true then
        WriteUint32 (x.seek 0x18) ((w.dataStartOffset + w.loopOffset) % 2 ^ 32)
      else WriteUint32 (x.seek 0x18) 0) = WriteUint32 (x.seek 0x18) (loopField w) := by
    intro x
    unfold loopField
    split <;> rfl
  have htag : ∀ x : S98Writer, (if w.tagOffset > 0 then WriteUint32 (x.seek 0x10) w.tagOffset
      else WriteUint32 (x.seek 0x10) 0) = WriteUint32 (x.seek 0x10) w.tagOffset := by
    intro x
    split
    · rfl
    · next h =>
      have : w.tagOffset = 0 := by omega
      rw [this]
  have hfin : Finalize w =
      (WriteUint32 ((WriteUint32 ((WriteUint32 ((WriteHeader (w.seek 0)).seek 0x14)
        w.dataStartOffset).seek 0x18) (loopField w)).seek 0x10) w.tagOffset).seek
          (f.pos % 2 ^ 32) := by
    unfold Finalize
    rw [hw]
    simp only [hloop, htag, File.ftell]
  rw [hfin, s4, seek_some _ _ _ rfl, hH]
  simp only [List.append_assoc, T, WriteUint32, WriteHeader_eq, emit_devices, seek_devices,
    emit_dataStartOffset, seek_dataStartOffset, emit_loopOffset, seek_loopOffset, emit_tagOffset,
    seek_tagOffset, emit_currentDataPos, seek_currentDataPos, emit_loopSet, seek_loopSet,
    emit_deviceIdMap, seek_deviceIdMap, emit_nextDeviceId, seek_nextDeviceId]

/-! ## Writers reached from `Open` -/

theorem opened_fresh (w0 : S98Writer) :
    (opened w0).devices = [] ∧ (opened w0).deviceIdMap = [] ∧ (opened w0).nextDeviceId = 0 := by
  rw [opened_eq]
  exact ⟨rfl, rfl, rfl⟩

theorem ran_file (w0 : S98Writer) (ops : List WriterOp) :
    (runOps (opened w0) ops).file
      = some { bytes := headerWith 0 0 0 [] ++ ops.flatMap WriterOp.output
               pos := 48 + (ops.flatMap WriterOp.output).length } := by
  rw [runOps_file ops _ _ (opened_file w0),
    File.fwrite_atEnd { bytes := headerWith 0 0 0 [], pos := 48 } _ rfl]

theorem ran_dataStartOffset (w0 : S98Writer) (ops : List WriterOp) :
    (runOps (opened w0) ops).dataStartOffset = 48 := by
  rw [runOps_dataStartOffset ops _ _ (opened_file w0), opened_eq]

theorem ran_currentDataPos (w0 : S98Writer) (ops : List WriterOp) :
    (runOps (opened w0) ops).currentDataPos
      = (ops.flatMap WriterOp.eventBytes).length % 2 ^ 32 := by
  have h0 : (opened w0).currentDataPos = 0 := by rw [opened_eq]
  rw [runOps_currentDataPos ops _ _ (opened_file w0) (by rw [h0]; decide), h0, Nat.zero_add]

theorem ran_devices (w0 : S98Writer) (ops : List WriterOp) :
    (runOps (opened w0) ops).devices.map (fun d => (d.type, d.clock, d.pan))
      = firstByKind (addCalls ops) := by
  rw [(runOps_devices ops _ _ (opened_file w0)).1, firstByKind_addAll]
  have h0 := (opened_fresh w0).1
  simp [kindsOf, h0]

theorem ran_deviceIds (w0 : S98Writer) (ops : List WriterOp) :
    (runOps (opened w0) ops).devices.map S98Device.deviceId
      = (List.range (runOps (opened w0) ops).devices.length).map (fun i => 2 * i % 256) := by
  have h := (DevInv_addAll (addCalls ops) _ (DevInv_of_fresh _ (opened_fresh w0))).ids
  rw [(runOps_devices ops _ _ (opened_file w0)).1]
  exact h

theorem headerWith_of_ne (t d l : Nat) (devs : List S98Device) (h : devs ≠ []) :
    headerWith t d l devs
      = [0x53, 0x39, 0x38, 0x33] ++ le32 1 ++ le32 44100 ++ le32 0 ++ le32 t ++ le32 d ++
          le32 l ++ le32 devs.length ++ devs.flatMap deviceInfoBytes := by
  cases devs with
  | nil => exact absurd rfl h
  | cons x xs => simp [headerWith]

/-- Claim C7: after `Finalize` on a writer to which at least one device was added, the file
starts with the magic, the fields 1, 44100, 0, the tag offset (the stream position at the last
`WriteTag` call, 0 without one), the data offset recorded at `Open` (48), the loop offset, the
device count, and one 16-byte descriptor (kind, clock, pan, 0) per device, in the order of first
insertion, which is the order of the IDs 0, 2, 4, ..., with the clock and pan of the first
insertion. -/
theorem Finalize_header (w0 w : S98Writer) (ops : List WriterOp)
    (hw : w = runOps (opened w0) ops) (hn : 1 ≤ w.devices.length) :
    (∃ f', (Finalize w).file = some f' ∧
      f'.bytes.take (32 + 16 * w.devices.length)
        = [0x53, 0x39, 0x38, 0x33] ++ le32 1 ++ le32 44100 ++ le32 0 ++ le32 w.tagOffset ++
            le32 w.dataStartOffset ++ le32 (loopField w) ++ le32 w.devices.length ++
            w.devices.flatMap (fun d => le32 d.type ++ le32 d.clock ++ le32 d.pan ++ le32 0)) ∧
    (w.dataStartOffset = (opened w0).dataStartOffset ∧ w.dataStartOffset = 48) ∧
    ((∀ op ∈ ops, op.isWriteTags = false) → w.tagOffset = 0) ∧
    (∀ pre tags post, ops = pre ++ WriterOp.writeTags tags :: post →
      (∀ op ∈ post, op.isWriteTags = false) →
      ∃ fpre, (runOps (opened w0) pre).file = some fpre ∧ w.tagOffset = fpre.ftell % 2 ^ 32) ∧
    w.devices.map (fun d => (d.type, d.clock, d.pan)) = firstByKind (addCalls ops) ∧
    w.devices.map S98Device.deviceId
      = (List.range w.devices.length).map (fun i => 2 * i % 256) ∧
    (w.devices.length ≤ 128 → (w.devices.map S98Device.deviceId).Pairwise (fun a b => a < b)) := by
  subst hw
  have hne : (runOps (opened w0) ops).devices ≠ [] := by
    intro h; rw [h] at hn; simp at hn
  refine ⟨?_, ⟨?_, ran_dataStartOffset w0 ops⟩, ?_, ?_, ran_devices w0 ops, ran_deviceIds w0 ops,
    ?_⟩
  rotate_right
  · intro hle
    rw [ran_deviceIds w0 ops, List.pairwise_map]
    refine (List.pairwise_lt_range _).imp_of_mem ?_
    intro a b ha hb hab
    rw [List.mem_range] at ha hb
    omega
  · rw [Finalize_eq _ _ (ran_file w0 ops)]
    refine ⟨_, rfl, ?_⟩
    · have hl := headerWith_length (runOps (opened w0) ops).tagOffset
        (runOps (opened w0) ops).dataStartOffset (loopField (runOps (opened w0) ops))
        (runOps (opened w0) ops).devices
      rw [if_neg hne] at hl
      simp only
      rw [take_prefix_length _ _ _ hl, headerWith_of_ne _ _ _ _ hne]
      rfl
  · rw [ran_dataStartOffset, opened_eq]
  · intro h
    rw [runOps_tagOffset ops _ _ (opened_file w0) h, opened_eq]
  · intro pre tags post hops hpost
    refine ⟨_, ran_file w0 pre, ?_⟩
    rw [hops, runOps_append, runOps_cons,
      runOps_tagOffset post _ _ (run_file _ _ _ (ran_file w0 pre)) hpost]
    simp only [WriterOp.run]
    rw [WriteTag_eq _ _ tags (ran_file w0 pre)]
    rfl

theorem Finalize_header_witness :
    (AddDevice (opened S98Writer.init) 4 7987200 0
      = runOps (opened S98Writer.init) [WriterOp.addDevice 4 7987200 0]) ∧
    (1 ≤ (AddDevice (opened S98Writer.init) 4 7987200 0).devices.length) ∧
    (AddDevice (opened S98Writer.init) 4 7987200 0).devices.map
        (fun d => (d.type, d.clock, d.pan))
      = firstByKind (addCalls [WriterOp.addDevice 4 7987200 0]) :=
  ⟨rfl, by decide,
    (Finalize_header S98Writer.init (AddDevice (opened S98Writer.init) 4 7987200 0)
      [WriterOp.addDevice 4 7987200 0] rfl (by decide)).2.2.2.2.1⟩

theorem le32_congr (a b : Nat) (h : a % 2 ^ 32 = b % 2 ^ 32) : le32 a = le32 b := by
  unfold le32
  simp only [List.cons.injEq, and_true]
  refine ⟨?_, ?_, ?_, ?_⟩ <;> omega

theorem header_loop_field (t d l : Nat) (devs : List S98Device) (rest : List Nat) :
    ((headerWith t d l devs ++ rest).drop 0x18).take 4 = le32 l := by
  have e : headerWith t d l devs ++ rest
      = ([0x53, 0x39, 0x38, 0x33] ++ le32 1 ++ le32 44100 ++ le32 0 ++ le32 t ++ le32 d) ++
        (le32 l ++ (le32 devs.length ++ (devs.flatMap deviceInfoBytes ++
          if devs.isEmpty then defaultDeviceBytes else []) ++ rest)) := by
    simp only [headerWith, List.append_assoc]
  rw [e]
  have hp := drop_prefix_length
    ([0x53, 0x39, 0x38, 0x33] ++ le32 1 ++ le32 44100 ++ le32 0 ++ le32 t ++ le32 d)
    (le32 l ++ (le32 devs.length ++ (devs.flatMap deviceInfoBytes ++
          if devs.isEmpty then defaultDeviceBytes else []) ++ rest)) 0x18 0 (by simp [le32_length])
  rw [Nat.add_zero, List.drop_zero] at hp
  rw [hp]
  exact take_prefix_length (le32 l) _ 4 rfl

theorem header_count_field (t d l : Nat) (rest : List Nat) :
    ((headerWith t d l [] ++ rest).drop 0x1C).take 4 = le32 0 ∧
    ((headerWith t d l [] ++ rest).drop 0x20).take 16 = defaultDeviceBytes := by
  have e : headerWith t d l [] ++ rest
      = ([0x53, 0x39, 0x38, 0x33] ++ le32 1 ++ le32 44100 ++ le32 0 ++ le32 t ++ le32 d ++ le32 l)
        ++ (le32 0 ++ (defaultDeviceBytes ++ rest)) := by
    simp only [headerWith, List.append_assoc, List.flatMap_nil, List.isEmpty_nil, ↓reduceIte,
      List.length_nil, List.nil_append]
  have e' : headerWith t d l [] ++ rest
      = ([0x53, 0x39, 0x38, 0x33] ++ le32 1 ++ le32 44100 ++ le32 0 ++ le32 t ++ le32 d ++ le32 l
        ++ le32 0) ++ (defaultDeviceBytes ++ rest) := by
    simp only [headerWith, List.append_assoc, List.flatMap_nil, List.isEmpty_nil, ↓reduceIte,
      List.length_nil, List.nil_append]
  constructor
  · rw [e]
    have hp := drop_prefix_length
      ([0x53, 0x39, 0x38, 0x33] ++ le32 1 ++ le32 44100 ++ le32 0 ++ le32 t ++ le32 d ++ le32 l)
      (le32 0 ++ (defaultDeviceBytes ++ rest)) 0x1C 0 (by simp [le32_length])
    rw [Nat.add_zero, List.drop_zero] at hp
    rw [hp]
    exact take_prefix_length (le32 0) _ 4 rfl
  · rw [e']
    have hp := drop_prefix_length
      ([0x53, 0x39, 0x38, 0x33] ++ le32 1 ++ le32 44100 ++ le32 0 ++ le32 t ++ le32 d ++ le32 l
        ++ le32 0)
      (defaultDeviceBytes ++ rest) 0x20 0 (by simp [le32_length])
    rw [Nat.add_zero, List.drop_zero] at hp
    rw [hp]
    exact take_prefix_length defaultDeviceBytes _ 16 rfl

theorem ran_loop_none (w0 : S98Writer) (ops : List WriterOp)
    (h : ∀ op ∈ ops, op.isSetLoopPoint = false) :
    (runOps (opened w0) ops).loopSet = false := by
  rw [(runOps_loop ops _ _ (opened_file w0) (Or.inl h)).1, opened_eq]

theorem ran_loop_first (w0 : S98Writer) (pre post : List WriterOp)
    (h : ∀ op ∈ pre, op.isSetLoopPoint = false) :
    (runOps (opened w0) (pre ++ WriterOp.setLoopPoint :: post)).loopSet = true ∧
    (runOps (opened w0) (pre ++ WriterOp.setLoopPoint :: post)).loopOffset
      = (pre.flatMap WriterOp.eventBytes).length % 2 ^ 32 := by
  have hs : SetLoopPoint (runOps (opened w0) pre)
      = { runOps (opened w0) pre with
          loopOffset := (runOps (opened w0) pre).currentDataPos, loopSet := true } := by
    rw [SetLoopPoint_eq _ _ (ran_file w0 pre), ran_loop_none w0 pre h]
    rfl
  have hf := run_file _ _ WriterOp.setLoopPoint (ran_file w0 pre)
  have hl : (WriterOp.setLoopPoint.run (runOps (opened w0) pre)).loopSet = true := by
    simp only [WriterOp.run, hs]
  obtain ⟨e1, e2⟩ := runOps_loop post _ _ hf (Or.inr hl)
  rw [runOps_append, runOps_cons, e1, e2]
  simp only [WriterOp.run, hs, ran_currentDataPos, and_self]

/-- Claim C8, as amended: the loop-offset field that `Finalize` writes at `0x18` is zero when
`SetLoopPoint` was never called and also when the 32-bit count of event bytes written before its
first call is zero (so in particular when it is called before any event byte); otherwise it is
the data-section start 48 plus the number of event bytes written before the first call, as a
32-bit value.  Later `SetLoopPoint` calls have no effect. -/
theorem Finalize_loopOffset (w0 : S98Writer) (ops : List WriterOp) :
    ∃ f', (Finalize (runOps (opened w0) ops)).file = some f' ∧
      (runOps (opened w0) ops).dataStartOffset = 48 ∧
      ((∀ op ∈ ops, op.isSetLoopPoint = false) → (f'.bytes.drop 0x18).take 4 = le32 0) ∧
      (∀ pre post, ops = pre ++ WriterOp.setLoopPoint :: post →
        (∀ op ∈ pre, op.isSetLoopPoint = false) →
        (f'.bytes.drop 0x18).take 4 =
          if (pre.flatMap WriterOp.eventBytes).length % 2 ^ 32 = 0 then le32 0
          else le32 (48 + (pre.flatMap WriterOp.eventBytes).length)) := by
  rw [Finalize_eq _ _ (ran_file w0 ops)]
  refine ⟨_, rfl, ran_dataStartOffset w0 ops, ?_, ?_⟩
  · intro h
    simp only [header_loop_field]
    unfold loopField
    rw [ran_loop_none w0 ops h]
    rfl
  · intro pre post hops hpre
    simp only [header_loop_field]
    unfold loopField
    rw [ran_dataStartOffset]
    subst hops
    obtain ⟨e1, e2⟩ := ran_loop_first w0 pre post hpre
    rw [e1, e2]
    generalize (pre.flatMap WriterOp.eventBytes).length = n
    by_cases hz : n % 2 ^ 32 = 0
    · rw [if_pos hz, hz]
      rfl
    · have hp : n % 2 ^ 32 > 0 := by omega
      simp only [Bool.true_and, decide_eq_true_eq]
      rw [if_neg hz, if_pos hp]
      apply le32_congr
      omega

set_option maxRecDepth 100000

theorem Finalize_loopOffset_counterexample :
    (Finalize (runOps (opened S98Writer.init)
        [WriterOp.setLoopPoint, WriterOp.writeEnd])).file.map
      (fun f => (f.bytes.drop 0x18).take 4) = some (le32 0) ∧
    le32 0 ≠ le32 ((opened S98Writer.init).dataStartOffset
      + (([] : List WriterOp).flatMap WriterOp.eventBytes).length) := by
  decide

theorem addCalls_of_no_add (ops : List WriterOp) (h : ∀ op ∈ ops, op.isAddDevice = false) :
    addCalls ops = [] := by
  induction ops with
  | nil => rfl
  | cons op ops ih =>
    have h1 := h op (List.mem_cons_self _ _)
    have h2 := ih (fun o ho => h o (List.mem_cons_of_mem _ ho))
    cases op with
    | addDevice k c p => simp [WriterOp.isAddDevice] at h1
    | _ => simpa [addCalls] using h2

/-- Claim C9, as amended: when `Finalize` runs on a writer to which no device was added, the
device-count field at `0x1C` is 0 and it is followed by exactly one synthetic default 16-byte
descriptor (kind 4, clock 7987200, pan 0, reserved 0), after which the data section begins at
offset 48. -/
theorem Finalize_no_devices (w0 : S98Writer) (ops : List WriterOp)
    (h : ∀ op ∈ ops, op.isAddDevice = false) :
    ∃ f', (Finalize (runOps (opened w0) ops)).file = some f' ∧
      (f'.bytes.drop 0x1C).take 4 = le32 0 ∧
      (f'.bytes.drop 0x20).take 16 = le32 S98_DEV_OPNA ++ le32 7987200 ++ le32 0 ++ le32 0 ∧
      (runOps (opened w0) ops).dataStartOffset = 0x20 + 16 ∧
      f'.bytes.drop (0x20 + 16) = ops.flatMap WriterOp.output := by
  have hd : (runOps (opened w0) ops).devices = [] := by
    rw [(runOps_devices ops _ _ (opened_file w0)).1, addCalls_of_no_add ops h, addAll_nil]
    exact (opened_fresh w0).1
  rw [Finalize_eq _ _ (ran_file w0 ops), hd]
  refine ⟨_, rfl, ?_, ?_, ran_dataStartOffset w0 ops, ?_⟩
  · exact (header_count_field _ _ _ _).1
  · exact (header_count_field _ _ _ _).2
  · have hl := headerWith_length (runOps (opened w0) ops).tagOffset
      (runOps (opened w0) ops).dataStartOffset (loopField (runOps (opened w0) ops)) []
    simp only [↓reduceIte] at hl
    have hp := drop_prefix_length _ (List.drop (headerWith 0 0 0 []).length
      (headerWith 0 0 0 [] ++ ops.flatMap WriterOp.output)) (0x20 + 16) 0 hl
    rw [Nat.add_zero, List.drop_zero] at hp
    simp only
    rw [hp, List.drop_left]

theorem Finalize_no_devices_witness :
    (∀ op ∈ [WriterOp.writeWait 3, WriterOp.writeEnd], op.isAddDevice = false) ∧
    ∃ f', (Finalize (runOps (opened S98Writer.init)
        [WriterOp.writeWait 3, WriterOp.writeEnd])).file = some f' ∧
      (f'.bytes.drop 0x1C).take 4 = le32 0 ∧
      (f'.bytes.drop 0x20).take 16 = le32 S98_DEV_OPNA ++ le32 7987200 ++ le32 0 ++ le32 0 ∧
      (runOps (opened S98Writer.init)
        [WriterOp.writeWait 3, WriterOp.writeEnd]).dataStartOffset = 0x20 + 16 ∧
      f'.bytes.drop (0x20 + 16)
        = [WriterOp.writeWait 3, WriterOp.writeEnd].flatMap WriterOp.output :=
  ⟨by decide, Finalize_no_devices S98Writer.init [WriterOp.writeWait 3, WriterOp.writeEnd]
    (by decide)⟩

theorem Finalize_no_devices_counterexample :
    (Finalize (opened S98Writer.init)).file.map (fun f => (f.bytes.drop 0x1C).take 4)
      = some (le32 0) ∧
    le32 0 ≠ le32 1 := by
  decide

/-- Claim C1, evaluated at a failing input: with two devices added, the events `00 01 02 FD`
are written at offset 48; `Finalize` then stores 48 as the data offset and yet overwrites the
bytes from offset 48 on with the descriptor of the second device, so the bytes at the recorded
data offset are no longer the events. -/
theorem Finalize_overwrites_events :
    (runOps (opened S98Writer.init)
        [WriterOp.addDevice 4 7987200 0, WriterOp.addDevice 3 7670453 0,
          WriterOp.writeRegister 0 1 2, WriterOp.writeEnd]).file.map
      (fun f => f.bytes.drop 48) = some [0, 1, 2, 0xFD] ∧
    (Finalize (runOps (opened S98Writer.init)
        [WriterOp.addDevice 4 7987200 0, WriterOp.addDevice 3 7670453 0,
          WriterOp.writeRegister 0 1 2, WriterOp.writeEnd])).file.map
      (fun f => (f.bytes.drop 0x14).take 4) = some (le32 48) ∧
    (Finalize (runOps (opened S98Writer.init)
        [WriterOp.addDevice 4 7987200 0, WriterOp.addDevice 3 7670453 0,
          WriterOp.writeRegister 0 1 2, WriterOp.writeEnd])).file.map
      (fun f => f.bytes.drop 48) = some (le32 3 ++ le32 7670453 ++ le32 0 ++ le32 0) ∧
    (Finalize (runOps (opened S98Writer.init)
        [WriterOp.addDevice 4 7987200 0, WriterOp.addDevice 3 7670453 0,
          WriterOp.writeRegister 0 1 2, WriterOp.writeEnd])).file.map
      (fun f => f.bytes.drop 48) ≠ some [0, 1, 2, 0xFD] := by
  decide

/-! ## The reader -/

theorem readLE_eq (r : VGMReader) (f : File) (n : Nat) (hf : r.file = some f) :
    r.readLE n = (leValue ((f.bytes.drop f.pos).take n),
      { r with file := some { bytes := f.bytes
                              pos := f.pos + ((f.bytes.drop f.pos).take n).length } }) := by
  unfold VGMReader.readLE
  rw [hf]
  rfl

theorem Seek_eq (r : VGMReader) (f : File) (p : Nat) (hf : r.file = some f) :
    r.Seek p = { r with file := some { bytes := f.bytes, pos := p } } := by
  unfold VGMReader.Seek
  rw [hf]
  rfl

/-- The first step of `ReadNextCommand` on a reader whose cursor is inside the file: the opcode
byte and the reader after `currentPos++`. -/
theorem read_opcode (r : VGMReader) (f : File) (b : Nat) (rest : List Nat)
    (hf : r.file = some f) (hb : f.bytes.drop r.currentPos = b :: rest) :
    ReadUint8 (r.Seek r.currentPos)
      = (b % 256, { r with file := some { bytes := f.bytes, pos := r.currentPos + 1 } }) := by
  rw [Seek_eq r f _ hf]
  unfold ReadUint8
  rw [readLE_eq _ { bytes := f.bytes, pos := r.currentPos } 1 rfl]
  simp [hb, leValue]

theorem drop_succ_of_drop (bs : List Nat) (p b : Nat) (rest : List Nat)
    (h : bs.drop p = b :: rest) : bs.drop (p + 1) = rest := by
  rw [← List.drop_drop, h]
  rfl

theorem length_of_drop (bs : List Nat) (p : Nat) (l : List Nat) (h : bs.drop p = l) :
    p + l.length = bs.length ∨ (l = [] ∧ bs.length ≤ p) := by
  have := List.length_drop p bs
  rw [h] at this
  by_cases hl : l = []
  · subst hl
    simp only [List.length_nil] at this
    by_cases hp : bs.length ≤ p
    · exact Or.inr ⟨rfl, hp⟩
    · left; simp only [List.length_nil]; omega
  · left
    have : 0 < l.length := List.length_pos.mpr hl
    omega

/-- Claim C10: `ReadNextCommand` decodes the wait opcodes byte-exactly: `61 lo hi` is a wait of
`lo + 256 * hi` samples and moves the cursor by 3; `62` is a wait of 735 and `63` a wait of 882
samples, and every opcode `b` in `70..7F` is a wait of `b - 0x70 + 1` samples, each moving the
cursor by 1. -/
theorem ReadNextCommand_wait (r : VGMReader) (f : File) (hf : r.file = some f)
    (hsize : r.fileSize = f.bytes.length) (hlen : f.bytes.length < 2 ^ 32) :
    (∀ lo hi rest, lo < 256 → hi < 256 →
      f.bytes.drop r.currentPos = 0x61 :: lo :: hi :: rest →
      (ReadNextCommand r).1
        = some { VGMCommand.init with cmd := 0x61, waitSamples := lo + 256 * hi } ∧
      (ReadNextCommand r).2.currentPos = r.currentPos + 3) ∧
    (∀ rest, f.bytes.drop r.currentPos = 0x62 :: rest →
      (ReadNextCommand r).1 = some { VGMCommand.init with cmd := 0x62, waitSamples := 735 } ∧
      (ReadNextCommand r).2.currentPos = r.currentPos + 1) ∧
    (∀ rest, f.bytes.drop r.currentPos = 0x63 :: rest →
      (ReadNextCommand r).1 = some { VGMCommand.init with cmd := 0x63, waitSamples := 882 } ∧
      (ReadNextCommand r).2.currentPos = r.currentPos + 1) ∧
    (∀ b rest, 0x70 ≤ b → b ≤ 0x7F → f.bytes.drop r.currentPos = b :: rest →
      (ReadNextCommand r).1
        = some { VGMCommand.init with cmd := b, waitSamples := b - 0x70 + 1 } ∧
      (1 ≤ b - 0x70 + 1 ∧ b - 0x70 + 1 ≤ 16) ∧
      (ReadNextCommand r).2.currentPos = r.currentPos + 1) := by
  have hgo : ∀ b rest, f.bytes.drop r.currentPos = b :: rest →
      (r.file.isNone || decide (r.currentPos ≥ r.fileSize)) = false ∧
      r.currentPos + 1 + rest.length = f.bytes.length := by
    intro b rest h
    rcases length_of_drop _ _ _ h with h1 | h1
    · simp only [List.length_cons] at h1
      refine ⟨?_, by omega⟩
      simp only [hf, Option.isNone_some, Bool.false_or, decide_eq_false_iff_not, hsize]
      omega
    · exact absurd h1.1 (by simp)
  refine ⟨?_, ?_, ?_, ?_⟩
  · intro lo hi rest hlo hhi hb
    obtain ⟨h1, h2⟩ := hgo _ _ hb
    have hd := drop_succ_of_drop _ _ _ _ hb
    simp only [List.length_cons] at h2
    unfold ReadNextCommand
    rw [h1, read_opcode r f _ _ hf hb]
    simp only [Bool.false_eq_true, ↓reduceIte, VGM_CMD_END, VGM_CMD_WAIT, Nat.reduceMod,
      Nat.reduceEqDiff, ReadUint16]
    rw [readLE_eq _ { bytes := f.bytes, pos := r.currentPos + 1 } 2 rfl]
    simp only [hd, List.take_succ_cons, List.take_zero, leValue, List.length_cons,
      List.length_nil, Nat.mod_eq_of_lt hlo, Nat.mod_eq_of_lt hhi, Nat.mul_zero, Nat.add_zero,
      true_and]
    omega
  · intro rest hb
    obtain ⟨h1, h2⟩ := hgo _ _ hb
    unfold ReadNextCommand
    rw [h1, read_opcode r f _ _ hf hb]
    simp only [Bool.false_eq_true, ↓reduceIte, VGM_CMD_END, VGM_CMD_WAIT, VGM_CMD_WAIT_735,
      Nat.reduceMod, Nat.reduceEqDiff, true_and]
    omega
  · intro rest hb
    obtain ⟨h1, h2⟩ := hgo _ _ hb
    unfold ReadNextCommand
    rw [h1, read_opcode r f _ _ hf hb]
    simp only [Bool.false_eq_true, ↓reduceIte, VGM_CMD_END, VGM_CMD_WAIT, VGM_CMD_WAIT_735,
      VGM_CMD_WAIT_882, Nat.reduceMod, Nat.reduceEqDiff, true_and]
    omega
  · intro b rest hb1 hb2 hb
    obtain ⟨h1, h2⟩ := hgo _ _ hb
    have hb256 : b % 256 = b := Nat.mod_eq_of_lt (by omega)
    unfold ReadNextCommand
    rw [h1, read_opcode r f _ _ hf hb, hb256]
    have n1 : ¬ b = 0x66 := by omega
    have n2 : ¬ b = 0x61 := by omega
    have n3 : ¬ b = 0x62 := by omega
    have n4 : ¬ b = 0x63 := by omega
    have y : b ≥ 0x70 ∧ b ≤ 0x7F := ⟨hb1, hb2⟩
    simp only [Bool.false_eq_true, ↓reduceIte, VGM_CMD_END, VGM_CMD_WAIT, VGM_CMD_WAIT_735,
      VGM_CMD_WAIT_882, VGM_CMD_WAIT_SHORT, n1, n2, n3, n4, y, and_self, true_and]
    omega

theorem ReadNextCommand_wait_witness :
    ((⟨some ⟨[0x61, 0x34, 0x12, 0x66], 0⟩, VGMHeader.init, 0, 0, 0, 4⟩ : VGMReader).file
      = some ⟨[0x61, 0x34, 0x12, 0x66], 0⟩) ∧
    ((4 : Nat) = ([0x61, 0x34, 0x12, 0x66] : List Nat).length) ∧
    (([0x61, 0x34, 0x12, 0x66] : List Nat).length < 2 ^ 32) ∧
    (ReadNextCommand ⟨some ⟨[0x61, 0x34, 0x12, 0x66], 0⟩, VGMHeader.init, 0, 0, 0, 4⟩).1
      = some { VGMCommand.init with cmd := 0x61, waitSamples := 0x34 + 256 * 0x12 } :=
  ⟨rfl, rfl, by decide,
    ((ReadNextCommand_wait ⟨some ⟨[0x61, 0x34, 0x12, 0x66], 0⟩, VGMHeader.init, 0, 0, 0, 4⟩
      ⟨[0x61, 0x34, 0x12, 0x66], 0⟩ rfl rfl (by decide)).1
        0x34 0x12 [0x66] (by decide) (by decide) rfl).1⟩

/-! ## The conversion loop -/

theorem leValue_lt (bs : List Nat) : leValue bs < 256 ^ bs.length := by
  induction bs with
  | nil => simp [leValue]
  | cons b bs ih =>
    simp only [leValue, List.length_cons, Nat.pow_succ]
    have : b % 256 < 256 := Nat.mod_lt _ (by decide)
    nlinarith

theorem readLE_fst_lt (r : VGMReader) (n : Nat) : (r.readLE n).1 < 256 ^ n := by
  unfold VGMReader.readLE
  split
  · next f _ =>
    simp only [File.fread]
    have h1 := leValue_lt (List.take n (List.drop f.pos f.bytes))
    have h2 : (List.take n (List.drop f.pos f.bytes)).length ≤ n := by
      simp only [List.length_take]; omega
    exact lt_of_lt_of_le h1 (Nat.pow_le_pow_right (by decide) h2)
  · exact Nat.pow_pos (by decide)

theorem isRegisterWrite_iff (b : Nat) :
    isRegisterWrite b = true ↔ (0x50 ≤ b ∧ b ≤ 0x5B) ∨ b = 0xA0 := by
  simp only [isRegisterWrite, VGM_CMD_SN76489, VGM_CMD_YM2413, VGM_CMD_YM2612_PORT0,
    VGM_CMD_YM2612_PORT1, VGM_CMD_YM2151, VGM_CMD_YM2203, VGM_CMD_YM2608_PORT0,
    VGM_CMD_YM2608_PORT1, VGM_CMD_YM2610_PORT0, VGM_CMD_YM2610_PORT1, VGM_CMD_YM3812,
    VGM_CMD_YM3526, VGM_CMD_AY8910, Bool.or_eq_true, beq_iff_eq]
  omega

theorem isWaitOpcode_iff (b : Nat) :
    isWaitOpcode b = true ↔ b = 0x61 ∨ b = 0x62 ∨ b = 0x63 ∨ (0x70 ≤ b ∧ b ≤ 0x7F) := by
  simp only [isWaitOpcode, VGM_CMD_WAIT, VGM_CMD_WAIT_735, VGM_CMD_WAIT_882, VGM_CMD_WAIT_SHORT,
    Bool.or_eq_true, beq_iff_eq, Bool.and_eq_true, decide_eq_true_eq]
  omega

/-- The shape of the commands that `ReadNextCommand` delivers: byte-sized register and value,
port 0 or 1, and a non-zero wait only under a wait opcode. -/
theorem ReaderProduced_shape (c : VGMCommand) (h : ReaderProduced c) :
    c.reg < 256 ∧ c.data < 256 ∧ c.port ≤ 1 ∧ (isWaitOpcode c.cmd = false → c.waitSamples = 0) := by
  obtain ⟨r, r', h⟩ := h
  have hr8 : ∀ x : VGMReader, (ReadUint8 x).1 < 256 := fun x => by
    have := readLE_fst_lt x 1
    simpa [ReadUint8] using this
  unfold ReadNextCommand at h
  by_cases hc : (r.file.isNone || decide (r.currentPos ≥ r.fileSize)) = true
  · rw [if_pos hc] at h
    simp at h
  rw [if_neg hc] at h
  generalize ReadUint8 (r.Seek r.currentPos) = b at h
  obtain ⟨byte, rb⟩ := b
  simp only [VGM_CMD_END, VGM_CMD_WAIT, VGM_CMD_WAIT_735, VGM_CMD_WAIT_882,
    VGM_CMD_WAIT_SHORT, VGM_CMD_DATA_BLOCK, VGM_CMD_PCM_SEEK] at h
  by_cases c1 : byte = 0x66
  · rw [if_pos c1] at h
    simp only [Prod.mk.injEq, Option.some.injEq] at h
    rw [← h.1]; simp [VGMCommand.init]
  rw [if_neg c1] at h
  by_cases c2 : byte = 0x61
  · rw [if_pos c2] at h
    simp only [Prod.mk.injEq, Option.some.injEq] at h
    rw [← h.1]; simp [VGMCommand.init, isWaitOpcode_iff, c2]
  rw [if_neg c2] at h
  by_cases c3 : byte = 0x62
  · rw [if_pos c3] at h
    simp only [Prod.mk.injEq, Option.some.injEq] at h
    rw [← h.1]; simp [VGMCommand.init, isWaitOpcode_iff, c3]
  rw [if_neg c3] at h
  by_cases c4 : byte = 0x63
  · rw [if_pos c4] at h
    simp only [Prod.mk.injEq, Option.some.injEq] at h
    rw [← h.1]; simp [VGMCommand.init, isWaitOpcode_iff, c4]
  rw [if_neg c4] at h
  by_cases c5 : byte ≥ 0x70 ∧ byte ≤ 0x7F
  · rw [if_pos c5] at h
    simp only [Prod.mk.injEq, Option.some.injEq] at h
    rw [← h.1]
    simp only [VGMCommand.init]
    refine ⟨by decide, by decide, by decide, ?_⟩
    intro hw
    have := (isWaitOpcode_iff byte).mpr (Or.inr (Or.inr (Or.inr c5)))
    rw [this] at hw
    exact absurd hw (by decide)
  rw [if_neg c5] at h
  by_cases c6 : byte = 0x67
  · rw [if_pos c6] at h
    simp only [Prod.mk.injEq, Option.some.injEq] at h
    rw [← h.1]
    unfold readDataBlock
    simp only [VGMCommand.init]
    split
    · split
      · split <;> simp
      · simp
    · simp
  rw [if_neg c6] at h
  by_cases c7 : byte = 0xE0
  · rw [if_pos c7] at h
    simp only [Prod.mk.injEq, Option.some.injEq] at h
    rw [← h.1]; simp [VGMCommand.init]
  rw [if_neg c7] at h
  by_cases c8 : isRegisterWrite byte = true
  · rw [if_pos c8] at h
    simp only [Prod.mk.injEq, Option.some.injEq] at h
    rw [← h.1]
    simp only [VGMCommand.init]
    refine ⟨hr8 _, hr8 _, ?_, ?_⟩
    · split <;> simp
    · simp
  · rw [if_neg c8] at h
    simp only [Prod.mk.injEq, Option.some.injEq] at h
    rw [← h.1]; simp [VGMCommand.init]

theorem SameDevices_kindsOf (w w' : S98Writer) (h : SameDevices w w') :
    kindsOf w = kindsOf w' := by
  unfold kindsOf; rw [h.1]

theorem SameDevices_GetDeviceId (w w' : S98Writer) (h : SameDevices w w') (k : Nat) :
    GetDeviceId w k = GetDeviceId w' k := by
  unfold GetDeviceId; rw [h.2.1]

theorem DevInv_congr (w w' : S98Writer) (h : SameDevices w w') (hi : DevInv w') : DevInv w := by
  obtain ⟨h1, h2, h3⟩ := h
  refine ⟨?_, ?_, ?_, ?_⟩
  · simpa [kindsOf, h1] using hi.nodup
  · rw [h1]; exact hi.ids
  · rw [h1, h3]; exact hi.next
  · intro k
    have := hi.find k
    simpa [kindsOf, h1, h2] using this

theorem OrchInv_congr (hdr : VGMHeader) (w w' : S98Writer) (h : SameDevices w w')
    (hi : OrchInv hdr w') : OrchInv hdr w := by
  have hk := SameDevices_kindsOf w w' h
  refine ⟨DevInv_congr w w' h hi.inv, ?_, ?_⟩
  · rw [hk]; exact hi.sub
  · rw [hk]; exact hi.pre

theorem run_SameDevices (w : S98Writer) (f : File) (op : WriterOp) (hw : w.file = some f)
    (hop : op.isAddDevice = false) : SameDevices (op.run w) w :=
  run_devices w f op hw hop

/-- The wait statement of the loop body writes the wait's encoding and leaves the device table
alone. -/
theorem handleWait_writer (hdr : VGMHeader) (lss : Nat) (st : ConvState) (cmd : VGMCommand)
    (f : File) (hf : st.writer.file = some f) :
    (handleWait hdr lss st cmd).writer.file = some (f.fwrite (waitBytes cmd.waitSamples)) ∧
    SameDevices (handleWait hdr lss st cmd).writer st.writer := by
  unfold handleWait
  by_cases h0 : cmd.waitSamples > 0
  · rw [if_pos h0]
    have hfw := run_file st.writer f (WriterOp.writeWait cmd.waitSamples) hf
    have hsw := run_SameDevices st.writer f (WriterOp.writeWait cmd.waitSamples) hf rfl
    have hfl := run_file _ _ WriterOp.setLoopPoint hfw
    have hsl := run_SameDevices _ _ WriterOp.setLoopPoint hfw rfl
    simp only [WriterOp.run, WriterOp.output, WriterOp.eventBytes, File.fwrite_nil] at hfw hsw hfl hsl
    have hsl' : SameDevices (SetLoopPoint (WriteWait st.writer cmd.waitSamples)) st.writer :=
      ⟨hsl.1.trans hsw.1, hsl.2.1.trans hsw.2.1, hsl.2.2.trans hsw.2.2⟩
    simp only
    split
    · exact ⟨hfl, hsl'⟩
    · split
      · exact ⟨hfl, hsl'⟩
      · exact ⟨hfw, hsw⟩
  · rw [if_neg h0]
    have : cmd.waitSamples = 0 := by omega
    rw [this]
    simp only [waitBytes, ↓reduceIte, File.fwrite_nil]
    exact ⟨hf, rfl, rfl, rfl⟩

theorem clockTable_kinds (hdr : VGMHeader) :
    (clockTable hdr).map Prod.fst = [4, 3, 2, 5, 6, 7, 8, 15, 16] := rfl

/-- The device mapper and the clock selector agree with the clock table. -/
theorem mapper_in_clockTable (hdr : VGMHeader) (c : Nat)
    (hk : GetS98DeviceType c ≠ S98_DEV_NONE) :
    (GetS98DeviceType c, GetVGMClock c hdr) ∈ clockTable hdr := by
  unfold GetS98DeviceType GetVGMClock clockTable at *
  simp only [VGM_CMD_SN76489, VGM_CMD_YM2203, VGM_CMD_YM2612_PORT0, VGM_CMD_YM2612_PORT1,
    VGM_CMD_YM2608_PORT0, VGM_CMD_YM2608_PORT1, VGM_CMD_YM2151, VGM_CMD_YM2413, VGM_CMD_YM3812,
    VGM_CMD_YM3526, VGM_CMD_AY8910] at *
  by_cases h1 : c = 0x50
  · simp [h1]
  by_cases h2 : c = 0x55
  · simp [h2]
  by_cases h3 : c = 0x52 ∨ c = 0x53
  · rcases h3 with h3 | h3 <;> simp [h3]
  by_cases h4 : c = 0x56 ∨ c = 0x57
  · rcases h4 with h4 | h4 <;> simp [h4]
  by_cases h5 : c = 0x54
  · simp [h5]
  by_cases h6 : c = 0x51
  · simp [h6]
  by_cases h7 : c = 0x5A
  · simp [h7]
  by_cases h8 : c = 0x5B
  · simp [h8]
  by_cases h9 : c = 0xA0
  · simp [h9]
  simp [h1, h2, h3, h4, h5, h6, h7, h8, h9] at hk

theorem kinds_length_le (hdr : VGMHeader) (w : S98Writer) (h : OrchInv hdr w) :
    (kindsOf w).length ≤ 9 := by
  have hs : kindsOf w ⊆ (clockTable hdr).map Prod.fst := fun k hk => h.sub k hk
  have := (List.subperm_of_subset h.inv.nodup hs).length_le
  rw [clockTable_kinds] at this
  simpa using this

theorem emitRegister_writer (st : ConvState) (id : Nat) (c : VGMCommand) (f : File)
    (hf : st.writer.file = some f) (hs : CommandShape c) (hid : id + c.port < 256) :
    (emitRegister st id c).writer.file = some (f.fwrite [id + c.port, c.reg, c.data]) ∧
    SameDevices (emitRegister st id c).writer st.writer := by
  obtain ⟨h1, h2, _, _⟩ := hs
  unfold emitRegister
  simp only
  rw [WriteRegister_eq _ f _ _ _ hf]
  refine ⟨?_, rfl, rfl, rfl⟩
  simp only [Nat.mod_mod, Nat.mod_eq_of_lt hid, Nat.mod_eq_of_lt h1, Nat.mod_eq_of_lt h2]

theorem not_wait_of_register (b : Nat) (h : isRegisterWrite b = true) :
    isWaitOpcode b = false ∧ b ≠ VGM_CMD_END := by
  rw [isRegisterWrite_iff] at h
  constructor
  · rw [Bool.eq_false_iff]
    intro hw
    rw [isWaitOpcode_iff] at hw
    omega
  · unfold VGM_CMD_END; omega

theorem OrchInv_AddDevice_OPNA (hdr : VGMHeader) (w : S98Writer) (clock pan : Nat)
    (h : OrchInv hdr w) : OrchInv hdr (AddDevice w S98_DEV_OPNA clock pan) := by
  refine ⟨DevInv_AddDevice w _ _ _ h.inv, ?_, ?_⟩
  · intro k hk
    rw [kindsOf_AddDevice] at hk
    split at hk
    · exact h.sub k hk
    · rcases List.mem_append.mp hk with hk | hk
      · exact h.sub k hk
      · simp only [List.mem_singleton] at hk
        rw [hk, clockTable_kinds]
        decide
  · intro p hp hc
    have := h.pre p hp hc
    rw [kindsOf_AddDevice]
    split
    · exact this
    · exact List.mem_append_left _ this

/-- The register branch of the loop body against the translation. -/
theorem handleRegister_step (hdr : VGMHeader) (st : ConvState) (c : VGMCommand) (f : File)
    (hf : st.writer.file = some f) (hinv : OrchInv hdr st.writer) (hs : CommandShape c)
    (hreg : isRegisterWrite c.cmd = true) :
    ∃ out, (handleRegister hdr st c).writer.file = some (f.fwrite out) ∧
      OrchInv hdr (handleRegister hdr st c).writer ∧
      ∀ es, specTranslate (kindsOf st.writer) (c :: es)
        = out ++ specTranslate (kindsOf (handleRegister hdr st c).writer) es := by
  obtain ⟨hnw, hne⟩ := not_wait_of_register c.cmd hreg
  have hport : c.port ≤ 1 := hs.2.2.1
  have hspec : ∀ es, specTranslate (kindsOf st.writer) (c :: es)
      = if GetS98DeviceType c.cmd = S98_DEV_NONE then specTranslate (kindsOf st.writer) es
        else if GetS98DeviceType c.cmd ∈ kindsOf st.writer then
          [specBaseId (kindsOf st.writer) (GetS98DeviceType c.cmd) + c.port, c.reg, c.data]
            ++ specTranslate (kindsOf st.writer) es
        else if GetS98DeviceType c.cmd = S98_DEV_OPNA then
          [specBaseId (kindsOf st.writer ++ [S98_DEV_OPNA]) S98_DEV_OPNA + c.port, c.reg, c.data]
            ++ specTranslate (kindsOf st.writer ++ [S98_DEV_OPNA]) es
        else specTranslate (kindsOf st.writer) es := by
    intro es
    rw [specTranslate, if_neg hne, hnw, hreg]
    simp only [Bool.false_eq_true, ↓reduceIte]
  unfold handleRegister
  simp only
  by_cases hk0 : GetS98DeviceType c.cmd = S98_DEV_NONE
  · refine ⟨[], ?_, ?_, ?_⟩
    · simp [hk0, hf, File.fwrite_nil]
    · simp [hk0, hinv]
    · intro es
      rw [hspec es]
      simp [hk0]
  have hk0' : GetS98DeviceType c.cmd ≠ S98_DEV_NONE := hk0
  rw [if_pos hk0']
  have hlen := kinds_length_le hdr st.writer hinv
  by_cases hmem : GetS98DeviceType c.cmd ∈ kindsOf st.writer
  · -- the kind is registered
    have hidx := List.indexOf_lt_length.mpr hmem
    have hid : GetDeviceId st.writer (GetS98DeviceType c.cmd)
        = 2 * (kindsOf st.writer).indexOf (GetS98DeviceType c.cmd) := by
      rw [GetDeviceId_of_inv _ _ hinv.inv, if_pos hmem]
      omega
    have hnff : ¬ GetDeviceId st.writer (GetS98DeviceType c.cmd) = 0xFF := by
      rw [hid]; omega
    rw [if_neg hnff]
    obtain ⟨e1, e2⟩ := emitRegister_writer st
      (GetDeviceId st.writer (GetS98DeviceType c.cmd)) c f hf hs (by rw [hid]; omega)
    refine ⟨_, e1, OrchInv_congr hdr _ _ e2 hinv, ?_⟩
    intro es
    rw [hspec es, if_neg hk0, if_pos hmem, SameDevices_kindsOf _ _ e2, hid]
    rfl
  · -- the kind is not registered: its header clock is zero
    have hff : GetDeviceId st.writer (GetS98DeviceType c.cmd) = 0xFF := by
      rw [GetDeviceId_of_inv _ _ hinv.inv, if_neg hmem]
    have hclock : GetVGMClock c.cmd hdr = 0 := by
      by_contra hc
      exact hmem (hinv.pre _ (mapper_in_clockTable hdr c.cmd hk0') (Nat.pos_of_ne_zero hc))
    rw [if_pos hff, if_pos hclock]
    by_cases hopna : GetS98DeviceType c.cmd = S98_DEV_OPNA
    · rw [if_pos hopna]
      have hspec' := hspec
      rw [hopna] at hmem hspec' ⊢
      have hinv1 := OrchInv_AddDevice_OPNA hdr st.writer 8000000 0 hinv
      have hk1 : kindsOf (AddDevice st.writer S98_DEV_OPNA 8000000 0)
          = kindsOf st.writer ++ [S98_DEV_OPNA] := by
        rw [kindsOf_AddDevice, if_neg hmem]
      have hlen1 := kinds_length_le hdr _ hinv1
      have hmem1 : S98_DEV_OPNA ∈ kindsOf st.writer ++ [S98_DEV_OPNA] := by simp
      have hidx1 := List.indexOf_lt_length.mpr hmem1
      rw [hk1] at hlen1
      have hid1 : GetDeviceId (AddDevice st.writer S98_DEV_OPNA 8000000 0) S98_DEV_OPNA
          = 2 * (kindsOf st.writer ++ [S98_DEV_OPNA]).indexOf S98_DEV_OPNA := by
        rw [GetDeviceId_of_inv _ _ hinv1.inv, hk1, if_pos hmem1]
        omega
      have hf1 : (AddDevice st.writer S98_DEV_OPNA 8000000 0).file = some f := by
        rw [AddDevice_file]; exact hf
      obtain ⟨e1, e2⟩ := emitRegister_writer
        { st with writer := AddDevice st.writer S98_DEV_OPNA 8000000 0 }
        (GetDeviceId (AddDevice st.writer S98_DEV_OPNA 8000000 0) S98_DEV_OPNA) c f hf1 hs
        (by rw [hid1]; omega)
      refine ⟨_, e1, OrchInv_congr hdr _ _ e2 hinv1, ?_⟩
      intro es
      have hn : ¬ S98_DEV_OPNA = S98_DEV_NONE := by decide
      rw [hspec' es, if_neg hn, if_neg hmem, if_pos rfl, SameDevices_kindsOf _ _ e2, hk1, hid1]
      rfl
    · rw [if_neg hopna]
      refine ⟨[], by simp [hf, File.fwrite_nil], hinv, ?_⟩
      intro es
      rw [hspec es, if_neg hk0, if_neg hmem, if_neg hopna]
      rfl

/-- The loop body against the translation, for a command other than the end marker. -/
theorem convertBody_step (hdr : VGMHeader) (lss : Nat) (st : ConvState) (c : VGMCommand)
    (f : File) (hf : st.writer.file = some f) (hinv : OrchInv hdr st.writer)
    (hs : CommandShape c) (hne : c.cmd ≠ VGM_CMD_END) :
    ∃ out, (convertBody hdr lss st c).writer.file = some (f.fwrite out) ∧
      OrchInv hdr (convertBody hdr lss st c).writer ∧
      ∀ es, specTranslate (kindsOf st.writer) (c :: es)
        = out ++ specTranslate (kindsOf (convertBody hdr lss st c).writer) es := by
  obtain ⟨hwf, hws⟩ := handleWait_writer hdr lss st c f hf
  have hinv1 := OrchInv_congr hdr _ _ hws hinv
  have hk1 := SameDevices_kindsOf _ _ hws
  unfold convertBody
  simp only
  by_cases hreg : isRegisterWrite c.cmd = true
  · rw [if_pos hreg]
    have hz : c.waitSamples = 0 := hs.2.2.2 (not_wait_of_register c.cmd hreg).1
    rw [hz] at hwf
    simp only [waitBytes, ↓reduceIte, File.fwrite_nil] at hwf
    obtain ⟨out, e1, e2, e3⟩ := handleRegister_step hdr _ c f hwf hinv1 hs hreg
    refine ⟨out, e1, e2, ?_⟩
    intro es
    rw [← hk1]
    exact e3 es
  · rw [if_neg hreg]
    have hwr : (if c.cmd = VGM_CMD_DATA_BLOCK then handleWait hdr lss st c
        else if c.cmd = VGM_CMD_PCM_SEEK then handleWait hdr lss st c
        else if c.cmd ≠ VGM_CMD_END ∧ c.waitSamples = 0 ∧
            c.cmd ≠ VGM_CMD_DATA_BLOCK ∧ c.cmd ≠ VGM_CMD_PCM_SEEK then
          { handleWait hdr lss st c with
            unknownCount := ((handleWait hdr lss st c).unknownCount + 1) % 2 ^ 32 }
        else handleWait hdr lss st c).writer = (handleWait hdr lss st c).writer := by
      split
      · rfl
      · split
        · rfl
        · split <;> rfl
    rw [hwr]
    refine ⟨waitBytes c.waitSamples, hwf, hinv1, ?_⟩
    intro es
    rw [specTranslate, if_neg hne, hk1]
    have hreg' : isRegisterWrite c.cmd = false := by simpa using hreg
    by_cases hw : isWaitOpcode c.cmd = true
    · rw [if_pos hw]
    · have hw' : isWaitOpcode c.cmd = false := by simpa using hw
      have hz : c.waitSamples = 0 := hs.2.2.2 hw'
      rw [if_neg hw, hreg', hz]
      simp [waitBytes]

/-- The bytes that the conversion loop writes are the translation of the commands. -/
theorem convertEvents_file (hdr : VGMHeader) (lss : Nat) (cmds : List VGMCommand) :
    ∀ (st : ConvState) (f : File), st.writer.file = some f → OrchInv hdr st.writer →
    (∀ c ∈ cmds, CommandShape c) →
    (convertEvents hdr lss st cmds).writer.file
      = some (f.fwrite (specTranslate (kindsOf st.writer) cmds)) := by
  induction cmds with
  | nil =>
    intro st f hf _ _
    simp [convertEvents, specTranslate, File.fwrite_nil, hf]
  | cons c cs ih =>
    intro st f hf hinv hs
    by_cases hend : c.cmd = VGM_CMD_END
    · rw [convertEvents, if_pos hend, specTranslate, if_pos hend]
      simp only
      rw [WriteEnd_eq _ f hf]
    · rw [convertEvents, if_neg hend]
      obtain ⟨out, e1, e2, e3⟩ := convertBody_step hdr lss st c f hf hinv
        (hs c (List.mem_cons_self _ _)) hend
      rw [ih _ _ e1 e2 (fun x hx => hs x (List.mem_cons_of_mem _ hx)), File.fwrite_append,
        e3 cs]

/-! ### The loop as a sequence of writer calls -/

theorem handleWait_ops (hdr : VGMHeader) (lss : Nat) (st : ConvState) (c : VGMCommand) :
    ∃ ops, (handleWait hdr lss st c).writer = runOps st.writer ops := by
  unfold handleWait
  split
  · simp only
    split
    · exact ⟨[WriterOp.writeWait c.waitSamples, WriterOp.setLoopPoint], rfl⟩
    · split
      · exact ⟨[WriterOp.writeWait c.waitSamples, WriterOp.setLoopPoint], rfl⟩
      · exact ⟨[WriterOp.writeWait c.waitSamples], rfl⟩
  · exact ⟨[], rfl⟩

theorem handleRegister_ops (hdr : VGMHeader) (st : ConvState) (c : VGMCommand) :
    ∃ ops, (handleRegister hdr st c).writer = runOps st.writer ops := by
  unfold handleRegister
  simp only
  split
  · split
    · split
      · split
        · exact ⟨[WriterOp.addDevice _ 8000000 0, WriterOp.writeRegister _ c.reg c.data], rfl⟩
        · exact ⟨[], rfl⟩
      · exact ⟨[WriterOp.addDevice _ _ 0, WriterOp.writeRegister _ c.reg c.data], rfl⟩
    · exact ⟨[WriterOp.writeRegister _ c.reg c.data], rfl⟩
  · exact ⟨[], rfl⟩

theorem convertBody_ops (hdr : VGMHeader) (lss : Nat) (st : ConvState) (c : VGMCommand) :
    ∃ ops, (convertBody hdr lss st c).writer = runOps st.writer ops := by
  obtain ⟨o1, h1⟩ := handleWait_ops hdr lss st c
  unfold convertBody
  simp only
  split
  · obtain ⟨o2, h2⟩ := handleRegister_ops hdr (handleWait hdr lss st c) c
    exact ⟨o1 ++ o2, by rw [h2, h1, runOps_append]⟩
  · split
    · exact ⟨o1, h1⟩
    · split
      · exact ⟨o1, h1⟩
      · split
        · exact ⟨o1, h1⟩
        · exact ⟨o1, h1⟩

/-- The conversion loop acts on the writer as a sequence of its public calls. -/
theorem convertEvents_ops (hdr : VGMHeader) (lss : Nat) (cmds : List VGMCommand) :
    ∀ st : ConvState, ∃ ops, (convertEvents hdr lss st cmds).writer = runOps st.writer ops := by
  induction cmds with
  | nil => intro st; exact ⟨[], rfl⟩
  | cons c cs ih =>
    intro st
    by_cases hend : c.cmd = VGM_CMD_END
    · rw [convertEvents, if_pos hend]
      exact ⟨[WriterOp.writeEnd], rfl⟩
    · rw [convertEvents, if_neg hend]
      obtain ⟨o1, h1⟩ := convertBody_ops hdr lss st c
      obtain ⟨o2, h2⟩ := ih (convertBody hdr lss st c)
      exact ⟨o1 ++ o2, by rw [h2, h1, runOps_append]⟩

theorem addIfClock_ops (w : S98Writer) (k c : Nat) : ∃ ops, addIfClock w k c = runOps w ops := by
  unfold addIfClock
  split
  · exact ⟨[WriterOp.addDevice k c 0], rfl⟩
  · exact ⟨[], rfl⟩

theorem preRegister_fold (w : S98Writer) (hdr : VGMHeader) :
    preRegister w hdr = (clockTable hdr).foldl (fun acc p => addIfClock acc p.1 p.2) w := rfl

theorem foldl_addIfClock (tbl : List (Nat × Nat)) : ∀ w : S98Writer, DevInv w →
    (tbl.map Prod.fst).Nodup → (∀ p ∈ tbl, p.1 ∉ kindsOf w) →
    DevInv (tbl.foldl (fun acc p => addIfClock acc p.1 p.2) w) ∧
    kindsOf (tbl.foldl (fun acc p => addIfClock acc p.1 p.2) w)
      = kindsOf w ++ (tbl.filter (fun p => decide (p.2 > 0))).map Prod.fst ∧
    (tbl.foldl (fun acc p => addIfClock acc p.1 p.2) w).file = w.file ∧
    ∃ ops, tbl.foldl (fun acc p => addIfClock acc p.1 p.2) w = runOps w ops := by
  induction tbl with
  | nil => intro w h _ _; exact ⟨h, by simp, rfl, [], rfl⟩
  | cons p tbl ih =>
    intro w hinv hnd hnot
    rw [List.map_cons, List.nodup_cons] at hnd
    have hp := hnot p (List.mem_cons_self _ _)
    have hinv1 : DevInv (addIfClock w p.1 p.2) := by
      unfold addIfClock; split
      · exact DevInv_AddDevice _ _ _ _ hinv
      · exact hinv
    have hk1 : kindsOf (addIfClock w p.1 p.2)
        = kindsOf w ++ if p.2 > 0 then [p.1] else [] := by
      unfold addIfClock; split
      · rw [kindsOf_AddDevice, if_neg hp]
      · simp
    have hf1 : (addIfClock w p.1 p.2).file = w.file := by
      unfold addIfClock; split
      · exact AddDevice_file _ _ _ _
      · rfl
    have hnot1 : ∀ q ∈ tbl, q.1 ∉ kindsOf (addIfClock w p.1 p.2) := by
      intro q hq hmem
      rw [hk1] at hmem
      rcases List.mem_append.mp hmem with hm | hm
      · exact hnot q (List.mem_cons_of_mem _ hq) hm
      · split at hm
        · simp only [List.mem_singleton] at hm
          exact hnd.1 (hm ▸ List.mem_map_of_mem Prod.fst hq)
        · simp at hm
    obtain ⟨a, b, c, ops, d⟩ := ih (addIfClock w p.1 p.2) hinv1 hnd.2 hnot1
    obtain ⟨ops1, d1⟩ := addIfClock_ops w p.1 p.2
    rw [List.foldl_cons]
    refine ⟨a, ?_, c.trans hf1, ops1 ++ ops, by rw [d, d1, runOps_append]⟩
    rw [b, hk1, List.filter_cons]
    by_cases hc : p.2 > 0
    · simp [hc]
    · simp [hc]

theorem preRegister_opened (w0 : S98Writer) (hdr : VGMHeader) :
    OrchInv hdr (preRegister (opened w0) hdr) ∧
    kindsOf (preRegister (opened w0) hdr) = specInitialKinds hdr ∧
    (preRegister (opened w0) hdr).file = some { bytes := headerWith 0 0 0 [], pos := 48 } ∧
    ∃ ops, preRegister (opened w0) hdr = runOps (opened w0) ops := by
  have hk0 : kindsOf (opened w0) = [] := by simp [kindsOf, (opened_fresh w0).1]
  obtain ⟨a, b, c, d⟩ := foldl_addIfClock (clockTable hdr) (opened w0)
    (DevInv_of_fresh _ (opened_fresh w0)) (by rw [clockTable_kinds]; decide)
    (by intro p _; rw [hk0]; simp)
  rw [← preRegister_fold, hk0, List.nil_append] at b
  rw [← preRegister_fold] at a c d
  refine ⟨⟨a, ?_, ?_⟩, b, c.trans (opened_file w0), d⟩
  · intro k hk
    rw [b] at hk
    obtain ⟨p, hp, rfl⟩ := List.mem_map.mp hk
    exact List.mem_map_of_mem Prod.fst (List.mem_of_mem_filter hp)
  · intro p hp hc
    rw [b]
    exact List.mem_map_of_mem Prod.fst (List.mem_filter.mpr ⟨hp, by simpa using hc⟩)

/-! ## The reader: register writes and data blocks -/

theorem cursor_inside (r : VGMReader) (f : File) (b : Nat) (rest : List Nat)
    (hf : r.file = some f) (hsize : r.fileSize = f.bytes.length)
    (hb : f.bytes.drop r.currentPos = b :: rest) :
    (r.file.isNone || decide (r.currentPos ≥ r.fileSize)) = false ∧
    r.currentPos + 1 + rest.length = f.bytes.length := by
  rcases length_of_drop _ _ _ hb with h1 | h1
  · simp only [List.length_cons] at h1
    refine ⟨?_, by omega⟩
    simp only [hf, Option.isNone_some, Bool.false_or, decide_eq_false_iff_not, hsize]
    omega
  · exact absurd h1.1 (by simp)

/-- The reader after the opcode byte at the cursor has been read and counted. -/
theorem ReadNextCommand_at (r : VGMReader) (f : File) (b : Nat) (rest : List Nat)
    (hf : r.file = some f) (hsize : r.fileSize = f.bytes.length)
    (hlen : f.bytes.length < 2 ^ 32) (hb256 : b < 256)
    (hb : f.bytes.drop r.currentPos = b :: rest) :
    ReadNextCommand r =
      (if b = VGM_CMD_END then
        (some { VGMCommand.init with cmd := b },
          { r with file := some { bytes := f.bytes, pos := r.currentPos + 1 }
                   currentPos := r.currentPos + 1 })
      else if b = VGM_CMD_WAIT then
        (some { VGMCommand.init with
                cmd := b
                waitSamples := (ReadUint16 { r with
                  file := some { bytes := f.bytes, pos := r.currentPos + 1 }
                  currentPos := r.currentPos + 1 }).1 },
          { (ReadUint16 { r with
              file := some { bytes := f.bytes, pos := r.currentPos + 1 }
              currentPos := r.currentPos + 1 }).2 with
            currentPos := ((ReadUint16 { r with
              file := some { bytes := f.bytes, pos := r.currentPos + 1 }
              currentPos := r.currentPos + 1 }).2.currentPos + 2) % 2 ^ 32 })
      else if b = VGM_CMD_WAIT_735 then
        (some { VGMCommand.init with cmd := b, waitSamples := 735 },
          { r with file := some { bytes := f.bytes, pos := r.currentPos + 1 }
                   currentPos := r.currentPos + 1 })
      else if b = VGM_CMD_WAIT_882 then
        (some { VGMCommand.init with cmd := b, waitSamples := 882 },
          { r with file := some { bytes := f.bytes, pos := r.currentPos + 1 }
                   currentPos := r.currentPos + 1 })
      else if b ≥ VGM_CMD_WAIT_SHORT ∧ b ≤ 0x7F then
        (some { VGMCommand.init with cmd := b, waitSamples := (b - VGM_CMD_WAIT_SHORT) + 1 },
          { r with file := some { bytes := f.bytes, pos := r.currentPos + 1 }
                   currentPos := r.currentPos + 1 })
      else if b = VGM_CMD_DATA_BLOCK then
        (some (readDataBlock { r with
            file := some { bytes := f.bytes, pos := r.currentPos + 1 }
            currentPos := r.currentPos + 1 } { VGMCommand.init with cmd := b }).1,
          (readDataBlock { r with
            file := some { bytes := f.bytes, pos := r.currentPos + 1 }
            currentPos := r.currentPos + 1 } { VGMCommand.init with cmd := b }).2)
      else if b = VGM_CMD_PCM_SEEK then
        (some { VGMCommand.init with
                cmd := b
                pcmOffset := (ReadUint32 { r with
                  file := some { bytes := f.bytes, pos := r.currentPos + 1 }
                  currentPos := r.currentPos + 1 }).1 },
          { (ReadUint32 { r with
              file := some { bytes := f.bytes, pos := r.currentPos + 1 }
              currentPos := r.currentPos + 1 }).2 with
            currentPos := ((ReadUint32 { r with
              file := some { bytes := f.bytes, pos := r.currentPos + 1 }
              currentPos := r.currentPos + 1 }).2.currentPos + 4) % 2 ^ 32 })
      else if isRegisterWrite b then
        (some { VGMCommand.init with
                cmd := b
                reg := (ReadUint8 { r with
                  file := some { bytes := f.bytes, pos := r.currentPos + 1 }
                  currentPos := r.currentPos + 1 }).1
                data := (ReadUint8 (ReadUint8 { r with
                  file := some { bytes := f.bytes, pos := r.currentPos + 1 }
                  currentPos := r.currentPos + 1 }).2).1
                port := if b = VGM_CMD_YM2612_PORT1 ∨ b = VGM_CMD_YM2608_PORT1 ∨
                  b = VGM_CMD_YM2610_PORT1 then 1 else 0 },
          { (ReadUint8 (ReadUint8 { r with
              file := some { bytes := f.bytes, pos := r.currentPos + 1 }
              currentPos := r.currentPos + 1 }).2).2 with
            currentPos := ((ReadUint8 (ReadUint8 { r with
              file := some { bytes := f.bytes, pos := r.currentPos + 1 }
              currentPos := r.currentPos + 1 }).2).2.currentPos + 2) % 2 ^ 32 })
      else
        (some { VGMCommand.init with cmd := b },
          { r with file := some { bytes := f.bytes, pos := r.currentPos + 1 }
                   currentPos := r.currentPos + 1 })) := by
  obtain ⟨h1, h2⟩ := cursor_inside r f b rest hf hsize hb
  have hm : (r.currentPos + 1) % 2 ^ 32 = r.currentPos + 1 := Nat.mod_eq_of_lt (by omega)
  unfold ReadNextCommand
  rw [h1, read_opcode r f _ _ hf hb, Nat.mod_eq_of_lt hb256]
  simp only [Bool.false_eq_true, ↓reduceIte, hm]

theorem ReadUint8_at (r : VGMReader) (bytes : List Nat) (p b : Nat) (rest : List Nat)
    (hf : r.file = some { bytes := bytes, pos := p }) (hb : bytes.drop p = b :: rest) :
    ReadUint8 r = (b % 256, { r with file := some { bytes := bytes, pos := p + 1 } }) := by
  unfold ReadUint8
  rw [readLE_eq r _ 1 hf]
  simp [hb, leValue]

/-- Claim C11, as amended: a chip-command opcode followed by a register byte and a value byte
is decoded as a register write with that register and value and the cursor moved by 3; the port
is 1 for exactly three opcodes, `53`, `57` and `59` (the second ports of YM2612, YM2608 and
YM2610), and 0 for the other ten. -/
theorem ReadNextCommand_port (r : VGMReader) (f : File) (hf : r.file = some f)
    (hsize : r.fileSize = f.bytes.length) (hlen : f.bytes.length < 2 ^ 32) :
    (∀ b reg val rest, isRegisterWrite b = true → reg < 256 → val < 256 →
      f.bytes.drop r.currentPos = b :: reg :: val :: rest →
      (ReadNextCommand r).1
        = some { VGMCommand.init with
                 cmd := b, reg := reg, data := val
                 port := if b = 0x53 ∨ b = 0x57 ∨ b = 0x59 then 1 else 0 } ∧
      (ReadNextCommand r).2.currentPos = r.currentPos + 3) ∧
    (List.range 256).filter isRegisterWrite
      = [0x50, 0x51, 0x52, 0x53, 0x54, 0x55, 0x56, 0x57, 0x58, 0x59, 0x5A, 0x5B, 0xA0] ∧
    (isRegisterWrite 0x53 = true ∧ isRegisterWrite 0x57 = true ∧ isRegisterWrite 0x59 = true) := by
  refine ⟨?_, by decide, by decide⟩
  intro b reg val rest hreg hr hv hb
  have hb' := (isRegisterWrite_iff b).mp hreg
  obtain ⟨_, h2⟩ := cursor_inside r f b _ hf hsize hb
  simp only [List.length_cons] at h2
  have hd1 := drop_succ_of_drop _ _ _ _ hb
  have hd2 := drop_succ_of_drop _ _ _ _ hd1
  rw [ReadNextCommand_at r f b _ hf hsize hlen (by omega) hb]
  have n1 : ¬ b = VGM_CMD_END := by unfold VGM_CMD_END; omega
  have n2 : ¬ b = VGM_CMD_WAIT := by unfold VGM_CMD_WAIT; omega
  have n3 : ¬ b = VGM_CMD_WAIT_735 := by unfold VGM_CMD_WAIT_735; omega
  have n4 : ¬ b = VGM_CMD_WAIT_882 := by unfold VGM_CMD_WAIT_882; omega
  have n5 : ¬ (b ≥ VGM_CMD_WAIT_SHORT ∧ b ≤ 0x7F) := by unfold VGM_CMD_WAIT_SHORT; omega
  have n6 : ¬ b = VGM_CMD_DATA_BLOCK := by unfold VGM_CMD_DATA_BLOCK; omega
  have n7 : ¬ b = VGM_CMD_PCM_SEEK := by unfold VGM_CMD_PCM_SEEK; omega
  rw [if_neg n1, if_neg n2, if_neg n3, if_neg n4, if_neg n5, if_neg n6, if_neg n7, if_pos hreg]
  rw [ReadUint8_at _ f.bytes (r.currentPos + 1) reg _ rfl hd1]
  simp only
  rw [ReadUint8_at _ f.bytes (r.currentPos + 1 + 1) val _ rfl hd2]
  simp only [Nat.mod_eq_of_lt hr, Nat.mod_eq_of_lt hv, VGM_CMD_YM2612_PORT1,
    VGM_CMD_YM2608_PORT1, VGM_CMD_YM2610_PORT1, true_and]
  omega

theorem ReadNextCommand_port_witness :
    ((⟨some ⟨[0x59, 0x10, 0x20], 0⟩, VGMHeader.init, 0, 0, 0, 3⟩ : VGMReader).file
      = some ⟨[0x59, 0x10, 0x20], 0⟩) ∧
    ((3 : Nat) = ([0x59, 0x10, 0x20] : List Nat).length) ∧
    (([0x59, 0x10, 0x20] : List Nat).length < 2 ^ 32) ∧
    (ReadNextCommand ⟨some ⟨[0x59, 0x10, 0x20], 0⟩, VGMHeader.init, 0, 0, 0, 3⟩).1
      = some { VGMCommand.init with cmd := 0x59, reg := 0x10, data := 0x20, port := 1 } :=
  ⟨rfl, rfl, by decide,
    ((ReadNextCommand_port ⟨some ⟨[0x59, 0x10, 0x20], 0⟩, VGMHeader.init, 0, 0, 0, 3⟩
      ⟨[0x59, 0x10, 0x20], 0⟩ rfl rfl (by decide)).1
      0x59 0x10 0x20 [] (by decide) (by decide) (by decide) rfl).1⟩

theorem ReadNextCommand_port_counterexample :
    ((List.range 256).filter
      (fun b => isRegisterWrite b && (portOfOpcode b == some 1))).length = 3 ∧
    (List.range 256).filter (fun b => isRegisterWrite b && (portOfOpcode b == some 1))
      = [0x53, 0x57, 0x59] := by
  decide

theorem readDataBlock_cmd (r : VGMReader) (c : VGMCommand) :
    (readDataBlock r c).1.cmd = c.cmd := by
  unfold readDataBlock
  dsimp only
  split
  · split
    · split <;> rfl
    · rfl
  · rfl

/-- The command that `ReadNextCommand` delivers carries the opcode byte at the cursor. -/
theorem ReadNextCommand_cmd (r : VGMReader) (f : File) (b : Nat) (rest : List Nat)
    (hf : r.file = some f) (hsize : r.fileSize = f.bytes.length)
    (hlen : f.bytes.length < 2 ^ 32) (hb256 : b < 256)
    (hb : f.bytes.drop r.currentPos = b :: rest) :
    ∃ c, (ReadNextCommand r).1 = some c ∧ c.cmd = b := by
  rw [ReadNextCommand_at r f b rest hf hsize hlen hb256 hb]
  by_cases c1 : b = VGM_CMD_END
  · rw [if_pos c1]; exact ⟨_, rfl, rfl⟩
  rw [if_neg c1]
  by_cases c2 : b = VGM_CMD_WAIT
  · rw [if_pos c2]; exact ⟨_, rfl, rfl⟩
  rw [if_neg c2]
  by_cases c3 : b = VGM_CMD_WAIT_735
  · rw [if_pos c3]; exact ⟨_, rfl, rfl⟩
  rw [if_neg c3]
  by_cases c4 : b = VGM_CMD_WAIT_882
  · rw [if_pos c4]; exact ⟨_, rfl, rfl⟩
  rw [if_neg c4]
  by_cases c5 : b ≥ VGM_CMD_WAIT_SHORT ∧ b ≤ 0x7F
  · rw [if_pos c5]; exact ⟨_, rfl, rfl⟩
  rw [if_neg c5]
  by_cases c6 : b = VGM_CMD_DATA_BLOCK
  · rw [if_pos c6]; exact ⟨_, rfl, readDataBlock_cmd _ _⟩
  rw [if_neg c6]
  by_cases c7 : b = VGM_CMD_PCM_SEEK
  · rw [if_pos c7]; exact ⟨_, rfl, rfl⟩
  rw [if_neg c7]
  by_cases c8 : isRegisterWrite b = true
  · rw [if_pos c8]; exact ⟨_, rfl, rfl⟩
  · rw [if_neg c8]; exact ⟨_, rfl, rfl⟩

theorem ReadNextCommand_eof (r : VGMReader) (h : r.currentPos ≥ r.fileSize) :
    ReadNextCommand r = (none, r) := by
  unfold ReadNextCommand
  have : (r.file.isNone || decide (r.currentPos ≥ r.fileSize)) = true := by simp [h]
  rw [if_pos this]

/-- The data-block branch on a complete block. -/
theorem readDataBlock_complete (r : VGMReader) (bytes : List Nat) (c : VGMCommand)
    (t s0 s1 s2 s3 : Nat) (payload rest : List Nat)
    (hf : r.file = some { bytes := bytes, pos := r.currentPos })
    (hlen : bytes.length < 2 ^ 32)
    (ht : t < 256) (h0 : s0 < 256) (h1 : s1 < 256) (h2 : s2 < 256) (h3 : s3 < 256)
    (hp : payload.length = s0 + 256 * s1 + 65536 * s2 + 16777216 * s3)
    (hb : bytes.drop r.currentPos = 0x66 :: t :: s0 :: s1 :: s2 :: s3 :: (payload ++ rest)) :
    readDataBlock r c =
      ({ c with blockType := t, blockSize := payload.length, blockData := payload },
       { r with file := some { bytes := bytes, pos := r.currentPos + 6 + payload.length }
                currentPos := r.currentPos + 6 + payload.length }) := by
  have hl : r.currentPos + 6 + payload.length + rest.length = bytes.length := by
    rcases length_of_drop _ _ _ hb with h | h
    · simp only [List.length_cons, List.length_append] at h; omega
    · exact absurd h.1 (by simp)
  have d1 := drop_succ_of_drop _ _ _ _ hb
  have d2 := drop_succ_of_drop _ _ _ _ d1
  have d3 : bytes.drop (r.currentPos + 1 + 1 + 4) = payload ++ rest := by
    have e : r.currentPos + 1 + 1 + 4 = r.currentPos + 1 + 1 + 1 + 1 + 1 + 1 := by omega
    rw [e]
    exact drop_succ_of_drop _ _ _ _ (drop_succ_of_drop _ _ _ _
      (drop_succ_of_drop _ _ _ _ (drop_succ_of_drop _ _ _ _ d2)))
  have hv : leValue [s0, s1, s2, s3] = payload.length := by
    simp only [leValue, Nat.mod_eq_of_lt h0, Nat.mod_eq_of_lt h1, Nat.mod_eq_of_lt h2,
      Nat.mod_eq_of_lt h3]
    omega
  unfold readDataBlock
  rw [ReadUint8_at r bytes r.currentPos 0x66 _ hf hb]
  simp only [Nat.reduceMod, ↓reduceIte]
  rw [ReadUint8_at _ bytes (r.currentPos + 1) t _ rfl d1]
  simp only [ReadUint32]
  rw [readLE_eq _ { bytes := bytes, pos := r.currentPos + 1 + 1 } 4 rfl]
  simp only [d2, List.take_succ_cons, List.take_zero, hv, List.length_cons, List.length_nil,
    File.fread, d3, List.take_left', List.length_append, Nat.sub_self, List.replicate_zero,
    List.append_nil, Nat.mod_eq_of_lt ht, List.take_left]
  have m1 : (r.currentPos + 1) % 2 ^ 32 = r.currentPos + 1 := Nat.mod_eq_of_lt (by omega)
  have m2 : (r.currentPos + 1 + 1) % 2 ^ 32 = r.currentPos + 1 + 1 := Nat.mod_eq_of_lt (by omega)
  have m3 : (r.currentPos + 1 + 1 + 4) % 2 ^ 32 = r.currentPos + 1 + 1 + 4 :=
    Nat.mod_eq_of_lt (by omega)
  have m4 : (r.currentPos + 1 + 1 + 4 + payload.length) % 2 ^ 32
      = r.currentPos + 1 + 1 + 4 + payload.length := Nat.mod_eq_of_lt (by omega)
  simp only [m1, m2, m3, m4, ↓reduceIte]

/-- Claim C12: for a data-block command `67 66 t s0 s1 s2 s3` whose payload of
`s = s0 + 256 s1 + 65536 s2 + 16777216 s3` bytes is present in the file, `ReadNextCommand`
reports type `t` and size `s` and moves the cursor by exactly `7 + s`, so that the next call
decodes the first byte behind the payload (or reports the end of the stream when nothing
follows). -/
theorem ReadNextCommand_dataBlock (r : VGMReader) (f : File) (hf : r.file = some f)
    (hsize : r.fileSize = f.bytes.length) (hlen : f.bytes.length < 2 ^ 32)
    (t s0 s1 s2 s3 : Nat) (payload rest : List Nat)
    (ht : t < 256) (h0 : s0 < 256) (h1 : s1 < 256) (h2 : s2 < 256) (h3 : s3 < 256)
    (hp : payload.length = s0 + 256 * s1 + 65536 * s2 + 16777216 * s3)
    (hb : f.bytes.drop r.currentPos
      = 0x67 :: 0x66 :: t :: s0 :: s1 :: s2 :: s3 :: (payload ++ rest)) :
    (ReadNextCommand r).1
      = some { VGMCommand.init with
               cmd := 0x67, blockType := t
               blockSize := s0 + 256 * s1 + 65536 * s2 + 16777216 * s3
               blockData := payload } ∧
    (ReadNextCommand r).2.currentPos
      = r.currentPos + 7 + (s0 + 256 * s1 + 65536 * s2 + 16777216 * s3) ∧
    f.bytes.drop (ReadNextCommand r).2.currentPos = rest ∧
    (rest = [] → (ReadNextCommand (ReadNextCommand r).2).1 = none) ∧
    (∀ b rest', b < 256 → rest = b :: rest' →
      ∃ c, (ReadNextCommand (ReadNextCommand r).2).1 = some c ∧ c.cmd = b) := by
  have hl : r.currentPos + 7 + payload.length + rest.length = f.bytes.length := by
    rcases length_of_drop _ _ _ hb with h | h
    · simp only [List.length_cons, List.length_append] at h; omega
    · exact absurd h.1 (by simp)
  have hd1 := drop_succ_of_drop _ _ _ _ hb
  have hstep : ReadNextCommand r =
      (some { VGMCommand.init with
              cmd := 0x67, blockType := t, blockSize := payload.length, blockData := payload },
       { r with file := some { bytes := f.bytes, pos := r.currentPos + 1 + 6 + payload.length }
                currentPos := r.currentPos + 1 + 6 + payload.length }) := by
    rw [ReadNextCommand_at r f 0x67 _ hf hsize hlen (by decide) hb]
    simp only [VGM_CMD_END, VGM_CMD_WAIT, VGM_CMD_WAIT_735, VGM_CMD_WAIT_882,
      VGM_CMD_WAIT_SHORT, VGM_CMD_DATA_BLOCK, Nat.reduceEqDiff, ↓reduceIte, ge_iff_le,
      Nat.reduceLeDiff, and_false, and_true]
    rw [readDataBlock_complete
      { r with file := some { bytes := f.bytes, pos := r.currentPos + 1 }
               currentPos := r.currentPos + 1 }
      f.bytes _ t s0 s1 s2 s3 payload rest rfl hlen ht h0 h1 h2 h3 hp hd1]
  have hdrop : f.bytes.drop (r.currentPos + 1 + 6 + payload.length) = rest := by
    have e : r.currentPos + 1 + 6 + payload.length
        = r.currentPos + 1 + 1 + 1 + 1 + 1 + 1 + 1 + payload.length := by omega
    have d7 := drop_succ_of_drop _ _ _ _ (drop_succ_of_drop _ _ _ _ (drop_succ_of_drop _ _ _ _
      (drop_succ_of_drop _ _ _ _ (drop_succ_of_drop _ _ _ _ (drop_succ_of_drop _ _ _ _ hd1)))))
    rw [e, ← List.drop_drop, d7, List.drop_left]
  rw [hstep, ← hp]
  refine ⟨rfl, (by show r.currentPos + 1 + 6 + payload.length = _; omega), hdrop, ?_, ?_⟩
  · intro hr
    rw [ReadNextCommand_eof]
    rw [hr] at hl
    simp only [List.length_nil] at hl
    simp only [hsize]
    omega
  · intro b rest' hb256 hr
    exact ReadNextCommand_cmd _ { bytes := f.bytes, pos := r.currentPos + 1 + 6 + payload.length }
      b rest' rfl hsize hlen hb256 (by rw [← hr]; exact hdrop)

theorem ReadNextCommand_dataBlock_witness :
    ((⟨some ⟨[0x67, 0x66, 0x00, 0x02, 0, 0, 0, 0xAA, 0xBB, 0x62], 0⟩, VGMHeader.init, 0, 0, 0,
        10⟩ : VGMReader).file
      = some ⟨[0x67, 0x66, 0x00, 0x02, 0, 0, 0, 0xAA, 0xBB, 0x62], 0⟩) ∧
    ((10 : Nat) = ([0x67, 0x66, 0x00, 0x02, 0, 0, 0, 0xAA, 0xBB, 0x62] : List Nat).length) ∧
    (([0x67, 0x66, 0x00, 0x02, 0, 0, 0, 0xAA, 0xBB, 0x62] : List Nat).length < 2 ^ 32) ∧
    (([0xAA, 0xBB] : List Nat).length = 2 + 256 * 0 + 65536 * 0 + 16777216 * 0) ∧
    (ReadNextCommand ⟨some ⟨[0x67, 0x66, 0x00, 0x02, 0, 0, 0, 0xAA, 0xBB, 0x62], 0⟩,
        VGMHeader.init, 0, 0, 0, 10⟩).2.currentPos
      = 0 + 7 + (2 + 256 * 0 + 65536 * 0 + 16777216 * 0) :=
  ⟨rfl, rfl, by decide, rfl,
    (ReadNextCommand_dataBlock
      ⟨some ⟨[0x67, 0x66, 0x00, 0x02, 0, 0, 0, 0xAA, 0xBB, 0x62], 0⟩, VGMHeader.init, 0, 0, 0, 10⟩
      ⟨[0x67, 0x66, 0x00, 0x02, 0, 0, 0, 0xAA, 0xBB, 0x62], 0⟩ rfl rfl (by decide)
      0x00 2 0 0 0 [0xAA, 0xBB] [0x62] (by decide) (by decide) (by decide) (by decide)
      (by decide) rfl rfl).2.1⟩

/-- Claim C13, evaluated at a failing input: the data block declares 5 payload bytes and only
one, `62`, is left in the file.  The first call returns the data-block event with type 0 and
size 5 and leaves the cursor at 7, inside the file of 8 bytes; the second call does not report
the end of the stream but decodes the payload byte `62` as a wait of 735 samples. -/
theorem ReadNextCommand_short_block :
    (ReadNextCommand ⟨some ⟨[0x67, 0x66, 0x00, 0x05, 0, 0, 0, 0x62], 0⟩, VGMHeader.init, 0, 0, 0,
        8⟩).1
      = some { VGMCommand.init with
               cmd := 0x67, blockType := 0, blockSize := 5, blockData := [0x62, 0, 0, 0, 0] } ∧
    (ReadNextCommand ⟨some ⟨[0x67, 0x66, 0x00, 0x05, 0, 0, 0, 0x62], 0⟩, VGMHeader.init, 0, 0, 0,
        8⟩).2.currentPos = 7 ∧
    (ReadNextCommand (ReadNextCommand ⟨some ⟨[0x67, 0x66, 0x00, 0x05, 0, 0, 0, 0x62], 0⟩,
        VGMHeader.init, 0, 0, 0, 8⟩).2).1
      = some { VGMCommand.init with cmd := 0x62, waitSamples := 735 } ∧
    (ReadNextCommand (ReadNextCommand ⟨some ⟨[0x67, 0x66, 0x00, 0x05, 0, 0, 0, 0x62], 0⟩,
        VGMHeader.init, 0, 0, 0, 8⟩).2).1 ≠ none := by
  decide

/-! ## The reader: the header -/

/-- Claim C14, as amended: `ReadHeader` fails exactly when the reader has no open file or the
first four bytes of the file are not the magic `Vgm ` (which includes a file shorter than four
bytes); when the magic matches it succeeds whatever follows, and a file that ends behind the
magic yields a header whose fields are all zero, with the data offset defaulted to `0x40`. -/
theorem ReadHeader_magic (r : VGMReader) (hdr : VGMHeader) :
    ((ReadHeader r hdr).1 = true ↔
      ∃ f, r.file = some f ∧ f.bytes.take 4 = [0x56, 0x67, 0x6D, 0x20]) ∧
    ((ReadHeader r hdr).1 = false → (ReadHeader r hdr).2.1 = hdr) ∧
    (ReadHeader (VGMReader.Open (some [0x56, 0x67, 0x6D, 0x20])).2 hdr).1 = true ∧
    (ReadHeader (VGMReader.Open (some [0x56, 0x67, 0x6D, 0x20])).2 hdr).2.1
      = { VGMHeader.init with dataOffset := 0x40 } := by
  refine ⟨?_, ?_, rfl, rfl⟩
  · unfold ReadHeader
    cases hf : r.file with
    | none => simp
    | some f =>
      simp only [File.fseek, File.fread, List.drop_zero, Option.some.injEq, exists_eq_left']
      by_cases hm : List.take 4 f.bytes = [0x56, 0x67, 0x6D, 0x20]
      · simp [hm]
      · have : ¬ ((List.take 4 f.bytes).length ≠ 4 ∨
            List.take 4 f.bytes ≠ [0x56, 0x67, 0x6D, 0x20]) → False := by
          intro h; exact h (Or.inr hm)
        simp only [hm, iff_false]
        split
        · simp
        · next h => exact absurd h (by intro h'; exact this h')
  · unfold ReadHeader
    cases hf : r.file with
    | none => simp
    | some f =>
      simp only
      split
      · simp
      · simp

theorem ReadHeader_magic_counterexample :
    (ReadHeader (VGMReader.Open (some [0x56, 0x67, 0x6D, 0x20])).2 VGMHeader.init).1 = true ∧
    ([0x56, 0x67, 0x6D, 0x20] : List Nat).length = 4 := by
  decide

/-! ## The conversion loop: the loop point -/

theorem handleWait_calls (h : VGMHeader) (lss : Nat) (st : ConvState) (c : VGMCommand) :
    (handleWait h lss st c).writer = runOps st.writer (waitCalls h lss st c) := by
  unfold handleWait waitCalls
  by_cases h0 : c.waitSamples > 0
  · rw [if_pos h0, if_pos h0]
    simp only
    split
    · rfl
    · split <;> rfl
  · rw [if_neg h0, if_neg h0]; rfl

theorem handleRegister_calls (h : VGMHeader) (st : ConvState) (c : VGMCommand) :
    (handleRegister h st c).writer = runOps st.writer (registerCalls h st c) := by
  unfold handleRegister registerCalls
  simp only
  split
  · split
    · split
      · split <;> rfl
      · rfl
    · rfl
  · rfl

theorem convertBody_calls (h : VGMHeader) (lss : Nat) (st : ConvState) (c : VGMCommand) :
    (convertBody h lss st c).writer = runOps st.writer (bodyCalls h lss st c) := by
  unfold convertBody bodyCalls
  simp only
  rw [runOps_append, ← handleWait_calls]
  split
  · exact handleRegister_calls h _ c
  · split
    · rfl
    · split
      · rfl
      · split <;> rfl

/-- The writer after the conversion loop is the writer after the calls listed by
`loopCalls`. -/
theorem convertEvents_calls (h : VGMHeader) (lss : Nat) (cmds : List VGMCommand) :
    ∀ st : ConvState,
      (convertEvents h lss st cmds).writer = runOps st.writer (loopCalls h lss st cmds) := by
  induction cmds with
  | nil => intro st; rfl
  | cons c cs ih =>
    intro st
    by_cases hend : c.cmd = VGM_CMD_END
    · rw [convertEvents, loopCalls, if_pos hend, if_pos hend]; rfl
    · rw [convertEvents, loopCalls, if_neg hend, if_neg hend, ih, convertBody_calls,
        runOps_append]

theorem registerCalls_no_loop (h : VGMHeader) (st : ConvState) (c : VGMCommand) :
    ∀ op ∈ registerCalls h st c, op.isSetLoopPoint = false := by
  unfold registerCalls
  simp only
  intro op hop
  split at hop
  · split at hop
    · split at hop
      · split at hop
        · simp only [List.mem_cons, List.mem_singleton, List.not_mem_nil, or_false] at hop
          rcases hop with hop | hop <;> rw [hop] <;> rfl
        · simp at hop
      · simp only [List.mem_cons, List.mem_singleton, List.not_mem_nil, or_false] at hop
        rcases hop with hop | hop <;> rw [hop] <;> rfl
    · simp only [List.mem_singleton] at hop
      rw [hop]; rfl
  · simp at hop

theorem handleRegister_flags (h : VGMHeader) (st : ConvState) (c : VGMCommand) :
    (handleRegister h st c).atLoopPoint = st.atLoopPoint ∧
    (handleRegister h st c).totalSamples = st.totalSamples := by
  unfold handleRegister emitRegister
  simp only
  split
  · split
    · split
      · split <;> exact ⟨rfl, rfl⟩
      · exact ⟨rfl, rfl⟩
    · exact ⟨rfl, rfl⟩
  · exact ⟨rfl, rfl⟩

theorem convertBody_flags (h : VGMHeader) (lss : Nat) (st : ConvState) (c : VGMCommand) :
    (convertBody h lss st c).atLoopPoint = (handleWait h lss st c).atLoopPoint ∧
    (convertBody h lss st c).totalSamples = (handleWait h lss st c).totalSamples := by
  unfold convertBody
  simp only
  split
  · exact handleRegister_flags h _ c
  · split
    · exact ⟨rfl, rfl⟩
    · split
      · exact ⟨rfl, rfl⟩
      · split <;> exact ⟨rfl, rfl⟩

/-- The wait statement when the loop point is armed already, or no crossing happens: no
`SetLoopPoint` call, and the armed flag stays. -/
theorem handleWait_quiet (h : VGMHeader) (lss : Nat) (st : ConvState) (c : VGMCommand)
    (hq : st.atLoopPoint = true ∨ (h.loopSamples = 0 ∧ lss = 0) ∨
      (lss > 0 ∧ (st.totalSamples + c.waitSamples) % 2 ^ 32 < lss)) :
    (∀ op ∈ waitCalls h lss st c, op.isSetLoopPoint = false) ∧
    (handleWait h lss st c).atLoopPoint = st.atLoopPoint := by
  have c1 : (!st.atLoopPoint && decide (lss > 0) &&
      decide ((st.totalSamples + c.waitSamples) % 2 ^ 32 ≥ lss)) = false := by
    rcases hq with hq | hq | hq
    · simp [hq]
    · simp [hq.2]
    · have h2 := hq.2
      simp only [Bool.and_eq_false_imp, Bool.and_eq_true, Bool.not_eq_true', decide_eq_true_eq,
        decide_eq_false_iff_not, and_imp]
      intro _ _
      omega
  have c2 : (!st.atLoopPoint && decide (lss = 0) && decide (h.loopSamples > 0)) = false := by
    rcases hq with hq | hq | hq
    · simp [hq]
    · simp [hq.1]
    · have : ¬ lss = 0 := by omega
      simp [this]
  unfold waitCalls handleWait
  by_cases h0 : c.waitSamples > 0
  · rw [if_pos h0, if_pos h0]
    simp only [c1, c2, Bool.false_eq_true, ↓reduceIte, List.mem_singleton, and_true]
    intro op hop
    rw [hop]; rfl
  · rw [if_neg h0, if_neg h0]
    simp

/-- The wait statement at the crossing: `WriteWait`, then `SetLoopPoint`, and the armed flag is
set. -/
theorem handleWait_cross (h : VGMHeader) (lss : Nat) (st : ConvState) (c : VGMCommand)
    (ha : st.atLoopPoint = false) (hl : lss > 0) (ht : st.totalSamples < lss)
    (hs : st.totalSamples < 2 ^ 32)
    (hc : (st.totalSamples + c.waitSamples) % 2 ^ 32 ≥ lss) :
    waitCalls h lss st c = [WriterOp.writeWait c.waitSamples, WriterOp.setLoopPoint] ∧
    (handleWait h lss st c).atLoopPoint = true := by
  have h0 : c.waitSamples > 0 := by
    by_contra hn
    have : c.waitSamples = 0 := by omega
    rw [this, Nat.add_zero, Nat.mod_eq_of_lt hs] at hc
    omega
  have c1 : (!st.atLoopPoint && decide (lss > 0) &&
      decide ((st.totalSamples + c.waitSamples) % 2 ^ 32 ≥ lss)) = true := by
    simp only [ha, Bool.not_false, Bool.true_and, Bool.and_eq_true, decide_eq_true_eq]
    exact ⟨hl, hc⟩
  unfold waitCalls handleWait
  rw [if_pos h0, if_pos h0]
  simp only [c1, ↓reduceIte, and_self]

theorem handleWait_total (h : VGMHeader) (lss : Nat) (st : ConvState) (c : VGMCommand)
    (hs : st.totalSamples < 2 ^ 32) :
    (handleWait h lss st c).totalSamples = (st.totalSamples + c.waitSamples) % 2 ^ 32 := by
  unfold handleWait
  by_cases h0 : c.waitSamples > 0
  · rw [if_pos h0]
    simp only
    split
    · rfl
    · split <;> rfl
  · rw [if_neg h0]
    have : c.waitSamples = 0 := by omega
    rw [this, Nat.add_zero, Nat.mod_eq_of_lt hs]

theorem bodyCalls_quiet (h : VGMHeader) (lss : Nat) (st : ConvState) (c : VGMCommand)
    (hq : st.atLoopPoint = true ∨ (h.loopSamples = 0 ∧ lss = 0) ∨
      (lss > 0 ∧ (st.totalSamples + c.waitSamples) % 2 ^ 32 < lss)) :
    (∀ op ∈ bodyCalls h lss st c, op.isSetLoopPoint = false) ∧
    (convertBody h lss st c).atLoopPoint = st.atLoopPoint := by
  obtain ⟨q1, q2⟩ := handleWait_quiet h lss st c hq
  refine ⟨?_, by rw [(convertBody_flags h lss st c).1, q2]⟩
  intro op hop
  unfold bodyCalls at hop
  rcases List.mem_append.mp hop with hop | hop
  · exact q1 op hop
  · split at hop
    · exact registerCalls_no_loop h _ c op hop
    · simp at hop

/-- Once the loop point is armed, or when the header declares no loop, the loop makes no
`SetLoopPoint` call. -/
theorem loopCalls_quiet (h : VGMHeader) (lss : Nat) (cmds : List VGMCommand) :
    ∀ st : ConvState, (st.atLoopPoint = true ∨ (h.loopSamples = 0 ∧ lss = 0)) →
      ∀ op ∈ loopCalls h lss st cmds, op.isSetLoopPoint = false := by
  induction cmds with
  | nil => intro st _ op hop; simp [loopCalls] at hop
  | cons c cs ih =>
    intro st hq op hop
    rw [loopCalls] at hop
    split at hop
    · simp only [List.mem_singleton] at hop
      rw [hop]; rfl
    · have hq' : st.atLoopPoint = true ∨ (h.loopSamples = 0 ∧ lss = 0) ∨
          (lss > 0 ∧ (st.totalSamples + c.waitSamples) % 2 ^ 32 < lss) := by
        rcases hq with hq | hq
        · exact Or.inl hq
        · exact Or.inr (Or.inl hq)
      obtain ⟨b1, b2⟩ := bodyCalls_quiet h lss st c hq'
      rcases List.mem_append.mp hop with hop | hop
      · exact b1 op hop
      · refine ih _ ?_ op hop
        rcases hq with hq | hq
        · exact Or.inl (by rw [b2]; exact hq)
        · exact Or.inr hq

theorem loopCalls_append (h : VGMHeader) (lss : Nat) (pre rest : List VGMCommand) :
    ∀ st : ConvState, (∀ x ∈ pre, x.cmd ≠ VGM_CMD_END) →
      loopCalls h lss st (pre ++ rest)
        = loopCalls h lss st pre ++ loopCalls h lss (convertEvents h lss st pre) rest := by
  induction pre with
  | nil => intro st _; simp [loopCalls, convertEvents]
  | cons c cs ih =>
    intro st hne
    have hc := hne c (List.mem_cons_self _ _)
    rw [List.cons_append, loopCalls, loopCalls, convertEvents, if_neg hc, if_neg hc, if_neg hc,
      ih _ (fun x hx => hne x (List.mem_cons_of_mem _ hx)), List.append_assoc]

/-- While the running total stays below the threshold the loop makes no `SetLoopPoint` call
and the loop point stays unarmed. -/
theorem loopCalls_below (h : VGMHeader) (lss : Nat) (pre : List VGMCommand) :
    ∀ st : ConvState, st.atLoopPoint = false → lss > 0 → st.totalSamples < 2 ^ 32 →
      (∀ x ∈ pre, x.cmd ≠ VGM_CMD_END) →
      (∀ k, k ≤ pre.length → runningTotal st.totalSamples (pre.take k) < lss) →
      (∀ op ∈ loopCalls h lss st pre, op.isSetLoopPoint = false) ∧
      (convertEvents h lss st pre).atLoopPoint = false ∧
      (convertEvents h lss st pre).totalSamples = runningTotal st.totalSamples pre ∧
      (convertEvents h lss st pre).totalSamples < 2 ^ 32 := by
  induction pre with
  | nil =>
    intro st ha _ hs _ _
    exact ⟨by simp [loopCalls], ha, rfl, hs⟩
  | cons c cs ih =>
    intro st ha hl hs hne hbelow
    have hc := hne c (List.mem_cons_self _ _)
    have h1 := hbelow 1 (by simp)
    simp only [List.take_succ_cons, List.take_zero, runningTotal] at h1
    obtain ⟨b1, b2⟩ := bodyCalls_quiet h lss st c (Or.inr (Or.inr ⟨hl, h1⟩))
    have ht : (convertBody h lss st c).totalSamples = (st.totalSamples + c.waitSamples) % 2 ^ 32 := by
      rw [(convertBody_flags h lss st c).2, handleWait_total h lss st c hs]
    obtain ⟨i1, i2, i3, i4⟩ := ih (convertBody h lss st c) (by rw [b2]; exact ha) hl
      (by rw [ht]; exact Nat.mod_lt _ (by decide))
      (fun x hx => hne x (List.mem_cons_of_mem _ hx))
      (by
        intro k hk
        have := hbelow (k + 1) (by simp only [List.length_cons]; omega)
        simp only [List.take_succ_cons, runningTotal] at this
        rw [ht]; exact this)
    rw [loopCalls, convertEvents, if_neg hc, if_neg hc]
    refine ⟨?_, i2, ?_, i4⟩
    · intro op hop
      rcases List.mem_append.mp hop with hop | hop
      · exact b1 op hop
      · exact i1 op hop
    · rw [i3, ht]; rfl

theorem waitCalls_cases (h : VGMHeader) (lss : Nat) (st : ConvState) (c : VGMCommand) :
    (∀ op ∈ waitCalls h lss st c, op.isSetLoopPoint = false) ∨
    (waitCalls h lss st c = [WriterOp.writeWait c.waitSamples, WriterOp.setLoopPoint] ∧
      (handleWait h lss st c).atLoopPoint = true) := by
  unfold waitCalls handleWait
  by_cases h0 : c.waitSamples > 0
  · rw [if_pos h0, if_pos h0]
    simp only
    split
    · exact Or.inr ⟨rfl, rfl⟩
    · split
      · exact Or.inr ⟨rfl, rfl⟩
      · left
        intro op hop
        simp only [List.mem_singleton] at hop
        rw [hop]; rfl
  · rw [if_neg h0, if_neg h0]
    left; simp

theorem filter_loop_nil (ops : List WriterOp) (h : ∀ op ∈ ops, op.isSetLoopPoint = false) :
    ops.filter WriterOp.isSetLoopPoint = [] := by
  rw [List.filter_eq_nil_iff]
  intro op hop
  rw [h op hop]
  decide

/-- The loop calls `SetLoopPoint` at most once. -/
theorem loopCalls_count (h : VGMHeader) (lss : Nat) (cmds : List VGMCommand) :
    ∀ st : ConvState,
      ((loopCalls h lss st cmds).filter WriterOp.isSetLoopPoint).length ≤ 1 := by
  induction cmds with
  | nil => intro st; simp [loopCalls]
  | cons c cs ih =>
    intro st
    rw [loopCalls]
    split
    · simp [WriterOp.isSetLoopPoint]
    · have hreg : ∀ op ∈ (if isRegisterWrite c.cmd = true then
          registerCalls h (handleWait h lss st c) c else []), op.isSetLoopPoint = false := by
        intro op hop
        split at hop
        · exact registerCalls_no_loop h _ c op hop
        · simp at hop
      unfold bodyCalls
      simp only [List.filter_append, List.length_append, filter_loop_nil _ hreg,
        List.length_nil, Nat.add_zero]
      rcases waitCalls_cases h lss st c with hw | ⟨hw, ha⟩
      · rw [filter_loop_nil _ hw]
        simpa using ih (convertBody h lss st c)
      · have hq := loopCalls_quiet h lss cs (convertBody h lss st c)
          (Or.inl (by rw [(convertBody_flags h lss st c).1]; exact ha))
        rw [filter_loop_nil _ hq, hw]
        simp [WriterOp.isSetLoopPoint]

theorem runningTotal_append (t : Nat) (a b : List VGMCommand) :
    runningTotal t (a ++ b) = runningTotal (runningTotal t a) b := by
  induction a generalizing t with
  | nil => rfl
  | cons c cs ih =>
    rw [List.cons_append, runningTotal, runningTotal]
    exact ih _

theorem loopStart_of_intro (hdr : VGMHeader) (h1 : 0 < hdr.loopSamples)
    (h2 : hdr.loopSamples < hdr.totalSamples) (h3 : hdr.totalSamples < 2 ^ 32) :
    loopStart hdr = hdr.totalSamples - hdr.loopSamples := by
  unfold loopStart
  rw [if_pos h1, if_neg (by omega)]
  omega

/-- The 32-bit running total is the sum of the waits modulo `2 ^ 32`. -/
theorem runningTotal_eq_sum (cmds : List VGMCommand) : ∀ t, t < 2 ^ 32 →
    runningTotal t cmds = (t + (cmds.map VGMCommand.waitSamples).sum) % 2 ^ 32 := by
  induction cmds with
  | nil =>
    intro t ht
    simp only [runningTotal, List.map_nil, List.sum_nil, Nat.add_zero]
    exact (Nat.mod_eq_of_lt ht).symm
  | cons c cs ih =>
    intro t ht
    rw [runningTotal, ih _ (Nat.mod_lt _ (by decide)), List.map_cons, List.sum_cons,
      Nat.mod_add_mod, Nat.add_assoc]

theorem sum_waits_replicate (n w : Nat) :
    ((List.replicate n (waitEvent w)).map VGMCommand.waitSamples).sum = n * w := by
  induction n with
  | zero => simp
  | succ n ih =>
    rw [List.replicate_succ, List.map_cons, List.sum_cons, ih, Nat.succ_mul, Nat.add_comm]
    rfl

/-- Claim C16, as amended: for a header with `0 < loopSamples < totalSamples` the conversion
loop calls `SetLoopPoint` at most once; it does so right after the `WriteWait` of the first wait
that brings the 32-bit running sample total (the sum of the waits so far modulo `2 ^ 32`, which
is the sum itself as long as the waits sum to less than `2 ^ 32`) to
`totalSamples - loopSamples` or above, not before, and not at all when that running total stays
below the threshold. -/
theorem setLoopPoint_at_threshold (hdr : VGMHeader) (w : S98Writer) (cmds : List VGMCommand)
    (h1 : 0 < hdr.loopSamples) (h2 : hdr.loopSamples < hdr.totalSamples)
    (h3 : hdr.totalSamples < 2 ^ 32) :
    loopStart hdr = hdr.totalSamples - hdr.loopSamples ∧
    (convertEvents hdr (loopStart hdr) (ConvState.start w) cmds).writer
      = runOps w (loopCalls hdr (loopStart hdr) (ConvState.start w) cmds) ∧
    ((loopCalls hdr (loopStart hdr) (ConvState.start w) cmds).filter
      WriterOp.isSetLoopPoint).length ≤ 1 ∧
    (∀ pre c post, cmds = pre ++ c :: post → (∀ x ∈ pre, x.cmd ≠ VGM_CMD_END) →
      c.cmd ≠ VGM_CMD_END →
      (∀ k, k ≤ pre.length →
        runningTotal 0 (pre.take k) < hdr.totalSamples - hdr.loopSamples) →
      runningTotal 0 (pre ++ [c]) ≥ hdr.totalSamples - hdr.loopSamples →
      ∃ after, loopCalls hdr (loopStart hdr) (ConvState.start w) cmds
          = loopCalls hdr (loopStart hdr) (ConvState.start w) pre
            ++ [WriterOp.writeWait c.waitSamples, WriterOp.setLoopPoint] ++ after ∧
        (∀ op ∈ loopCalls hdr (loopStart hdr) (ConvState.start w) pre,
          op.isSetLoopPoint = false) ∧
        (∀ op ∈ after, op.isSetLoopPoint = false)) ∧
    (∀ pre post, cmds = pre ++ post → (∀ x ∈ pre, x.cmd ≠ VGM_CMD_END) →
      (post = [] ∨ ∃ e post', post = e :: post' ∧ e.cmd = VGM_CMD_END) →
      (∀ k, k ≤ pre.length →
        runningTotal 0 (pre.take k) < hdr.totalSamples - hdr.loopSamples) →
      ∀ op ∈ loopCalls hdr (loopStart hdr) (ConvState.start w) cmds,
        op.isSetLoopPoint = false) ∧
    (∀ pre : List VGMCommand,
      runningTotal 0 pre = (pre.map VGMCommand.waitSamples).sum % 2 ^ 32 ∧
      ((pre.map VGMCommand.waitSamples).sum < 2 ^ 32 →
        runningTotal 0 pre = (pre.map VGMCommand.waitSamples).sum)) := by
  have hT := loopStart_of_intro hdr h1 h2 h3
  have hpos : loopStart hdr > 0 := by rw [hT]; omega
  refine ⟨hT, convertEvents_calls _ _ _ _, loopCalls_count _ _ _ _, ?_, ?_, ?_⟩
  · intro pre c post hcmds hpre hc hbelow hcross
    rw [← hT] at hbelow hcross
    obtain ⟨b1, b2, b3, b4⟩ := loopCalls_below hdr (loopStart hdr) pre (ConvState.start w) rfl
      hpos (by simp [ConvState.start]) hpre hbelow
    have hlt := hbelow pre.length (le_refl _)
    rw [List.take_length] at hlt
    have b3' : (convertEvents hdr (loopStart hdr) (ConvState.start w) pre).totalSamples
        = runningTotal 0 pre := b3
    rw [runningTotal_append] at hcross
    simp only [runningTotal] at hcross
    obtain ⟨x1, x2⟩ := handleWait_cross hdr (loopStart hdr) _ c b2 hpos (by rw [b3']; exact hlt)
      b4 (by rw [b3']; exact hcross)
    have hq := loopCalls_quiet hdr (loopStart hdr) post
      (convertBody hdr (loopStart hdr) (convertEvents hdr (loopStart hdr) (ConvState.start w) pre) c)
      (Or.inl (by rw [(convertBody_flags _ _ _ _).1]; exact x2))
    refine ⟨(if isRegisterWrite c.cmd = true then
        registerCalls hdr (handleWait hdr (loopStart hdr)
          (convertEvents hdr (loopStart hdr) (ConvState.start w) pre) c) c else []) ++
      loopCalls hdr (loopStart hdr) (convertBody hdr (loopStart hdr)
        (convertEvents hdr (loopStart hdr) (ConvState.start w) pre) c) post, ?_, b1, ?_⟩
    · rw [hcmds, loopCalls_append _ _ _ _ _ hpre, loopCalls, if_neg hc, bodyCalls, x1]
      simp only [List.append_assoc]
    · intro op hop
      rcases List.mem_append.mp hop with hop | hop
      · split at hop
        · exact registerCalls_no_loop _ _ _ op hop
        · simp at hop
      · exact hq op hop
  · intro pre post hcmds hpre hpost hbelow op hop
    rw [← hT] at hbelow
    obtain ⟨b1, _, _, _⟩ := loopCalls_below hdr (loopStart hdr) pre (ConvState.start w) rfl
      hpos (by simp [ConvState.start]) hpre hbelow
    rw [hcmds, loopCalls_append _ _ _ _ _ hpre] at hop
    rcases List.mem_append.mp hop with hop | hop
    · exact b1 op hop
    · rcases hpost with hp | ⟨e, post', hp, he⟩
      · rw [hp] at hop; simp [loopCalls] at hop
      · rw [hp, loopCalls, if_pos he] at hop
        simp only [List.mem_singleton] at hop
        rw [hop]; rfl
  · intro pre
    have e := runningTotal_eq_sum pre 0 (by decide)
    rw [Nat.zero_add] at e
    exact ⟨e, fun hlt => by rw [e, Nat.mod_eq_of_lt hlt]⟩

/-- Witness for C16: with `totalSamples = 1000` and `loopSamples = 400` the waits 500, 200, 300
bring the running total to 500, 700, 1000; the loop point is set right after the wait of 200,
the first that reaches 600. -/
theorem setLoopPoint_at_threshold_witness :
    (0 < ({ VGMHeader.init with totalSamples := 1000, loopSamples := 400 } :
      VGMHeader).loopSamples) ∧
    (({ VGMHeader.init with totalSamples := 1000, loopSamples := 400 } :
      VGMHeader).loopSamples
      < ({ VGMHeader.init with totalSamples := 1000, loopSamples := 400 } :
        VGMHeader).totalSamples) ∧
    (({ VGMHeader.init with totalSamples := 1000, loopSamples := 400 } :
      VGMHeader).totalSamples < 2 ^ 32) ∧
    (∀ k, k ≤ [waitEvent 500].length → runningTotal 0 ([waitEvent 500].take k) < 1000 - 400) ∧
    runningTotal 0 ([waitEvent 500] ++ [waitEvent 200]) ≥ 1000 - 400 ∧
    (∃ after,
      loopCalls { VGMHeader.init with totalSamples := 1000, loopSamples := 400 }
          (loopStart { VGMHeader.init with totalSamples := 1000, loopSamples := 400 })
          (ConvState.start (opened S98Writer.init))
          [waitEvent 500, waitEvent 200, waitEvent 300,
            { VGMCommand.init with cmd := VGM_CMD_END }]
        = loopCalls { VGMHeader.init with totalSamples := 1000, loopSamples := 400 }
            (loopStart { VGMHeader.init with totalSamples := 1000, loopSamples := 400 })
            (ConvState.start (opened S98Writer.init)) [waitEvent 500]
          ++ [WriterOp.writeWait (waitEvent 200).waitSamples, WriterOp.setLoopPoint] ++ after ∧
      (∀ op ∈ loopCalls { VGMHeader.init with totalSamples := 1000, loopSamples := 400 }
          (loopStart { VGMHeader.init with totalSamples := 1000, loopSamples := 400 })
          (ConvState.start (opened S98Writer.init)) [waitEvent 500],
        op.isSetLoopPoint = false) ∧
      (∀ op ∈ after, op.isSetLoopPoint = false)) ∧
    loopCalls { VGMHeader.init with totalSamples := 1000, loopSamples := 400 }
        (loopStart { VGMHeader.init with totalSamples := 1000, loopSamples := 400 })
        (ConvState.start (opened S98Writer.init))
        [waitEvent 500, waitEvent 200, waitEvent 300,
          { VGMCommand.init with cmd := VGM_CMD_END }]
      = [WriterOp.writeWait 500, WriterOp.writeWait 200, WriterOp.setLoopPoint,
         WriterOp.writeWait 300, WriterOp.writeEnd] :=
  ⟨by decide, by decide, by decide, by decide, by decide,
    (setLoopPoint_at_threshold { VGMHeader.init with totalSamples := 1000, loopSamples := 400 }
      (opened S98Writer.init)
      [waitEvent 500, waitEvent 200, waitEvent 300, { VGMCommand.init with cmd := VGM_CMD_END }]
      (by decide) (by decide) (by decide)).2.2.2.1 [waitEvent 500] (waitEvent 200)
      [waitEvent 300, { VGMCommand.init with cmd := VGM_CMD_END }] rfl (by decide) (by decide)
      (by decide) (by decide),
    by decide⟩

theorem take_wrapStream (k : Nat) (hk : k ≤ 65538) :
    (((List.replicate 65536 (waitEvent 65535) ++ [waitEvent 65533, waitEvent 65535]).take
        k).map VGMCommand.waitSamples).sum
      = if k ≤ 65536 then k * 65535 else if k = 65537 then 4294967293 else 4295032828 := by
  rw [List.take_append_eq_append_take, List.take_replicate, List.map_append, List.sum_append,
    sum_waits_replicate, List.length_replicate]
  by_cases h1 : k ≤ 65536
  · rw [if_pos h1, Nat.min_eq_left h1, Nat.sub_eq_zero_of_le h1, List.take_zero, List.map_nil,
      List.sum_nil, Nat.add_zero]
  · rw [if_neg h1, Nat.min_eq_right (by omega)]
    by_cases h2 : k = 65537
    · rw [if_pos h2, h2]
      rfl
    · rw [if_neg h2, show k - 65536 = 2 by omega]
      rfl

/-- Claim C16 as stated fails: with `totalSamples = 4294967295` and `loopSamples = 1` the
threshold is 4294967294.  Over the stream of 65536 waits of 65535 samples, a wait of 65533
samples and a wait of 65535 samples, all events that `ReadNextCommand` delivers, the sum of the
waits is 4294967293 after the last but one and 4295032828 after the last, which passes the
threshold; the 32-bit counter wraps to 65532 and the loop never calls `SetLoopPoint`. -/
theorem setLoopPoint_at_threshold_counterexample :
    (0 < wrapHeader.loopSamples ∧ wrapHeader.loopSamples < wrapHeader.totalSamples ∧
      wrapHeader.totalSamples < 2 ^ 32) ∧
    wrapHeader.totalSamples - wrapHeader.loopSamples = 4294967294 ∧
    loopStart wrapHeader = 4294967294 ∧
    (∀ c ∈ wrapStream, ReaderProduced c) ∧
    wrapStream.length = 65539 ∧
    ((wrapStream.take 65537).map VGMCommand.waitSamples).sum = 4294967293 ∧
    ((wrapStream.take 65538).map VGMCommand.waitSamples).sum = 4295032828 ∧
    4295032828 ≥ wrapHeader.totalSamples - wrapHeader.loopSamples ∧
    runningTotal 0 (wrapStream.take 65538) = 65532 ∧
    (∀ w : S98Writer,
      ∀ op ∈ loopCalls wrapHeader (loopStart wrapHeader) (ConvState.start w) wrapStream,
        op.isSetLoopPoint = false) := by
  have hsplit : wrapStream
      = (List.replicate 65536 (waitEvent 65535) ++ [waitEvent 65533, waitEvent 65535])
        ++ [{ VGMCommand.init with cmd := VGM_CMD_END }] := by
    unfold wrapStream
    rw [List.append_assoc]
    rfl
  have hlen : (List.replicate 65536 (waitEvent 65535)
      ++ [waitEvent 65533, waitEvent 65535]).length = 65538 := by
    rw [List.length_append, List.length_replicate]
    rfl
  have htake : ∀ k, k ≤ 65538 → wrapStream.take k
      = (List.replicate 65536 (waitEvent 65535) ++ [waitEvent 65533, waitEvent 65535]).take k := by
    intro k hk
    rw [hsplit, List.take_append_of_le_length (by rw [hlen]; exact hk)]
  have hls : loopStart wrapHeader = 4294967294 := by decide
  have hne : ∀ x ∈ List.replicate 65536 (waitEvent 65535)
      ++ [waitEvent 65533, waitEvent 65535], x.cmd ≠ VGM_CMD_END := by
    intro x hx
    rcases List.mem_append.1 hx with hx | hx
    · rw [(List.mem_replicate.1 hx).2]
      decide
    · simp only [List.mem_cons, List.mem_singleton, List.not_mem_nil, or_false] at hx
      rcases hx with rfl | rfl <;> decide
  have hp1 : ReaderProduced (waitEvent 65535) :=
    ⟨⟨some ⟨[0x61, 0xFF, 0xFF], 0⟩, VGMHeader.init, 0, 0, 0, 3⟩,
      ⟨some ⟨[0x61, 0xFF, 0xFF], 3⟩, VGMHeader.init, 0, 0, 3, 3⟩, by decide⟩
  have hp2 : ReaderProduced (waitEvent 65533) :=
    ⟨⟨some ⟨[0x61, 0xFD, 0xFF], 0⟩, VGMHeader.init, 0, 0, 0, 3⟩,
      ⟨some ⟨[0x61, 0xFD, 0xFF], 3⟩, VGMHeader.init, 0, 0, 3, 3⟩, by decide⟩
  refine ⟨by decide, by decide, hls, ?_, ?_, ?_, ?_, by decide, ?_, ?_⟩
  · intro c hc
    rw [hsplit] at hc
    rcases List.mem_append.1 hc with hc | hc
    · rcases List.mem_append.1 hc with hc | hc
      · rw [(List.mem_replicate.1 hc).2]
        exact hp1
      · simp only [List.mem_cons, List.mem_singleton, List.not_mem_nil, or_false] at hc
        rcases hc with rfl | rfl
        · exact hp2
        · exact hp1
    · rw [List.mem_singleton] at hc
      rw [hc]
      exact ⟨⟨some ⟨[0x66], 0⟩, VGMHeader.init, 0, 0, 0, 1⟩,
        ⟨some ⟨[0x66], 1⟩, VGMHeader.init, 0, 0, 1, 1⟩, by decide⟩
  · rw [hsplit, List.length_append, hlen]
    rfl
  · rw [htake 65537 (by decide), take_wrapStream 65537 (by decide)]
    rfl
  · rw [htake 65538 (by decide), take_wrapStream 65538 (by decide)]
    rfl
  · rw [runningTotal_eq_sum _ 0 (by decide), htake 65538 (by decide),
      take_wrapStream 65538 (by decide)]
    rfl
  · intro w op hop
    have hbelow : ∀ k, k ≤ (List.replicate 65536 (waitEvent 65535)
        ++ [waitEvent 65533, waitEvent 65535]).length →
        runningTotal (ConvState.start w).totalSamples
          ((List.replicate 65536 (waitEvent 65535)
            ++ [waitEvent 65533, waitEvent 65535]).take k) < loopStart wrapHeader := by
      intro k hk
      rw [hlen] at hk
      rw [show (ConvState.start w).totalSamples = 0 from rfl, runningTotal_eq_sum _ 0 (by decide),
        take_wrapStream k hk, hls, Nat.zero_add]
      by_cases h1 : k ≤ 65536
      · rw [if_pos h1, Nat.mod_eq_of_lt (by omega)]
        omega
      · rw [if_neg h1]
        by_cases h2 : k = 65537
        · rw [if_pos h2]
          decide
        · rw [if_neg h2]
          decide
    obtain ⟨b1, _, _, _⟩ := loopCalls_below wrapHeader (loopStart wrapHeader) _
      (ConvState.start w) rfl (by rw [hls]; decide) (by show 0 < 2 ^ 32; decide) hne hbelow
    rw [hsplit, loopCalls_append _ _ _ _ _ hne] at hop
    rcases List.mem_append.mp hop with hop | hop
    · exact b1 op hop
    · rw [loopCalls, if_pos (by decide)] at hop
      rw [List.mem_singleton] at hop
      rw [hop]
      rfl

theorem addIfClock_loopSet (w : S98Writer) (k c : Nat) :
    (addIfClock w k c).loopSet = w.loopSet := by
  unfold addIfClock
  split
  · exact AddDevice_loopSet _ _ _ _
  · rfl

theorem preRegister_loopSet (w : S98Writer) (hdr : VGMHeader) :
    (preRegister w hdr).loopSet = w.loopSet := by
  simp only [preRegister, addIfClock_loopSet]

theorem loopField_of_not_set (w : S98Writer) (h : w.loopSet = false) : loopField w = 0 := by
  unfold loopField
  rw [h]
  rfl

/-- The output file that the tail of `main` leaves: the final header, followed by what the
stream holds behind the header's length. -/
theorem finishOutput_eq (w : S98Writer) (f : File) (tags : List (List Nat × List Nat))
    (hf : w.file = some f) :
    finishOutput w tags = some
      (headerWith (if tags.isEmpty then w.tagOffset else f.pos % 2 ^ 32) w.dataStartOffset
          (loopField w) w.devices
        ++ (if tags.isEmpty then f.bytes else (f.fwrite (tagBlock tags)).bytes).drop
            (headerWith 0 0 0 w.devices).length) := by
  have key : ∀ (w1 : S98Writer) (f1 : File), w1.file = some f1 →
      (Close (Finalize w1)).2 = some
        (headerWith w1.tagOffset w1.dataStartOffset (loopField w1) w1.devices
          ++ f1.bytes.drop (headerWith 0 0 0 w1.devices).length) := by
    intro w1 f1 h1
    have hl : (headerWith w1.tagOffset w1.dataStartOffset (loopField w1) w1.devices).length
        = (headerWith 0 0 0 w1.devices).length := by
      rw [headerWith_length, headerWith_length]
    have e := drop_prefix_length
      (headerWith w1.tagOffset w1.dataStartOffset (loopField w1) w1.devices)
      (List.drop (headerWith 0 0 0 w1.devices).length f1.bytes)
      (headerWith 0 0 0 w1.devices).length 0 hl
    rw [Nat.add_zero, List.drop_zero] at e
    have hF := Finalize_eq w1 f1 h1
    have hFF := Finalize_eq (Finalize w1) _ (by rw [hF])
    have hfields : (Finalize w1).tagOffset = w1.tagOffset ∧
        (Finalize w1).dataStartOffset = w1.dataStartOffset ∧
        loopField (Finalize w1) = loopField w1 ∧ (Finalize w1).devices = w1.devices := by
      rw [hF]
      exact ⟨rfl, rfl, rfl, rfl⟩
    obtain ⟨g1, g2, g3, g4⟩ := hfields
    rw [g1, g2, g3, g4] at hFF
    unfold Close
    rw [hFF]
    simp only [Option.map_some', Option.some.injEq]
    rw [e]
  by_cases ht : tags.isEmpty = true
  · unfold finishOutput
    rw [if_pos ht, if_pos ht, if_pos ht]
    exact key w f hf
  · unfold finishOutput
    rw [if_neg ht, if_neg ht, if_neg ht]
    have hw := WriteTag_eq w f tags hf
    have k := key (WriteTag w tags) (f.fwrite (tagBlock tags)) (by rw [hw])
    have hfields : (WriteTag w tags).tagOffset = f.pos % 2 ^ 32 ∧
        (WriteTag w tags).dataStartOffset = w.dataStartOffset ∧
        loopField (WriteTag w tags) = loopField w ∧ (WriteTag w tags).devices = w.devices := by
      rw [hw]
      exact ⟨rfl, rfl, rfl, rfl⟩
    obtain ⟨g1, g2, g3, g4⟩ := hfields
    rw [g1, g2, g3, g4] at k
    exact k

/-- Claim C17: for a header with `loopSamples = 0` the conversion loop makes no `SetLoopPoint`
call, the writer's loop point stays unset, and the loop-offset field at `0x18` of the output
file is 0. -/
theorem no_loop_without_loopSamples (w0 : S98Writer) (hdr : VGMHeader)
    (cmds : List VGMCommand) (tags : List (List Nat × List Nat))
    (h : hdr.loopSamples = 0) :
    (convertEvents hdr (loopStart hdr) (ConvState.start (preRegister (opened w0) hdr))
        cmds).writer
      = runOps (preRegister (opened w0) hdr)
          (loopCalls hdr (loopStart hdr) (ConvState.start (preRegister (opened w0) hdr)) cmds) ∧
    (∀ op ∈ loopCalls hdr (loopStart hdr) (ConvState.start (preRegister (opened w0) hdr)) cmds,
      op.isSetLoopPoint = false) ∧
    (convertEvents hdr (loopStart hdr) (ConvState.start (preRegister (opened w0) hdr))
        cmds).writer.loopSet = false ∧
    ∃ out, finishOutput (convertEvents hdr (loopStart hdr)
        (ConvState.start (preRegister (opened w0) hdr)) cmds).writer tags = some out ∧
      (out.drop 0x18).take 4 = le32 0 := by
  have hls : loopStart hdr = 0 := by
    unfold loopStart
    rw [if_neg (by omega)]
  have hq := loopCalls_quiet hdr (loopStart hdr) cmds
    (ConvState.start (preRegister (opened w0) hdr)) (Or.inr ⟨h, hls⟩)
  have hcalls := convertEvents_calls hdr (loopStart hdr) cmds
    (ConvState.start (preRegister (opened w0) hdr))
  obtain ⟨_, _, hf0, _⟩ := preRegister_opened w0 hdr
  have hset : (convertEvents hdr (loopStart hdr)
      (ConvState.start (preRegister (opened w0) hdr)) cmds).writer.loopSet = false := by
    rw [hcalls]
    exact ((runOps_loop _ (preRegister (opened w0) hdr) _ hf0 (Or.inl hq)).1).trans
      (by rw [preRegister_loopSet, opened_eq])
  have hfile : ∃ f, (convertEvents hdr (loopStart hdr)
      (ConvState.start (preRegister (opened w0) hdr)) cmds).writer.file = some f := by
    rw [hcalls]
    exact ⟨_, runOps_file _ (preRegister (opened w0) hdr) _ hf0⟩
  obtain ⟨f, hf⟩ := hfile
  refine ⟨hcalls, hq, hset, _, finishOutput_eq _ f tags hf, ?_⟩
  rw [header_loop_field, loopField_of_not_set _ hset]

theorem no_loop_without_loopSamples_witness :
    (VGMHeader.init.loopSamples = 0) ∧
    (convertEvents VGMHeader.init (loopStart VGMHeader.init)
      (ConvState.start (preRegister (opened S98Writer.init) VGMHeader.init))
      [{ VGMCommand.init with cmd := 0x62, waitSamples := 735 }]).writer.loopSet = false :=
  ⟨rfl, (no_loop_without_loopSamples S98Writer.init VGMHeader.init
    [{ VGMCommand.init with cmd := 0x62, waitSamples := 735 }] [] rfl).2.2.1⟩

/-- Claim C15, evaluated at a failing input: with `totalSamples = loopSamples = 1000` and the
commands wait 735, end, the loop calls `WriteWait(735)` first and `SetLoopPoint` after it, so
the recorded loop offset is 3, the position behind the three bytes of the first wait, and not
0, the position in front of them. -/
theorem loop_from_start_after_first_wait :
    loopStart { VGMHeader.init with totalSamples := 1000, loopSamples := 1000 } = 0 ∧
    loopCalls { VGMHeader.init with totalSamples := 1000, loopSamples := 1000 } 0
        (ConvState.start (preRegister (opened S98Writer.init)
          { VGMHeader.init with totalSamples := 1000, loopSamples := 1000 }))
        [{ VGMCommand.init with cmd := 0x62, waitSamples := 735 },
         { VGMCommand.init with cmd := 0x66 }]
      = [WriterOp.writeWait 735, WriterOp.setLoopPoint, WriterOp.writeEnd] ∧
    (waitBytes 735).length = 3 ∧
    (convertEvents { VGMHeader.init with totalSamples := 1000, loopSamples := 1000 } 0
        (ConvState.start (preRegister (opened S98Writer.init)
          { VGMHeader.init with totalSamples := 1000, loopSamples := 1000 }))
        [{ VGMCommand.init with cmd := 0x62, waitSamples := 735 },
         { VGMCommand.init with cmd := 0x66 }]).writer.loopOffset = 3 ∧
    (convertEvents { VGMHeader.init with totalSamples := 1000, loopSamples := 1000 } 0
        (ConvState.start (preRegister (opened S98Writer.init)
          { VGMHeader.init with totalSamples := 1000, loopSamples := 1000 }))
        [{ VGMCommand.init with cmd := 0x62, waitSamples := 735 },
         { VGMCommand.init with cmd := 0x66 }]).writer.loopOffset ≠ 0 := by
  have hcalls : loopCalls { VGMHeader.init with totalSamples := 1000, loopSamples := 1000 } 0
        (ConvState.start (preRegister (opened S98Writer.init)
          { VGMHeader.init with totalSamples := 1000, loopSamples := 1000 }))
        [{ VGMCommand.init with cmd := 0x62, waitSamples := 735 },
         { VGMCommand.init with cmd := 0x66 }]
      = [WriterOp.writeWait 735, WriterOp.setLoopPoint, WriterOp.writeEnd] := by
    decide
  have hlen : (waitBytes 735).length = 3 := by
    unfold waitBytes
    rw [if_neg (by decide), if_neg (by decide), varIntBytes_ge _ (by decide),
      varIntBytes_lt _ (by decide)]
    rfl
  have hpre : preRegister (opened S98Writer.init)
      { VGMHeader.init with totalSamples := 1000, loopSamples := 1000 }
      = opened S98Writer.init := by decide
  have hoff : (convertEvents { VGMHeader.init with totalSamples := 1000, loopSamples := 1000 } 0
        (ConvState.start (preRegister (opened S98Writer.init)
          { VGMHeader.init with totalSamples := 1000, loopSamples := 1000 }))
        [{ VGMCommand.init with cmd := 0x62, waitSamples := 735 },
         { VGMCommand.init with cmd := 0x66 }]).writer.loopOffset = 3 := by
    rw [convertEvents_calls, hcalls]
    simp only [ConvState.start]
    rw [hpre]
    have := (ran_loop_first S98Writer.init [WriterOp.writeWait 735] [WriterOp.writeEnd]
      (by decide)).2
    simp only [List.singleton_append] at this
    rw [this]
    simp only [List.flatMap_cons, List.flatMap_nil, List.append_nil, WriterOp.eventBytes, hlen]
    decide
  exact ⟨by decide, hcalls, hlen, hoff, by rw [hoff]; decide⟩

/-! ## The conversion loop: the clock fallback -/

theorem mem_regOpcodes (c : Nat) (h : isRegisterWrite c = true) :
    c ∈ [0x50, 0x51, 0x52, 0x53, 0x54, 0x55, 0x56, 0x57, 0x58, 0x59, 0x5A, 0x5B, 0xA0] := by
  rw [isRegisterWrite_iff] at h
  simp only [List.mem_cons, List.mem_singleton, List.not_mem_nil, or_false]
  omega

theorem kind_iff_chip :
    ∀ c1 ∈ [0x50, 0x51, 0x52, 0x53, 0x54, 0x55, 0x56, 0x57, 0x58, 0x59, 0x5A, 0x5B, 0xA0],
    ∀ c2 ∈ [0x50, 0x51, 0x52, 0x53, 0x54, 0x55, 0x56, 0x57, 0x58, 0x59, 0x5A, 0x5B, 0xA0],
      (GetS98DeviceType c1 = GetS98DeviceType c2 ↔ chipOf c1 = chipOf c2) := by
  decide

theorem handleWait_zero (hdr : VGMHeader) (lss : Nat) (st : ConvState) (cmd : VGMCommand)
    (h : cmd.waitSamples = 0) : handleWait hdr lss st cmd = st := by
  unfold handleWait
  rw [if_neg (by omega)]

/-- Claim C18: a register write whose kind is not in the device table and whose header clock is
zero adds the device with clock 8000000 and writes the record when the kind is the PC-98 FM
chip (`S98_DEV_OPNA`), and otherwise adds no device and writes nothing; the mapper gives the
same kind to two chip-command opcodes exactly when they address the same chip. -/
theorem register_clock_fallback (hdr : VGMHeader) (lss : Nat) (st : ConvState) (f : File)
    (cmd : VGMCommand) (hf : st.writer.file = some f) (hinv : DevInv st.writer)
    (hreg : isRegisterWrite cmd.cmd = true) (hw : cmd.waitSamples = 0)
    (hk : GetS98DeviceType cmd.cmd ≠ S98_DEV_NONE)
    (hnot : GetS98DeviceType cmd.cmd ∉ kindsOf st.writer)
    (hclock : GetVGMClock cmd.cmd hdr = 0) :
    (GetS98DeviceType cmd.cmd = S98_DEV_OPNA →
      (convertBody hdr lss st cmd).writer.devices
        = st.writer.devices ++ [{ type := S98_DEV_OPNA, clock := 8000000, pan := 0,
                                  deviceId := st.writer.nextDeviceId }] ∧
      (convertBody hdr lss st cmd).writer.file
        = some (f.fwrite [(st.writer.nextDeviceId + cmd.port) % 256, cmd.reg % 256,
                          cmd.data % 256]) ∧
      (convertBody hdr lss st cmd).writer
        = WriteRegister (AddDevice st.writer S98_DEV_OPNA 8000000 0)
            ((st.writer.nextDeviceId + cmd.port) % 256) cmd.reg cmd.data) ∧
    (GetS98DeviceType cmd.cmd ≠ S98_DEV_OPNA →
      (convertBody hdr lss st cmd).writer = st.writer) ∧
    (∀ c1 c2, isRegisterWrite c1 = true → isRegisterWrite c2 = true →
      (GetS98DeviceType c1 = GetS98DeviceType c2 ↔ chipOf c1 = chipOf c2)) := by
  have hff : GetDeviceId st.writer (GetS98DeviceType cmd.cmd) = 0xFF := by
    rw [GetDeviceId_of_inv _ _ hinv, if_neg hnot]
  have hbody : convertBody hdr lss st cmd = handleRegister hdr st cmd := by
    unfold convertBody
    simp only
    rw [if_pos hreg, handleWait_zero hdr lss st cmd hw]
  refine ⟨?_, ?_, ?_⟩
  · intro hopna
    rw [hopna] at hnot hff
    have hadd := AddDevice_of_not_mem st.writer S98_DEV_OPNA 8000000 0 hnot
    have hid : GetDeviceId (AddDevice st.writer S98_DEV_OPNA 8000000 0) S98_DEV_OPNA
        = st.writer.nextDeviceId := by
      unfold GetDeviceId
      rw [hadd]
      simp only [mapFind_mapAssign, ↓reduceIte]
    have hwr : (convertBody hdr lss st cmd).writer
        = WriteRegister (AddDevice st.writer S98_DEV_OPNA 8000000 0)
            ((st.writer.nextDeviceId + cmd.port) % 256) cmd.reg cmd.data := by
      rw [hbody]
      unfold handleRegister emitRegister
      simp only
      rw [if_pos hk, hopna, if_pos hff, ← hopna, if_pos hclock, hopna, if_pos rfl, hid]
    have hfa : (AddDevice st.writer S98_DEV_OPNA 8000000 0).file = some f := by
      rw [AddDevice_file]; exact hf
    refine ⟨?_, ?_, hwr⟩
    · rw [hwr, WriteRegister_eq _ f _ _ _ hfa, hadd]
    · rw [hwr, WriteRegister_eq _ f _ _ _ hfa]
      simp only [Nat.mod_mod]
  · intro hopna
    rw [hbody]
    unfold handleRegister
    simp only
    rw [if_pos hk, if_pos hff, if_pos hclock, if_neg hopna]
  · intro c1 c2 h1 h2
    exact kind_iff_chip c1 (mem_regOpcodes c1 h1) c2 (mem_regOpcodes c2 h2)

theorem register_clock_fallback_witness :
    ((opened S98Writer.init).file = some { bytes := headerWith 0 0 0 [], pos := 48 }) ∧
    GetS98DeviceType 0x56 = S98_DEV_OPNA ∧
    VGMHeader.init.ym2608Clock = 0 ∧
      ((convertBody VGMHeader.init 0 (ConvState.start (opened S98Writer.init))
        { VGMCommand.init with cmd := 0x56, reg := 0x28, data := 0xF0 }).writer.devices
        = (opened S98Writer.init).devices ++
            [{ type := S98_DEV_OPNA, clock := 8000000, pan := 0,
               deviceId := (opened S98Writer.init).nextDeviceId }] ∧
      (convertBody VGMHeader.init 0 (ConvState.start (opened S98Writer.init))
        { VGMCommand.init with cmd := 0x56, reg := 0x28, data := 0xF0 }).writer.file
        = some (File.fwrite { bytes := headerWith 0 0 0 [], pos := 48 }
            [((opened S98Writer.init).nextDeviceId + 0) % 256, 0x28 % 256, 0xF0 % 256]) ∧
      (convertBody VGMHeader.init 0 (ConvState.start (opened S98Writer.init))
        { VGMCommand.init with cmd := 0x56, reg := 0x28, data := 0xF0 }).writer
        = WriteRegister (AddDevice (opened S98Writer.init) S98_DEV_OPNA 8000000 0)
            (((opened S98Writer.init).nextDeviceId + 0) % 256) 0x28 0xF0) :=
  ⟨opened_file _, by decide, rfl,
    (register_clock_fallback VGMHeader.init 0 (ConvState.start (opened S98Writer.init))
      { bytes := headerWith 0 0 0 [], pos := 48 }
      { VGMCommand.init with cmd := 0x56, reg := 0x28, data := 0xF0 }
      (opened_file _) (DevInv_of_fresh _ (opened_fresh _)) (by decide) rfl (by decide)
      (by rw [show kindsOf (ConvState.start (opened S98Writer.init)).writer = [] from by
        simp [kindsOf, ConvState.start, (opened_fresh S98Writer.init).1]]; simp)
      (by decide)).1 (by decide)⟩

/-! ## The tag map -/

theorem strLess_irrefl (a : List Nat) : strLess a a = false := by
  induction a with
  | nil => rfl
  | cons x xs ih => simp [strLess, ih]

theorem strLess_trans (a b c : List Nat) (h1 : strLess a b = true) (h2 : strLess b c = true) :
    strLess a c = true := by
  induction a generalizing b c with
  | nil =>
    cases b with
    | nil => simp [strLess] at h1
    | cons y ys =>
      cases c with
      | nil => simp [strLess] at h2
      | cons z zs => simp [strLess]
  | cons x xs ih =>
    cases b with
    | nil => simp [strLess] at h1
    | cons y ys =>
      cases c with
      | nil => simp [strLess] at h2
      | cons z zs =>
        simp only [strLess] at h1 h2 ⊢
        by_cases hxy : x < y
        · by_cases hyz : y < z
          · rw [if_pos (by omega)]
          · rw [if_neg hyz] at h2
            by_cases hzy : z < y
            · rw [if_pos hzy] at h2; simp at h2
            · rw [if_pos (by omega)]
        · rw [if_neg hxy] at h1
          by_cases hyx : y < x
          · rw [if_pos hyx] at h1; simp at h1
          · rw [if_neg hyx] at h1
            have hxy' : x = y := by omega
            subst hxy'
            by_cases hxz : x < z
            · rw [if_pos hxz]
            · rw [if_neg hxz] at h2 ⊢
              by_cases hzx : z < x
              · rw [if_pos hzx] at h2; simp at h2
              · rw [if_neg hzx] at h2 ⊢
                exact ih ys zs h1 h2

theorem strLess_total (a b : List Nat) (h1 : strLess a b = false) (h2 : a ≠ b) :
    strLess b a = true := by
  induction a generalizing b with
  | nil =>
    cases b with
    | nil => exact absurd rfl h2
    | cons y ys => simp [strLess] at h1
  | cons x xs ih =>
    cases b with
    | nil => simp [strLess]
    | cons y ys =>
      simp only [strLess] at h1 ⊢
      by_cases hxy : x < y
      · rw [if_pos hxy] at h1; simp at h1
      · rw [if_neg hxy] at h1
        by_cases hyx : y < x
        · rw [if_pos hyx]
        · rw [if_neg hyx] at h1 ⊢
          rw [if_neg hxy]
          have hxy' : x = y := by omega
          subst hxy'
          exact ih ys h1 (fun e => h2 (by rw [e]))

theorem mem_keys_tagAssign (m : List (List Nat × List Nat)) (k v x : List Nat) :
    x ∈ (tagAssign m k v).map Prod.fst ↔ x = k ∨ x ∈ m.map Prod.fst := by
  induction m with
  | nil => simp [tagAssign]
  | cons p rest ih =>
    obtain ⟨k', v'⟩ := p
    simp only [tagAssign]
    by_cases h1 : strLess k k' = true
    · rw [if_pos h1]; simp
    · rw [if_neg h1]
      by_cases h2 : k = k'
      · rw [if_pos h2]; subst h2; simp
      · rw [if_neg h2]
        simp only [List.map_cons, List.mem_cons, ih]
        tauto

theorem sorted_tagAssign (m : List (List Nat × List Nat)) (k v : List Nat)
    (h : List.Pairwise (fun a b => strLess a b = true) (m.map Prod.fst)) :
    List.Pairwise (fun a b => strLess a b = true) ((tagAssign m k v).map Prod.fst) := by
  induction m with
  | nil => simp [tagAssign]
  | cons p rest ih =>
    obtain ⟨k', v'⟩ := p
    simp only [List.map_cons, List.pairwise_cons] at h
    simp only [tagAssign]
    by_cases h1 : strLess k k' = true
    · rw [if_pos h1]
      simp only [List.map_cons, List.pairwise_cons, List.mem_cons]
      refine ⟨?_, h.1, h.2⟩
      intro x hx
      rcases hx with hx | hx
      · rw [hx]; exact h1
      · exact strLess_trans _ _ _ h1 (h.1 x hx)
    · rw [if_neg h1]
      by_cases h2 : k = k'
      · rw [if_pos h2]; subst h2
        simp only [List.map_cons, List.pairwise_cons]
        exact h
      · rw [if_neg h2]
        simp only [List.map_cons, List.pairwise_cons]
        refine ⟨?_, ih h.2⟩
        intro x hx
        rw [mem_keys_tagAssign] at hx
        rcases hx with hx | hx
        · rw [hx]
          exact strLess_total k k' (by simpa using h1) h2
        · exact h.1 x hx

theorem foldl_tagAssign_sorted (ins m : List (List Nat × List Nat))
    (h : List.Pairwise (fun a b => strLess a b = true) (m.map Prod.fst)) :
    List.Pairwise (fun a b => strLess a b = true)
      ((ins.foldl (fun m kv => tagAssign m kv.1 kv.2) m).map Prod.fst) := by
  induction ins generalizing m with
  | nil => exact h
  | cons p ps ih => exact ih _ (sorted_tagAssign m p.1 p.2 h)

theorem foldl_tagAssign_keys (ins m : List (List Nat × List Nat)) (x : List Nat) :
    x ∈ (ins.foldl (fun m kv => tagAssign m kv.1 kv.2) m).map Prod.fst
      ↔ x ∈ m.map Prod.fst ∨ x ∈ ins.map Prod.fst := by
  induction ins generalizing m with
  | nil => simp
  | cons p ps ih =>
    rw [List.foldl_cons, ih, mem_keys_tagAssign]
    simp only [List.map_cons, List.mem_cons]
    tauto

/-- Claim C19, amended: `WriteTag` emits the lines of the tag map in ascending byte-wise order
of the keys, whatever the order of the insertions. The tag block written is the block of the
map built from the insertions, whose keys are strictly ascending and are exactly the inserted
keys; the eight keys of the orchestrator, inserted as title, game, system, artist, year, s98by,
comment, vgm_volume_modifier, come out as artist, comment, game, s98by, system, title,
vgm_volume_modifier, year. -/
theorem WriteTag_key_order (w : S98Writer) (f : File) (inserts : List (List Nat × List Nat))
    (hf : w.file = some f) :
    (WriteTag w (buildTags inserts)).file = some (f.fwrite (tagBlock (buildTags inserts))) ∧
    List.Pairwise (fun a b => strLess a b = true) ((buildTags inserts).map Prod.fst) ∧
    (∀ k, k ∈ (buildTags inserts).map Prod.fst ↔ k ∈ inserts.map Prod.fst) ∧
    (∀ t g s a y b c v : List Nat,
      buildTags [(keyTitle, t), (keyGame, g), (keySystem, s), (keyArtist, a), (keyYear, y),
                 (keyS98by, b), (keyComment, c), (keyVolumeModifier, v)]
        = [(keyArtist, a), (keyComment, c), (keyGame, g), (keyS98by, b), (keySystem, s),
           (keyTitle, t), (keyVolumeModifier, v), (keyYear, y)]) := by
  refine ⟨?_, ?_, ?_, ?_⟩
  · rw [WriteTag_eq w f _ hf]
  · exact foldl_tagAssign_sorted inserts [] (by simp)
  · intro k
    unfold buildTags
    rw [foldl_tagAssign_keys]
    simp
  · intro t g s a y b c v
    simp [buildTags, tagAssign, strLess, keyTitle, keyGame, keySystem, keyArtist, keyYear,
      keyS98by, keyComment, keyVolumeModifier]

theorem WriteTag_key_order_witness :
    (opened S98Writer.init).file = some { bytes := headerWith 0 0 0 [], pos := 48 } ∧
    (WriteTag (opened S98Writer.init) (buildTags [(keyTitle, [0x41]), (keyArtist, [0x42])])).file
      = some (File.fwrite { bytes := headerWith 0 0 0 [], pos := 48 }
          (tagBlock (buildTags [(keyTitle, [0x41]), (keyArtist, [0x42])]))) ∧
    buildTags [(keyTitle, [0x41]), (keyArtist, [0x42])]
      = [(keyArtist, [0x42]), (keyTitle, [0x41])] :=
  ⟨opened_file _,
    (WriteTag_key_order (opened S98Writer.init) { bytes := headerWith 0 0 0 [], pos := 48 }
      [(keyTitle, [0x41]), (keyArtist, [0x42])] (opened_file _)).1,
    by decide⟩

/-- Claim C19 as stated fails: a metadata block whose title is "A" and whose artist is "B"
has the title inserted before the artist, yet the tag block holds the line `artist=B` in front
of the line `title=A`. -/
theorem WriteTag_key_order_counterexample :
    assignGD3 [] [0x41] [] [] [0x42] [] [] [] = [(keyArtist, [0x42]), (keyTitle, [0x41])] ∧
    finishOutput (opened S98Writer.init) (assignGD3 [] [0x41] [] [] [0x42] [] [] [])
      = some (headerWith 48 48 0 [] ++
          [0x5B, 0x53, 0x39, 0x38, 0x5D, 0xEF, 0xBB, 0xBF,
           0x61, 0x72, 0x74, 0x69, 0x73, 0x74, 0x3D, 0x42, 0x0A,
           0x74, 0x69, 0x74, 0x6C, 0x65, 0x3D, 0x41, 0x0A, 0]) := by
  decide

/-! ## The metadata string decoder -/

theorem or_C0 (x : Nat) (h : x < 32) : 0xC0 ||| x = 0xC0 + x := by
  interval_cases x <;> rfl

theorem or_E0 (x : Nat) (h : x < 16) : 0xE0 ||| x = 0xE0 + x := by
  interval_cases x <;> rfl

theorem or_F0 (x : Nat) (h : x < 8) : 0xF0 ||| x = 0xF0 + x := by
  interval_cases x <;> rfl

theorem and_3F (v : Nat) : v &&& 0x3F = v % 64 :=
  Nat.and_pow_two_sub_one_eq_mod v 6

theorem continuation_byte (v : Nat) : (0x80 ||| (v &&& 0x3F)) % 256 = 0x80 + v % 64 := by
  rw [and_3F, or_low _ (by omega)]
  omega

/-- The encoder of `ReadUTF16String` produces the standard UTF-8 encoding of every code point
below `2 ^ 21`. -/
theorem encodeUtf8_eq_spec (cp : Nat) (h : cp < 0x200000) : encodeUtf8 cp = specUtf8 cp := by
  unfold encodeUtf8 specUtf8
  by_cases h1 : cp < 0x80
  · rw [if_pos h1, if_pos h1, Nat.mod_eq_of_lt (by omega)]
  · rw [if_neg h1, if_neg h1]
    by_cases h2 : cp < 0x800
    · rw [if_pos h2, if_pos h2, continuation_byte, Nat.shiftRight_eq_div_pow,
        or_C0 _ (by norm_num; omega)]
      norm_num
      omega
    · rw [if_neg h2, if_neg h2]
      by_cases h3 : cp < 0x10000
      · rw [if_pos h3, if_pos h3, continuation_byte, continuation_byte,
          Nat.shiftRight_eq_div_pow, Nat.shiftRight_eq_div_pow, or_E0 _ (by norm_num; omega)]
        norm_num
        omega
      · rw [if_neg h3, if_neg h3, continuation_byte, continuation_byte, continuation_byte,
          Nat.shiftRight_eq_div_pow, Nat.shiftRight_eq_div_pow, Nat.shiftRight_eq_div_pow,
          or_F0 _ (by norm_num; omega)]
        norm_num
        omega

theorem normalizeFullwidth_high (cp : Nat) (h : 0x10000 ≤ cp) : normalizeFullwidth cp = cp := by
  unfold normalizeFullwidth
  rw [if_neg (by omega)]

theorem convertUnits_pair (c low : Nat) (rest : List Nat)
    (h : c ≥ 0xD800 ∧ c ≤ 0xDBFF ∧ low ≥ 0xDC00 ∧ low ≤ 0xDFFF) :
    convertUnits (c :: low :: rest)
      = encodeUtf8 (normalizeFullwidth (0x10000 + ((c - 0xD800) <<< 10) + (low - 0xDC00)))
          ++ convertUnits rest := by
  rw [convertUnits, if_pos h]

theorem convertUnits_single (c low : Nat) (rest : List Nat)
    (h : ¬ (c ≥ 0xD800 ∧ c ≤ 0xDBFF ∧ low ≥ 0xDC00 ∧ low ≤ 0xDFFF)) :
    convertUnits (c :: low :: rest)
      = encodeUtf8 (normalizeFullwidth c) ++ convertUnits (low :: rest) := by
  rw [convertUnits, if_neg h]

/-- The conversion of a list of code units splits at every position whose unit is not a low
surrogate. -/
theorem convertUnits_append (pre tail : List Nat)
    (h : ∀ x ∈ tail.head?, ¬ (x ≥ 0xDC00 ∧ x ≤ 0xDFFF)) :
    convertUnits (pre ++ tail) = convertUnits pre ++ convertUnits tail := by
  induction pre using convertUnits.induct with
  | case1 => simp [convertUnits]
  | case2 c =>
    cases tail with
    | nil => simp [convertUnits]
    | cons x xs =>
      have hx := h x (by simp)
      rw [List.singleton_append, convertUnits_single c x xs (by omega)]
      simp [convertUnits]
  | case3 c low rest hc ih =>
    rw [List.cons_append, List.cons_append, convertUnits_pair c low _ hc,
      convertUnits_pair c low _ hc, ih, List.append_assoc]
  | case4 c low rest hc ih =>
    rw [List.cons_append, List.cons_append, convertUnits_single c low _ hc,
      convertUnits_single c low _ hc, ← List.cons_append, ih, List.append_assoc]

/-- Claim C20: a high surrogate `h` in `0xD800..0xDBFF` immediately followed by a low surrogate
`l` in `0xDC00..0xDFFF`, anywhere among the code units read for a metadata string, is decoded as
the single code point `0x10000 + ((h - 0xD800) << 10) + (l - 0xDC00)`, which lies in
`0x10000..0x10FFFF`; the string returned holds exactly the standard 4-byte UTF-8 encoding of
that code point for the two units, between the bytes of the units in front of them and those of
the units behind them. -/
theorem ReadUTF16String_surrogate_pair (f : File) (pre rest : List Nat) (h l n : Nat)
    (hread : readUnits true (f.bytes.drop f.pos) = (pre ++ h :: l :: rest, n))
    (hh : 0xD800 ≤ h ∧ h ≤ 0xDBFF) (hl : 0xDC00 ≤ l ∧ l ≤ 0xDFFF) :
    (ReadUTF16String f).1
      = convertUnits pre ++ specUtf8 (0x10000 + ((h - 0xD800) <<< 10) + (l - 0xDC00))
          ++ convertUnits rest ∧
    convertUnits (h :: l :: rest)
      = specUtf8 (0x10000 + ((h - 0xD800) <<< 10) + (l - 0xDC00)) ++ convertUnits rest ∧
    0x10000 ≤ 0x10000 + ((h - 0xD800) <<< 10) + (l - 0xDC00) ∧
    0x10000 + ((h - 0xD800) <<< 10) + (l - 0xDC00) ≤ 0x10FFFF ∧
    (specUtf8 (0x10000 + ((h - 0xD800) <<< 10) + (l - 0xDC00))).length = 4 ∧
    specUtf8 (0x10000 + ((h - 0xD800) <<< 10) + (l - 0xDC00))
      = [0xF0 + (0x10000 + (h - 0xD800) * 1024 + (l - 0xDC00)) / 262144,
         0x80 + (0x10000 + (h - 0xD800) * 1024 + (l - 0xDC00)) / 4096 % 64,
         0x80 + (0x10000 + (h - 0xD800) * 1024 + (l - 0xDC00)) / 64 % 64,
         0x80 + (0x10000 + (h - 0xD800) * 1024 + (l - 0xDC00)) % 64] := by
  have hs : (h - 0xD800) <<< 10 = (h - 0xD800) * 1024 := by
    rw [Nat.shiftLeft_eq]
  have hge : 0x10000 ≤ 0x10000 + ((h - 0xD800) <<< 10) + (l - 0xDC00) := by omega
  have hle : 0x10000 + ((h - 0xD800) <<< 10) + (l - 0xDC00) ≤ 0x10FFFF := by
    rw [hs]; omega
  have hspec : specUtf8 (0x10000 + ((h - 0xD800) <<< 10) + (l - 0xDC00))
      = [0xF0 + (0x10000 + (h - 0xD800) * 1024 + (l - 0xDC00)) / 262144,
         0x80 + (0x10000 + (h - 0xD800) * 1024 + (l - 0xDC00)) / 4096 % 64,
         0x80 + (0x10000 + (h - 0xD800) * 1024 + (l - 0xDC00)) / 64 % 64,
         0x80 + (0x10000 + (h - 0xD800) * 1024 + (l - 0xDC00)) % 64] := by
    rw [hs] at hge ⊢
    unfold specUtf8
    rw [if_neg (by omega), if_neg (by omega), if_neg (by omega)]
  have hpair : convertUnits (h :: l :: rest)
      = specUtf8 (0x10000 + ((h - 0xD800) <<< 10) + (l - 0xDC00)) ++ convertUnits rest := by
    rw [convertUnits_pair h l rest ⟨hh.1, hh.2, hl.1, hl.2⟩, normalizeFullwidth_high _ hge,
      encodeUtf8_eq_spec _ (by omega)]
  refine ⟨?_, hpair, hge, hle, by rw [hspec]; rfl, hspec⟩
  unfold ReadUTF16String
  simp only
  rw [hread, convertUnits_append pre _ (by intro x hx; simp at hx; omega), hpair,
    List.append_assoc]

theorem ReadUTF16String_surrogate_pair_witness :
    readUnits true
        ((File.mk [0x41, 0, 0x3D, 0xD8, 0x00, 0xDE, 0x42, 0, 0, 0] 0).bytes.drop
          (File.mk [0x41, 0, 0x3D, 0xD8, 0x00, 0xDE, 0x42, 0, 0, 0] 0).pos)
      = ([0x41] ++ 0xD83D :: 0xDE00 :: [0x42], 10) ∧
    (ReadUTF16String (File.mk [0x41, 0, 0x3D, 0xD8, 0x00, 0xDE, 0x42, 0, 0, 0] 0)).1
      = convertUnits [0x41]
          ++ specUtf8 (0x10000 + ((0xD83D - 0xD800) <<< 10) + (0xDE00 - 0xDC00))
          ++ convertUnits [0x42] ∧
    specUtf8 (0x10000 + ((0xD83D - 0xD800) <<< 10) + (0xDE00 - 0xDC00))
      = [0xF0, 0x9F, 0x98, 0x80] ∧
    (ReadUTF16String (File.mk [0x41, 0, 0x3D, 0xD8, 0x00, 0xDE, 0x42, 0, 0, 0] 0)).1
      = [0x41, 0xF0, 0x9F, 0x98, 0x80, 0x42] :=
  ⟨by decide,
    (ReadUTF16String_surrogate_pair (File.mk [0x41, 0, 0x3D, 0xD8, 0x00, 0xDE, 0x42, 0, 0, 0] 0)
      [0x41] [0x42] 0xD83D 0xDE00 10 (by decide) (by decide) (by decide)).1,
    by decide, by decide⟩

/-! ## The metadata string decoder: normalisation -/

/-- Claim C21, evaluated at a failing input: the fullwidth capital letter A, code unit `0xFF21`,
is normalised to `0x21` (an exclamation mark) and not to `0xFF21 - 0xFEE0 = 0x41`: a metadata
string holding that single unit is returned as the byte `21`.  Every code unit `c` in
`0xFF01..0xFF5E` is mapped to `c - 0xFF00`, which is never `c - 0xFEE0`.  The remaining parts
hold: the four currency symbols are mapped as stated, every other code point is unchanged, code
points from `0x10000` on are unchanged, and the normalisation is idempotent. -/
theorem normalizeFullwidth_offset :
    normalizeFullwidth 0xFF21 = 0x21 ∧
    normalizeFullwidth 0xFF21 ≠ 0xFF21 - 0xFEE0 ∧
    convertUnits [0xFF21] = [0x21] ∧
    (ReadUTF16String (File.mk [0x21, 0xFF, 0, 0] 0)).1 = [0x21] ∧
    (∀ c, 0xFF01 ≤ c → c ≤ 0xFF5E →
      normalizeFullwidth c = c - 0xFF00 ∧ normalizeFullwidth c ≠ c - 0xFEE0) ∧
    normalizeFullwidth 0xFFE5 = 0x00A5 ∧ normalizeFullwidth 0xFFE0 = 0x00A2 ∧
    normalizeFullwidth 0xFFE1 = 0x00A3 ∧ normalizeFullwidth 0xFFE6 = 0x20A9 ∧
    (∀ c, ¬ (0xFF01 ≤ c ∧ c ≤ 0xFF5E) → c ≠ 0xFFE5 → c ≠ 0xFFE0 → c ≠ 0xFFE1 → c ≠ 0xFFE6 →
      normalizeFullwidth c = c) ∧
    (∀ c, 0x10000 ≤ c → normalizeFullwidth c = c) ∧
    (∀ c, normalizeFullwidth (normalizeFullwidth c) = normalizeFullwidth c) := by
  have hfull : ∀ c, 0xFF01 ≤ c → c ≤ 0xFF5E → normalizeFullwidth c = c - 0xFF00 := by
    intro c h1 h2
    unfold normalizeFullwidth
    rw [if_pos (by omega), if_pos ⟨h1, h2⟩]
  have hother : ∀ c, ¬ (0xFF01 ≤ c ∧ c ≤ 0xFF5E) → c ≠ 0xFFE5 → c ≠ 0xFFE0 → c ≠ 0xFFE1 →
      c ≠ 0xFFE6 → normalizeFullwidth c = c := by
    intro c h1 h2 h3 h4 h5
    unfold normalizeFullwidth
    rw [if_neg h1, if_neg h2, if_neg h3, if_neg h4, if_neg h5]
    simp only [ite_self]
  refine ⟨by decide, by decide, by decide, by decide, ?_, by decide, by decide, by decide,
    by decide, hother, normalizeFullwidth_high, ?_⟩
  · intro c h1 h2
    rw [hfull c h1 h2]
    exact ⟨rfl, by omega⟩
  · intro c
    by_cases h1 : 0xFF01 ≤ c ∧ c ≤ 0xFF5E
    · rw [hfull c h1.1 h1.2]
      exact hother _ (by omega) (by omega) (by omega) (by omega) (by omega)
    · by_cases h2 : c = 0xFFE5
      · subst h2; decide
      · by_cases h3 : c = 0xFFE0
        · subst h3; decide
        · by_cases h4 : c = 0xFFE1
          · subst h4; decide
          · by_cases h5 : c = 0xFFE6
            · subst h5; decide
            · rw [hother c h1 h2 h3 h4 h5, hother c h1 h2 h3 h4 h5]

/-! ## The metadata block -/

theorem fread_bytes (f : File) (n : Nat) : (f.fread n).2.bytes = f.bytes := rfl

theorem ReadUTF16String_bytes (f : File) : (ReadUTF16String f).2.bytes = f.bytes := rfl

theorem readUnits_bom (b0 b1 : Nat) (rest : List Nat)
    (h : unitOf b0 b1 = 0xFEFF ∨ unitOf b0 b1 = 0xFFFE) :
    readUnits true (b0 :: b1 :: rest) = ((readUnits false rest).1, (readUnits false rest).2 + 2) := by
  unfold unitOf at h
  rw [readUnits]
  simp only
  rw [if_pos ⟨trivial, h.symm⟩]

theorem readUnits_content (c0 c1 : Nat) (more : List Nat) :
    readUnits false (c0 :: c1 :: more)
      = if unitOf c0 c1 = 0 then ([], 2)
        else (unitOf c0 c1 :: (readUnits false more).1, (readUnits false more).2 + 2) := by
  unfold unitOf
  rw [readUnits]
  rfl

/-- Claim C23, as amended: byte-order-mark stripping applies to each of the strings of the
metadata block.  When the first code unit of the string of index `i` is `0xFEFF` or `0xFFFE`,
that unit is discarded and the string returned is the conversion of the units behind it; from
the second unit of a string on no unit is discarded, so that a later `0xFEFF` or `0xFFFE` is
content (encoded as `EF BB BF` and `EF BF BE`). -/
theorem ReadUTF16String_bom_every_string (i : Nat) (f : File) (b0 b1 : Nat) (rest : List Nat)
    (hcur : (skipStrings i f).bytes.drop (skipStrings i f).pos = b0 :: b1 :: rest)
    (hbom : unitOf b0 b1 = 0xFEFF ∨ unitOf b0 b1 = 0xFFFE) :
    nthString i f = convertUnits (readUnits false rest).1 ∧
    (ReadUTF16String (skipStrings i f)).2.pos
      = (skipStrings i f).pos + ((readUnits false rest).2 + 2) ∧
    (∀ c0 c1 more, unitOf c0 c1 ≠ 0 →
      (readUnits false (c0 :: c1 :: more)).1 = unitOf c0 c1 :: (readUnits false more).1) ∧
    convertUnits [0xFEFF] = [0xEF, 0xBB, 0xBF] ∧
    convertUnits [0xFFFE] = [0xEF, 0xBF, 0xBE] := by
  refine ⟨?_, ?_, ?_, by decide, by decide⟩
  · unfold nthString ReadUTF16String
    simp only
    rw [hcur, readUnits_bom b0 b1 rest hbom]
  · unfold ReadUTF16String
    simp only
    rw [hcur, readUnits_bom b0 b1 rest hbom]
  · intro c0 c1 more hne
    rw [readUnits_content, if_neg hne]

theorem ReadUTF16String_bom_every_string_witness :
    (skipStrings 1 (File.mk gd3BomFile 0x24)).bytes.drop (skipStrings 1 (File.mk gd3BomFile 0x24)).pos
      = 0xFF :: 0xFE :: (0x41 :: 0 :: List.replicate 20 0) ∧
    unitOf 0xFF 0xFE = 0xFEFF ∧
    nthString 1 (File.mk gd3BomFile 0x24)
      = convertUnits (readUnits false (0x41 :: 0 :: List.replicate 20 0)).1 ∧
    nthString 1 (File.mk gd3BomFile 0x24) = [0x41] :=
  ⟨by decide, by decide,
    (ReadUTF16String_bom_every_string 1 (File.mk gd3BomFile 0x24) 0xFF 0xFE
      (0x41 :: 0 :: List.replicate 20 0) (by decide) (Or.inl (by decide))).1,
    by decide⟩

/-- Claim C23 as stated fails: in a metadata block whose second string (the JP title) is the
code unit `0xFEFF` followed by "A", the byte-order mark of the second string is discarded as
well, and the title tag is "A", without the bytes `EF BB BF` in front. -/
theorem ReadUTF16String_bom_every_string_counterexample :
    ExtractGD3Tags (some gd3BomFile) [] = (true, [(keyTitle, [0x41])]) ∧
    nthString 0 (File.mk gd3BomFile 0x24) = [] ∧
    nthString 1 (File.mk gd3BomFile 0x24) = [0x41] ∧
    nthString 1 (File.mk gd3BomFile 0x24) ≠ [0xEF, 0xBB, 0xBF, 0x41] := by
  decide

/-! ## The metadata string decoder: UTF-8 output -/

theorem convertUnits_eq_codePoints (units : List Nat) :
    convertUnits units = (codePoints units).flatMap encodeUtf8 := by
  induction units using convertUnits.induct with
  | case1 => simp [convertUnits, codePoints]
  | case2 c => simp [convertUnits, codePoints]
  | case3 c low rest hc ih =>
    rw [convertUnits_pair c low rest hc, codePoints, if_pos hc, List.flatMap_cons, ih]
  | case4 c low rest hc ih =>
    rw [convertUnits_single c low rest hc, codePoints, if_neg hc, List.flatMap_cons, ih]

theorem normalizeFullwidth_le (c : Nat) : normalizeFullwidth c ≤ c := by
  unfold normalizeFullwidth
  split
  · split
    · omega
    · split
      · split
        · omega
        · split
          · omega
          · split
            · omega
            · split
              · omega
              · omega
      · omega
  · omega

theorem codePoints_lt (units : List Nat) (hu : ∀ u ∈ units, u < 65536) :
    ∀ cp ∈ codePoints units, cp < 0x110000 := by
  induction units using convertUnits.induct with
  | case1 => simp [codePoints]
  | case2 c =>
    intro cp hcp
    simp only [codePoints, List.mem_singleton] at hcp
    have h1 := hu c (by simp)
    have h2 := normalizeFullwidth_le c
    omega
  | case3 c low rest hc ih =>
    intro cp hcp
    rw [codePoints, if_pos hc, List.mem_cons] at hcp
    rcases hcp with hcp | hcp
    · have h2 := normalizeFullwidth_le (0x10000 + ((c - 0xD800) <<< 10) + (low - 0xDC00))
      have hs : (c - 0xD800) <<< 10 = (c - 0xD800) * 1024 := by rw [Nat.shiftLeft_eq]
      rw [hs] at h2 hcp
      rw [hcp]
      omega
    · exact ih (fun u hu' => hu u (by simp [hu'])) cp hcp
  | case4 c low rest hc ih =>
    intro cp hcp
    rw [codePoints, if_neg hc, List.mem_cons] at hcp
    rcases hcp with hcp | hcp
    · have h1 := hu c (by simp)
      have h2 := normalizeFullwidth_le c
      omega
    · exact ih (fun u hu' => hu u (by simp at hu' ⊢; tauto)) cp hcp

/-- The strict decoder reads the standard encoding of a code point below `0x110000` back as
that code point, unless it is a surrogate; it rejects the encoding of a surrogate. -/
theorem specDecodeUtf8From_specUtf8 (cp : Nat) (rest : List Nat) (h : cp < 0x110000) :
    specDecodeUtf8From 0 0 0 (specUtf8 cp ++ rest)
      = if 0xD800 ≤ cp ∧ cp ≤ 0xDFFF then none
        else (specDecodeUtf8From 0 0 0 rest).map (fun cps => cp :: cps) := by
  unfold specUtf8
  by_cases h1 : cp < 0x80
  · rw [if_pos h1, if_neg (by omega), List.singleton_append, specDecodeUtf8From, if_pos h1]
  · rw [if_neg h1]
    by_cases h2 : cp < 0x800
    · rw [if_pos h2, if_neg (by omega)]
      simp only [List.cons_append, List.nil_append]
      rw [specDecodeUtf8From, if_neg (by omega), if_pos (by omega), specDecodeUtf8From,
        if_pos (by omega), if_pos rfl]
      have e : (0xC0 + cp / 64 - 0xC0) * 64 + (0x80 + cp % 64 - 0x80) = cp := by omega
      rw [e, if_pos (by omega)]
    · rw [if_neg h2]
      by_cases h3 : cp < 0x10000
      · rw [if_pos h3]
        simp only [List.cons_append, List.nil_append]
        rw [specDecodeUtf8From, if_neg (by omega), if_neg (by omega), if_pos (by omega),
          specDecodeUtf8From, if_pos (by omega), if_neg (by omega), specDecodeUtf8From,
          if_pos (by omega), if_pos rfl]
        have e : ((0xE0 + cp / 4096 - 0xE0) * 64 + (0x80 + cp / 64 % 64 - 0x80)) * 64
            + (0x80 + cp % 64 - 0x80) = cp := by omega
        rw [e]
        by_cases hs : 0xD800 ≤ cp ∧ cp ≤ 0xDFFF
        · rw [if_pos hs, if_neg (by omega)]
        · rw [if_neg hs, if_pos (by omega)]
      · rw [if_neg h3, if_neg (by omega)]
        simp only [List.cons_append, List.nil_append]
        rw [specDecodeUtf8From, if_neg (by omega), if_neg (by omega), if_neg (by omega),
          if_pos (by omega), specDecodeUtf8From, if_pos (by omega), if_neg (by omega),
          specDecodeUtf8From, if_pos (by omega), if_neg (by omega), specDecodeUtf8From,
          if_pos (by omega), if_pos rfl]
        have e : (((0xF0 + cp / 262144 - 0xF0) * 64 + (0x80 + cp / 4096 % 64 - 0x80)) * 64
            + (0x80 + cp / 64 % 64 - 0x80)) * 64 + (0x80 + cp % 64 - 0x80) = cp := by omega
        rw [e, if_pos (by omega)]

theorem specDecodeUtf8_flatMap (cps : List Nat) (h : ∀ cp ∈ cps, cp < 0x110000) :
    specDecodeUtf8 (cps.flatMap specUtf8)
      = if ∀ cp ∈ cps, ¬ (0xD800 ≤ cp ∧ cp ≤ 0xDFFF) then some cps else none := by
  unfold specDecodeUtf8
  induction cps with
  | nil => simp [specDecodeUtf8From]
  | cons cp cps ih =>
    rw [List.flatMap_cons, specDecodeUtf8From_specUtf8 cp _ (h cp (by simp)),
      ih (fun c hc => h c (by simp [hc]))]
    by_cases hs : 0xD800 ≤ cp ∧ cp ≤ 0xDFFF
    · rw [if_pos hs, if_neg (by
        intro hall
        exact hall cp (by simp) hs)]
    · rw [if_neg hs]
      by_cases hall : ∀ c ∈ cps, ¬ (0xD800 ≤ c ∧ c ≤ 0xDFFF)
      · rw [if_pos hall, if_pos (by
          intro c hc
          rcases List.mem_cons.mp hc with e | e
          · rw [e]; exact hs
          · exact hall c e)]
        rfl
      · rw [if_neg hall, if_neg (by
          intro hall'
          exact hall (fun c hc => hall' c (by simp [hc])))]
        rfl

theorem normalizeFullwidth_surrogate (c : Nat) :
    (0xD800 ≤ normalizeFullwidth c ∧ normalizeFullwidth c ≤ 0xDFFF)
      ↔ (0xD800 ≤ c ∧ c ≤ 0xDFFF) := by
  unfold normalizeFullwidth
  split
  · split
    · omega
    · split
      · split
        · omega
        · split
          · omega
          · split
            · omega
            · split
              · omega
              · rfl
      · rfl
  · rfl

/-- Claim C25, as amended: for every sequence of 16-bit code units the bytes produced by the
decoder are the concatenation of the standard UTF-8 encodings (1, 2, 3 or 4 bytes by
magnitude) of the decoded and normalised code points, all of which lie below `0x110000`.  The
output is well-formed UTF-8, and a strict decoder returns exactly that code point sequence,
when no decoded code point is a surrogate; when one is (a surrogate unit that is not part of a
high and low pair passes through decoding and normalisation unchanged), the output holds its
3-byte form and a strict decoder rejects it. -/
theorem convertUnits_utf8 (units : List Nat) (hu : ∀ u ∈ units, u < 65536) :
    convertUnits units = (codePoints units).flatMap specUtf8 ∧
    (∀ cp ∈ codePoints units, cp < 0x110000) ∧
    ((∀ cp ∈ codePoints units, ¬ (0xD800 ≤ cp ∧ cp ≤ 0xDFFF)) →
      specDecodeUtf8 (convertUnits units) = some (codePoints units)) ∧
    ((∃ cp ∈ codePoints units, 0xD800 ≤ cp ∧ cp ≤ 0xDFFF) →
      specDecodeUtf8 (convertUnits units) = none) ∧
    (∀ c, (0xD800 ≤ normalizeFullwidth c ∧ normalizeFullwidth c ≤ 0xDFFF)
      ↔ (0xD800 ≤ c ∧ c ≤ 0xDFFF)) := by
  have hlt := codePoints_lt units hu
  have henc : convertUnits units = (codePoints units).flatMap specUtf8 := by
    rw [convertUnits_eq_codePoints]
    have hmap : ∀ cps : List Nat, (∀ cp ∈ cps, cp < 0x110000) →
        cps.flatMap encodeUtf8 = cps.flatMap specUtf8 := by
      intro cps
      induction cps with
      | nil => intro _; rfl
      | cons c cs ih =>
        intro hc
        rw [List.flatMap_cons, List.flatMap_cons,
          encodeUtf8_eq_spec c (by have := hc c (by simp); omega),
          ih (fun x hx => hc x (by simp [hx]))]
    exact hmap _ hlt
  refine ⟨henc, hlt, ?_, ?_, normalizeFullwidth_surrogate⟩
  · intro hall
    rw [henc, specDecodeUtf8_flatMap _ hlt, if_pos hall]
  · intro hex
    obtain ⟨cp, hcp, hs⟩ := hex
    rw [henc, specDecodeUtf8_flatMap _ hlt, if_neg (fun hall => hall cp hcp hs)]

theorem convertUnits_utf8_witness :
    (∀ u ∈ [0x41, 0xD83D, 0xDE00, 0x3042, 0xE9], u < 65536) ∧
    codePoints [0x41, 0xD83D, 0xDE00, 0x3042, 0xE9] = [0x41, 0x1F600, 0x3042, 0xE9] ∧
    convertUnits [0x41, 0xD83D, 0xDE00, 0x3042, 0xE9]
      = (codePoints [0x41, 0xD83D, 0xDE00, 0x3042, 0xE9]).flatMap specUtf8 ∧
    specDecodeUtf8 (convertUnits [0x41, 0xD83D, 0xDE00, 0x3042, 0xE9])
      = some (codePoints [0x41, 0xD83D, 0xDE00, 0x3042, 0xE9]) :=
  ⟨by decide, by decide,
    (convertUnits_utf8 [0x41, 0xD83D, 0xDE00, 0x3042, 0xE9] (by decide)).1,
    (convertUnits_utf8 [0x41, 0xD83D, 0xDE00, 0x3042, 0xE9] (by decide)).2.2.1 (by decide)⟩

/-- Claim C25 as stated fails: a metadata string that consists of the single code unit
`0xD800`, a high surrogate with nothing behind it, is returned as the bytes `ED A0 80`, which
are not well-formed UTF-8; a strict decoder rejects them. -/
theorem convertUnits_utf8_counterexample :
    (readUnits true [0x00, 0xD8, 0, 0]).1 = [0xD800] ∧
    (ReadUTF16String (File.mk [0x00, 0xD8, 0, 0] 0)).1 = [0xED, 0xA0, 0x80] ∧
    convertUnits [0xD800] = [0xED, 0xA0, 0x80] ∧
    specDecodeUtf8 (convertUnits [0xD800]) = none := by
  decide

/-! ## The conversion loop driven by the reader -/

theorem readLE_currentPos (r : VGMReader) (n : Nat) : (r.readLE n).2.currentPos = r.currentPos := by
  unfold VGMReader.readLE
  split <;> rfl

theorem readLE_fileSize (r : VGMReader) (n : Nat) : (r.readLE n).2.fileSize = r.fileSize := by
  unfold VGMReader.readLE
  split <;> rfl

theorem readLE_reads (r : VGMReader) (bytes : List Nat) (n : Nat) (h : r.Reads bytes) :
    (r.readLE n).2.Reads bytes := by
  obtain ⟨⟨q, hq⟩, hs⟩ := h
  refine ⟨?_, by rw [readLE_fileSize]; exact hs⟩
  rw [readLE_eq r _ n hq]
  exact ⟨_, rfl⟩

theorem Seek_reads (r : VGMReader) (bytes : List Nat) (p : Nat) (h : r.Reads bytes) :
    (r.Seek p).Reads bytes := by
  obtain ⟨⟨q, hq⟩, hs⟩ := h
  rw [Seek_eq r _ p hq]
  exact ⟨⟨_, rfl⟩, hs⟩

theorem length_take_drop (bytes : List Nat) (q n : Nat) :
    ((bytes.drop q).take n).length = min n (bytes.length - q) := by
  simp only [List.length_take, List.length_drop]

/-- The data-block branch of `ReadNextCommand` on a file shorter than `2 ^ 32 - 8` bytes moves
the cursor forward and keeps the file. -/
theorem readDataBlock_step (x : VGMReader) (c0 : VGMCommand) (bytes : List Nat)
    (hf : x.file = some { bytes := bytes, pos := x.currentPos })
    (hle : x.currentPos ≤ bytes.length) (hlen : bytes.length < 2 ^ 32 - 8) :
    (∃ q, (readDataBlock x c0).2.file = some { bytes := bytes, pos := q }) ∧
    (readDataBlock x c0).2.fileSize = x.fileSize ∧
    x.currentPos < (readDataBlock x c0).2.currentPos ∧
    (readDataBlock x c0).1.cmd = c0.cmd := by
  have hsz : (readDataBlock x c0).2.fileSize = x.fileSize := by
    unfold readDataBlock
    simp only [ReadUint8, ReadUint32]
    split
    · split
      · split
        · simp only [readLE_fileSize]
        · simp only [readLE_fileSize]
      · simp only [readLE_fileSize]
    · simp only [readLE_fileSize]
  refine ⟨?_, hsz, ?_, readDataBlock_cmd x c0⟩
  all_goals
    unfold readDataBlock
    simp only [ReadUint8, ReadUint32]
    rw [readLE_eq x { bytes := bytes, pos := x.currentPos } 1 hf]
    dsimp only
    by_cases hmk : leValue (List.take 1 (List.drop x.currentPos bytes)) = 0x66
    · rw [if_pos hmk,
        readLE_eq _ { bytes := bytes
                      pos := x.currentPos + (List.take 1 (List.drop x.currentPos bytes)).length }
          1 rfl]
      dsimp only
      rw [readLE_eq _ { bytes := bytes
                        pos := x.currentPos + (List.take 1 (List.drop x.currentPos bytes)).length
                          + (List.take 1 (List.drop (x.currentPos
                              + (List.take 1 (List.drop x.currentPos bytes)).length) bytes)).length }
          4 rfl]
      dsimp only [File.fread]
      simp only [length_take_drop]
      split
      all_goals
        first
          | exact ⟨_, rfl⟩
          | (dsimp only; simp only [length_take_drop] at *; omega)
    · rw [if_neg hmk]
      first
        | exact ⟨_, rfl⟩
        | (dsimp only; omega)

theorem drop_cons_of_lt (bytes : List Nat) (p : Nat) (h : p < bytes.length) :
    ∃ b, bytes.drop p = b :: bytes.drop (p + 1) ∧ b ∈ bytes := by
  refine ⟨bytes[p], ?_, List.getElem_mem _⟩
  exact List.drop_eq_getElem_cons h

/-- A call of `ReadNextCommand` with the cursor inside a file shorter than `2 ^ 32 - 8` bytes
delivers a command that carries the byte at the cursor as opcode, keeps the file and moves the
cursor forward, by exactly one byte for the end marker and for an unknown opcode. -/
theorem ReadNextCommand_step (r : VGMReader) (bytes : List Nat)
    (hbytes : ∀ b ∈ bytes, b < 256) (hlen : bytes.length < 2 ^ 32 - 8)
    (hr : r.Reads bytes) (hcur : r.currentPos < r.fileSize) :
    ∃ cmd r', ReadNextCommand r = (some cmd, r') ∧ r'.Reads bytes ∧
      r.currentPos < r'.currentPos ∧
      bytes.drop r.currentPos = cmd.cmd :: bytes.drop (r.currentPos + 1) ∧
      (cmd.cmd = VGM_CMD_END ∨ isUnknownOpcode cmd.cmd = true →
        r'.currentPos = r.currentPos + 1) := by
  obtain ⟨⟨q, hq⟩, hs⟩ := hr
  rw [hs] at hcur
  obtain ⟨b, hb, hmem⟩ := drop_cons_of_lt bytes r.currentPos hcur
  have hb256 := hbytes b hmem
  have hat := ReadNextCommand_at r { bytes := bytes, pos := q } b _ hq hs (by show bytes.length < 2 ^ 32; omega) hb256 hb
  have hR : ∀ c : Nat, VGMReader.Reads { r with
      file := some { bytes := bytes, pos := r.currentPos + 1 }, currentPos := c } bytes :=
    fun c => ⟨⟨_, rfl⟩, hs⟩
  rw [hat]
  by_cases c1 : b = VGM_CMD_END
  · rw [if_pos c1]
    exact ⟨_, _, rfl, hR _, Nat.lt_succ_self _, hb, fun _ => rfl⟩
  rw [if_neg c1]
  by_cases c2 : b = VGM_CMD_WAIT
  · rw [if_pos c2]
    refine ⟨_, _, rfl, ⟨?_, ?_⟩, ?_, hb, ?_⟩
    · obtain ⟨⟨q', hq'⟩, _⟩ := readLE_reads _ bytes 2 (hR (r.currentPos + 1))
      exact ⟨q', hq'⟩
    · simp only [ReadUint16, readLE_fileSize]
      exact hs
    · simp only [ReadUint16, readLE_currentPos]
      omega
    · intro h
      rcases h with h | h
      · exact absurd h c1
      · have h' : isUnknownOpcode b = true := h
        rw [c2] at h'
        exact absurd h' (by decide)
  rw [if_neg c2]
  by_cases c3 : b = VGM_CMD_WAIT_735
  · rw [if_pos c3]
    exact ⟨_, _, rfl, hR _, Nat.lt_succ_self _, hb, fun _ => rfl⟩
  rw [if_neg c3]
  by_cases c4 : b = VGM_CMD_WAIT_882
  · rw [if_pos c4]
    exact ⟨_, _, rfl, hR _, Nat.lt_succ_self _, hb, fun _ => rfl⟩
  rw [if_neg c4]
  by_cases c5 : b ≥ VGM_CMD_WAIT_SHORT ∧ b ≤ 0x7F
  · rw [if_pos c5]
    exact ⟨_, _, rfl, hR _, Nat.lt_succ_self _, hb, fun _ => rfl⟩
  rw [if_neg c5]
  by_cases c6 : b = VGM_CMD_DATA_BLOCK
  · rw [if_pos c6]
    obtain ⟨⟨q', hq'⟩, hsz, hlt, hcmd⟩ := readDataBlock_step
      { r with file := some { bytes := bytes, pos := r.currentPos + 1 }
               currentPos := r.currentPos + 1 }
      { VGMCommand.init with cmd := b } bytes rfl (by show r.currentPos + 1 ≤ _; omega) hlen
    refine ⟨_, _, rfl, ⟨⟨q', hq'⟩, hsz.trans hs⟩, ?_, ?_, ?_⟩
    · exact Nat.lt_trans (Nat.lt_succ_self _) hlt
    · rw [hcmd]
      exact hb
    · intro h
      rw [hcmd] at h
      rcases h with h | h
      · exact absurd h c1
      · have h' : isUnknownOpcode b = true := h
        rw [c6] at h'
        exact absurd h' (by decide)
  rw [if_neg c6]
  by_cases c7 : b = VGM_CMD_PCM_SEEK
  · rw [if_pos c7]
    refine ⟨_, _, rfl, ⟨?_, ?_⟩, ?_, hb, ?_⟩
    · obtain ⟨⟨q', hq'⟩, _⟩ := readLE_reads _ bytes 4 (hR (r.currentPos + 1))
      exact ⟨q', hq'⟩
    · simp only [ReadUint32, readLE_fileSize]
      exact hs
    · simp only [ReadUint32, readLE_currentPos]
      omega
    · intro h
      rcases h with h | h
      · exact absurd h c1
      · have h' : isUnknownOpcode b = true := h
        rw [c7] at h'
        exact absurd h' (by decide)
  rw [if_neg c7]
  by_cases c8 : isRegisterWrite b = true
  · rw [if_pos c8]
    refine ⟨_, _, rfl, ⟨?_, ?_⟩, ?_, hb, ?_⟩
    · obtain ⟨⟨q', hq'⟩, _⟩ := readLE_reads _ bytes 1
        (readLE_reads _ bytes 1 (hR (r.currentPos + 1)))
      exact ⟨q', hq'⟩
    · simp only [ReadUint8, readLE_fileSize]
      exact hs
    · simp only [ReadUint8, readLE_currentPos]
      omega
    · intro h
      rcases h with h | h
      · exact absurd h c1
      · have h' : isUnknownOpcode b = true := h
        unfold isUnknownOpcode at h'
        rw [c8] at h'
        simp at h'
  rw [if_neg c8]
  exact ⟨_, _, rfl, hR _, Nat.lt_succ_self _, hb, fun _ => rfl⟩
theorem convertLoop_eq (h : VGMHeader) (lss : Nat) : ∀ (fuel : Nat) (r : VGMReader)
    (st : ConvState),
    convertLoop h lss fuel r st
      = (readCommands fuel r).map (fun p => (p.2, convertEvents h lss st p.1)) := by
  intro fuel
  induction fuel with
  | zero => intro r st; rfl
  | succ n ih =>
    intro r st
    rw [convertLoop, readCommands]
    rcases hR : ReadNextCommand r with ⟨_ | cmd, r'⟩
    · rfl
    · dsimp only
      by_cases hend : cmd.cmd = VGM_CMD_END
      · rw [if_pos hend, if_pos hend]
        simp only [Option.map_some', convertEvents, if_pos hend]
      · rw [if_neg hend, if_neg hend, ih]
        cases hrc : readCommands n r' with
        | none => rfl
        | some p =>
          simp only [Option.map_some', convertEvents, if_neg hend]

/-- The conversion loop over a file shorter than `2 ^ 32 - 8` bytes ends within as many
`ReadNextCommand` calls as bytes lie between the cursor and the end of the file, and one more
for the call that reports the end of the stream. -/
theorem readCommands_terminates (bytes : List Nat) (hbytes : ∀ b ∈ bytes, b < 256)
    (hlen : bytes.length < 2 ^ 32 - 8) : ∀ (n : Nat) (r : VGMReader), r.Reads bytes →
    r.fileSize - r.currentPos ≤ n →
    ∃ cmds r', readCommands (n + 1) r = some (cmds, r') ∧
      cmds.length ≤ r.fileSize - r.currentPos ∧ r'.Reads bytes := by
  intro n
  induction n with
  | zero =>
    intro r hr hn
    rw [readCommands, ReadNextCommand_eof r (by omega)]
    exact ⟨[], r, rfl, Nat.zero_le _, hr⟩
  | succ n ih =>
    intro r hr hn
    by_cases hcur : r.currentPos < r.fileSize
    · obtain ⟨cmd, r', hstep, hr', hlt, _, _⟩ := ReadNextCommand_step r bytes hbytes hlen hr hcur
      have hs' : r'.fileSize = r.fileSize := hr'.2.trans hr.2.symm
      rw [readCommands, hstep]
      dsimp only
      by_cases hend : cmd.cmd = VGM_CMD_END
      · rw [if_pos hend]
        exact ⟨[cmd], r', rfl, by simp only [List.length_singleton]; omega, hr'⟩
      · rw [if_neg hend]
        obtain ⟨cmds, r'', h1, h2, h3⟩ := ih r' hr' (by omega)
        rw [h1]
        exact ⟨cmd :: cmds, r'', rfl, by simp only [List.length_cons]; omega, h3⟩
    · rw [readCommands, ReadNextCommand_eof r (by omega)]
      exact ⟨[], r, rfl, Nat.zero_le _, hr⟩

theorem Reads_of_file_eq (x y : VGMReader) (bytes : List Nat) (hf : y.file = x.file)
    (hs : y.fileSize = x.fileSize) (h : x.Reads bytes) : y.Reads bytes := by
  obtain ⟨⟨q, hq⟩, hsz⟩ := h
  exact ⟨⟨q, hf.trans hq⟩, hs.trans hsz⟩

theorem readHeaderFields_reads (r : VGMReader) (bytes : List Nat) (h : r.Reads bytes) :
    (readHeaderFields r).2.Reads bytes ∧
    (readHeaderFields r).2.currentPos = (readHeaderFields r).1.dataOffset := by
  refine ⟨?_, rfl⟩
  unfold readHeaderFields
  dsimp only
  refine Reads_of_file_eq (VGMReader.Seek _ _) _ bytes rfl rfl (Seek_reads _ bytes _ ?_)
  refine Reads_of_file_eq (Prod.snd (ite _ _ _)) _ bytes rfl rfl ?_
  split
  · dsimp only
    repeat (first | apply readLE_reads | apply Seek_reads)
    exact h
  · dsimp only
    repeat (first | apply readLE_reads | apply Seek_reads)
    exact h
theorem ReadHeader_reads (r : VGMReader) (hdr0 : VGMHeader) (bytes : List Nat)
    (h : r.Reads bytes) :
    (ReadHeader r hdr0).2.2.Reads bytes ∧
    ((ReadHeader r hdr0).1 = true →
      (ReadHeader r hdr0).2.2.currentPos = (ReadHeader r hdr0).2.1.dataOffset) := by
  obtain ⟨⟨q, hq⟩, hs⟩ := h
  unfold ReadHeader
  rw [hq]
  dsimp only
  have h0 : VGMReader.Reads { r with
      file := some (File.fread (File.fseek { bytes := bytes, pos := q } 0) 4).2 } bytes :=
    ⟨⟨_, rfl⟩, hs⟩
  split
  · exact ⟨h0, fun hf => absurd hf (by simp)⟩
  · exact ⟨(readHeaderFields_reads _ bytes h0).1, fun _ => (readHeaderFields_reads _ bytes h0).2⟩

theorem Open_reads (bytes : List Nat) (hlen : bytes.length < 2 ^ 32) :
    (VGMReader.Open (some bytes)).1 = true ∧ (VGMReader.Open (some bytes)).2.Reads bytes := by
  refine ⟨rfl, ⟨_, rfl⟩, ?_⟩
  show bytes.length % 2 ^ 32 = bytes.length
  exact Nat.mod_eq_of_lt hlen

/-- Claim C26: over an input file shorter than `2 ^ 32 - 8` bytes, a call of `ReadNextCommand`
with the cursor inside the file delivers the command of the opcode at the cursor and moves the
cursor forward by at least one byte, by exactly one for the end marker and for an unknown
opcode; a call with the cursor at or behind the file size reports the end of the stream.  The
conversion loop therefore ends: with more `ReadNextCommand` calls allowed than bytes lie between
the cursor and the end of the file it delivers its result, after at most that many iterations.
The loop of `main` starts with the cursor at the data start offset of the header, so `convert`
returns for every bound above the file size minus the data start offset. -/
theorem conversion_loop_bounded (bytes : List Nat) (hbytes : ∀ b ∈ bytes, b < 256)
    (hlen : bytes.length < 2 ^ 32 - 8) :
    (∀ r : VGMReader, r.Reads bytes →
      (r.currentPos < r.fileSize →
        ∃ cmd r', ReadNextCommand r = (some cmd, r') ∧ r'.Reads bytes ∧
          r.currentPos + 1 ≤ r'.currentPos ∧
          bytes.drop r.currentPos = cmd.cmd :: bytes.drop (r.currentPos + 1) ∧
          (cmd.cmd = VGM_CMD_END ∨ isUnknownOpcode cmd.cmd = true →
            r'.currentPos = r.currentPos + 1)) ∧
      (r.fileSize ≤ r.currentPos → ReadNextCommand r = (none, r)) ∧
      (∀ (fuel : Nat) (h : VGMHeader) (lss : Nat) (st : ConvState),
        r.fileSize - r.currentPos < fuel →
        ∃ cmds r', readCommands fuel r = some (cmds, r') ∧
          cmds.length ≤ r.fileSize - r.currentPos ∧
          convertLoop h lss fuel r st = some (r', convertEvents h lss st cmds))) ∧
    (∀ hdr0 : VGMHeader, (ReadHeader (VGMReader.Open (some bytes)).2 hdr0).1 = true →
      (ReadHeader (VGMReader.Open (some bytes)).2 hdr0).2.2.Reads bytes ∧
      (ReadHeader (VGMReader.Open (some bytes)).2 hdr0).2.2.currentPos
        = (ReadHeader (VGMReader.Open (some bytes)).2 hdr0).2.1.dataOffset) ∧
    (∀ (fuel : Nat) (outputOk : Bool),
      bytes.length
          - (ReadHeader (VGMReader.Open (some bytes)).2 VGMHeader.init).2.1.dataOffset < fuel →
      ∃ status output, convert fuel (some bytes) outputOk = some (status, output)) := by
  have hloop : ∀ r : VGMReader, r.Reads bytes →
      ∀ (fuel : Nat) (h : VGMHeader) (lss : Nat) (st : ConvState),
        r.fileSize - r.currentPos < fuel →
        ∃ cmds r', readCommands fuel r = some (cmds, r') ∧
          cmds.length ≤ r.fileSize - r.currentPos ∧
          convertLoop h lss fuel r st = some (r', convertEvents h lss st cmds) := by
    intro r hr fuel h lss st hfuel
    obtain ⟨n, rfl⟩ : ∃ n, fuel = n + 1 := ⟨fuel - 1, by omega⟩
    obtain ⟨cmds, r', h1, h2, _⟩ := readCommands_terminates bytes hbytes hlen n r hr (by omega)
    exact ⟨cmds, r', h1, h2, by rw [convertLoop_eq, h1]; rfl⟩
  have hopen := Open_reads bytes (by omega)
  refine ⟨?_, ?_, ?_⟩
  · intro r hr
    refine ⟨?_, fun h => ReadNextCommand_eof r h, hloop r hr⟩
    intro hcur
    obtain ⟨cmd, r', h1, h2, h3, h4, h5⟩ := ReadNextCommand_step r bytes hbytes hlen hr hcur
    exact ⟨cmd, r', h1, h2, h3, h4, h5⟩
  · intro hdr0 hok
    exact ⟨(ReadHeader_reads _ hdr0 bytes hopen.2).1, (ReadHeader_reads _ hdr0 bytes hopen.2).2 hok⟩
  · intro fuel outputOk hfuel
    unfold convert
    dsimp only
    rw [if_neg (by rw [hopen.1]; simp)]
    by_cases hok : (ReadHeader (VGMReader.Open (some bytes)).2 VGMHeader.init).1 = false
    · rw [if_pos hok]
      exact ⟨_, _, rfl⟩
    · rw [if_neg hok]
      by_cases hw : (Open S98Writer.init outputOk).1 = false
      · rw [if_pos hw]
        exact ⟨_, _, rfl⟩
      · rw [if_neg hw]
        have hrd := ReadHeader_reads (VGMReader.Open (some bytes)).2 VGMHeader.init bytes hopen.2
        have hcp := hrd.2 (by simpa using hok)
        obtain ⟨cmds, r', _, _, h3⟩ := hloop _ hrd.1 fuel
          (ReadHeader (VGMReader.Open (some bytes)).2 VGMHeader.init).2.1
          (loopStart (ReadHeader (VGMReader.Open (some bytes)).2 VGMHeader.init).2.1)
          (ConvState.start (preRegister (Open S98Writer.init outputOk).2
            (ReadHeader (VGMReader.Open (some bytes)).2 VGMHeader.init).2.1))
          (by rw [hcp, hrd.1.2]; exact hfuel)
        rw [h3]
        exact ⟨_, _, rfl⟩

theorem conversion_loop_bounded_witness :
    (minimalInput 0x0C 3579545 0x50 0x12 0x34).length = 134 ∧
    (ReadHeader (VGMReader.Open (some (minimalInput 0x0C 3579545 0x50 0x12 0x34))).2
      VGMHeader.init).2.1.dataOffset = 128 ∧
    ∃ status output,
      convert 7 (some (minimalInput 0x0C 3579545 0x50 0x12 0x34)) true = some (status, output) :=
  ⟨by decide, by decide,
    (conversion_loop_bounded (minimalInput 0x0C 3579545 0x50 0x12 0x34) (by decide)
      (by decide)).2.2 7 true (by decide)⟩

/-! ## End to end: the minimal input -/

theorem ReadNextCommand_short (r : VGMReader) (f : File) (b : Nat) (rest : List Nat)
    (hf : r.file = some f) (hsize : r.fileSize = f.bytes.length)
    (hlen : f.bytes.length < 2 ^ 32) (hb1 : 0x70 ≤ b) (hb2 : b ≤ 0x7F)
    (hb : f.bytes.drop r.currentPos = b :: rest) :
    ReadNextCommand r
      = (some { VGMCommand.init with cmd := b, waitSamples := b - 0x70 + 1 },
         { r with file := some { bytes := f.bytes, pos := r.currentPos + 1 }
                  currentPos := r.currentPos + 1 }) := by
  rw [ReadNextCommand_at r f b rest hf hsize hlen (by omega) hb,
    if_neg (by unfold VGM_CMD_END; omega), if_neg (by unfold VGM_CMD_WAIT; omega),
    if_neg (by unfold VGM_CMD_WAIT_735; omega), if_neg (by unfold VGM_CMD_WAIT_882; omega),
    if_pos (by unfold VGM_CMD_WAIT_SHORT; omega)]
  rfl

theorem ReadNextCommand_end (r : VGMReader) (f : File) (rest : List Nat)
    (hf : r.file = some f) (hsize : r.fileSize = f.bytes.length)
    (hlen : f.bytes.length < 2 ^ 32)
    (hb : f.bytes.drop r.currentPos = 0x66 :: rest) :
    ReadNextCommand r
      = (some { VGMCommand.init with cmd := 0x66 },
         { r with file := some { bytes := f.bytes, pos := r.currentPos + 1 }
                  currentPos := r.currentPos + 1 }) := by
  rw [ReadNextCommand_at r f 0x66 rest hf hsize hlen (by omega) hb, if_pos (by decide)]

theorem ReadNextCommand_register (r : VGMReader) (f : File) (b reg val : Nat)
    (rest : List Nat) (hf : r.file = some f) (hsize : r.fileSize = f.bytes.length)
    (hlen : f.bytes.length < 2 ^ 32) (hreg : isRegisterWrite b = true) (hr : reg < 256)
    (hv : val < 256) (hb : f.bytes.drop r.currentPos = b :: reg :: val :: rest) :
    ReadNextCommand r
      = (some { VGMCommand.init with
                cmd := b, reg := reg, data := val
                port := if b = 0x53 ∨ b = 0x57 ∨ b = 0x59 then 1 else 0 },
         { r with file := some { bytes := f.bytes, pos := r.currentPos + 3 }
                  currentPos := r.currentPos + 3 }) := by
  have hb' := (isRegisterWrite_iff b).mp hreg
  obtain ⟨_, h2⟩ := cursor_inside r f b _ hf hsize hb
  simp only [List.length_cons] at h2
  have hd1 := drop_succ_of_drop _ _ _ _ hb
  have hd2 := drop_succ_of_drop _ _ _ _ hd1
  rw [ReadNextCommand_at r f b _ hf hsize hlen (by omega) hb]
  have n1 : ¬ b = VGM_CMD_END := by unfold VGM_CMD_END; omega
  have n2 : ¬ b = VGM_CMD_WAIT := by unfold VGM_CMD_WAIT; omega
  have n3 : ¬ b = VGM_CMD_WAIT_735 := by unfold VGM_CMD_WAIT_735; omega
  have n4 : ¬ b = VGM_CMD_WAIT_882 := by unfold VGM_CMD_WAIT_882; omega
  have n5 : ¬ (b ≥ VGM_CMD_WAIT_SHORT ∧ b ≤ 0x7F) := by unfold VGM_CMD_WAIT_SHORT; omega
  have n6 : ¬ b = VGM_CMD_DATA_BLOCK := by unfold VGM_CMD_DATA_BLOCK; omega
  have n7 : ¬ b = VGM_CMD_PCM_SEEK := by unfold VGM_CMD_PCM_SEEK; omega
  rw [if_neg n1, if_neg n2, if_neg n3, if_neg n4, if_neg n5, if_neg n6, if_neg n7, if_pos hreg]
  rw [ReadUint8_at _ f.bytes (r.currentPos + 1) reg _ rfl hd1]
  simp only
  rw [ReadUint8_at _ f.bytes (r.currentPos + 1 + 1) val _ rfl hd2]
  have m : (r.currentPos + 1 + 2) % 2 ^ 32 = r.currentPos + 3 := by omega
  simp only [Nat.mod_eq_of_lt hr, Nat.mod_eq_of_lt hv, VGM_CMD_YM2612_PORT1,
    VGM_CMD_YM2608_PORT1, VGM_CMD_YM2610_PORT1, m]

/-- The commands that the conversion loop reads from a file whose bytes from the cursor on are
the four events of the minimal input. -/
theorem readCommands_minimal (r : VGMReader) (f : File) (op reg val fuel : Nat)
    (hf : r.file = some f) (hsize : r.fileSize = f.bytes.length)
    (hlen : f.bytes.length < 2 ^ 32) (hop : isRegisterWrite op = true) (hr : reg < 256)
    (hv : val < 256) (hfuel : 4 ≤ fuel)
    (hb : f.bytes.drop r.currentPos = [0x72, op, reg, val, 0x7F, 0x66]) :
    ∃ r', readCommands fuel r
      = some ([{ VGMCommand.init with cmd := 0x72, waitSamples := 3 },
               { VGMCommand.init with
                 cmd := op, reg := reg, data := val
                 port := if op = 0x53 ∨ op = 0x57 ∨ op = 0x59 then 1 else 0 },
               { VGMCommand.init with cmd := 0x7F, waitSamples := 16 },
               { VGMCommand.init with cmd := 0x66 }], r') := by
  obtain ⟨n, rfl⟩ : ∃ n, fuel = n + 4 := ⟨fuel - 4, by omega⟩
  have hop' := (isRegisterWrite_iff op).mp hop
  have d1 := drop_succ_of_drop _ _ _ _ hb
  have d2 := drop_succ_of_drop _ _ _ _ d1
  have d3 := drop_succ_of_drop _ _ _ _ d2
  have d4 := drop_succ_of_drop _ _ _ _ d3
  have d5 := drop_succ_of_drop _ _ _ _ d4
  have s1 := ReadNextCommand_short r f 0x72 _ hf hsize hlen (by omega) (by omega) hb
  have s2 := ReadNextCommand_register
    { r with file := some { bytes := f.bytes, pos := r.currentPos + 1 }
             currentPos := r.currentPos + 1 }
    { bytes := f.bytes, pos := r.currentPos + 1 } op reg val _ rfl hsize hlen hop hr hv d1
  have s3 := ReadNextCommand_short
    { r with file := some { bytes := f.bytes, pos := r.currentPos + 1 + 3 }
             currentPos := r.currentPos + 1 + 3 }
    { bytes := f.bytes, pos := r.currentPos + 1 + 3 } 0x7F _ rfl hsize hlen (by omega) (by omega)
    (by
      show f.bytes.drop (r.currentPos + 1 + 3) = _
      have e : r.currentPos + 1 + 3 = r.currentPos + 1 + 1 + 1 + 1 := by omega
      rw [e]; exact d4)
  have s4 := ReadNextCommand_end
    { r with file := some { bytes := f.bytes, pos := r.currentPos + 1 + 3 + 1 }
             currentPos := r.currentPos + 1 + 3 + 1 }
    { bytes := f.bytes, pos := r.currentPos + 1 + 3 + 1 } _ rfl hsize hlen
    (by
      show f.bytes.drop (r.currentPos + 1 + 3 + 1) = _
      have e : r.currentPos + 1 + 3 + 1 = r.currentPos + 1 + 1 + 1 + 1 + 1 := by omega
      rw [e]; exact d5)
  refine ⟨{ r with file := some { bytes := f.bytes, pos := r.currentPos + 1 + 3 + 1 + 1 }
                   currentPos := r.currentPos + 1 + 3 + 1 + 1 }, ?_⟩
  rw [readCommands, s1]
  dsimp only
  rw [if_neg (show ¬ (0x72 = VGM_CMD_END) by decide), readCommands, s2]
  dsimp only
  rw [if_neg (show ¬ (op = VGM_CMD_END) by unfold VGM_CMD_END; omega), readCommands, s3]
  dsimp only
  rw [if_neg (show ¬ (0x7F = VGM_CMD_END) by decide), readCommands, s4]
  dsimp only
  rw [if_pos (show 0x66 = VGM_CMD_END by decide)]
  rfl
theorem loopStart_of_no_loop (hdr : VGMHeader) (h : hdr.loopSamples = 0) : loopStart hdr = 0 := by
  unfold loopStart
  rw [h]
  rfl

theorem GetDeviceId_WriteWait (w : S98Writer) (ticks kind : Nat) (f : File)
    (hf : w.file = some f) (hc : w.currentDataPos < 2 ^ 32) :
    GetDeviceId (WriteWait w ticks) kind = GetDeviceId w kind := by
  rw [WriteWait_eq w f ticks hf hc]
  rfl

theorem bodyCalls_wait (hdr : VGMHeader) (st : ConvState) (cmd : VGMCommand)
    (hls : hdr.loopSamples = 0) (hw : cmd.waitSamples > 0)
    (hnr : isRegisterWrite cmd.cmd = false) :
    bodyCalls hdr 0 st cmd = [WriterOp.writeWait cmd.waitSamples] := by
  unfold bodyCalls waitCalls
  rw [if_pos hw, hnr, hls]
  simp

theorem convertBody_wait (hdr : VGMHeader) (st : ConvState) (cmd : VGMCommand)
    (hls : hdr.loopSamples = 0) (hw : cmd.waitSamples > 0)
    (hnr : isRegisterWrite cmd.cmd = false) :
    (convertBody hdr 0 st cmd).writer = WriteWait st.writer cmd.waitSamples := by
  rw [convertBody_calls, bodyCalls_wait hdr st cmd hls hw hnr]
  rfl

theorem bodyCalls_register (hdr : VGMHeader) (lss : Nat) (st : ConvState) (cmd : VGMCommand)
    (hw : cmd.waitSamples = 0) (hop : isRegisterWrite cmd.cmd = true)
    (hk : GetS98DeviceType cmd.cmd ≠ S98_DEV_NONE)
    (hid : GetDeviceId st.writer (GetS98DeviceType cmd.cmd) ≠ 0xFF) :
    bodyCalls hdr lss st cmd
      = [WriterOp.writeRegister
          ((GetDeviceId st.writer (GetS98DeviceType cmd.cmd) + cmd.port) % 256)
          cmd.reg cmd.data] := by
  unfold bodyCalls waitCalls registerCalls
  rw [if_neg (by omega), hop, handleWait_zero hdr lss st cmd hw]
  simp only [↓reduceIte, List.nil_append]
  rw [if_pos hk, if_neg hid]

/-- The calls that the conversion loop makes for the four events of the minimal input when the
chip of the register write has been registered ahead of the events with base ID `id`. -/
theorem loopCalls_minimal (hdr : VGMHeader) (w : S98Writer) (f : File)
    (kind id op reg val port : Nat) (hf : w.file = some f) (hc : w.currentDataPos < 2 ^ 32)
    (hid : GetDeviceId w kind = id) (hne : id ≠ 0xFF)
    (hls : hdr.loopSamples = 0) (hop : isRegisterWrite op = true)
    (hk : GetS98DeviceType op = kind) (hkn : kind ≠ S98_DEV_NONE) :
    loopCalls hdr (loopStart hdr) (ConvState.start w)
        [{ VGMCommand.init with cmd := 0x72, waitSamples := 3 },
         { VGMCommand.init with cmd := op, reg := reg, data := val, port := port },
         { VGMCommand.init with cmd := 0x7F, waitSamples := 16 },
         { VGMCommand.init with cmd := 0x66 }]
      = [WriterOp.writeWait 3, WriterOp.writeRegister ((id + port) % 256) reg val,
         WriterOp.writeWait 16, WriterOp.writeEnd] := by
  have hop' := (isRegisterWrite_iff op).mp hop
  rw [loopStart_of_no_loop hdr hls]
  have hid1 : GetDeviceId (convertBody hdr 0 (ConvState.start w)
      { VGMCommand.init with cmd := 0x72, waitSamples := 3 }).writer kind = id := by
    rw [convertBody_wait hdr _ _ hls (by decide) (by decide)]
    exact (GetDeviceId_WriteWait _ 3 kind _ hf hc).trans hid
  have hb2 : bodyCalls hdr 0 (convertBody hdr 0 (ConvState.start w)
      { VGMCommand.init with cmd := 0x72, waitSamples := 3 })
      { VGMCommand.init with cmd := op, reg := reg, data := val, port := port }
      = [WriterOp.writeRegister ((id + port) % 256) reg val] := by
    have h := bodyCalls_register hdr 0 (convertBody hdr 0 (ConvState.start w)
      { VGMCommand.init with cmd := 0x72, waitSamples := 3 })
      { VGMCommand.init with cmd := op, reg := reg, data := val, port := port }
      rfl hop (by show GetS98DeviceType op ≠ _; rw [hk]; exact hkn)
      (by show GetDeviceId _ (GetS98DeviceType op) ≠ _; rw [hk, hid1]; exact hne)
    rw [h]
    show [WriterOp.writeRegister ((GetDeviceId _ (GetS98DeviceType op) + port) % 256) reg val] = _
    rw [hk, hid1]
  rw [loopCalls, if_neg (show ¬ (0x72 = VGM_CMD_END) by decide),
    bodyCalls_wait hdr (ConvState.start w)
      { VGMCommand.init with cmd := 0x72, waitSamples := 3 } hls (by decide) (by decide),
    loopCalls, if_neg (show ¬ (op = VGM_CMD_END) by unfold VGM_CMD_END; omega), hb2,
    loopCalls, if_neg (show ¬ (0x7F = VGM_CMD_END) by decide),
    bodyCalls_wait hdr _ { VGMCommand.init with cmd := 0x7F, waitSamples := 16 } hls
      (by decide) (by decide),
    loopCalls, if_pos (show 0x66 = VGM_CMD_END by decide)]
  rfl
theorem waitBytes_small (n : Nat) (h1 : 2 ≤ n) (h2 : n < 130) : waitBytes n = [0xFE, n - 2] := by
  unfold waitBytes
  rw [if_neg (by omega), if_neg (by omega), varIntBytes_lt _ (by omega)]

theorem addOnly_output (pre : List WriterOp) (h : ∀ o ∈ pre, o.isAddDevice = true) :
    pre.flatMap WriterOp.output = [] ∧ pre.flatMap WriterOp.eventBytes = [] ∧
    (∀ o ∈ pre, o.isWriteTags = false) ∧ (∀ o ∈ pre, o.isSetLoopPoint = false) := by
  have key : ∀ o : WriterOp, o.isAddDevice = true →
      o.output = [] ∧ o.eventBytes = [] ∧ o.isWriteTags = false ∧ o.isSetLoopPoint = false := by
    intro o ho
    cases o <;> first | exact ⟨rfl, rfl, rfl, rfl⟩ | exact absurd ho (by simp [WriterOp.isAddDevice])
  refine ⟨?_, ?_, fun o ho => (key o (h o ho)).2.2.1, fun o ho => (key o (h o ho)).2.2.2⟩
  · rw [List.flatMap_eq_nil_iff]
    exact fun o ho => (key o (h o ho)).1
  · rw [List.flatMap_eq_nil_iff]
    exact fun o ho => (key o (h o ho)).2.1

/-- The output file for the four events of the minimal input when the devices have been
registered by the calls `pre` ahead of the events, the chip of the register write among them
with base ID `id`, and the conversion writes no tags: the header with the descriptors of the
devices, followed by what the stream holds behind the length of that header. -/
theorem finishOutput_minimal (hdr : VGMHeader) (pre : List WriterOp)
    (kind id op reg val port : Nat)
    (hpre : ∀ o ∈ pre, o.isAddDevice = true)
    (hid : GetDeviceId (runOps (opened S98Writer.init) pre) kind = id) (hne : id ≠ 0xFF)
    (hls : hdr.loopSamples = 0) (hop : isRegisterWrite op = true)
    (hk : GetS98DeviceType op = kind) (hkn : kind ≠ S98_DEV_NONE)
    (hr : reg < 256) (hv : val < 256) :
    finishOutput (convertEvents hdr (loopStart hdr)
        (ConvState.start (runOps (opened S98Writer.init) pre))
        [{ VGMCommand.init with cmd := 0x72, waitSamples := 3 },
         { VGMCommand.init with cmd := op, reg := reg, data := val, port := port },
         { VGMCommand.init with cmd := 0x7F, waitSamples := 16 },
         { VGMCommand.init with cmd := 0x66 }]).writer []
      = some (headerWith 0 48 0 (runOps (opened S98Writer.init) pre).devices
          ++ (headerWith 0 0 0 []
              ++ [0xFE, 0x01, (id + port) % 256, reg, val, 0xFE, 0x0E, 0xFD]).drop
            (headerWith 0 0 0 (runOps (opened S98Writer.init) pre).devices).length) := by
  obtain ⟨po, pe, pt, pl⟩ := addOnly_output pre hpre
  have hf0 := ran_file S98Writer.init pre
  have hc0 : (runOps (opened S98Writer.init) pre).currentDataPos < 2 ^ 32 := by
    rw [ran_currentDataPos]
    exact Nat.mod_lt _ (by decide)
  have hrun : (convertEvents hdr (loopStart hdr)
        (ConvState.start (runOps (opened S98Writer.init) pre))
        [{ VGMCommand.init with cmd := 0x72, waitSamples := 3 },
         { VGMCommand.init with cmd := op, reg := reg, data := val, port := port },
         { VGMCommand.init with cmd := 0x7F, waitSamples := 16 },
         { VGMCommand.init with cmd := 0x66 }]).writer
      = runOps (opened S98Writer.init)
          (pre ++ [WriterOp.writeWait 3, WriterOp.writeRegister ((id + port) % 256) reg val,
            WriterOp.writeWait 16, WriterOp.writeEnd]) := by
    rw [convertEvents_calls,
      loopCalls_minimal hdr _ _ kind id op reg val port hf0 hc0 hid hne hls hop hk hkn,
      runOps_append]
    rfl
  rw [hrun]
  have hcalls : ∀ o ∈ [WriterOp.writeWait 3, WriterOp.writeRegister ((id + port) % 256) reg val,
      WriterOp.writeWait 16, WriterOp.writeEnd],
      o.isWriteTags = false ∧ o.isSetLoopPoint = false := by
    intro o ho
    simp only [List.mem_cons, List.mem_singleton, List.not_mem_nil, or_false] at ho
    rcases ho with rfl | rfl | rfl | rfl <;> exact ⟨rfl, rfl⟩
  have hall : ∀ o ∈ pre ++ [WriterOp.writeWait 3,
      WriterOp.writeRegister ((id + port) % 256) reg val, WriterOp.writeWait 16,
      WriterOp.writeEnd], o.isWriteTags = false ∧ o.isSetLoopPoint = false := by
    intro o ho
    rcases List.mem_append.mp ho with h | h
    · exact ⟨pt o h, pl o h⟩
    · exact hcalls o h
  have hout : List.flatMap
      (pre ++ [WriterOp.writeWait 3, WriterOp.writeRegister ((id + port) % 256) reg val,
        WriterOp.writeWait 16, WriterOp.writeEnd]) WriterOp.output
      = [0xFE, 0x01, (id + port) % 256, reg, val, 0xFE, 0x0E, 0xFD] := by
    rw [List.flatMap_append, po, List.nil_append]
    simp only [List.flatMap_cons, List.flatMap_nil, WriterOp.output, WriterOp.eventBytes,
      waitBytes_small 3 (by decide) (by decide), waitBytes_small 16 (by decide) (by decide),
      Nat.mod_mod, Nat.mod_eq_of_lt hr, Nat.mod_eq_of_lt hv]
    rfl
  have hfile := ran_file S98Writer.init
    (pre ++ [WriterOp.writeWait 3, WriterOp.writeRegister ((id + port) % 256) reg val,
      WriterOp.writeWait 16, WriterOp.writeEnd])
  rw [hout] at hfile
  have hdev : (runOps (opened S98Writer.init)
      (pre ++ [WriterOp.writeWait 3, WriterOp.writeRegister ((id + port) % 256) reg val,
        WriterOp.writeWait 16, WriterOp.writeEnd])).devices
      = (runOps (opened S98Writer.init) pre).devices := by
    rw [runOps_append, (runOps_devices _ _ _ hf0).1]
    rfl
  have htag : (runOps (opened S98Writer.init)
      (pre ++ [WriterOp.writeWait 3, WriterOp.writeRegister ((id + port) % 256) reg val,
        WriterOp.writeWait 16, WriterOp.writeEnd])).tagOffset = 0 := by
    rw [runOps_tagOffset _ _ _ (opened_file S98Writer.init) (fun o ho => (hall o ho).1),
      opened_eq]
  have hloop : loopField (runOps (opened S98Writer.init)
      (pre ++ [WriterOp.writeWait 3, WriterOp.writeRegister ((id + port) % 256) reg val,
        WriterOp.writeWait 16, WriterOp.writeEnd])) = 0 :=
    loopField_of_not_set _ (ran_loop_none _ _ (fun o ho => (hall o ho).2))
  rw [finishOutput_eq _ _ [] hfile, hdev, htag, hloop, ran_dataStartOffset]
  simp only [List.isEmpty_nil, ↓reduceIte]
theorem ReadUint32_field (r : VGMReader) (bytes : List Nat) (q : Nat)
    (hq : q + 4 ≤ bytes.length) :
    ReadUint32 { r with file := some { bytes := bytes, pos := q } }
      = (fieldAt bytes q, { r with file := some { bytes := bytes, pos := q + 4 } }) := by
  unfold ReadUint32
  rw [readLE_eq _ { bytes := bytes, pos := q } 4 rfl]
  simp only [length_take_drop, fieldAt]
  rw [Nat.min_eq_left (by omega)]

theorem Seek_field (r : VGMReader) (bytes : List Nat) (q p : Nat) :
    VGMReader.Seek { r with file := some { bytes := bytes, pos := q } } p
      = { r with file := some { bytes := bytes, pos := p } } := by
  rw [Seek_eq _ { bytes := bytes, pos := q } p rfl]

/-- The header that `ReadHeader` fills in from a file of at least `0x78` bytes whose version
field is below `0x150`: every field is the 32-bit value at its fixed offset. -/
theorem readHeaderFields_eq (r : VGMReader) (bytes : List Nat) (h78 : 0x78 ≤ bytes.length)
    (hver : fieldAt bytes 8 < 0x150) :
    (readHeaderFields { r with file := some { bytes := bytes, pos := 4 } }).1
      = { version := fieldAt bytes 8, eofOffset := fieldAt bytes 4,
          totalSamples := fieldAt bytes 0x18, loopOffset := fieldAt bytes 0x1C,
          loopSamples := fieldAt bytes 0x20,
          dataOffset := if fieldAt bytes 0x34 = 0 then 0x40
            else (fieldAt bytes 0x34 + 0x34) % 2 ^ 32,
          gd3Offset := fieldAt bytes 0x14, sn76489Clock := fieldAt bytes 0x0C,
          ym2413Clock := fieldAt bytes 0x10, ym2612Clock := fieldAt bytes 0x2C,
          ym2151Clock := fieldAt bytes 0x30, ym2203Clock := fieldAt bytes 0x40,
          ym2608Clock := fieldAt bytes 0x44, ym2610Clock := fieldAt bytes 0x48,
          ym3812Clock := fieldAt bytes 0x4C, ym3526Clock := fieldAt bytes 0x50,
          ay8910Clock := fieldAt bytes 0x74, volumeModifier := 0 } ∧
    (readHeaderFields { r with file := some { bytes := bytes, pos := 4 } }).2.file
      = some { bytes := bytes
               pos := if fieldAt bytes 0x34 = 0 then 0x40
                 else (fieldAt bytes 0x34 + 0x34) % 2 ^ 32 } ∧
    (readHeaderFields { r with file := some { bytes := bytes, pos := 4 } }).2.currentPos
      = (if fieldAt bytes 0x34 = 0 then 0x40 else (fieldAt bytes 0x34 + 0x34) % 2 ^ 32) ∧
    (readHeaderFields { r with file := some { bytes := bytes, pos := 4 } }).2.fileSize
      = r.fileSize := by
  have hv : ¬ (fieldAt bytes 8 ≥ 0x150 ∧ r.fileSize > 0x7C) := by omega
  unfold readHeaderFields
  simp (disch := omega) only [ReadUint32_field, Seek_field]
  rw [if_neg hv]
  simp (disch := omega) only [Seek_field]
  rw [Seek_eq _ { bytes := bytes, pos := 116 + 4 } _ rfl]
  exact ⟨trivial, rfl, trivial, rfl⟩
theorem ReadHeader_fields (bytes : List Nat) (hdr0 : VGMHeader) (h78 : 0x78 ≤ bytes.length)
    (h32 : bytes.length < 2 ^ 32) (hmagic : bytes.take 4 = [0x56, 0x67, 0x6D, 0x20])
    (hver : fieldAt bytes 8 < 0x150) :
    (ReadHeader (VGMReader.Open (some bytes)).2 hdr0).1 = true ∧
    (ReadHeader (VGMReader.Open (some bytes)).2 hdr0).2.1
      = { version := fieldAt bytes 8, eofOffset := fieldAt bytes 4,
          totalSamples := fieldAt bytes 0x18, loopOffset := fieldAt bytes 0x1C,
          loopSamples := fieldAt bytes 0x20,
          dataOffset := if fieldAt bytes 0x34 = 0 then 0x40
            else (fieldAt bytes 0x34 + 0x34) % 2 ^ 32,
          gd3Offset := fieldAt bytes 0x14, sn76489Clock := fieldAt bytes 0x0C,
          ym2413Clock := fieldAt bytes 0x10, ym2612Clock := fieldAt bytes 0x2C,
          ym2151Clock := fieldAt bytes 0x30, ym2203Clock := fieldAt bytes 0x40,
          ym2608Clock := fieldAt bytes 0x44, ym2610Clock := fieldAt bytes 0x48,
          ym3812Clock := fieldAt bytes 0x4C, ym3526Clock := fieldAt bytes 0x50,
          ay8910Clock := fieldAt bytes 0x74, volumeModifier := 0 } ∧
    (ReadHeader (VGMReader.Open (some bytes)).2 hdr0).2.2.file
      = some { bytes := bytes
               pos := if fieldAt bytes 0x34 = 0 then 0x40
                 else (fieldAt bytes 0x34 + 0x34) % 2 ^ 32 } ∧
    (ReadHeader (VGMReader.Open (some bytes)).2 hdr0).2.2.currentPos
      = (if fieldAt bytes 0x34 = 0 then 0x40 else (fieldAt bytes 0x34 + 0x34) % 2 ^ 32) ∧
    (ReadHeader (VGMReader.Open (some bytes)).2 hdr0).2.2.fileSize = bytes.length := by
  have hm : (File.fread (File.fseek { bytes := bytes, pos := 0 } 0) 4)
      = ([0x56, 0x67, 0x6D, 0x20], { bytes := bytes, pos := 4 }) := by
    simp only [File.fread, File.fseek, List.drop_zero, hmagic]
    rfl
  have hfs : (VGMReader.Open (some bytes)).2.fileSize = bytes.length := by
    show bytes.length % 2 ^ 32 = bytes.length
    exact Nat.mod_eq_of_lt h32
  have hR : ReadHeader (VGMReader.Open (some bytes)).2 hdr0
      = (true, (readHeaderFields
          { (VGMReader.Open (some bytes)).2 with file := some { bytes := bytes, pos := 4 } }).1,
        (readHeaderFields
          { (VGMReader.Open (some bytes)).2 with file := some { bytes := bytes, pos := 4 } }).2) := by
    have hopen : (VGMReader.Open (some bytes)).2.file = some { bytes := bytes, pos := 0 } := rfl
    unfold ReadHeader
    rw [hopen]
    dsimp only
    rw [hm]
    dsimp only
    rw [if_neg (by simp)]
  obtain ⟨a, b, c, d⟩ := readHeaderFields_eq (VGMReader.Open (some bytes)).2 bytes h78 hver
  rw [hR]
  exact ⟨rfl, a, b, c, d.trans hfs⟩
theorem preRegister_single (hdr : VGMHeader) (kind clock : Nat) (hc : 0 < clock)
    (hkind : kind ∈ [S98_DEV_OPNA, S98_DEV_OPN2, S98_DEV_OPN, S98_DEV_OPM, S98_DEV_OPLL,
      S98_DEV_OPL, S98_DEV_OPL2, S98_DEV_AY8910, S98_DEV_SN76489])
    (c1 : hdr.ym2608Clock = if S98_DEV_OPNA = kind then clock else 0)
    (c2 : hdr.ym2612Clock = if S98_DEV_OPN2 = kind then clock else 0)
    (c3 : hdr.ym2203Clock = if S98_DEV_OPN = kind then clock else 0)
    (c4 : hdr.ym2151Clock = if S98_DEV_OPM = kind then clock else 0)
    (c5 : hdr.ym2413Clock = if S98_DEV_OPLL = kind then clock else 0)
    (c6 : hdr.ym3812Clock = if S98_DEV_OPL = kind then clock else 0)
    (c7 : hdr.ym3526Clock = if S98_DEV_OPL2 = kind then clock else 0)
    (c8 : hdr.ay8910Clock = if S98_DEV_AY8910 = kind then clock else 0)
    (c9 : hdr.sn76489Clock = if S98_DEV_SN76489 = kind then clock else 0) (w : S98Writer) :
    preRegister w hdr = AddDevice w kind clock 0 := by
  unfold preRegister
  rw [c1, c2, c3, c4, c5, c6, c7, c8, c9]
  simp only [List.mem_cons, List.mem_singleton, List.not_mem_nil, or_false] at hkind
  rcases hkind with rfl | rfl | rfl | rfl | rfl | rfl | rfl | rfl | rfl <;>
    simp [addIfClock, hc, S98_DEV_OPNA, S98_DEV_OPN2, S98_DEV_OPN, S98_DEV_OPM, S98_DEV_OPLL,
      S98_DEV_OPL, S98_DEV_OPL2, S98_DEV_AY8910, S98_DEV_SN76489]
/-- The conversion of a file whose header names no loop and no volume modifier, which has no
metadata, whose devices are registered ahead of the events by the calls `pre`, and whose data
are the four events of the minimal input. -/
theorem minimal_conversion_general (bytes : List Nat) (pre : List WriterOp)
    (kind id op reg val fuel p : Nat)
    (hok : (ReadHeader (VGMReader.Open (some bytes)).2 VGMHeader.init).1 = true)
    (hfile : (ReadHeader (VGMReader.Open (some bytes)).2 VGMHeader.init).2.2.file
      = some { bytes := bytes, pos := p })
    (hcur : (ReadHeader (VGMReader.Open (some bytes)).2 VGMHeader.init).2.2.currentPos = p)
    (hsize : (ReadHeader (VGMReader.Open (some bytes)).2 VGMHeader.init).2.2.fileSize
      = bytes.length)
    (h32 : bytes.length < 2 ^ 32)
    (hlsH : (ReadHeader (VGMReader.Open (some bytes)).2 VGMHeader.init).2.1.loopSamples = 0)
    (hvol : (ReadHeader (VGMReader.Open (some bytes)).2 VGMHeader.init).2.1.volumeModifier = 0)
    (hpre : preRegister (Open S98Writer.init true).2
      (ReadHeader (VGMReader.Open (some bytes)).2 VGMHeader.init).2.1
      = runOps (opened S98Writer.init) pre)
    (hadd : ∀ o ∈ pre, o.isAddDevice = true)
    (hid : GetDeviceId (runOps (opened S98Writer.init) pre) kind = id) (hne : id ≠ 0xFF)
    (hdrop : bytes.drop p = [0x72, op, reg, val, 0x7F, 0x66])
    (hgd3 : ExtractGD3Tags (some bytes) [] = (false, []))
    (hop : isRegisterWrite op = true) (hk : GetS98DeviceType op = kind)
    (hkn : kind ≠ S98_DEV_NONE) (hr : reg < 256) (hv : val < 256) (hfuel : 4 ≤ fuel) :
    convert fuel (some bytes) true
      = some (0, some (headerWith 0 48 0 (runOps (opened S98Writer.init) pre).devices
          ++ (headerWith 0 0 0 []
              ++ [0xFE, 0x01, (id + if op = 0x53 ∨ op = 0x57 ∨ op = 0x59 then 1 else 0) % 256,
                  reg, val, 0xFE, 0x0E, 0xFD]).drop
            (headerWith 0 0 0 (runOps (opened S98Writer.init) pre).devices).length)) := by
  obtain ⟨r', hread⟩ := readCommands_minimal
    (ReadHeader (VGMReader.Open (some bytes)).2 VGMHeader.init).2.2
    { bytes := bytes, pos := p } op reg val fuel hfile hsize h32 hop hr hv hfuel
    (by rw [hcur]; exact hdrop)
  have htags : assembleTags (some bytes)
      (ReadHeader (VGMReader.Open (some bytes)).2 VGMHeader.init).2.1 = [] := by
    unfold assembleTags
    rw [hgd3, hvol]
    rfl
  have hfin := finishOutput_minimal
    (ReadHeader (VGMReader.Open (some bytes)).2 VGMHeader.init).2.1
    pre kind id op reg val (if op = 0x53 ∨ op = 0x57 ∨ op = 0x59 then 1 else 0)
    hadd hid hne hlsH hop hk hkn hr hv
  unfold convert
  dsimp only
  rw [if_neg (by simp [VGMReader.Open]), if_neg (by rw [hok]; simp), if_neg (by decide), hpre,
    convertLoop_eq, hread]
  dsimp only [Option.map_some']
  rw [htags]
  exact congrArg (fun o => some (0, o)) hfin

/-- The conversion of a file with a header of at least `0x78` bytes that names one chip, has
no loop, no metadata and no volume modifier, and whose data are the four events of the minimal
input. -/
theorem minimal_conversion_core (bytes : List Nat) (kind clock op reg val fuel : Nat)
    (h78 : 0x78 ≤ bytes.length) (h32 : bytes.length < 2 ^ 32)
    (hmagic : bytes.take 4 = [0x56, 0x67, 0x6D, 0x20]) (hver : fieldAt bytes 8 = 0)
    (hdata : fieldAt bytes 0x34 = 0x4C) (hls : fieldAt bytes 0x20 = 0)
    (hdrop : bytes.drop 0x80 = [0x72, op, reg, val, 0x7F, 0x66])
    (hgd3 : ExtractGD3Tags (some bytes) [] = (false, []))
    (hc : 0 < clock)
    (hkind : kind ∈ [S98_DEV_OPNA, S98_DEV_OPN2, S98_DEV_OPN, S98_DEV_OPM, S98_DEV_OPLL,
      S98_DEV_OPL, S98_DEV_OPL2, S98_DEV_AY8910, S98_DEV_SN76489])
    (c1 : fieldAt bytes 0x44 = if S98_DEV_OPNA = kind then clock else 0)
    (c2 : fieldAt bytes 0x2C = if S98_DEV_OPN2 = kind then clock else 0)
    (c3 : fieldAt bytes 0x40 = if S98_DEV_OPN = kind then clock else 0)
    (c4 : fieldAt bytes 0x30 = if S98_DEV_OPM = kind then clock else 0)
    (c5 : fieldAt bytes 0x10 = if S98_DEV_OPLL = kind then clock else 0)
    (c6 : fieldAt bytes 0x4C = if S98_DEV_OPL = kind then clock else 0)
    (c7 : fieldAt bytes 0x50 = if S98_DEV_OPL2 = kind then clock else 0)
    (c8 : fieldAt bytes 0x74 = if S98_DEV_AY8910 = kind then clock else 0)
    (c9 : fieldAt bytes 0x0C = if S98_DEV_SN76489 = kind then clock else 0)
    (hop : isRegisterWrite op = true) (hk : GetS98DeviceType op = kind)
    (hr : reg < 256) (hv : val < 256) (hfuel : 4 ≤ fuel) :
    convert fuel (some bytes) true
      = some (0, some (headerWith 0 48 0 [{ type := kind, clock := clock, pan := 0, deviceId := 0 }]
          ++ [0xFE, 0x01, if op = 0x53 ∨ op = 0x57 ∨ op = 0x59 then 1 else 0, reg, val,
              0xFE, 0x0E, 0xFD])) := by
  obtain ⟨hok, hhdr, hfile, hcur, hsize⟩ :=
    ReadHeader_fields bytes VGMHeader.init h78 h32 hmagic (by rw [hver]; decide)
  have hD : (if fieldAt bytes 0x34 = 0 then 0x40 else (fieldAt bytes 0x34 + 0x34) % 2 ^ 32)
      = 0x80 := by
    rw [hdata]
    rfl
  rw [hD] at hfile hcur
  have hkn : kind ≠ S98_DEV_NONE := by
    simp only [List.mem_cons, List.mem_singleton, List.not_mem_nil, or_false] at hkind
    rcases hkind with rfl | rfl | rfl | rfl | rfl | rfl | rfl | rfl | rfl <;> decide
  have hlsH : (ReadHeader (VGMReader.Open (some bytes)).2 VGMHeader.init).2.1.loopSamples = 0 := by
    rw [hhdr]
    exact hls
  have hvol : (ReadHeader (VGMReader.Open (some bytes)).2 VGMHeader.init).2.1.volumeModifier
      = 0 := by
    rw [hhdr]
  have hpre : preRegister (Open S98Writer.init true).2
      (ReadHeader (VGMReader.Open (some bytes)).2 VGMHeader.init).2.1
      = runOps (opened S98Writer.init) [WriterOp.addDevice kind clock 0] := by
    rw [hhdr]
    exact preRegister_single _ kind clock hc hkind c1 c2 c3 c4 c5 c6 c7 c8 c9 _
  have hadd : runOps (opened S98Writer.init) [WriterOp.addDevice kind clock 0]
      = { opened S98Writer.init with
          devices := [{ type := kind, clock := clock, pan := 0, deviceId := 0 }]
          deviceIdMap := [(kind, 0)]
          nextDeviceId := 2 } := by
    show AddDevice (opened S98Writer.init) kind clock 0 = _
    rw [opened_eq]
    rfl
  have hid : GetDeviceId (runOps (opened S98Writer.init) [WriterOp.addDevice kind clock 0]) kind
      = 0 := by
    rw [hadd]
    simp [GetDeviceId, mapFind]
  have hdev : (runOps (opened S98Writer.init) [WriterOp.addDevice kind clock 0]).devices
      = [{ type := kind, clock := clock, pan := 0, deviceId := 0 }] := by
    rw [hadd]
  have hgen := minimal_conversion_general bytes [WriterOp.addDevice kind clock 0] kind 0 op reg val
    fuel 0x80 hok hfile hcur hsize h32 hlsH hvol hpre
    (by intro o ho; rw [List.mem_singleton] at ho; rw [ho]; rfl)
    hid (by decide) hdrop hgd3 hop hk hkn hr hv hfuel
  rw [hdev] at hgen
  have hl : (headerWith 0 0 0 [{ type := kind, clock := clock, pan := 0, deviceId := 0 }]).length
      = 48 := by
    rw [headerWith_length]
    rfl
  have hl0 : (headerWith 0 0 0 []).length = 48 := by
    rw [headerWith_length]
    rfl
  have e1 : (0 + (if op = 0x53 ∨ op = 0x57 ∨ op = 0x59 then 1 else 0)) % 256
      = (if op = 0x53 ∨ op = 0x57 ∨ op = 0x59 then 1 else 0) := by
    split <;> rfl
  rw [hl, show (48 : Nat) = 48 + 0 from rfl, drop_prefix_length _ _ 48 0 hl0, List.drop_zero,
    e1] at hgen
  exact hgen
set_option maxHeartbeats 2000000

set_option maxHeartbeats 200000
theorem eventBytes_length (op : WriterOp) : op.eventBytes.length = specEventLength op := by
  cases op with
  | writeWait ticks =>
    simp only [WriterOp.eventBytes, specEventLength, waitBytes]
    split
    · rfl
    · split
      · rfl
      · rw [List.length_cons, Nat.add_comm]
  | _ => rfl

theorem flatMap_eventBytes_length (ops : List WriterOp) :
    (ops.flatMap WriterOp.eventBytes).length = specDataLength ops := by
  induction ops with
  | nil => rfl
  | cons op ops ih =>
    rw [List.flatMap_cons, List.length_append, ih, eventBytes_length]
    simp [specDataLength]

theorem flatMap_output_eq (ops : List WriterOp) (h : ∀ op ∈ ops, op.isWriteTags = false) :
    ops.flatMap WriterOp.output = ops.flatMap WriterOp.eventBytes := by
  induction ops with
  | nil => rfl
  | cons op ops ih =>
    rw [List.flatMap_cons, List.flatMap_cons, ih (fun x hx => h x (List.mem_cons_of_mem _ hx))]
    have h1 := h op (List.mem_cons_self _ _)
    cases op with
    | writeTags tags => simp [WriterOp.isWriteTags] at h1
    | _ => rfl

theorem specDataLength_replicate (n : Nat) (op : WriterOp) :
    specDataLength (List.replicate n op) = n * specEventLength op := by
  induction n with
  | zero => simp [specDataLength]
  | succ n ih =>
    have h : specDataLength (op :: List.replicate n op)
        = specEventLength op + specDataLength (List.replicate n op) := by
      simp [specDataLength]
    rw [List.replicate_succ, h, ih, Nat.succ_mul, Nat.add_comm]

/-- Claim C27, as amended: on an open writer, after every sequence of `WriteWait`,
`WriteRegister`, `WriteEnd`, `SetLoopPoint` and `AddDevice` calls, the data section (the bytes
of the stream from `dataStartOffset` = 48 on) is the concatenation of the event encodings of
the calls, its length is the byte count of the property (0 for a wait of 0, 1 for a wait of 1,
1 plus the length of the variable-length integer for a longer wait, 3 per register record, 1
for the end marker), and the 32-bit counter `currentDataPos` equals that count modulo `2 ^ 32`,
hence the count itself as long as fewer than `2 ^ 32` bytes have been emitted. The offset that
the first `SetLoopPoint` records is the byte count of the calls before it modulo `2 ^ 32`; below
`2 ^ 32` it splits the data section into the complete encodings of the calls before it and the
complete encodings of the calls behind it. -/
theorem currentDataPos_counts_bytes (w0 : S98Writer) (ops : List WriterOp)
    (h : ∀ op ∈ ops, op.isWriteTags = false) :
    (runOps (opened w0) ops).file
      = some { bytes := headerWith 0 0 0 [] ++ ops.flatMap WriterOp.eventBytes
               pos := 48 + (ops.flatMap WriterOp.eventBytes).length } ∧
    (runOps (opened w0) ops).dataStartOffset = 48 ∧
    (headerWith 0 0 0 [] ++ ops.flatMap WriterOp.eventBytes).drop 48
      = ops.flatMap WriterOp.eventBytes ∧
    (ops.flatMap WriterOp.eventBytes).length = specDataLength ops ∧
    (runOps (opened w0) ops).currentDataPos = specDataLength ops % 2 ^ 32 ∧
    (specDataLength ops < 2 ^ 32 →
      (runOps (opened w0) ops).currentDataPos = specDataLength ops) ∧
    ((∀ op ∈ ops, op.isSetLoopPoint = false) → (runOps (opened w0) ops).loopSet = false) ∧
    (∀ pre post, ops = pre ++ WriterOp.setLoopPoint :: post →
      (∀ op ∈ pre, op.isSetLoopPoint = false) →
      (runOps (opened w0) ops).loopSet = true ∧
      (runOps (opened w0) ops).loopOffset = specDataLength pre % 2 ^ 32 ∧
      ops.flatMap WriterOp.eventBytes
        = pre.flatMap WriterOp.eventBytes ++ post.flatMap WriterOp.eventBytes ∧
      (specDataLength pre < 2 ^ 32 →
        (ops.flatMap WriterOp.eventBytes).take (runOps (opened w0) ops).loopOffset
          = pre.flatMap WriterOp.eventBytes ∧
        (ops.flatMap WriterOp.eventBytes).drop (runOps (opened w0) ops).loopOffset
          = post.flatMap WriterOp.eventBytes)) := by
  have hpos : (runOps (opened w0) ops).currentDataPos = specDataLength ops % 2 ^ 32 := by
    rw [ran_currentDataPos, flatMap_eventBytes_length]
  refine ⟨?_, ran_dataStartOffset w0 ops, ?_, flatMap_eventBytes_length ops, hpos, ?_,
    ran_loop_none w0 ops, ?_⟩
  · rw [ran_file, flatMap_output_eq ops h]
  · exact List.drop_left' (by rw [headerWith_length]; rfl)
  · intro hlt
    rw [hpos, Nat.mod_eq_of_lt hlt]
  · intro pre post hops hpre
    have hsplit : ops.flatMap WriterOp.eventBytes
        = pre.flatMap WriterOp.eventBytes ++ post.flatMap WriterOp.eventBytes := by
      rw [hops, List.flatMap_append, List.flatMap_cons]
      rfl
    obtain ⟨e1, e2⟩ := ran_loop_first w0 pre post hpre
    rw [hops, e2, ← hops, flatMap_eventBytes_length]
    rw [hops]
    refine ⟨e1, rfl, ?_, ?_⟩
    · rw [← hops]
      exact hsplit
    · intro hlt
      rw [← hops, hsplit, Nat.mod_eq_of_lt hlt, ← flatMap_eventBytes_length pre]
      exact ⟨List.take_left _ _, List.drop_left _ _⟩

/-- Witness for C27: a wait of 3, a register record, the loop point, a wait of 200, the end
marker. -/
theorem currentDataPos_counts_bytes_witness :
    (∀ op ∈ [WriterOp.addDevice S98_DEV_OPNA 7987200 0, WriterOp.writeWait 3,
        WriterOp.writeRegister 0 0x12 0x34, WriterOp.setLoopPoint, WriterOp.writeWait 200,
        WriterOp.writeEnd], op.isWriteTags = false) ∧
    (runOps (opened S98Writer.init) [WriterOp.addDevice S98_DEV_OPNA 7987200 0,
        WriterOp.writeWait 3, WriterOp.writeRegister 0 0x12 0x34, WriterOp.setLoopPoint,
        WriterOp.writeWait 200, WriterOp.writeEnd]).currentDataPos
      = specDataLength [WriterOp.addDevice S98_DEV_OPNA 7987200 0, WriterOp.writeWait 3,
        WriterOp.writeRegister 0 0x12 0x34, WriterOp.setLoopPoint, WriterOp.writeWait 200,
        WriterOp.writeEnd] % 2 ^ 32 :=
  ⟨by decide,
   (currentDataPos_counts_bytes S98Writer.init [WriterOp.addDevice S98_DEV_OPNA 7987200 0,
      WriterOp.writeWait 3, WriterOp.writeRegister 0 0x12 0x34, WriterOp.setLoopPoint,
      WriterOp.writeWait 200, WriterOp.writeEnd] (by decide)).2.2.2.2.1⟩

/-- Counterexample to C27 as stated: after 1431655766 register records the data section holds
4294967298 bytes and the 32-bit counter stands at 2; a loop point set then records the offset
2. -/
theorem currentDataPos_counts_bytes_counterexample :
    specDataLength (List.replicate 1431655766 (WriterOp.writeRegister 0 0 0)) = 4294967298 ∧
    ((List.replicate 1431655766 (WriterOp.writeRegister 0 0 0)).flatMap
      WriterOp.eventBytes).length = 4294967298 ∧
    (runOps (opened S98Writer.init)
      (List.replicate 1431655766 (WriterOp.writeRegister 0 0 0))).currentDataPos = 2 ∧
    (runOps (opened S98Writer.init)
      (List.replicate 1431655766 (WriterOp.writeRegister 0 0 0)
        ++ WriterOp.setLoopPoint :: [])).loopOffset = 2 := by
  have hlen : specDataLength (List.replicate 1431655766 (WriterOp.writeRegister 0 0 0))
      = 4294967298 := by
    rw [specDataLength_replicate]
    rfl
  have hno : ∀ op ∈ List.replicate 1431655766 (WriterOp.writeRegister 0 0 0),
      op.isSetLoopPoint = false := by
    intro op hop
    rw [(List.mem_replicate.1 hop).2]
    rfl
  refine ⟨hlen, ?_, ?_, ?_⟩
  · rw [flatMap_eventBytes_length, hlen]
  · rw [ran_currentDataPos, flatMap_eventBytes_length, hlen]
    norm_num
  · rw [(ran_loop_first S98Writer.init _ [] hno).2, flatMap_eventBytes_length, hlen]
    norm_num

theorem readCommands_produced : ∀ (fuel : Nat) (r r' : VGMReader) (cmds : List VGMCommand),
    readCommands fuel r = some (cmds, r') → ∀ c ∈ cmds, ReaderProduced c := by
  intro fuel
  induction fuel with
  | zero =>
    intro r r' cmds h
    simp [readCommands] at h
  | succ n ih =>
    intro r r' cmds h
    rw [readCommands] at h
    rcases hx : ReadNextCommand r with ⟨o, r1⟩
    rw [hx] at h
    cases o with
    | none =>
      simp only [Option.some.injEq, Prod.mk.injEq] at h
      rw [← h.1]
      intro c hc
      simp at hc
    | some cmd =>
      simp only at h
      have hp : ReaderProduced cmd := ⟨r, r1, hx⟩
      by_cases hend : cmd.cmd = VGM_CMD_END
      · rw [if_pos hend] at h
        simp only [Option.some.injEq, Prod.mk.injEq] at h
        rw [← h.1]
        intro c hc
        rw [List.mem_singleton] at hc
        rw [hc]
        exact hp
      · rw [if_neg hend] at h
        rcases hy : readCommands n r1 with _ | ⟨cs, r2⟩
        · rw [hy] at h
          simp at h
        · rw [hy] at h
          simp only [Option.map_some', Option.some.injEq, Prod.mk.injEq] at h
          rw [← h.1]
          intro c hc
          rcases List.mem_cons.1 hc with rfl | hc
          · exact hp
          · exact ih r1 r2 cs hy c hc

theorem sourceWaitSum_nil : sourceWaitSum [] = 0 := rfl

theorem sourceWaitSum_end (c : VGMCommand) (cs : List VGMCommand) (h : c.cmd = VGM_CMD_END) :
    sourceWaitSum (c :: cs) = 0 := by
  simp [sourceWaitSum, beforeEnd, h]

theorem sourceWaitSum_cons (c : VGMCommand) (cs : List VGMCommand) (h : c.cmd ≠ VGM_CMD_END)
    (hs : isWaitOpcode c.cmd = false → c.waitSamples = 0) :
    sourceWaitSum (c :: cs) = c.waitSamples + sourceWaitSum cs := by
  unfold sourceWaitSum
  rw [beforeEnd, if_neg h]
  by_cases hw : isWaitOpcode c.cmd = true
  · rw [List.filter_cons_of_pos (by simpa using hw), List.map_cons, List.sum_cons]
  · rw [List.filter_cons_of_neg (by simpa using hw), hs (by simpa using hw), Nat.zero_add]

/-- The running sample counter behind the loop is the sum of the waits in front of the first
end marker, as a 32-bit value. -/
theorem convertEvents_totalSamples (h : VGMHeader) (lss : Nat) (cmds : List VGMCommand) :
    ∀ st : ConvState, st.totalSamples < 2 ^ 32 → (∀ c ∈ cmds, CommandShape c) →
      (convertEvents h lss st cmds).totalSamples
        = (st.totalSamples + sourceWaitSum cmds) % 2 ^ 32 := by
  induction cmds with
  | nil =>
    intro st hs _
    rw [sourceWaitSum_nil, Nat.add_zero, Nat.mod_eq_of_lt hs]
    rfl
  | cons c cs ih =>
    intro st hs hc
    by_cases hend : c.cmd = VGM_CMD_END
    · rw [convertEvents, if_pos hend, sourceWaitSum_end c cs hend, Nat.add_zero,
        Nat.mod_eq_of_lt hs]
    · have ht : (convertBody h lss st c).totalSamples
          = (st.totalSamples + c.waitSamples) % 2 ^ 32 := by
        rw [(convertBody_flags h lss st c).2, handleWait_total h lss st c hs]
      rw [convertEvents, if_neg hend,
        ih _ (by rw [ht]; exact Nat.mod_lt _ (by decide))
          (fun x hx => hc x (List.mem_cons_of_mem _ hx)),
        ht, sourceWaitSum_cons c cs hend (hc c (List.mem_cons_self _ _)).2.2.2,
        Nat.mod_add_mod, Nat.add_assoc]

theorem specDecodeWait_append (t : Nat) (rest : List Nat) (h : 0 < t) :
    specDecodeWait (waitBytes t ++ rest) = some (t, (waitBytes t).length) := by
  unfold waitBytes
  rw [if_neg (by omega)]
  by_cases h1 : t = 1
  · rw [if_pos h1, h1]
    rfl
  · rw [if_neg h1, List.cons_append, specDecodeWait, if_neg (by decide), if_pos rfl]
    unfold specDecodeVarInt
    rw [specDecodeVarIntFrom_varIntBytes]
    simp only [Nat.mul_zero, Nat.pow_zero, Nat.mul_one, Nat.zero_add, List.length_cons]
    congr 2
    omega

theorem waitBytes_head (t : Nat) (h : 0 < t) :
    ∃ b bs, waitBytes t = b :: bs ∧ (b = 0xFF ∨ b = 0xFE) := by
  unfold waitBytes
  rw [if_neg (by omega)]
  by_cases h1 : t = 1
  · rw [if_pos h1]
    exact ⟨_, _, rfl, Or.inl rfl⟩
  · rw [if_neg h1]
    exact ⟨_, _, rfl, Or.inr rfl⟩

/-- The decoder on a wait followed by further data. -/
theorem specWaitSumFrom_wait (fuel t : Nat) (rest : List Nat) (h : 0 < t) :
    specWaitSumFrom (fuel + 1) (waitBytes t ++ rest)
      = (specWaitSumFrom fuel rest).map (fun s => t + s) := by
  obtain ⟨b, bs, hb, hbb⟩ := waitBytes_head t h
  have hd := specDecodeWait_append t rest h
  have hdrop : (waitBytes t ++ rest).drop (waitBytes t).length = rest := List.drop_left _ _
  rw [hb] at hd hdrop
  rw [hb, List.cons_append] at *
  rw [specWaitSumFrom, if_neg (by rcases hbb with e | e <;> rw [e] <;> decide), if_pos hbb, hd]
  simp only
  rw [hdrop]

/-- The decoder on a register record followed by further data. -/
theorem specWaitSumFrom_register (fuel d r v : Nat) (rest : List Nat) (h : d < 0xFD) :
    specWaitSumFrom (fuel + 1) ([d, r, v] ++ rest) = specWaitSumFrom fuel rest := by
  rw [List.cons_append, specWaitSumFrom, if_neg (by omega), if_neg (by omega),
    if_neg (by simp)]
  rfl

theorem indexOf_lt_of_mem (kinds : List Nat) (k : Nat) (h : k ∈ kinds) :
    kinds.indexOf k < kinds.length :=
  List.indexOf_lt_length.2 h

/-- The wait durations decoded from the translation of the events sum to the waits of the
events in front of the first end marker. -/
theorem specWaitSumFrom_translate (cmds : List VGMCommand) :
    ∀ (kinds : List Nat) (fuel : Nat), (∀ c ∈ cmds, CommandShape c) →
      kinds.length + (if S98_DEV_OPNA ∈ kinds then 0 else 1) ≤ 126 →
      (specTranslate kinds cmds).length < fuel →
      specWaitSumFrom fuel (specTranslate kinds cmds) = some (sourceWaitSum cmds) := by
  induction cmds with
  | nil =>
    intro kinds fuel _ _ hf
    obtain ⟨n, rfl⟩ : ∃ n, fuel = n + 1 := ⟨fuel - 1, by omega⟩
    rfl
  | cons c cs ih =>
    intro kinds fuel hc hk hf
    obtain ⟨n, rfl⟩ : ∃ n, fuel = n + 1 := ⟨fuel - 1, by omega⟩
    have hcs : ∀ x ∈ cs, CommandShape x := fun x hx => hc x (List.mem_cons_of_mem _ hx)
    obtain ⟨hreg, hdat, hport, hw⟩ := hc c (List.mem_cons_self _ _)
    rw [specTranslate] at hf ⊢
    by_cases hend : c.cmd = VGM_CMD_END
    · rw [if_pos hend, sourceWaitSum_end c cs hend]
      rfl
    rw [if_neg hend] at hf ⊢
    rw [sourceWaitSum_cons c cs hend hw]
    by_cases hwait : isWaitOpcode c.cmd = true
    · rw [if_pos hwait] at hf ⊢
      by_cases h0 : c.waitSamples = 0
      · have e : waitBytes c.waitSamples = [] := by rw [h0]; rfl
        rw [e, List.nil_append] at hf ⊢
        rw [ih kinds (n + 1) hcs hk hf, h0, Nat.zero_add]
      · have hpos : 0 < c.waitSamples := Nat.pos_of_ne_zero h0
        obtain ⟨b, bs, hb, _⟩ := waitBytes_head c.waitSamples hpos
        have hl : (specTranslate kinds cs).length < n := by
          rw [hb] at hf
          simp only [List.cons_append, List.length_cons, List.length_append] at hf
          omega
        rw [specWaitSumFrom_wait n c.waitSamples _ hpos, ih kinds n hcs hk hl]
        rfl
    · have hw0 : c.waitSamples = 0 := hw (by simpa using hwait)
      rw [if_neg hwait] at hf ⊢
      rw [hw0, Nat.zero_add]
      by_cases hr : isRegisterWrite c.cmd = true
      · rw [if_pos hr] at hf ⊢
        by_cases hnone : GetS98DeviceType c.cmd = S98_DEV_NONE
        · rw [if_pos hnone] at hf ⊢
          exact ih kinds (n + 1) hcs hk hf
        rw [if_neg hnone] at hf ⊢
        by_cases hmem : GetS98DeviceType c.cmd ∈ kinds
        · rw [if_pos hmem] at hf ⊢
          have hi := indexOf_lt_of_mem kinds _ hmem
          have hl : (specTranslate kinds cs).length < n := by
            simp only [List.cons_append, List.length_cons, List.length_append,
              List.nil_append] at hf
            omega
          rw [specWaitSumFrom_register n _ _ _ _ (by unfold specBaseId; omega)]
          exact ih kinds n hcs hk hl
        rw [if_neg hmem] at hf ⊢
        by_cases hopna : GetS98DeviceType c.cmd = S98_DEV_OPNA
        · rw [if_pos hopna] at hf ⊢
          have hno : S98_DEV_OPNA ∉ kinds := by rw [← hopna]; exact hmem
          rw [if_neg hno] at hk
          have hi := indexOf_lt_of_mem (kinds ++ [S98_DEV_OPNA]) S98_DEV_OPNA (by simp)
          rw [List.length_append, List.length_singleton] at hi
          have hl : (specTranslate (kinds ++ [S98_DEV_OPNA]) cs).length < n := by
            simp only [List.cons_append, List.length_cons, List.length_append,
              List.nil_append] at hf
            omega
          rw [specWaitSumFrom_register n _ _ _ _ (by unfold specBaseId; omega)]
          exact ih _ n hcs (by
            rw [if_pos (by simp), List.length_append, List.length_singleton]
            omega) hl
        · rw [if_neg hopna] at hf ⊢
          exact ih kinds (n + 1) hcs hk hf
      · rw [if_neg hr] at hf ⊢
        exact ih kinds (n + 1) hcs hk hf

theorem specInitialKinds_length (hdr : VGMHeader) : (specInitialKinds hdr).length ≤ 9 := by
  unfold specInitialKinds
  rw [List.length_map]
  exact (List.length_filter_le _ _).trans (by rfl)

/-! ## The output file of `main` -/

theorem stream_with_tags (data : List Nat) (tags : List (List Nat × List Nat)) :
    (if tags.isEmpty then (File.mk (headerWith 0 0 0 [] ++ data) (48 + data.length)).bytes
      else (File.fwrite (File.mk (headerWith 0 0 0 [] ++ data) (48 + data.length))
        (tagBlock tags)).bytes)
      = headerWith 0 0 0 [] ++ data ++ tagPart tags := by
  unfold tagPart
  split
  · rw [List.append_nil]
  · rw [File.fwrite_atEnd _ _ (by
      show 48 + _ = (headerWith 0 0 0 [] ++ _).length
      rw [List.length_append, headerWith_length]
      rfl)]

/-- The output file of `main` for an input file shorter than `2 ^ 32 - 8` bytes whose header is
accepted: the final header, followed by what the stream (placeholder header, translation of the
events read, tag block) holds behind the length of the final header. -/
theorem convert_output (bytes : List Nat) (hbytes : ∀ b ∈ bytes, b < 256)
    (hlen : bytes.length < 2 ^ 32 - 8)
    (hok : (ReadHeader (VGMReader.Open (some bytes)).2 VGMHeader.init).1 = true) (fuel : Nat)
    (hfuel : bytes.length - (parsedHeader bytes).dataOffset < fuel) :
    ∃ cmds r' T L,
      readCommands fuel (dataReader bytes) = some (cmds, r') ∧
      (∀ c ∈ cmds, ReaderProduced c) ∧
      convert fuel (some bytes) true
        = some (0, some (headerWith T 48 L (loopResult bytes cmds).writer.devices
            ++ (headerWith 0 0 0 []
                ++ specTranslate (specInitialKinds (parsedHeader bytes)) cmds
                ++ tagPart (assembleTags (some bytes) (parsedHeader bytes))).drop
              (headerWith 0 0 0 (loopResult bytes cmds).writer.devices).length)) ∧
      (loopResult bytes cmds).totalSamples = sourceWaitSum cmds % 2 ^ 32 ∧
      specWaitSum (specTranslate (specInitialKinds (parsedHeader bytes)) cmds)
        = some (sourceWaitSum cmds) := by
  have hopen := Open_reads bytes (by omega)
  have hrd := ReadHeader_reads (VGMReader.Open (some bytes)).2 VGMHeader.init bytes hopen.2
  have hcp := hrd.2 hok
  obtain ⟨n, rfl⟩ : ∃ n, fuel = n + 1 := ⟨fuel - 1, by omega⟩
  obtain ⟨cmds, r', h1, _, _⟩ := readCommands_terminates bytes hbytes hlen n
    (dataReader bytes) hrd.1 (by
      unfold parsedHeader at hfuel
      show (ReadHeader (VGMReader.Open (some bytes)).2 VGMHeader.init).2.2.fileSize
        - (ReadHeader (VGMReader.Open (some bytes)).2 VGMHeader.init).2.2.currentPos ≤ n
      rw [hcp, hrd.1.2]
      omega)
  have hprod := readCommands_produced _ _ _ _ h1
  have hshape : ∀ c ∈ cmds, CommandShape c := fun c hc => ReaderProduced_shape c (hprod c hc)
  obtain ⟨hinv, hk, hf, ops0, hops0⟩ := preRegister_opened S98Writer.init (parsedHeader bytes)
  have hfile : (loopResult bytes cmds).writer.file
      = some { bytes := headerWith 0 0 0 []
                 ++ specTranslate (specInitialKinds (parsedHeader bytes)) cmds
               pos := 48 + (specTranslate (specInitialKinds (parsedHeader bytes)) cmds).length } := by
    have := convertEvents_file (parsedHeader bytes) (loopStart (parsedHeader bytes)) cmds
      (ConvState.start (preRegister (opened S98Writer.init) (parsedHeader bytes))) _ hf hinv
      hshape
    rw [show kindsOf (ConvState.start (preRegister (opened S98Writer.init)
        (parsedHeader bytes))).writer = specInitialKinds (parsedHeader bytes) from hk,
      File.fwrite_atEnd { bytes := headerWith 0 0 0 [], pos := 48 } _ rfl] at this
    exact this
  have hdso : (loopResult bytes cmds).writer.dataStartOffset = 48 := by
    obtain ⟨ops, hops⟩ := convertEvents_ops (parsedHeader bytes)
      (loopStart (parsedHeader bytes)) cmds
      (ConvState.start (preRegister (opened S98Writer.init) (parsedHeader bytes)))
    unfold loopResult
    rw [hops, show (ConvState.start (preRegister (opened S98Writer.init)
        (parsedHeader bytes))).writer = preRegister (opened S98Writer.init)
        (parsedHeader bytes) from rfl, hops0, ← runOps_append, ran_dataStartOffset]
  have hfin := finishOutput_eq (loopResult bytes cmds).writer _
    (assembleTags (some bytes) (parsedHeader bytes)) hfile
  rw [hdso] at hfin
  rw [stream_with_tags] at hfin
  have htot := convertEvents_totalSamples (parsedHeader bytes) (loopStart (parsedHeader bytes))
    cmds (ConvState.start (preRegister (opened S98Writer.init) (parsedHeader bytes)))
    (by show 0 < 2 ^ 32; decide) hshape
  rw [show (ConvState.start (preRegister (opened S98Writer.init)
      (parsedHeader bytes))).totalSamples = 0 from rfl, Nat.zero_add] at htot
  have hsum : specWaitSum (specTranslate (specInitialKinds (parsedHeader bytes)) cmds)
      = some (sourceWaitSum cmds) := by
    unfold specWaitSum
    refine specWaitSumFrom_translate cmds _ _ hshape ?_ (Nat.lt_succ_self _)
    have := specInitialKinds_length (parsedHeader bytes)
    split <;> omega
  refine ⟨cmds, r',
    (if (assembleTags (some bytes) (parsedHeader bytes)).isEmpty
      then (loopResult bytes cmds).writer.tagOffset
      else (48 + (specTranslate (specInitialKinds (parsedHeader bytes)) cmds).length) % 2 ^ 32),
    loopField (loopResult bytes cmds).writer, h1, hprod, ?_, htot, hsum⟩
  unfold convert
  dsimp only
  rw [if_neg (by rw [hopen.1]; simp), if_neg (by rw [hok]; simp), if_neg (by decide),
    convertLoop_eq]
  have h1' : readCommands (n + 1) (ReadHeader (VGMReader.Open (some bytes)).2
      VGMHeader.init).2.2 = some (cmds, r') := h1
  rw [h1']
  dsimp only [Option.map_some']
  exact congrArg (fun o => some (0, o)) hfin
/-- The conversion of `twoChipInput`: the output is the header with the two descriptors and
nothing else. -/
theorem twoChip_convert :
    convert 4 (some twoChipInput) true
      = some (0, some (headerWith 0 48 0
          [{ type := S98_DEV_OPN2, clock := 7670453, pan := 0, deviceId := 0 },
           { type := S98_DEV_SN76489, clock := 3579545, pan := 0, deviceId := 2 }])) := by
  have h := minimal_conversion_general twoChipInput
    [WriterOp.addDevice S98_DEV_OPN2 7670453 0, WriterOp.addDevice S98_DEV_SN76489 3579545 0]
    S98_DEV_SN76489 2 0x50 0x12 0x34 4 0x80 (by decide) (by decide) (by decide) (by decide)
    (by decide) (by decide) (by decide) (by decide) (by decide) (by decide) (by decide)
    (by decide) (by decide) (by decide) (by decide) (by decide) (by decide) (by decide)
    (by decide)
  rw [h]
  decide

theorem twoChip_events :
    ∃ r', readCommands 4 (dataReader twoChipInput) = some (twoChipEvents, r') := by
  have h := readCommands_minimal (dataReader twoChipInput)
    { bytes := twoChipInput, pos := 0x80 } 0x50 0x12 0x34 4 (by decide) (by decide) (by decide)
    (by decide) (by decide) (by decide) (by decide) (by decide)
  exact h

theorem twoChip_translate :
    specTranslate [S98_DEV_OPN2, S98_DEV_SN76489] twoChipEvents
      = [0xFE, 0x01, 2, 0x12, 0x34, 0xFE, 0x0E, 0xFD] := by
  unfold twoChipEvents
  rw [specTranslate, if_neg (by decide), if_pos (by decide),
    specTranslate, if_neg (by decide), if_neg (by decide), if_pos (by decide),
    if_neg (by decide), if_pos (by decide),
    specTranslate, if_neg (by decide), if_pos (by decide),
    specTranslate, if_pos (by decide),
    waitBytes_small 3 (by decide) (by decide), waitBytes_small 16 (by decide) (by decide)]
  decide
/-- The output file of `main`, split at the data offset 48 that its header records: with at
most one device in the table the bytes from 48 on are the translation of the events and the
tag block; with `n ≥ 2` devices the header takes `32 + 16 * n` bytes and the first
`16 * (n - 1)` bytes of the translation are overwritten by it. -/
theorem convert_output_split (bytes : List Nat) (hbytes : ∀ b ∈ bytes, b < 256)
    (hlen : bytes.length < 2 ^ 32 - 8)
    (hok : (ReadHeader (VGMReader.Open (some bytes)).2 VGMHeader.init).1 = true) (fuel : Nat)
    (hfuel : bytes.length - (parsedHeader bytes).dataOffset < fuel) :
    ∃ cmds r' out,
      readCommands fuel (dataReader bytes) = some (cmds, r') ∧
      (∀ c ∈ cmds, ReaderProduced c) ∧
      convert fuel (some bytes) true = some (0, some out) ∧
      ((loopResult bytes cmds).writer.devices.length ≤ 1 →
        (∃ T L, out.take 48 = headerWith T 48 L (loopResult bytes cmds).writer.devices) ∧
        out.drop 48 = specTranslate (specInitialKinds (parsedHeader bytes)) cmds
          ++ tagPart (assembleTags (some bytes) (parsedHeader bytes))) ∧
      (2 ≤ (loopResult bytes cmds).writer.devices.length →
        (∃ T L, out.take (32 + 16 * (loopResult bytes cmds).writer.devices.length)
          = headerWith T 48 L (loopResult bytes cmds).writer.devices) ∧
        out.drop (32 + 16 * (loopResult bytes cmds).writer.devices.length)
          = (specTranslate (specInitialKinds (parsedHeader bytes)) cmds
              ++ tagPart (assembleTags (some bytes) (parsedHeader bytes))).drop
            (16 * ((loopResult bytes cmds).writer.devices.length - 1))) ∧
      (loopResult bytes cmds).totalSamples = sourceWaitSum cmds % 2 ^ 32 ∧
      specWaitSum (specTranslate (specInitialKinds (parsedHeader bytes)) cmds)
        = some (sourceWaitSum cmds) := by
  obtain ⟨cmds, r', T, L, h1, h2, h3, h4, h5⟩ :=
    convert_output bytes hbytes hlen hok fuel hfuel
  refine ⟨cmds, r', _, h1, h2, h3, ?_, ?_, h4, h5⟩
  · intro hd
    have hl : ∀ t d l, (headerWith t d l (loopResult bytes cmds).writer.devices).length
        = 48 := by
      intro t d l
      rw [headerWith_length]
      split
      · rfl
      · rename_i hne
        have : (loopResult bytes cmds).writer.devices.length ≠ 0 := by
          intro h0
          exact hne (List.length_eq_zero.1 h0)
        omega
    have hl0 : (headerWith 0 0 0 []).length = 48 := by
      rw [headerWith_length]
      rfl
    rw [hl]
    refine ⟨⟨T, L, take_prefix_length _ _ 48 (hl _ _ _)⟩, ?_⟩
    have e := drop_prefix_length (headerWith T 48 L (loopResult bytes cmds).writer.devices)
      ((headerWith 0 0 0 []
        ++ specTranslate (specInitialKinds (parsedHeader bytes)) cmds
        ++ tagPart (assembleTags (some bytes) (parsedHeader bytes))).drop 48) 48 0 (hl _ _ _)
    rw [Nat.add_zero, List.drop_zero] at e
    rw [e, List.append_assoc]
    have e2 := drop_prefix_length (headerWith 0 0 0 [])
      (specTranslate (specInitialKinds (parsedHeader bytes)) cmds
        ++ tagPart (assembleTags (some bytes) (parsedHeader bytes))) 48 0 hl0
    rw [Nat.add_zero, List.drop_zero] at e2
    exact e2
  · intro hd
    have hl : ∀ t d l, (headerWith t d l (loopResult bytes cmds).writer.devices).length
        = 32 + 16 * (loopResult bytes cmds).writer.devices.length := by
      intro t d l
      rw [headerWith_length]
      split
      · rename_i he
        rw [he] at hd
        simp at hd
      · rfl
    have hl0 : (headerWith 0 0 0 []).length = 48 := by
      rw [headerWith_length]
      rfl
    rw [hl]
    refine ⟨⟨T, L, take_prefix_length _ _ _ (hl _ _ _)⟩, ?_⟩
    have e := drop_prefix_length (headerWith T 48 L (loopResult bytes cmds).writer.devices)
      ((headerWith 0 0 0 []
        ++ specTranslate (specInitialKinds (parsedHeader bytes)) cmds
        ++ tagPart (assembleTags (some bytes) (parsedHeader bytes))).drop
          (32 + 16 * (loopResult bytes cmds).writer.devices.length))
      (32 + 16 * (loopResult bytes cmds).writer.devices.length) 0 (hl _ _ _)
    rw [Nat.add_zero, List.drop_zero] at e
    rw [e, List.append_assoc]
    have e2 := drop_prefix_length (headerWith 0 0 0 [])
      (specTranslate (specInitialKinds (parsedHeader bytes)) cmds
        ++ tagPart (assembleTags (some bytes) (parsedHeader bytes))) 48
      (16 * ((loopResult bytes cmds).writer.devices.length - 1)) hl0
    rw [show 48 + 16 * ((loopResult bytes cmds).writer.devices.length - 1)
      = 32 + 16 * (loopResult bytes cmds).writer.devices.length by omega] at e2
    exact e2
/-- Claim C2, evaluated at a failing input: for the input file `twoChipInput`, whose header
names the clocks of two chips and whose events are wait 3 samples, register write `50 12 34`,
wait 16 samples, end, the translation of the events is `FE 01`, `02 12 34`, `FE 0E`, `FD`; the
output file of `main` records 48 as its data offset, and its bytes from offset 48 on are the
descriptor of the second device, not the translation.  In general the output holds the
translation of the events (followed by the tag block) from offset 48 on when the device table
has at most one entry; with `n ≥ 2` entries the final header takes `32 + 16 * n` bytes and the
first `16 * (n - 1)` bytes of the translation are overwritten. -/
theorem convert_output_data_section :
    (∃ r', readCommands 4 (dataReader twoChipInput) = some (twoChipEvents, r')) ∧
    (parsedHeader twoChipInput).ym2612Clock = 7670453 ∧
    (parsedHeader twoChipInput).sn76489Clock = 3579545 ∧
    specInitialKinds (parsedHeader twoChipInput) = [S98_DEV_OPN2, S98_DEV_SN76489] ∧
    specTranslate (specInitialKinds (parsedHeader twoChipInput)) twoChipEvents
      = [0xFE, 0x01, 2, 0x12, 0x34, 0xFE, 0x0E, 0xFD] ∧
    convert 4 (some twoChipInput) true
      = some (0, some (headerWith 0 48 0
          [{ type := S98_DEV_OPN2, clock := 7670453, pan := 0, deviceId := 0 },
           { type := S98_DEV_SN76489, clock := 3579545, pan := 0, deviceId := 2 }])) ∧
    fieldAt (headerWith 0 48 0
        [{ type := S98_DEV_OPN2, clock := 7670453, pan := 0, deviceId := 0 },
         { type := S98_DEV_SN76489, clock := 3579545, pan := 0, deviceId := 2 }]) 0x14 = 48 ∧
    fieldAt (headerWith 0 48 0
        [{ type := S98_DEV_OPN2, clock := 7670453, pan := 0, deviceId := 0 },
         { type := S98_DEV_SN76489, clock := 3579545, pan := 0, deviceId := 2 }]) 0x1C = 2 ∧
    (headerWith 0 48 0
        [{ type := S98_DEV_OPN2, clock := 7670453, pan := 0, deviceId := 0 },
         { type := S98_DEV_SN76489, clock := 3579545, pan := 0, deviceId := 2 }]).drop 48
      = le32 S98_DEV_SN76489 ++ le32 3579545 ++ le32 0 ++ le32 0 ∧
    (headerWith 0 48 0
        [{ type := S98_DEV_OPN2, clock := 7670453, pan := 0, deviceId := 0 },
         { type := S98_DEV_SN76489, clock := 3579545, pan := 0, deviceId := 2 }]).drop 48
      ≠ [0xFE, 0x01, 2, 0x12, 0x34, 0xFE, 0x0E, 0xFD] ∧
    (∀ (bytes : List Nat) (fuel : Nat), (∀ b ∈ bytes, b < 256) → bytes.length < 2 ^ 32 - 8 →
      (ReadHeader (VGMReader.Open (some bytes)).2 VGMHeader.init).1 = true →
      bytes.length - (parsedHeader bytes).dataOffset < fuel →
      ∃ cmds r' out,
        readCommands fuel (dataReader bytes) = some (cmds, r') ∧
        (∀ c ∈ cmds, ReaderProduced c) ∧
        convert fuel (some bytes) true = some (0, some out) ∧
        ((loopResult bytes cmds).writer.devices.length ≤ 1 →
          (∃ T L, out.take 48 = headerWith T 48 L (loopResult bytes cmds).writer.devices) ∧
          out.drop 48 = specTranslate (specInitialKinds (parsedHeader bytes)) cmds
            ++ tagPart (assembleTags (some bytes) (parsedHeader bytes))) ∧
        (2 ≤ (loopResult bytes cmds).writer.devices.length →
          (∃ T L, out.take (32 + 16 * (loopResult bytes cmds).writer.devices.length)
            = headerWith T 48 L (loopResult bytes cmds).writer.devices) ∧
          out.drop (32 + 16 * (loopResult bytes cmds).writer.devices.length)
            = (specTranslate (specInitialKinds (parsedHeader bytes)) cmds
                ++ tagPart (assembleTags (some bytes) (parsedHeader bytes))).drop
              (16 * ((loopResult bytes cmds).writer.devices.length - 1)))) := by
  have hk : specInitialKinds (parsedHeader twoChipInput) = [S98_DEV_OPN2, S98_DEV_SN76489] := by
    decide
  refine ⟨twoChip_events, by decide, by decide, hk, ?_, twoChip_convert, by decide, by decide,
    by decide, by decide, ?_⟩
  · rw [hk]
    exact twoChip_translate
  · intro bytes fuel hbytes hlen hok hfuel
    obtain ⟨cmds, r', out, h1, h2, h3, h4, h5, _, _⟩ :=
      convert_output_split bytes hbytes hlen hok fuel hfuel
    exact ⟨cmds, r', out, h1, h2, h3, h4, h5⟩

/-- Claim C28, evaluated at a failing input: over the input file `twoChipInput` the loop reads
waits of 3 and 16 samples, 19 in all, and the translation of its events decodes to 19 samples;
in the output file of `main` the bytes from the data offset 48 on are the descriptor of the
second device, which the wait decoder does not decode to 19 samples.  For the same events with
the clock of one chip only the output decodes to 19 samples.  In general, when the device table
has at most one entry, the data section of the output (from offset 48 to the tag block) decodes
to the sum of the waits read from the source in front of the first end marker; the running
sample counter of the loop ends at that sum as a 32-bit value, hence at the sum itself when the
waits sum to less than `2 ^ 32`. -/
theorem convert_output_duration :
    (∃ r', readCommands 4 (dataReader twoChipInput) = some (twoChipEvents, r')) ∧
    sourceWaitSum twoChipEvents = 19 ∧
    specWaitSum (specTranslate (specInitialKinds (parsedHeader twoChipInput)) twoChipEvents)
      = some 19 ∧
    (∃ out, convert 4 (some twoChipInput) true = some (0, some out) ∧
      fieldAt out 0x14 = 48 ∧ fieldAt out 0x10 = 0 ∧
      out.drop 48 = le32 S98_DEV_SN76489 ++ le32 3579545 ++ le32 0 ++ le32 0 ∧
      specWaitSum (out.drop 48) = none ∧
      specWaitSum (out.drop 48) ≠ some (sourceWaitSum twoChipEvents)) ∧
    (∃ out, convert 4 (some (minimalInput 0x0C 3579545 0x50 0x12 0x34)) true
        = some (0, some out) ∧
      fieldAt out 0x14 = 48 ∧ fieldAt out 0x10 = 0 ∧
      out.drop 48 = [0xFE, 0x01, 0, 0x12, 0x34, 0xFE, 0x0E, 0xFD] ∧
      specWaitSum (out.drop 48) = some 19) ∧
    (∀ (bytes : List Nat) (fuel : Nat), (∀ b ∈ bytes, b < 256) → bytes.length < 2 ^ 32 - 8 →
      (ReadHeader (VGMReader.Open (some bytes)).2 VGMHeader.init).1 = true →
      bytes.length - (parsedHeader bytes).dataOffset < fuel →
      ∃ cmds r' out,
        readCommands fuel (dataReader bytes) = some (cmds, r') ∧
        convert fuel (some bytes) true = some (0, some out) ∧
        ((loopResult bytes cmds).writer.devices.length ≤ 1 →
          ∃ data, out.drop 48 = data ++ tagPart (assembleTags (some bytes) (parsedHeader bytes)) ∧
            data = specTranslate (specInitialKinds (parsedHeader bytes)) cmds ∧
            specWaitSum data = some (sourceWaitSum cmds)) ∧
        (loopResult bytes cmds).totalSamples = sourceWaitSum cmds % 2 ^ 32 ∧
        (sourceWaitSum cmds < 2 ^ 32 →
          (loopResult bytes cmds).totalSamples = sourceWaitSum cmds)) := by
  have hk : specInitialKinds (parsedHeader twoChipInput) = [S98_DEV_OPN2, S98_DEV_SN76489] := by
    decide
  have hone := minimal_conversion_core (minimalInput 0x0C 3579545 0x50 0x12 0x34)
    S98_DEV_SN76489 3579545 0x50 0x12 0x34 4 (by decide) (by decide) (by decide) (by decide)
    (by decide) (by decide) (by decide) (by decide) (by decide) (by decide) (by decide)
    (by decide) (by decide) (by decide) (by decide) (by decide) (by decide) (by decide)
    (by decide) (by decide) (by decide) (by decide) (by decide) (by decide)
  refine ⟨twoChip_events, by decide, ?_, ⟨_, twoChip_convert, by decide, by decide, by decide,
    by decide, by decide⟩, ⟨_, hone, by decide, by decide, by decide, by decide⟩, ?_⟩
  · rw [hk, twoChip_translate]
    decide
  · intro bytes fuel hbytes hlen hok hfuel
    obtain ⟨cmds, r', out, h1, _, h3, h4, _, h6, h7⟩ :=
      convert_output_split bytes hbytes hlen hok fuel hfuel
    refine ⟨cmds, r', out, h1, h3, ?_, h6, ?_⟩
    · intro hd
      exact ⟨_, (h4 hd).2, rfl, h7⟩
    · intro hlt
      rw [h6, Nat.mod_eq_of_lt hlt]

end Vgm2S98
